import Mathlib

/-!
lokum: the bytecode virtual machine of `vm.go`.

A shallow embedding of `VM.Run`, `VM.run` and `indexAssign`.

* Go `int` values (`sp`, `ip`, `framesIndex`, `basePointer`, operand counts) are `Int`;
  every array or slice access checks its bounds and a failed check is the Go runtime
  panic (`Stop.panic`).
* `int64` values (`allocs`, the payload of `Int`) wrap explicitly through `wrap64`.
* Pointers that `vm.go` writes through are addresses: an `ObjectPtr` points either at a
  slot of the operand stack (`&v.stack[i]`) or at a heap cell (`&val`); `curFrame` is an
  index into `frames`; a `*CompiledFunction` carries the address that pointer
  comparison looks at.
* Everything `vm.go` calls but does not define (the methods of `Object`, the opcode
  numbering, the builtin table, source positions) is a field of `Env`.  Methods whose
  result may depend on earlier in-place mutation take the log of the effectful calls
  made so far (`VM.world`).
-/

namespace Lokum

/-- A Go `string` or `[]byte`: a sequence of bytes. -/
abbrev GoBytes := List Nat

/-- The target of an `*Object` pointer held by an `ObjectPtr`. -/
inductive Loc where
  /-- The slot of the operand stack: `&v.stack[i]`. -/
  | stack (i : Nat)
  /-- A variable that escaped to the heap: `&val`. -/
  | heap (a : Nat)
deriving DecidableEq, Repr

/-- The struct `CompiledFunction` (its `SourceMap` is only read through `Env.filePos`).
`addr` is the identity of the pointer to this struct. -/
structure CompiledFunction where
  addr : Nat
  Instructions : List Nat
  NumLocals : Int
  NumParameters : Int
  VarArgs : Bool
  Free : List Loc
deriving DecidableEq, Repr

/-- The values of the interface type `Object`. -/
inductive Object where
  /-- The nil interface value (an unset stack slot or global). -/
  | nil
  | Undefined
  | True
  | False
  | Int (Value : Int)
  /-- A float, as its 64-bit pattern. -/
  | Float (bits : Nat)
  | String (Value : GoBytes)
  | Bytes (Value : GoBytes)
  | Array (Value : List Object)
  | ImmutableArray (Value : List Object)
  | Map (Value : List (GoBytes × Object))
  | ImmutableMap (Value : List (GoBytes × Object))
  | Error (Value : Object)
  | CompiledFunction (fn : CompiledFunction)
  | ObjectPtr (Value : Loc)
  /-- Any other implementation of `Object` (builtin functions, iterators, host types). -/
  | Other (id : Nat)
deriving Repr

/-- An argument of `fmt.Errorf`. -/
inductive Arg where
  | s (x : String)
  | d (x : Int)
deriving DecidableEq, Repr

/-- The values of the Go type `error` that `vm.go` reads or builds. -/
inductive GoError where
  | ErrStackOverflow
  | ErrObjectAllocLimit
  | ErrInvalidOperator
  | ErrNotIndexable
  | ErrInvalidIndexType
  | ErrNotIndexAssignable
  | ErrInvalidIndexValueType
  | ErrWrongNumArguments
  | ErrInvalidArgumentType (Name Expected Found : String)
  /-- The result of `fmt.Errorf(format, args...)` without a wrapping verb. -/
  | Errorf (format : String) (args : List Arg)
  /-- The result of `fmt.Errorf(format, err, args...)` whose first verb is `%w`. -/
  | Wrap (format : String) (err : GoError) (args : List Arg)
  /-- Any other error value returned by a method of `Object`. -/
  | other (id : Nat)
deriving DecidableEq, Repr

/-- The error at the bottom of a chain of `%w` wrappers (what `errors.Is` reaches). -/
def GoError.cause : GoError → GoError
  | .Wrap _ e _ => e.cause
  | e => e

/-- The opcodes named in the `switch` of `VM.run`. -/
inductive Opcode where
  | OpConstant | OpNull | OpBinaryOp | OpEqual | OpNotEqual | OpPop | OpTrue | OpFalse
  | OpLNot | OpBComplement | OpMinus | OpJumpFalsy | OpAndJump | OpOrJump | OpJump
  | OpSetGlobal | OpSetSelGlobal | OpGetGlobal | OpArray | OpMap | OpError | OpImmutable
  | OpIndex | OpSliceIndex | OpCall | OpReturn | OpDefineLocal | OpSetLocal
  | OpSetSelLocal | OpGetLocal | OpGetBuiltin | OpClosure | OpGetFreePtr | OpGetFree
  | OpSetFree | OpGetLocalPtr | OpSetSelFree | OpIteratorInit | OpIteratorNext
  | OpIteratorKey | OpIteratorValue | OpSuspend
deriving DecidableEq, Repr

/-- An effectful call into code outside `vm.go`, in the order they were made. -/
inductive Event where
  | IndexSet (dst index value : Object)
  | Call (callee : Object) (args : List Object)
  | Iterate (dst : Object)
  | Next (iterator : Object)
deriving Repr

/-- The struct `frame`. -/
structure Frame where
  fn : Option CompiledFunction
  freeVars : List Loc
  ip : Int
  basePointer : Int
deriving DecidableEq, Repr

/-- The struct `VM`.  `StackSize` and `MaxFrames` are the lengths of the array-typed
fields `stack` and `frames`.  `cells`, `nextAddr` and `world` are the part of the Go heap
the loop acts on: the variables `ObjectPtr`s point at, the address the next
`&CompiledFunction{...}` gets, and the log of effectful calls into the value model. -/
structure VM where
  constants : List Object
  stack : List Object
  sp : Int
  globals : List Object
  frames : List Frame
  framesIndex : Int
  /-- The pointer `curFrame = &frames[curFrame]`. -/
  curFrame : Nat
  curInsts : List Nat
  ip : Int
  aborting : Int
  maxAllocs : Int
  allocs : Int
  err : Option GoError
  cells : List Object
  nextAddr : Nat
  world : List Event

/-- The length of the array type `[StackSize]Object`. -/
def VM.StackSize (v : VM) : Int := v.stack.length

/-- The length of the array type `[MaxFrames]frame`. -/
def VM.MaxFrames (v : VM) : Int := v.frames.length

/-- What `vm.go` uses and does not define: the opcode numbering of package `parser`, the
builtin table, and the methods of `Object`.  A method that the interface value `nil`
cannot receive is only called on a non-nil receiver. -/
structure Env where
  /-- The opcode a byte stands for (`parser.OpConstant`, ...). -/
  opcode : Nat → Option Opcode
  builtinFuncs : List Object
  TypeName : Object → String
  /-- `TypeName()` called on the nil `*CompiledFunction`; `none` when it panics. -/
  nilFnTypeName : Option String
  /-- `token.Token.String()`. -/
  tokenString : Nat → String
  CanCall : Object → Bool
  CanIterate : Object → Bool
  BinaryOp : List Event → Object → Nat → Object → Except GoError Object
  Equals : List Event → Object → Object → Bool
  IsFalsy : List Event → Object → Bool
  IndexGet : List Event → Object → Object → Except GoError Object
  /-- `dst.IndexSet(index, value)`: the returned error, `none` for nil. -/
  IndexSet : List Event → Object → Object → Object → Option GoError
  Call : List Event → Object → List Object → Except GoError Object
  Iterate : List Event → Object → Object
  /-- `it.(Iterator).Next()`; `none` when the type assertion fails. -/
  Next : List Event → Object → Option Bool
  Key : List Event → Object → Option Object
  Value : List Event → Object → Option Object
  /-- `fileSet.Position(fn.SourcePos(ip))`, formatted. -/
  filePos : CompiledFunction → Int → String

/-- How an iteration of the dispatch loop ends other than by continuing. -/
inductive Stop where
  /-- The statement `return` of `run`, in the state reached. -/
  | ret (v : VM)
  /-- A Go runtime panic. -/
  | panic

/-- A piece of an opcode handler: its value, or the way it left the loop. -/
abbrev Exec := Except Stop

/-- Conversion to `int64` (also the result of `int64` arithmetic). -/
def wrap64 (x : Int) : Int := (x + 2 ^ 63) % 2 ^ 64 - 2 ^ 63

/-- The index expression `xs[i]`. -/
def getIdx {α : Type} (xs : List α) (i : Int) : Exec α :=
  if 0 ≤ i then
    match xs[i.toNat]? with
    | some x => pure x
    | none => throw Stop.panic
  else throw Stop.panic

/-- The assignment `xs[i] = x`. -/
def setIdx {α : Type} (xs : List α) (i : Int) (x : α) : Exec (List α) :=
  if 0 ≤ i ∧ i < xs.length then pure (xs.set i.toNat x) else throw Stop.panic

/-- The elements `xs[lo], ..., xs[hi-1]` read one by one by a loop `for i := lo; i < hi; i++`. -/
def readRange {α : Type} (xs : List α) (lo hi : Int) : Exec (List α) :=
  if hi ≤ lo then pure []
  else if 0 ≤ lo ∧ hi ≤ xs.length then pure ((xs.drop lo.toNat).take (hi - lo).toNat)
  else throw Stop.panic

/-- The slice expression `xs[lo:hi]` (on a slice: within its length). -/
def sliceExpr {α : Type} (xs : List α) (lo hi : Int) : Exec (List α) :=
  if 0 ≤ lo ∧ lo ≤ hi ∧ hi ≤ xs.length then pure ((xs.drop lo.toNat).take (hi - lo).toNat)
  else throw Stop.panic

/-- The statements `v.err = e; return`. -/
def fail {α : Type} (v : VM) (e : GoError) : Exec α :=
  throw (Stop.ret { v with err := some e })

/-- The operand `int(v.curInsts[i]) | int(v.curInsts[i-1])<<8`. -/
def readU16 (v : VM) (i : Int) : Exec Int := do
  let lo ← getIdx v.curInsts i
  let hi ← getIdx v.curInsts (i - 1)
  pure ((lo ||| (hi <<< 8) : Nat) : Int)

/-- The statements `v.stack[v.sp] = x; v.sp++`. -/
def push (v : VM) (x : Object) : Exec VM := do
  let st ← setIdx v.stack v.sp x
  pure { v with stack := st, sp := v.sp + 1 }

/-- The statements `v.allocs--; if v.allocs == 0 { v.err = ErrObjectAllocLimit; return }`. -/
def charge (v : VM) : Exec VM :=
  let v1 : VM := { v with allocs := wrap64 (v.allocs - 1) }
  if v1.allocs = 0 then fail v1 GoError.ErrObjectAllocLimit else pure v1

/-- The call `o.TypeName()` on an interface value. -/
def typeName (env : Env) (o : Object) : Exec String :=
  match o with
  | .nil => throw Stop.panic
  | _ => pure (env.TypeName o)

/-- A method call needs a non-nil receiver. -/
def receiver (o : Object) : Exec Unit :=
  match o with
  | .nil => throw Stop.panic
  | _ => pure ()

/-- The frame `*v.curFrame`. -/
def curFrameVal (v : VM) : Exec Frame :=
  match v.frames[v.curFrame]? with
  | some f => pure f
  | none => throw Stop.panic

/-- The read `*p` of the `*Object` pointer `p`. -/
def deref (v : VM) (p : Loc) : Exec Object :=
  match p with
  | .stack i => getIdx v.stack i
  | .heap a => getIdx v.cells a

/-- The write `*p = x` through the `*Object` pointer `p`. -/
def assign (v : VM) (p : Loc) (x : Object) : Exec VM :=
  match p with
  | .stack i => do
    let st ← setIdx v.stack i x
    pure { v with stack := st }
  | .heap a => do
    let cs ← setIdx v.cells a x
    pure { v with cells := cs }

/-- The function `indexAssign`: `none` on a panic, else the returned error (`none` for nil)
and the log extended by the `IndexSet` call made. -/
def indexAssign (env : Env) (w : List Event) (dst src : Object) (selectors : List Object) :
    Option (Option GoError × List Event) :=
  go (selectors.length - 1) dst
where
  /-- The loop `for sidx := numSel - 1; sidx > 0; sidx--` from `sidx` on, and what follows. -/
  go : Nat → Object → Option (Option GoError × List Event)
    | 0, dst =>
      match selectors[0]?, dst with
      | none, _ => none
      | some _, .nil => none
      | some s0, dst =>
        match env.IndexSet w dst s0 src with
        | some e =>
          if e = GoError.ErrNotIndexAssignable then
            some (some (GoError.Errorf "geçersiz: %s" [Arg.s (env.TypeName dst)]),
              w ++ [Event.IndexSet dst s0 src])
          else if e = GoError.ErrInvalidIndexValueType then
            match src with
            | .nil => none
            | _ => some (some (GoError.Errorf "geçersiz: %s" [Arg.s (env.TypeName src)]),
              w ++ [Event.IndexSet dst s0 src])
          else some (some e, w ++ [Event.IndexSet dst s0 src])
        | none => some (none, w ++ [Event.IndexSet dst s0 src])
    | sidx + 1, dst =>
      match selectors[sidx + 1]?, dst with
      | none, _ => none
      | some _, .nil => none
      | some s, dst =>
        match env.IndexGet w dst s with
        | .error e =>
          if e = GoError.ErrNotIndexable then
            some (some (GoError.Errorf "index alınamaz: %s" [Arg.s (env.TypeName dst)]), w)
          else if e = GoError.ErrInvalidIndexType then
            match s with
            | .nil => none
            | _ => some (some (GoError.Errorf "geçersiz index tipi: %s"
                [Arg.s (env.TypeName s)]), w)
          else some (some e, w)
        | .ok next => go sidx next

/-- The common tail of `OpSetSelGlobal`, `OpSetSelLocal` and `OpSetSelFree`: the call of
`indexAssign` and the test of its result. -/
def finishSetSel (env : Env) (v : VM) (dst val : Object) (selectors : List Object) :
    Exec VM :=
  match indexAssign env v.world dst val selectors with
  | none => throw Stop.panic
  | some (some e, w) => fail { v with world := w } e
  | some (none, w) => pure { v with world := w }

/-- Case `parser.OpConstant`. -/
def opConstant (v : VM) : Exec VM := do
  let v : VM := { v with ip := v.ip + 2 }
  let cidx ← readU16 v v.ip
  let c ← getIdx v.constants cidx
  push v c

/-- Case `parser.OpNull`. -/
def opNull (v : VM) : Exec VM := push v Object.Undefined

/-- Case `parser.OpBinaryOp`. -/
def opBinaryOp (env : Env) (v : VM) : Exec VM := do
  let v : VM := { v with ip := v.ip + 1 }
  let right ← getIdx v.stack (v.sp - 1)
  let left ← getIdx v.stack (v.sp - 2)
  let tok ← getIdx v.curInsts v.ip
  receiver left
  match env.BinaryOp v.world left tok right with
  | .error e =>
    let v : VM := { v with sp := v.sp - 2 }
    if e = GoError.ErrInvalidOperator then do
      let l ← typeName env left
      let r ← typeName env right
      fail v (GoError.Errorf "geçersiz operasyon: %s %s %s"
        [Arg.s l, Arg.s (env.tokenString tok), Arg.s r])
    else fail v e
  | .ok res => do
    let v ← charge v
    let st ← setIdx v.stack (v.sp - 2) res
    pure { v with stack := st, sp := v.sp - 1 }

/-- Case `parser.OpEqual`. -/
def opEqual (env : Env) (v : VM) : Exec VM := do
  let right ← getIdx v.stack (v.sp - 1)
  let left ← getIdx v.stack (v.sp - 2)
  let v : VM := { v with sp := v.sp - 2 }
  receiver left
  if env.Equals v.world left right then push v Object.True else push v Object.False

/-- Case `parser.OpNotEqual`. -/
def opNotEqual (env : Env) (v : VM) : Exec VM := do
  let right ← getIdx v.stack (v.sp - 1)
  let left ← getIdx v.stack (v.sp - 2)
  let v : VM := { v with sp := v.sp - 2 }
  receiver left
  if env.Equals v.world left right then push v Object.False else push v Object.True

/-- Case `parser.OpPop`. -/
def opPop (v : VM) : Exec VM := pure { v with sp := v.sp - 1 }

/-- Case `parser.OpTrue`. -/
def opTrue (v : VM) : Exec VM := push v Object.True

/-- Case `parser.OpFalse`. -/
def opFalse (v : VM) : Exec VM := push v Object.False

/-- Case `parser.OpLNot`. -/
def opLNot (env : Env) (v : VM) : Exec VM := do
  let operand ← getIdx v.stack (v.sp - 1)
  let v : VM := { v with sp := v.sp - 1 }
  receiver operand
  if env.IsFalsy v.world operand then push v Object.True else push v Object.False

/-- Case `parser.OpBComplement`. -/
def opBComplement (env : Env) (v : VM) : Exec VM := do
  let operand ← getIdx v.stack (v.sp - 1)
  let v : VM := { v with sp := v.sp - 1 }
  match operand with
  | .Int x => do
    let v ← charge v
    push v (Object.Int (-x - 1))
  | _ => do
    let t ← typeName env operand
    fail v (GoError.Errorf "geçersiz operasyon: ^%s" [Arg.s t])

/-- Case `parser.OpMinus`. -/
def opMinus (env : Env) (v : VM) : Exec VM := do
  let operand ← getIdx v.stack (v.sp - 1)
  let v : VM := { v with sp := v.sp - 1 }
  match operand with
  | .Int x => do
    let v ← charge v
    push v (Object.Int (wrap64 (-x)))
  | .Float x => do
    let v ← charge v
    push v (Object.Float (x ^^^ 2 ^ 63))
  | _ => do
    let t ← typeName env operand
    fail v (GoError.Errorf "geçersiz operasyon: -%s" [Arg.s t])

/-- Case `parser.OpJumpFalsy`. -/
def opJumpFalsy (env : Env) (v : VM) : Exec VM := do
  let v : VM := { v with ip := v.ip + 2, sp := v.sp - 1 }
  let x ← getIdx v.stack v.sp
  receiver x
  if env.IsFalsy v.world x then do
    let pos ← readU16 v v.ip
    pure { v with ip := pos - 1 }
  else pure v

/-- Case `parser.OpAndJump`. -/
def opAndJump (env : Env) (v : VM) : Exec VM := do
  let v : VM := { v with ip := v.ip + 2 }
  let x ← getIdx v.stack (v.sp - 1)
  receiver x
  if env.IsFalsy v.world x then do
    let pos ← readU16 v v.ip
    pure { v with ip := pos - 1 }
  else pure { v with sp := v.sp - 1 }

/-- Case `parser.OpOrJump`. -/
def opOrJump (env : Env) (v : VM) : Exec VM := do
  let v : VM := { v with ip := v.ip + 2 }
  let x ← getIdx v.stack (v.sp - 1)
  receiver x
  if env.IsFalsy v.world x then pure { v with sp := v.sp - 1 }
  else do
    let pos ← readU16 v v.ip
    pure { v with ip := pos - 1 }

/-- Case `parser.OpJump`. -/
def opJump (v : VM) : Exec VM := do
  let pos ← readU16 v (v.ip + 2)
  pure { v with ip := pos - 1 }

/-- Case `parser.OpSetGlobal`. -/
def opSetGlobal (v : VM) : Exec VM := do
  let v : VM := { v with ip := v.ip + 2, sp := v.sp - 1 }
  let globalIndex ← readU16 v v.ip
  let x ← getIdx v.stack v.sp
  let gs ← setIdx v.globals globalIndex x
  pure { v with globals := gs }

/-- Case `parser.OpSetSelGlobal`. -/
def opSetSelGlobal (env : Env) (v : VM) : Exec VM := do
  let v : VM := { v with ip := v.ip + 3 }
  let lo ← getIdx v.curInsts (v.ip - 1)
  let hi ← getIdx v.curInsts (v.ip - 2)
  let globalIndex : Int := ((lo ||| (hi <<< 8) : Nat) : Int)
  let numSelectors ← getIdx v.curInsts v.ip
  let selectors ← readRange v.stack (v.sp - numSelectors) v.sp
  let val ← getIdx v.stack (v.sp - numSelectors - 1)
  let v : VM := { v with sp := v.sp - (numSelectors + 1) }
  let dst ← getIdx v.globals globalIndex
  finishSetSel env v dst val selectors

/-- Case `parser.OpGetGlobal`. -/
def opGetGlobal (v : VM) : Exec VM := do
  let v : VM := { v with ip := v.ip + 2 }
  let globalIndex ← readU16 v v.ip
  let val ← getIdx v.globals globalIndex
  push v val

/-- Case `parser.OpArray`. -/
def opArray (v : VM) : Exec VM := do
  let v : VM := { v with ip := v.ip + 2 }
  let numElements ← readU16 v v.ip
  let elements ← readRange v.stack (v.sp - numElements) v.sp
  let v : VM := { v with sp := v.sp - numElements }
  let v ← charge v
  push v (Object.Array elements)

/-- The statement `kv[key] = value` on a Go map. -/
def mapSet (kv : List (GoBytes × Object)) (key : GoBytes) (value : Object) :
    List (GoBytes × Object) :=
  kv.filter (fun e => e.1 ≠ key) ++ [(key, value)]

/-- The loop `for i := v.sp - numElements; i < v.sp; i += 2` of `OpMap` from `i` on, which
runs at most `n` more times. -/
def buildMap (stack : List Object) (sp : Int) :
    Nat → Int → List (GoBytes × Object) → Exec (List (GoBytes × Object))
  | 0, _, kv => pure kv
  | n + 1, i, kv =>
    if i < sp then do
      let key ← getIdx stack i
      let value ← getIdx stack (i + 1)
      match key with
      | .String k => buildMap stack sp n (i + 2) (mapSet kv k value)
      | _ => throw Stop.panic
    else pure kv

/-- Case `parser.OpMap`. -/
def opMap (v : VM) : Exec VM := do
  let v : VM := { v with ip := v.ip + 2 }
  let numElements ← readU16 v v.ip
  let kv ← buildMap v.stack v.sp numElements.toNat (v.sp - numElements) []
  let v : VM := { v with sp := v.sp - numElements }
  let v ← charge v
  push v (Object.Map kv)

/-- Case `parser.OpError`. -/
def opError (v : VM) : Exec VM := do
  let value ← getIdx v.stack (v.sp - 1)
  let v ← charge v
  let st ← setIdx v.stack (v.sp - 1) (Object.Error value)
  pure { v with stack := st }

/-- Case `parser.OpImmutable`. -/
def opImmutable (v : VM) : Exec VM := do
  let value ← getIdx v.stack (v.sp - 1)
  match value with
  | .Array xs => do
    let v ← charge v
    let st ← setIdx v.stack (v.sp - 1) (Object.ImmutableArray xs)
    pure { v with stack := st }
  | .Map kv => do
    let v ← charge v
    let st ← setIdx v.stack (v.sp - 1) (Object.ImmutableMap kv)
    pure { v with stack := st }
  | _ => pure v

/-- Case `parser.OpIndex`. -/
def opIndex (env : Env) (v : VM) : Exec VM := do
  let index ← getIdx v.stack (v.sp - 1)
  let left ← getIdx v.stack (v.sp - 2)
  let v : VM := { v with sp := v.sp - 2 }
  receiver left
  match env.IndexGet v.world left index with
  | .error e =>
    if e = GoError.ErrNotIndexable then do
      let t ← typeName env index
      fail v (GoError.Errorf "index alınamaz: %s" [Arg.s t])
    else if e = GoError.ErrInvalidIndexType then do
      let t ← typeName env index
      fail v (GoError.Errorf "geçersiz index tipi: %s" [Arg.s t])
    else fail v e
  | .ok val =>
    push v (match val with
      | .nil => Object.Undefined
      | x => x)

/-- The bounds of `OpSliceIndex`, written out once per container type in `vm.go`: the
default and type test of `high`, the test `lowIdx > highIdx`, and the clamping of both
to `[0, numElements]`. -/
def sliceBounds (env : Env) (v : VM) (lowIdx : Int) (high : Object) (numElements : Int) :
    Exec (Int × Int) := do
  let highIdx ← (match high with
    | .Undefined => pure numElements
    | .Int h => pure h
    | _ => do
      let t ← typeName env high
      fail v (GoError.Errorf "geçersiz slice index: %s" [Arg.s t]) : Exec Int)
  if lowIdx > highIdx then
    fail v (GoError.Errorf "geçersiz slice index: %d > %d" [Arg.d lowIdx, Arg.d highIdx])
  else
    let lowIdx := if lowIdx < 0 then 0 else if lowIdx > numElements then numElements else lowIdx
    let highIdx :=
      if highIdx < 0 then 0 else if highIdx > numElements then numElements else highIdx
    pure (lowIdx, highIdx)

/-- Case `parser.OpSliceIndex`. -/
def opSliceIndex (env : Env) (v : VM) : Exec VM := do
  let high ← getIdx v.stack (v.sp - 1)
  let low ← getIdx v.stack (v.sp - 2)
  let left ← getIdx v.stack (v.sp - 3)
  let v : VM := { v with sp := v.sp - 3 }
  let lowIdx ← (match low with
    | .Undefined => pure 0
    | .Int l => pure l
    | _ => do
      let t ← typeName env low
      fail v (GoError.Errorf "geçersiz slice index: %s" [Arg.s t]) : Exec Int)
  match left with
  | .Array xs => do
    let (lo, hi) ← sliceBounds env v lowIdx high xs.length
    let val ← sliceExpr xs lo hi
    let v ← charge v
    push v (Object.Array val)
  | .ImmutableArray xs => do
    let (lo, hi) ← sliceBounds env v lowIdx high xs.length
    let val ← sliceExpr xs lo hi
    let v ← charge v
    push v (Object.Array val)
  | .String xs => do
    let (lo, hi) ← sliceBounds env v lowIdx high xs.length
    let val ← sliceExpr xs lo hi
    let v ← charge v
    push v (Object.String val)
  | .Bytes xs => do
    let (lo, hi) ← sliceBounds env v lowIdx high xs.length
    let val ← sliceExpr xs lo hi
    let v ← charge v
    push v (Object.Bytes val)
  | _ => pure v

/-- The loop `for _, item := range arr.Value { v.stack[v.sp] = item; v.sp++ }`. -/
def pushAll (v : VM) : List Object → Exec VM
  | [] => pure v
  | item :: rest => do
    let v ← push v item
    pushAll v rest

/-- The block `if spread == 1 { ... }` of `OpCall`: the state and the new `numArgs`. -/
def spreadArgs (env : Env) (v : VM) (numArgs : Int) : Exec (VM × Int) := do
  let v : VM := { v with sp := v.sp - 1 }
  let arr ← getIdx v.stack v.sp
  match arr with
  | .Array xs => do
    let v ← pushAll v xs
    pure (v, numArgs + (xs.length - 1))
  | .ImmutableArray xs => do
    let v ← pushAll v xs
    pure (v, numArgs + (xs.length - 1))
  | _ => do
    let t ← typeName env arr
    fail v (GoError.Errorf "array değil: %s" [Arg.s t])

/-- The block `if callee.VarArgs { ... }` of `OpCall`: the state and the new `numArgs`. -/
def gatherVarArgs (v : VM) (callee : CompiledFunction) (numArgs : Int) : Exec (VM × Int) :=
  if callee.VarArgs then
    let realArgs := callee.NumParameters - 1
    let varArgs := numArgs - realArgs
    if varArgs ≥ 0 then do
      let spStart := v.sp - varArgs
      let args ← readRange v.stack spStart v.sp
      let st ← setIdx v.stack spStart (Object.Array args)
      pure ({ v with stack := st, sp := spStart + 1 }, realArgs + 1)
    else pure (v, numArgs)
  else pure (v, numArgs)

/-- The loop `for p := 0; p < numArgs; p++ { v.stack[basePointer+p] = v.stack[v.sp-numArgs+p] }`
from `p` on, with `n` iterations left; `src` is `v.sp - numArgs`. -/
def copyArgs (basePointer src : Int) : Nat → Int → List Object → Exec (List Object)
  | 0, _, st => pure st
  | n + 1, p, st => do
    let x ← getIdx st (src + p)
    let st ← setIdx st (basePointer + p) x
    copyArgs basePointer src n (p + 1) st

/-- The test `nextOp == parser.OpReturn || (nextOp == parser.OpPop &&
parser.OpReturn == v.curInsts[v.ip+2])` of `OpCall`. -/
def isTailPosition (env : Env) (v : VM) : Exec Bool := do
  let nextOp ← getIdx v.curInsts (v.ip + 1)
  if env.opcode nextOp = some Opcode.OpReturn then pure true
  else if env.opcode nextOp = some Opcode.OpPop then do
    let after ← getIdx v.curInsts (v.ip + 2)
    pure (decide (env.opcode after = some Opcode.OpReturn))
  else pure false

/-- The self-tail-call of `OpCall`: the arguments overwrite the locals of the current
frame and the function restarts. -/
def elideCall (v : VM) (cur : Frame) (numArgs : Int) : Exec VM := do
  let st ← copyArgs cur.basePointer (v.sp - numArgs) numArgs.toNat 0 v.stack
  pure { v with stack := st, sp := v.sp - (numArgs + 1), ip := -1 }

/-- The end of the `*CompiledFunction` branch of `OpCall`: a new frame is installed. -/
def pushFrame (v : VM) (cur : Frame) (callee : CompiledFunction) (numArgs : Int) :
    Exec VM :=
  if v.framesIndex ≥ v.MaxFrames then fail v GoError.ErrStackOverflow
  else do
    let fs ← setIdx v.frames v.curFrame { cur with ip := v.ip }
    let new ← getIdx fs v.framesIndex
    let fs ← setIdx fs v.framesIndex
      { new with fn := some callee, freeVars := callee.Free, basePointer := v.sp - numArgs }
    pure { v with
      frames := fs
      curFrame := v.framesIndex.toNat
      curInsts := callee.Instructions
      ip := -1
      framesIndex := v.framesIndex + 1
      sp := v.sp - numArgs + callee.NumLocals }

/-- The branch `if callee, ok := value.(*CompiledFunction); ok` of `OpCall`. -/
def callCompiled (env : Env) (v : VM) (callee : CompiledFunction) (numArgs : Int) :
    Exec VM := do
  let (v, numArgs) ← gatherVarArgs v callee numArgs
  if numArgs ≠ callee.NumParameters then
    if callee.VarArgs then
      fail v (GoError.Errorf "yanlış argüman sayısı: want>=%d, got=%d"
        [Arg.d (callee.NumParameters - 1), Arg.d numArgs])
    else
      fail v (GoError.Errorf "yanlış argüman sayısı: want=%d, got=%d"
        [Arg.d callee.NumParameters, Arg.d numArgs])
  else do
    let cur ← curFrameVal v
    if cur.fn.map (fun f => f.addr) = some callee.addr then do
      if (← isTailPosition env v) then elideCall v cur numArgs
      else pushFrame v cur callee numArgs
    else pushFrame v cur callee numArgs

/-- The `else` branch of `OpCall`: the callee is not a `*CompiledFunction`. -/
def callNative (env : Env) (v : VM) (value : Object) (numArgs : Int) : Exec VM := do
  let args ← sliceExpr v.stack (v.sp - numArgs) v.sp
  let res := env.Call v.world value args
  let v : VM := { v with sp := v.sp - (numArgs + 1), world := v.world ++ [Event.Call value args] }
  match res with
  | .error e =>
    if e = GoError.ErrWrongNumArguments then
      fail v (GoError.Errorf "yanlış argüman sayısı '%s'" [Arg.s (env.TypeName value)])
    else
      match e with
      | .ErrInvalidArgumentType name expected found =>
        fail v (GoError.Errorf
          "geçersiz argüman tipi for '%s' in call to '%s': expected %s, found %s"
          [Arg.s name, Arg.s (env.TypeName value), Arg.s expected, Arg.s found])
      | _ => fail v e
  | .ok ret => do
    let ret := (match ret with
      | .nil => Object.Undefined
      | x => x)
    let v ← charge v
    push v ret

/-- Case `parser.OpCall`. -/
def opCall (env : Env) (v : VM) : Exec VM := do
  let numArgs ← getIdx v.curInsts (v.ip + 1)
  let spread ← getIdx v.curInsts (v.ip + 2)
  let v : VM := { v with ip := v.ip + 2 }
  let value ← getIdx v.stack (v.sp - 1 - numArgs)
  receiver value
  if !env.CanCall value then
    fail v (GoError.Errorf "çağrılamaz: %s" [Arg.s (env.TypeName value)])
  else do
    let (v, numArgs) ← (if spread = 1 then spreadArgs env v numArgs
      else pure (v, (numArgs : Int)) : Exec (VM × Int))
    match value with
    | .CompiledFunction callee => callCompiled env v callee numArgs
    | _ => callNative env v value numArgs

/-- Case `parser.OpReturn`. -/
def opReturn (v : VM) : Exec VM := do
  let v : VM := { v with ip := v.ip + 1 }
  let flag ← getIdx v.curInsts v.ip
  let retVal ← (if flag = 1 then getIdx v.stack (v.sp - 1)
    else pure Object.Undefined : Exec Object)
  let v : VM := { v with framesIndex := v.framesIndex - 1 }
  let cur ← getIdx v.frames (v.framesIndex - 1)
  let v : VM := { v with curFrame := (v.framesIndex - 1).toNat }
  match cur.fn with
  | none => throw Stop.panic
  | some fn => do
    let v : VM := { v with curInsts := fn.Instructions, ip := cur.ip }
    let last ← getIdx v.frames v.framesIndex
    let v : VM := { v with sp := last.basePointer }
    let st ← setIdx v.stack (v.sp - 1) retVal
    pure { v with stack := st }

/-- Case `parser.OpDefineLocal`. -/
def opDefineLocal (v : VM) : Exec VM := do
  let v : VM := { v with ip := v.ip + 1 }
  let localIndex ← getIdx v.curInsts v.ip
  let cur ← curFrameVal v
  let sp := cur.basePointer + localIndex
  let val ← getIdx v.stack (v.sp - 1)
  let v : VM := { v with sp := v.sp - 1 }
  let st ← setIdx v.stack sp val
  pure { v with stack := st }

/-- Case `parser.OpSetLocal`. -/
def opSetLocal (v : VM) : Exec VM := do
  let localIndex ← getIdx v.curInsts (v.ip + 1)
  let v : VM := { v with ip := v.ip + 1 }
  let cur ← curFrameVal v
  let sp := cur.basePointer + localIndex
  let val ← getIdx v.stack (v.sp - 1)
  let v : VM := { v with sp := v.sp - 1 }
  match (← getIdx v.stack sp) with
  | .ObjectPtr p => do
    let v ← assign v p val
    let st ← setIdx v.stack sp (Object.ObjectPtr p)
    pure { v with stack := st }
  | _ => do
    let st ← setIdx v.stack sp val
    pure { v with stack := st }

/-- Case `parser.OpSetSelLocal`. -/
def opSetSelLocal (env : Env) (v : VM) : Exec VM := do
  let localIndex ← getIdx v.curInsts (v.ip + 1)
  let numSelectors ← getIdx v.curInsts (v.ip + 2)
  let v : VM := { v with ip := v.ip + 2 }
  let selectors ← readRange v.stack (v.sp - numSelectors) v.sp
  let val ← getIdx v.stack (v.sp - numSelectors - 1)
  let v : VM := { v with sp := v.sp - (numSelectors + 1) }
  let cur ← curFrameVal v
  let dst ← getIdx v.stack (cur.basePointer + localIndex)
  let dst ← (match dst with
    | .ObjectPtr p => deref v p
    | x => pure x : Exec Object)
  finishSetSel env v dst val selectors

/-- Case `parser.OpGetLocal`. -/
def opGetLocal (v : VM) : Exec VM := do
  let v : VM := { v with ip := v.ip + 1 }
  let localIndex ← getIdx v.curInsts v.ip
  let cur ← curFrameVal v
  let val ← getIdx v.stack (cur.basePointer + localIndex)
  let val ← (match val with
    | .ObjectPtr p => deref v p
    | x => pure x : Exec Object)
  push v val

/-- Case `parser.OpGetBuiltin`. -/
def opGetBuiltin (env : Env) (v : VM) : Exec VM := do
  let v : VM := { v with ip := v.ip + 1 }
  let builtinIndex ← getIdx v.curInsts v.ip
  let f ← getIdx env.builtinFuncs builtinIndex
  push v f

/-- The loop of `OpClosure` that fills `free[i]` from `i` on, with `n` iterations left;
`base` is `v.sp - numFree`. -/
def captureFree (stack : List Object) (base : Int) : Nat → Int → Exec (List Loc)
  | 0, _ => pure []
  | n + 1, i => do
    let freeVar ← getIdx stack (base + i)
    let p := (match freeVar with
      | .ObjectPtr p => p
      | _ => Loc.stack (base + i).toNat)
    let rest ← captureFree stack base n (i + 1)
    pure (p :: rest)

/-- Case `parser.OpClosure`. -/
def opClosure (env : Env) (v : VM) : Exec VM := do
  let v : VM := { v with ip := v.ip + 3 }
  let lo ← getIdx v.curInsts (v.ip - 1)
  let hi ← getIdx v.curInsts (v.ip - 2)
  let constIndex : Int := ((lo ||| (hi <<< 8) : Nat) : Int)
  let numFree ← getIdx v.curInsts v.ip
  match (← getIdx v.constants constIndex) with
  | .CompiledFunction fn => do
    let free ← captureFree v.stack (v.sp - numFree) numFree 0
    let v : VM := { v with sp := v.sp - numFree }
    let cl : CompiledFunction :=
      { addr := v.nextAddr
        Instructions := fn.Instructions
        NumLocals := fn.NumLocals
        NumParameters := fn.NumParameters
        VarArgs := fn.VarArgs
        Free := free }
    let v : VM := { v with nextAddr := v.nextAddr + 1 }
    let v ← charge v
    push v (Object.CompiledFunction cl)
  | _ =>
    match env.nilFnTypeName with
    | some t => fail v (GoError.Errorf "fonksiyon değil: %s" [Arg.s t])
    | none => throw Stop.panic

/-- Case `parser.OpGetFreePtr`. -/
def opGetFreePtr (v : VM) : Exec VM := do
  let v : VM := { v with ip := v.ip + 1 }
  let freeIndex ← getIdx v.curInsts v.ip
  let cur ← curFrameVal v
  let val ← getIdx cur.freeVars freeIndex
  push v (Object.ObjectPtr val)

/-- Case `parser.OpGetFree`. -/
def opGetFree (v : VM) : Exec VM := do
  let v : VM := { v with ip := v.ip + 1 }
  let freeIndex ← getIdx v.curInsts v.ip
  let cur ← curFrameVal v
  let p ← getIdx cur.freeVars freeIndex
  let val ← deref v p
  push v val

/-- Case `parser.OpSetFree`. -/
def opSetFree (v : VM) : Exec VM := do
  let v : VM := { v with ip := v.ip + 1 }
  let freeIndex ← getIdx v.curInsts v.ip
  let cur ← curFrameVal v
  let p ← getIdx cur.freeVars freeIndex
  let x ← getIdx v.stack (v.sp - 1)
  let v ← assign v p x
  pure { v with sp := v.sp - 1 }

/-- Case `parser.OpGetLocalPtr`. -/
def opGetLocalPtr (v : VM) : Exec VM := do
  let v : VM := { v with ip := v.ip + 1 }
  let localIndex ← getIdx v.curInsts v.ip
  let cur ← curFrameVal v
  let sp := cur.basePointer + localIndex
  let val ← getIdx v.stack sp
  match val with
  | .ObjectPtr p => push v (Object.ObjectPtr p)
  | _ => do
    let p := Loc.heap v.cells.length
    let v : VM := { v with cells := v.cells ++ [val] }
    let st ← setIdx v.stack sp (Object.ObjectPtr p)
    push { v with stack := st } (Object.ObjectPtr p)

/-- Case `parser.OpSetSelFree`. -/
def opSetSelFree (env : Env) (v : VM) : Exec VM := do
  let v : VM := { v with ip := v.ip + 2 }
  let freeIndex ← getIdx v.curInsts (v.ip - 1)
  let numSelectors ← getIdx v.curInsts v.ip
  let selectors ← readRange v.stack (v.sp - numSelectors) v.sp
  let val ← getIdx v.stack (v.sp - numSelectors - 1)
  let v : VM := { v with sp := v.sp - (numSelectors + 1) }
  let cur ← curFrameVal v
  let p ← getIdx cur.freeVars freeIndex
  let dst ← deref v p
  finishSetSel env v dst val selectors

/-- Case `parser.OpIteratorInit`. -/
def opIteratorInit (env : Env) (v : VM) : Exec VM := do
  let dst ← getIdx v.stack (v.sp - 1)
  let v : VM := { v with sp := v.sp - 1 }
  receiver dst
  if !env.CanIterate dst then
    fail v (GoError.Errorf "sayılamaz: %s" [Arg.s (env.TypeName dst)])
  else do
    let iterator := env.Iterate v.world dst
    let v : VM := { v with world := v.world ++ [Event.Iterate dst] }
    let v ← charge v
    push v iterator

/-- Case `parser.OpIteratorNext`. -/
def opIteratorNext (env : Env) (v : VM) : Exec VM := do
  let iterator ← getIdx v.stack (v.sp - 1)
  let v : VM := { v with sp := v.sp - 1 }
  match env.Next v.world iterator with
  | none => throw Stop.panic
  | some hasMore =>
    let v : VM := { v with world := v.world ++ [Event.Next iterator] }
    if hasMore then push v Object.True else push v Object.False

/-- Case `parser.OpIteratorKey`. -/
def opIteratorKey (env : Env) (v : VM) : Exec VM := do
  let iterator ← getIdx v.stack (v.sp - 1)
  let v : VM := { v with sp := v.sp - 1 }
  match env.Key v.world iterator with
  | none => throw Stop.panic
  | some val => push v val

/-- Case `parser.OpIteratorValue`. -/
def opIteratorValue (env : Env) (v : VM) : Exec VM := do
  let iterator ← getIdx v.stack (v.sp - 1)
  let v : VM := { v with sp := v.sp - 1 }
  match env.Value v.world iterator with
  | none => throw Stop.panic
  | some val => push v val

/-- The `switch` of `VM.run` on a decoded opcode. -/
def dispatch (env : Env) (v : VM) : Opcode → Exec VM
  | .OpConstant => opConstant v
  | .OpNull => opNull v
  | .OpBinaryOp => opBinaryOp env v
  | .OpEqual => opEqual env v
  | .OpNotEqual => opNotEqual env v
  | .OpPop => opPop v
  | .OpTrue => opTrue v
  | .OpFalse => opFalse v
  | .OpLNot => opLNot env v
  | .OpBComplement => opBComplement env v
  | .OpMinus => opMinus env v
  | .OpJumpFalsy => opJumpFalsy env v
  | .OpAndJump => opAndJump env v
  | .OpOrJump => opOrJump env v
  | .OpJump => opJump v
  | .OpSetGlobal => opSetGlobal v
  | .OpSetSelGlobal => opSetSelGlobal env v
  | .OpGetGlobal => opGetGlobal v
  | .OpArray => opArray v
  | .OpMap => opMap v
  | .OpError => opError v
  | .OpImmutable => opImmutable v
  | .OpIndex => opIndex env v
  | .OpSliceIndex => opSliceIndex env v
  | .OpCall => opCall env v
  | .OpReturn => opReturn v
  | .OpDefineLocal => opDefineLocal v
  | .OpSetLocal => opSetLocal v
  | .OpSetSelLocal => opSetSelLocal env v
  | .OpGetLocal => opGetLocal v
  | .OpGetBuiltin => opGetBuiltin env v
  | .OpClosure => opClosure env v
  | .OpGetFreePtr => opGetFreePtr v
  | .OpGetFree => opGetFree v
  | .OpSetFree => opSetFree v
  | .OpGetLocalPtr => opGetLocalPtr v
  | .OpSetSelFree => opSetSelFree env v
  | .OpIteratorInit => opIteratorInit env v
  | .OpIteratorNext => opIteratorNext env v
  | .OpIteratorKey => opIteratorKey env v
  | .OpIteratorValue => opIteratorValue env v
  | .OpSuspend => throw (Stop.ret v)

/-- One iteration of the loop of `VM.run`, after the test of the abort flag: `v.ip++` and
the `switch` on `v.curInsts[v.ip]`. -/
def step (env : Env) (v : VM) : Exec VM := do
  let v : VM := { v with ip := v.ip + 1 }
  let op ← getIdx v.curInsts v.ip
  match env.opcode op with
  | some o => dispatch env v o
  | none => fail v (GoError.Errorf "bilinmeyen opcode: %d" [Arg.d op])

/-- How a call of `VM.run` ends. -/
inductive Ended where
  /-- The method returned, in this state. -/
  | returned (v : VM)
  /-- A Go runtime panic. -/
  | panicked

/-- The method `VM.run`, for at most `fuel` iterations (`none`: still looping). -/
def run (env : Env) : Nat → VM → Option Ended
  | 0, v => if v.aborting = 0 then none else some (Ended.returned v)
  | fuel + 1, v =>
    if v.aborting = 0 then
      match step env v with
      | .ok v1 => run env fuel v1
      | .error (Stop.ret v1) => some (Ended.returned v1)
      | .error Stop.panic => some Ended.panicked
    else some (Ended.returned v)

/-- The loop `for v.framesIndex > 1` of `VM.Run` that adds the callers to the trace, with
`n` frames left. -/
def unwindTrace (env : Env) : Nat → VM → GoError → Option (VM × GoError)
  | 0, v, err => some (v, err)
  | n + 1, v, err =>
    if v.framesIndex > 1 then
      let v : VM := { v with framesIndex := v.framesIndex - 1 }
      if 0 ≤ v.framesIndex - 1 then
        match v.frames[(v.framesIndex - 1).toNat]? with
        | some cur =>
          let v : VM := { v with curFrame := (v.framesIndex - 1).toNat }
          match cur.fn with
          | some fn =>
            unwindTrace env n v
              (GoError.Wrap "%w\n\tat %s" err [Arg.s (env.filePos fn (cur.ip - 1))])
          | none => none
        | none => none
      else none
    else some (v, err)

/-- How a call of `VM.Run` ends. -/
inductive RunResult where
  /-- The method returned `err` (`none` for nil) and left the machine in state `v`. -/
  | returned (v : VM) (err : Option GoError)
  /-- A Go runtime panic. -/
  | panicked

/-- The statements of `VM.Run` before the call of `run`; `none` when `frames[0].fn` is nil. -/
def reset (v : VM) : Option VM :=
  match v.frames[0]? with
  | some f0 =>
    match f0.fn with
    | some fn =>
      some { v with
        sp := 0
        curFrame := 0
        curInsts := fn.Instructions
        framesIndex := 1
        ip := -1
        allocs := wrap64 (v.maxAllocs + 1) }
    | none => none
  | none => none

/-- The statements of `VM.Run` after the call of `run`. -/
def finish (env : Env) (v : VM) : RunResult :=
  let v : VM := { v with aborting := 0 }
  match v.err with
  | some err =>
    match v.frames[v.curFrame]? with
    | some cur =>
      match cur.fn with
      | some fn =>
        let err := GoError.Wrap "Çalışma Hatası: %w\n\tat %s" err
          [Arg.s (env.filePos fn (v.ip - 1))]
        match unwindTrace env (v.framesIndex - 1).toNat v err with
        | some (v, err) => RunResult.returned v (some err)
        | none => RunResult.panicked
      | none => RunResult.panicked
    | none => RunResult.panicked
  | none => RunResult.returned v none

/-- The method `VM.Run`, with at most `fuel` iterations of the dispatch loop
(`none`: still looping). -/
def Run (env : Env) (fuel : Nat) (v : VM) : Option RunResult :=
  match reset v with
  | none => some RunResult.panicked
  | some v0 =>
    match run env fuel v0 with
    | none => none
    | some (Ended.returned v1) => some (finish env v1)
    | some Ended.panicked => some RunResult.panicked

/-- The struct `Bytecode` (its `FileSet` is only read through `Env.filePos`). -/
structure Bytecode where
  Constants : List Object
  MainFunction : Option CompiledFunction

/-- The zero value of `frame`. -/
def Frame.zero : Frame := { fn := none, freeVars := [], ip := 0, basePointer := 0 }

/-- The function `NewVM`, for the constants `StackSize`, `MaxFrames` (at least 1) and
`GlobalsSize` of the package; `globals = none` is the nil slice.  `none` when
`bytecode.MainFunction` is nil.  `nextAddr` is an address no `*CompiledFunction` has yet. -/
def NewVM (StackSize MaxFrames GlobalsSize : Nat) (nextAddr : Nat)
    (bytecode : Bytecode) (globals : Option (List Object)) (maxAllocs : Int) : Option VM :=
  match bytecode.MainFunction with
  | none => none
  | some main =>
    some
      { constants := bytecode.Constants
        stack := List.replicate StackSize Object.nil
        sp := 0
        globals := (match globals with
          | none => List.replicate GlobalsSize Object.nil
          | some g => g)
        frames := ({ Frame.zero with fn := some main, ip := -1 } ::
          List.replicate (MaxFrames - 1) Frame.zero)
        framesIndex := 1
        curFrame := 0
        curInsts := main.Instructions
        ip := -1
        aborting := 0
        maxAllocs := maxAllocs
        allocs := 0
        err := none
        cells := []
        nextAddr := nextAddr
        world := [] }

/-! ## A small instance of the value model, for running programs -/

namespace Demo

/-- An opcode numbering (the one of the `parser` package this VM descends from). -/
def opcodeTable : List Opcode :=
  [.OpConstant, .OpBComplement, .OpPop, .OpTrue, .OpFalse, .OpEqual, .OpNotEqual, .OpMinus,
   .OpLNot, .OpJumpFalsy, .OpAndJump, .OpOrJump, .OpJump, .OpNull, .OpArray, .OpMap,
   .OpError, .OpImmutable, .OpIndex, .OpSliceIndex, .OpCall, .OpReturn, .OpGetGlobal,
   .OpSetGlobal, .OpSetSelGlobal, .OpGetLocal, .OpSetLocal, .OpDefineLocal, .OpSetSelLocal,
   .OpGetFreePtr, .OpGetFree, .OpSetFree, .OpGetLocalPtr, .OpSetSelFree, .OpGetBuiltin,
   .OpClosure, .OpIteratorInit, .OpIteratorNext, .OpIteratorKey, .OpIteratorValue,
   .OpBinaryOp, .OpSuspend]

/-- The token `+` is 11 and `-` is 12; integers add and subtract, nothing else is defined. -/
def binaryOp (_ : List Event) (left : Object) (tok : Nat) (right : Object) :
    Except GoError Object :=
  match left, right with
  | .Int a, .Int b =>
    if tok = 11 then .ok (.Int (wrap64 (a + b)))
    else if tok = 12 then .ok (.Int (wrap64 (a - b)))
    else .error GoError.ErrInvalidOperator
  | _, _ => .error GoError.ErrInvalidOperator

/-- Equality of scalars; values of different variants are not equal. -/
def equals (_ : List Event) (a b : Object) : Bool :=
  match a, b with
  | .Undefined, .Undefined => true
  | .True, .True => true
  | .False, .False => true
  | .Int x, .Int y => decide (x = y)
  | .String x, .String y => decide (x = y)
  | _, _ => false

/-- Falsiness as the data model lists it. -/
def isFalsy (_ : List Event) (o : Object) : Bool :=
  match o with
  | .Undefined => true
  | .False => true
  | .Int x => decide (x = 0)
  | .Float x => decide (x = 0)
  | .String x => x.isEmpty
  | .Bytes x => x.isEmpty
  | .Array x => x.isEmpty
  | .ImmutableArray x => x.isEmpty
  | .Map x => x.isEmpty
  | .ImmutableMap x => x.isEmpty
  | _ => false

/-- Names of the variants. -/
def typeNameOf (o : Object) : String :=
  match o with
  | .nil => "nil"
  | .Undefined => "undefined"
  | .True => "bool"
  | .False => "bool"
  | .Int _ => "int"
  | .Float _ => "float"
  | .String _ => "string"
  | .Bytes _ => "bytes"
  | .Array _ => "array"
  | .ImmutableArray _ => "immutable-array"
  | .Map _ => "map"
  | .ImmutableMap _ => "immutable-map"
  | .Error _ => "error"
  | .CompiledFunction _ => "compiled-function"
  | .ObjectPtr _ => "free-var"
  | .Other _ => "builtin-function"

/-- Functions and builtins can be called. -/
def canCall (o : Object) : Bool :=
  match o with
  | .CompiledFunction _ => true
  | .Other _ => true
  | _ => false

/-- Sequences and maps can be iterated. -/
def canIterate (o : Object) : Bool :=
  match o with
  | .String _ => true
  | .Bytes _ => true
  | .Array _ => true
  | .ImmutableArray _ => true
  | .Map _ => true
  | .ImmutableMap _ => true
  | _ => false

/-- Indexing of arrays by an integer in range and of maps by a string key. -/
def indexGet (_ : List Event) (o index : Object) : Except GoError Object :=
  match o, index with
  | .Array xs, .Int i =>
    if 0 ≤ i then
      match xs[i.toNat]? with
      | some x => .ok x
      | none => .error GoError.ErrInvalidIndexType
    else .error GoError.ErrInvalidIndexType
  | .Map kv, .String k =>
    match kv.find? (fun e => decide (e.1 = k)) with
    | some e => .ok e.2
    | none => .ok Object.Undefined
  | _, _ => .error GoError.ErrNotIndexable

/-- Arrays and maps accept an indexed assignment. -/
def indexSet (_ : List Event) (o _index _value : Object) : Option GoError :=
  match o with
  | .Array _ => none
  | .Map _ => none
  | _ => some GoError.ErrNotIndexAssignable

/-- The one builtin, `Other 0`, returns the number of its arguments. -/
def call (_ : List Event) (f : Object) (args : List Object) : Except GoError Object :=
  match f with
  | .Other 0 => .ok (.Int args.length)
  | _ => .error GoError.ErrWrongNumArguments

/-- The instance. -/
def env : Env where
  opcode := fun b => opcodeTable[b]?
  builtinFuncs := [Object.Other 0]
  TypeName := typeNameOf
  nilFnTypeName := some "compiled-function"
  tokenString := fun t => if t = 11 then "+" else if t = 12 then "-" else "?"
  CanCall := canCall
  CanIterate := canIterate
  BinaryOp := binaryOp
  Equals := equals
  IsFalsy := isFalsy
  IndexGet := indexGet
  IndexSet := indexSet
  Call := call
  Iterate := fun w _ => Object.Other (w.length + 1)
  Next := fun _ _ => some false
  Key := fun _ _ => some Object.Undefined
  Value := fun _ _ => some Object.Undefined
  filePos := fun _ _ => "-"

/-- A machine over `stack` and `frames` that is about to fetch the first instruction of
`insts`, the code of the function of frame `framesIndex - 1`. -/
def machine (insts : List Nat) (constants stack : List Object) (sp : Int)
    (frames : List Frame) (framesIndex : Int) (maxAllocs allocs : Int) : VM where
  constants := constants
  stack := stack
  sp := sp
  globals := []
  frames := frames
  framesIndex := framesIndex
  curFrame := (framesIndex - 1).toNat
  curInsts := insts
  ip := -1
  aborting := 0
  maxAllocs := maxAllocs
  allocs := allocs
  err := none
  cells := []
  nextAddr := 100
  world := []

/-- A function of one parameter that returns it: `GetLocal 0; Return 1`. -/
def idFn : CompiledFunction :=
  { addr := 1, Instructions := [25, 0, 21, 1], NumLocals := 1, NumParameters := 1,
    VarArgs := false, Free := [] }

/-- A main function: `Call 1 0; Suspend`. -/
def callMain : CompiledFunction :=
  { addr := 0, Instructions := [20, 1, 0, 41], NumLocals := 0, NumParameters := 0,
    VarArgs := false, Free := [] }

/-- The frame of a function whose locals start at `basePointer`. -/
def frameOf (fn : CompiledFunction) (basePointer : Int) : Frame :=
  { fn := some fn, freeVars := fn.Free, ip := -1, basePointer := basePointer }

/-- The main function about to call `idFn` with the argument 7. -/
def callVM : VM :=
  machine callMain.Instructions [] [.CompiledFunction idFn, .Int 7, .nil, .nil] 2
    [frameOf callMain 0, Frame.zero] 1 10 11

/-- The state `callVM` reaches when `idFn` is about to execute its `Return 1`. -/
def atReturnVM : VM :=
  { callVM with
    stack := [.CompiledFunction idFn, .Int 7, .Int 7, .nil]
    sp := 3
    frames := [{ frameOf callMain 0 with ip := 2 },
      { fn := some idFn, freeVars := [], ip := 0, basePointer := 1 }]
    framesIndex := 2
    curFrame := 1
    curInsts := idFn.Instructions
    ip := 1 }

/-- A function of one parameter whose code is a call of itself in tail position:
`Call 1 0; Return 1`. -/
def loopFn : CompiledFunction :=
  { addr := 5, Instructions := [20, 1, 0, 21, 1], NumLocals := 1, NumParameters := 1,
    VarArgs := false, Free := [] }

/-- The function `loopFn`, running in the last of two frames with its local 0 equal to 3,
about to call itself with the argument 2. -/
def selfCallVM : VM :=
  machine loopFn.Instructions []
    [.CompiledFunction loopFn, .Int 3, .CompiledFunction loopFn, .Int 2, .nil] 4
    [frameOf callMain 0, frameOf loopFn 1] 2 10 11

/-- A variadic function of two parameters. -/
def varFn : CompiledFunction :=
  { addr := 2, Instructions := [41], NumLocals := 2, NumParameters := 2,
    VarArgs := true, Free := [] }

/-- The main function about to call `varFn` with three arguments: `Call 3 0`. -/
def varCallVM (a0 a1 a2 : Object) : VM :=
  machine [20, 3, 0, 41] [] [.CompiledFunction varFn, a0, a1, a2, .nil] 4
    [frameOf callMain 0, Frame.zero] 1 10 11

/-- A function of three parameters. -/
def add3 : CompiledFunction :=
  { addr := 3, Instructions := [41], NumLocals := 3, NumParameters := 3,
    VarArgs := false, Free := [] }

/-- The main function about to call `add3` with the spread of `arr`: `Call 1 1`. -/
def spreadVM (arr : Object) : VM :=
  machine [20, 1, 1, 41] [] [.CompiledFunction add3, arr, .nil, .nil, .nil] 2
    [frameOf callMain 0, Frame.zero] 1 10 11

/-- The machine of the example `s := "hello"; s[-1:100]`, about to run `OpSliceIndex`. -/
def sliceHello : VM :=
  machine [19] [] [.String [104, 101, 108, 108, 111], .Int (-1), .Int 100, .nil] 3
    [Frame.zero] 1 10 11

/-- A machine about to run `OpSliceIndex` on the integer 5 with both bounds `Undefined`. -/
def sliceInt : VM :=
  machine [19] [] [.Int 5, .Undefined, .Undefined, .nil] 3 [Frame.zero] 1 10 11

/-- The code of a main function that, when global 0 is falsy, sets it to `true` and then
fails on the unknown opcode 255, and that suspends when global 0 is truthy:
`GetGlobal 0; JumpFalsy 7; Suspend; True; SetGlobal 0; 255`. -/
def onceCode : List Nat := [22, 0, 0, 9, 0, 7, 41, 3, 23, 0, 0, 255]

/-- The main function with the code `onceCode`. -/
def onceMain : CompiledFunction :=
  { addr := 0, Instructions := onceCode, NumLocals := 0, NumParameters := 0,
    VarArgs := false, Free := [] }

/-- The machine `NewVM` builds for `onceMain` with global 0 `Undefined`, a stack of 4 slots,
2 frames and `maxAllocs = 10`. -/
def onceVM : VM :=
  { constants := []
    stack := [.nil, .nil, .nil, .nil]
    sp := 0
    globals := [.Undefined]
    frames := [{ fn := some onceMain, freeVars := [], ip := -1, basePointer := 0 },
      Frame.zero]
    framesIndex := 1
    curFrame := 0
    curInsts := onceCode
    ip := -1
    aborting := 0
    maxAllocs := 10
    allocs := 0
    err := none
    cells := []
    nextAddr := 100
    world := [] }

/-- The main function about to call `idFn`, which has one parameter, with no argument:
`Call 0 0`, the instruction pointer on the opcode. -/
def arityVM : VM :=
  { machine [20, 0, 0, 41] [] [.CompiledFunction idFn, .nil] 1
      [frameOf callMain 0, Frame.zero] 1 10 11 with ip := 0 }

end Demo

/-! ## States that differ in the allocation budget -/

/-- The state with another allocation counter and budget. -/
def VM.withBudget (v : VM) (a m : Int) : VM := { v with allocs := a, maxAllocs := m }

/-- An optional value as a computation that panics on `none`. -/
def orPanic {α : Type} : Option α → Exec α
  | some x => .ok x
  | none => .error .panic

/-- A computation with the budget of the state it returns in replaced. -/
def mapE {α : Type} (a m : Int) : Exec α → Exec α
  | .ok x => .ok x
  | .error (.ret w) => .error (.ret (w.withBudget a m))
  | .error .panic => .error .panic

/-- An outcome with the budget of its state replaced. -/
def mapB (a m : Int) : Exec VM → Exec VM
  | .ok w => .ok (w.withBudget a m)
  | .error (.ret w) => .error (.ret (w.withBudget a m))
  | .error .panic => .error .panic

/-- A computation that ends by a value or a panic, never by `return`. -/
def NoRet {α : Type} (x : Exec α) : Prop := ∀ w, x ≠ .error (.ret w)

/-- The frames, the frame index and the current frame of `w` are those of `v`. -/
def SameFrames (v w : VM) : Prop :=
  w.frames = v.frames ∧ w.framesIndex = v.framesIndex ∧ w.curFrame = v.curFrame

/-- The state an outcome carries, if it carries one, satisfies `P`. -/
def Holds (P : VM → Prop) : Exec VM → Prop
  | .ok w => P w
  | .error (.ret w) => P w
  | .error .panic => True

/-- The outcome `rb` is the outcome `r` with the budget `b`, `m`, and `r` carries the
counter `a`. -/
def Same (a b m : Int) (r rb : Exec VM) : Prop :=
  rb = mapB b m r ∧ Holds (fun w => w.allocs = a) r

/-- The outcomes `r` of a handler from `v` and `rb` of the same handler from `v` with the
budget `b`, `m`: either no charge was made and they agree; or `r` is the return with
`ErrObjectAllocLimit`; or one charge was made that `r` passed, and then `rb` is the return
with `ErrObjectAllocLimit` in the frames of `v` when the counter `b` is exhausted by it,
and agrees with `r` otherwise. -/
def Sim (v : VM) (b m : Int) (r rb : Exec VM) : Prop :=
  Same v.allocs b m r rb ∨
  (∃ w, r = .error (.ret w) ∧ w.err = some GoError.ErrObjectAllocLimit) ∨
  (wrap64 (v.allocs - 1) ≠ 0 ∧ Holds (fun w => w.allocs = wrap64 (v.allocs - 1)) r ∧
    if wrap64 (b - 1) = 0 then
      ∃ wb, rb = .error (.ret wb) ∧ wb.err = some GoError.ErrObjectAllocLimit ∧
        wb.allocs = 0 ∧ SameFrames v wb
    else rb = mapB (wrap64 (b - 1)) m r)

/-- The number of executions of `v.allocs--` in the first `fuel` iterations of `run` from
`v`: the iterations that end with another value of `v.allocs` (an opcode decrements it at
most once, and a decrement changes it). -/
def charges (env : Env) : Nat → VM → Nat
  | 0, _ => 0
  | fuel + 1, v =>
    if v.aborting = 0 then
      match step env v with
      | .ok v1 => (if v1.allocs = v.allocs then 0 else 1) + charges env fuel v1
      | .error (Stop.ret v1) => if v1.allocs = v.allocs then 0 else 1
      | .error Stop.panic => 0
    else 0

/-- The frames in use are `frames[0 .. framesIndex - 1]`, each has a function, and the
current frame is the last of them. -/
def Inv (v : VM) : Prop :=
  1 ≤ v.framesIndex ∧ v.framesIndex ≤ v.frames.length ∧
  (v.curFrame : Int) = v.framesIndex - 1 ∧
  ∀ i : Nat, (i : Int) < v.framesIndex → ∃ f fn, v.frames[i]? = some f ∧ f.fn = some fn

/-! ## The reference of the elision: every call gets a frame -/

/-- The branch of `OpCall` for a `*CompiledFunction` executed by pushing a new frame: the
statements of `callCompiled` without the block `if callee == v.curFrame.fn`. -/
def callCompiledFramed (v : VM) (callee : CompiledFunction) (numArgs : Int) : Exec VM := do
  let (v, numArgs) ← gatherVarArgs v callee numArgs
  if numArgs ≠ callee.NumParameters then
    if callee.VarArgs then
      fail v (GoError.Errorf "yanlış argüman sayısı: want>=%d, got=%d"
        [Arg.d (callee.NumParameters - 1), Arg.d numArgs])
    else
      fail v (GoError.Errorf "yanlış argüman sayısı: want=%d, got=%d"
        [Arg.d callee.NumParameters, Arg.d numArgs])
  else do
    let cur ← curFrameVal v
    pushFrame v cur callee numArgs

/-- Case `parser.OpCall` with `callCompiledFramed` for `callCompiled`. -/
def opCallFramed (env : Env) (v : VM) : Exec VM := do
  let numArgs ← getIdx v.curInsts (v.ip + 1)
  let spread ← getIdx v.curInsts (v.ip + 2)
  let v : VM := { v with ip := v.ip + 2 }
  let value ← getIdx v.stack (v.sp - 1 - numArgs)
  receiver value
  if !env.CanCall value then
    fail v (GoError.Errorf "çağrılamaz: %s" [Arg.s (env.TypeName value)])
  else do
    let (v, numArgs) ← (if spread = 1 then spreadArgs env v numArgs
      else pure (v, (numArgs : Int)) : Exec (VM × Int))
    match value with
    | .CompiledFunction callee => callCompiledFramed v callee numArgs
    | _ => callNative env v value numArgs

/-- One iteration of the loop of `VM.run` with `opCallFramed` for `opCall`. -/
def stepFramed (env : Env) (v : VM) : Exec VM := do
  let v : VM := { v with ip := v.ip + 1 }
  let op ← getIdx v.curInsts v.ip
  match env.opcode op with
  | some .OpCall => opCallFramed env v
  | some o => dispatch env v o
  | none => fail v (GoError.Errorf "bilinmeyen opcode: %d" [Arg.d op])

/-- The method `VM.run` over `stepFramed`. -/
def runFramed (env : Env) : Nat → VM → Option Ended
  | 0, v => if v.aborting = 0 then none else some (Ended.returned v)
  | fuel + 1, v =>
    if v.aborting = 0 then
      match stepFramed env v with
      | .ok v1 => runFramed env fuel v1
      | .error (Stop.ret v1) => some (Ended.returned v1)
      | .error Stop.panic => some Ended.panicked
    else some (Ended.returned v)

/-- The method `VM.Run` over `runFramed`. -/
def RunFramed (env : Env) (fuel : Nat) (v : VM) : Option RunResult :=
  match reset v with
  | none => some RunResult.panicked
  | some v0 =>
    match runFramed env fuel v0 with
    | none => none
    | some (Ended.returned v1) => some (finish env v1)
    | some Ended.panicked => some RunResult.panicked

namespace Demo

/-- The function `g := func(n) { if n { g(n - 1) } else { return 5 } }`, whose call of
itself is an expression statement at the end of the body:
`GetLocal 0; JumpFalsy 21; Constant 0; GetLocal 0; Constant 1; BinaryOp -; Call 1 0; Pop;
Return 0; Constant 2; Return 1`. -/
def countFn : CompiledFunction :=
  { addr := 7
    Instructions := [25, 0, 9, 0, 21, 0, 0, 0, 25, 0, 0, 0, 1, 40, 12, 20, 1, 0, 2, 21, 0,
      0, 0, 2, 21, 1]
    NumLocals := 1, NumParameters := 1, VarArgs := false, Free := [] }

/-- The main function `g(1)`: `Constant 0; Constant 1; Call 1 0; Suspend`. -/
def countMain : CompiledFunction :=
  { addr := 0, Instructions := [0, 0, 0, 0, 0, 1, 20, 1, 0, 41], NumLocals := 0,
    NumParameters := 0, VarArgs := false, Free := [] }

/-- The machine `NewVM` builds for `countMain` with the constants `g`, 1 and 5, a stack of
8 slots, 4 frames and `maxAllocs = 10`. -/
def countVM : VM :=
  { constants := [.CompiledFunction countFn, .Int 1, .Int 5]
    stack := List.replicate 8 Object.nil
    sp := 0
    globals := []
    frames := [{ fn := some countMain, freeVars := [], ip := -1, basePointer := 0 },
      Frame.zero, Frame.zero, Frame.zero]
    framesIndex := 1
    curFrame := 0
    curInsts := countMain.Instructions
    ip := -1
    aborting := 0
    maxAllocs := 10
    allocs := 0
    err := none
    cells := []
    nextAddr := 100
    world := [] }

/-- The main function `^(-1)`, two value-creating opcodes:
`Constant 0; Minus; BComplement; Suspend`. -/
def negMain : CompiledFunction :=
  { addr := 0, Instructions := [0, 0, 0, 7, 1, 41], NumLocals := 0, NumParameters := 0,
    VarArgs := false, Free := [] }

/-- The machine `NewVM` builds for `negMain` with the constant 1, a stack of 4 slots,
2 frames and `maxAllocs = -1`. -/
def negVM : VM :=
  { constants := [.Int 1]
    stack := [.nil, .nil, .nil, .nil]
    sp := 0
    globals := []
    frames := [{ fn := some negMain, freeVars := [], ip := -1, basePointer := 0 },
      Frame.zero]
    framesIndex := 1
    curFrame := 0
    curInsts := negMain.Instructions
    ip := -1
    aborting := 0
    maxAllocs := -1
    allocs := 0
    err := none
    cells := []
    nextAddr := 100
    world := [] }

/-- The main function `"hello"[-1:100]`:
`Constant 0; Constant 1; Constant 2; SliceIndex; Suspend`. -/
def sliceMain : CompiledFunction :=
  { addr := 0, Instructions := [0, 0, 0, 0, 0, 1, 0, 0, 2, 19, 41], NumLocals := 0,
    NumParameters := 0, VarArgs := false, Free := [] }

/-- The machine `NewVM` builds for `sliceMain` with the constants `"hello"`, -1 and 100,
a stack of 4 slots, 2 frames and `maxAllocs = 0`. -/
def sliceRunVM : VM :=
  { constants := [.String [104, 101, 108, 108, 111], .Int (-1), .Int 100]
    stack := [.nil, .nil, .nil, .nil]
    sp := 0
    globals := []
    frames := [{ fn := some sliceMain, freeVars := [], ip := -1, basePointer := 0 },
      Frame.zero]
    framesIndex := 1
    curFrame := 0
    curInsts := sliceMain.Instructions
    ip := -1
    aborting := 0
    maxAllocs := 0
    allocs := 0
    err := none
    cells := []
    nextAddr := 100
    world := [] }

/-- The function `loop := func(n) { if n == 0 { return 0 }; return loop(n - 1) }`:
`GetLocal 0; Constant 1; Equal; JumpFalsy 14; Constant 1; Return 1; Constant 0; GetLocal 0;
Constant 2; BinaryOp -; Call 1 0; Return 1`. -/
def tailFn : CompiledFunction :=
  { addr := 9
    Instructions := [25, 0, 0, 0, 1, 5, 9, 0, 14, 0, 0, 1, 21, 1, 0, 0, 0, 25, 0, 0, 0, 2,
      40, 12, 20, 1, 0, 21, 1]
    NumLocals := 1, NumParameters := 1, VarArgs := false, Free := [] }

/-- The main function `loop(n)`: `Constant 0; Constant 3; Call 1 0; Suspend`. -/
def tailMain : CompiledFunction :=
  { addr := 0, Instructions := [0, 0, 0, 0, 0, 3, 20, 1, 0, 41], NumLocals := 0,
    NumParameters := 0, VarArgs := false, Free := [] }

/-- The machine `NewVM` builds for `tailMain` with the constants `loop`, 0, 1 and `n`,
a stack of 6 slots, `MaxFrames = 2` and `maxAllocs = -1`. -/
def tailVM (n : Int) : VM :=
  { constants := [.CompiledFunction tailFn, .Int 0, .Int 1, .Int n]
    stack := [.nil, .nil, .nil, .nil, .nil, .nil]
    sp := 0
    globals := []
    frames := [{ fn := some tailMain, freeVars := [], ip := -1, basePointer := 0 },
      Frame.zero]
    framesIndex := 1
    curFrame := 0
    curInsts := tailMain.Instructions
    ip := -1
    aborting := 0
    maxAllocs := -1
    allocs := 0
    err := none
    cells := []
    nextAddr := 100
    world := [] }

/-- A state of `tailVM n0` inside the frame of `loop` that the main function pushed. -/
def tailAt (n0 : Int) (stack : List Object) (sp ip allocs : Int) : VM :=
  { tailVM n0 with
    stack := stack
    sp := sp
    frames := [{ fn := some tailMain, freeVars := [], ip := 8, basePointer := 0 },
      { fn := some tailFn, freeVars := [], ip := 0, basePointer := 1 }]
    framesIndex := 2
    curFrame := 1
    curInsts := tailFn.Instructions
    ip := ip
    allocs := allocs }

/-- What a finished `Run` delivered to the main function: the error, `sp`, and the stack
below `sp`. -/
def delivered : Option RunResult → Option (Option GoError × Int × List Object)
  | some (.returned v err) => some (err, v.sp, v.stack.take v.sp.toNat)
  | _ => none

end Demo

/-! ## States of a run -/

/-- The state at the top of the loop of `VM.run` after `n` iterations that neither
returned nor panicked (`none` when the loop has ended before). -/
def stateAt (env : Env) : Nat → VM → Option VM
  | 0, v => some v
  | n + 1, v =>
    if v.aborting = 0 then
      match step env v with
      | .ok v1 => stateAt env n v1
      | .error _ => none
    else none

/-- The opcode that the next iteration from `v` decodes, if the fetch is in range. -/
def nextOpcode (env : Env) (v : VM) : Option Opcode :=
  match getIdx v.curInsts (v.ip + 1) with
  | .ok b => env.opcode b
  | .error _ => none

/-- Well-formedness of the program run from `v0`, as far as the end of the run goes:
`OpSuspend` is reached only in the main function, that is at frame depth 1. -/
def SuspendsInMain (env : Env) (v0 : VM) : Prop :=
  ∀ n s, stateAt env n v0 = some s → nextOpcode env s = some Opcode.OpSuspend →
    s.framesIndex = 1

/-- The method `VM.Abort`: it stores 1 in the abort flag. -/
def Abort (v : VM) : VM := { v with aborting := 1 }

/-- A call of `VM.Run` during which another goroutine calls `Abort` when the loop has made
`k` iterations, so that the test at the top of the next iteration loads 1 (`none` when the
loop ends before, or is still looping after `fuel` further iterations). -/
def RunAborted (env : Env) (k fuel : Nat) (v : VM) : Option RunResult :=
  match reset v with
  | none => some RunResult.panicked
  | some v0 =>
    match stateAt env k v0 with
    | none => none
    | some s =>
      match run env fuel (Abort s) with
      | none => none
      | some (Ended.returned v1) => some (finish env v1)
      | some Ended.panicked => some RunResult.panicked

namespace Demo

/-- The closure body `func() { a = 7 }` over the free variable `a`:
`Constant 3; SetFree 0; Return 0`. -/
def setterFn : CompiledFunction :=
  { addr := 2, Instructions := [0, 0, 3, 31, 0, 21, 0], NumLocals := 0, NumParameters := 0,
    VarArgs := false, Free := [] }

/-- The closure body `func() { return a }` over the free variable `a`:
`GetFree 0; Return 1`. -/
def getterFn : CompiledFunction :=
  { addr := 3, Instructions := [30, 0, 21, 1], NumLocals := 0, NumParameters := 0,
    VarArgs := false, Free := [] }

/-- The function
`func() { a := 1; func() { a = 7 }(); x := a; a = 9; return [x, func() { return a }()] }`
with `x` kept on the operand stack:
`Constant 1; DefineLocal 0; GetLocalPtr 0; Closure 2 1; Call 0 0; Pop; GetLocal 0;
Constant 4; SetLocal 0; GetLocalPtr 0; Closure 5 1; Call 0 0; Array 2; Return 1`. -/
def aliasFn : CompiledFunction :=
  { addr := 1
    Instructions := [0, 0, 1, 27, 0, 32, 0, 35, 0, 2, 1, 20, 0, 0, 2, 25, 0, 0, 0, 4, 26, 0,
      32, 0, 35, 0, 5, 1, 20, 0, 0, 14, 0, 2, 21, 1]
    NumLocals := 1, NumParameters := 0, VarArgs := false, Free := [] }

/-- The main function that calls `aliasFn`: `Constant 0; Call 0 0; Suspend`. -/
def aliasMain : CompiledFunction :=
  { addr := 0, Instructions := [0, 0, 0, 20, 0, 0, 41], NumLocals := 0, NumParameters := 0,
    VarArgs := false, Free := [] }

/-- The machine `NewVM` builds for `aliasMain` with a stack of 8 slots, 3 frames and
`maxAllocs = -1`. -/
def aliasVM : VM :=
  { constants := [.CompiledFunction aliasFn, .Int 1, .CompiledFunction setterFn, .Int 7,
      .Int 9, .CompiledFunction getterFn]
    stack := List.replicate 8 Object.nil
    sp := 0
    globals := []
    frames := [{ fn := some aliasMain, freeVars := [], ip := -1, basePointer := 0 },
      Frame.zero, Frame.zero]
    framesIndex := 1
    curFrame := 0
    curInsts := aliasMain.Instructions
    ip := -1
    aborting := 0
    maxAllocs := -1
    allocs := 0
    err := none
    cells := []
    nextAddr := 100
    world := [] }

/-- The machine `NewVM` builds for `tailMain` as `tailVM n` does, but with
`MaxFrames = 1`: the frame of the main function is the only one. -/
def tailOneFrameVM (n : Int) : VM :=
  { tailVM n with
    frames := [{ fn := some tailMain, freeVars := [], ip := -1, basePointer := 0 }] }

/-- The ten elements of the array that `arrayMain` builds. -/
def arrayElems : List Object :=
  [.Int 0, .Int 1, .Int 2, .Int 3, .Int 4, .Int 5, .Int 6, .Int 7, .Int 8, .Int 9]

/-- The main function `[0, 1, 2, 3, 4, 5, 6, 7, 8, 9]`:
`Constant 0; ...; Constant 9; Array 10; Suspend`. -/
def arrayMain : CompiledFunction :=
  { addr := 0
    Instructions := [0, 0, 0, 0, 0, 1, 0, 0, 2, 0, 0, 3, 0, 0, 4, 0, 0, 5, 0, 0, 6, 0, 0, 7,
      0, 0, 8, 0, 0, 9, 14, 0, 10, 41]
    NumLocals := 0, NumParameters := 0, VarArgs := false, Free := [] }

/-- The state of the machine for `arrayMain` with `maxAllocs = m` and the counter `allocs`
at `a`, when `j` of the constants are pushed. -/
def arrayAt (m a : Int) (j : Nat) : VM :=
  { constants := arrayElems
    stack := arrayElems.take j ++ List.replicate (12 - j) Object.nil
    sp := j
    globals := []
    frames := [{ fn := some arrayMain, freeVars := [], ip := -1, basePointer := 0 },
      Frame.zero]
    framesIndex := 1
    curFrame := 0
    curInsts := arrayMain.Instructions
    ip := 3 * (j : Int) - 1
    aborting := 0
    maxAllocs := m
    allocs := a
    err := none
    cells := []
    nextAddr := 100
    world := [] }

/-- The machine `NewVM` builds for `arrayMain` with a stack of 12 slots, 2 frames and
`maxAllocs = m`. -/
def arrayVM (m : Int) : VM := arrayAt m 0 0

/-- A machine about to execute the opcode numbered `op` with the operand bytes 1 and 4, with
`x` on top of its stack. -/
def jumpAt (op : Nat) (x : Object) : VM :=
  machine [op, 1, 4, 41] [] [x, .nil] 1 [frameOf callMain 0, Frame.zero] 1 0 0

end Demo

/-- The statement `v.allocs--` on the `int64` counter. -/
def decrement (a : Int) : Int := wrap64 (a - 1)

/-- The destination of an indexed assignment in the words of the specification, for the
selectors `s_0, ..., s_{n-1}`: `d_{n-1} = dst` and `d_{i-1} = IndexGet(d_i, s_i)` for
`i = n-1` down to 1; the value is `d_0`, or the error of the first `IndexGet` that
fails. -/
def specDescend (env : Env) (w : List Event) (dst : Object) (selectors : List Object) :
    Except GoError Object :=
  selectors.tail.foldr (fun s d => d >>= fun di => env.IndexGet w di s) (pure dst)

/-- Indexed assignment in the words of the specification: after the descent, exactly one
`IndexSet(d_0, s_0, src)`, and none when an `IndexGet` fails.  The value is whether nil is
returned, and the log of effectful calls afterwards. -/
def specIndexAssign (env : Env) (w : List Event) (dst src : Object)
    (selectors : List Object) : Bool × List Event :=
  match selectors.head?, specDescend env w dst selectors with
  | some s0, .ok d0 =>
    ((env.IndexSet w d0 s0 src).isNone, w ++ [Event.IndexSet d0 s0 src])
  | _, _ => (false, w)

/-- The state an outcome carries satisfies `P` when the handler continues and `Q` when
it returns. -/
def Ends (P Q : VM → Prop) : Exec VM → Prop
  | .ok w => P w
  | .error (.ret w) => Q w
  | .error .panic => True

/-! ## Programs that need two frames -/

/-- The error `o` of a run, if there is one, neither is nor wraps `ErrStackOverflow`. -/
def NotOverflow (o : Option GoError) : Prop :=
  ∀ e, o = some e → e.cause ≠ GoError.ErrStackOverflow

/-- No method of `Object` returns an error that is, or wraps, `ErrStackOverflow`: in
`vm.go` that error is set by the frame test of `OpCall` alone. -/
def HostNoOverflow (env : Env) : Prop :=
  (∀ w l t r e, env.BinaryOp w l t r = .error e → e.cause ≠ GoError.ErrStackOverflow) ∧
  (∀ w o i e, env.IndexGet w o i = .error e → e.cause ≠ GoError.ErrStackOverflow) ∧
  (∀ w o i x e, env.IndexSet w o i x = some e → e.cause ≠ GoError.ErrStackOverflow) ∧
  (∀ w f a e, env.Call w f a = .error e → e.cause ≠ GoError.ErrStackOverflow)

/-- The `OpCall` that the next iteration from `s` executes needs no new frame: the value
called, `stack[sp-1-numArgs]`, is not a `*CompiledFunction`, or it is the function of the
current frame and the call is followed by `OpReturn`, or by `OpPop` and `OpReturn`. -/
def needsNoFrame (env : Env) (s : VM) : Bool :=
  match getIdx s.curInsts (s.ip + 1 + 1) with
  | .ok numArgs =>
    match getIdx s.stack (s.sp - 1 - numArgs) with
    | .ok (.CompiledFunction callee) =>
      match s.frames[s.curFrame]? with
      | some cur =>
        decide (cur.fn.map (fun f => f.addr) = some callee.addr) &&
          (match isTailPosition env { s with ip := s.ip + 1 + 2 } with
            | .ok b => b
            | .error _ => false)
      | none => false
    | _ => true
  | .error _ => true

/-- The shape of a program whose main function calls a recursive function `f` that makes
no call of a compiled function but `return f(args)`: every `OpCall` that the run from `v0`
executes below the main function, at frame depth 2 or more, needs no new frame. -/
def OnlyMainPushes (env : Env) (v0 : VM) : Prop :=
  ∀ n s, stateAt env n v0 = some s → 2 ≤ s.framesIndex →
    nextOpcode env s = some Opcode.OpCall → needsNoFrame env s = true

namespace Demo

/-- The function `dec := func(n) { return n - 1 }`:
`GetLocal 0; Constant 2; BinaryOp -; Return 1`. -/
def decFn : CompiledFunction :=
  { addr := 10, Instructions := [25, 0, 0, 0, 2, 40, 12, 21, 1], NumLocals := 1,
    NumParameters := 1, VarArgs := false, Free := [] }

/-- The function `loop := func(n) { if n == 0 { return 0 }; return loop(dec(n)) }`, whose
body ends in `return loop(args)` and calls `dec` before:
`GetLocal 0; Constant 1; Equal; JumpFalsy 14; Constant 1; Return 1; Constant 0; Constant 4;
GetLocal 0; Call 1 0; Call 1 0; Return 1`. -/
def loopDecFn : CompiledFunction :=
  { addr := 11
    Instructions := [25, 0, 0, 0, 1, 5, 9, 0, 14, 0, 0, 1, 21, 1, 0, 0, 0, 0, 0, 4, 25, 0,
      20, 1, 0, 20, 1, 0, 21, 1]
    NumLocals := 1, NumParameters := 1, VarArgs := false, Free := [] }

/-- The machine `NewVM` builds for the main function `loop(n)` (the code of `tailMain`)
with the constants `loop`, 0, 1, `n` and `dec`, a stack of 8 slots, `MaxFrames = 2` and
`maxAllocs = -1`. -/
def loopDecVM (n : Int) : VM :=
  { constants := [.CompiledFunction loopDecFn, .Int 0, .Int 1, .Int n,
      .CompiledFunction decFn]
    stack := [.nil, .nil, .nil, .nil, .nil, .nil, .nil, .nil]
    sp := 0
    globals := []
    frames := [{ fn := some tailMain, freeVars := [], ip := -1, basePointer := 0 },
      Frame.zero]
    framesIndex := 1
    curFrame := 0
    curInsts := tailMain.Instructions
    ip := -1
    aborting := 0
    maxAllocs := -1
    allocs := 0
    err := none
    cells := []
    nextAddr := 100
    world := [] }

end Demo

/-! ## Theorems -/

/-! ### A tail-recursive loop of any depth -/

theorem run_ok {env : Env} {v v1 : VM} (fuel : Nat) (ha : v.aborting = 0)
    (hs : step env v = .ok v1) : run env (fuel + 1) v = run env fuel v1 := by
  simp only [run, if_pos ha, hs]

theorem run_ret {env : Env} {v v1 : VM} (fuel : Nat) (ha : v.aborting = 0)
    (hs : step env v = .error (.ret v1)) : run env (fuel + 1) v = some (.returned v1) := by
  simp only [run, if_pos ha, hs]

/-- One iteration on `OpConstant`. -/
theorem step_constant (env : Env) (v : VM) (op lo hi : Nat) (c : Object) (st : List Object)
    (h0 : getIdx v.curInsts (v.ip + 1) = .ok op) (ho : env.opcode op = some .OpConstant)
    (h1 : getIdx v.curInsts (v.ip + 1 + 2) = .ok lo)
    (h2 : getIdx v.curInsts (v.ip + 1 + 2 - 1) = .ok hi)
    (hc : getIdx v.constants ((lo ||| (hi <<< 8) : Nat) : Int) = .ok c)
    (hs : setIdx v.stack v.sp c = .ok st) :
    step env v = .ok { v with ip := v.ip + 1 + 2, stack := st, sp := v.sp + 1 } := by
  simp only [step, h0, ho, dispatch, opConstant, readU16, h1, h2, hc, push, hs, bind,
    Except.bind, pure, Except.pure]

/-- One iteration on `OpJumpFalsy` when the jump is taken. -/
theorem step_jumpFalsy (env : Env) (v : VM) (op lo hi : Nat) (x : Object)
    (h0 : getIdx v.curInsts (v.ip + 1) = .ok op) (ho : env.opcode op = some .OpJumpFalsy)
    (hx : getIdx v.stack (v.sp - 1) = .ok x) (hnil : x ≠ .nil)
    (hf : env.IsFalsy v.world x = true)
    (h1 : getIdx v.curInsts (v.ip + 1 + 2) = .ok lo)
    (h2 : getIdx v.curInsts (v.ip + 1 + 2 - 1) = .ok hi) :
    step env v = .ok { v with ip := ((lo ||| (hi <<< 8) : Nat) : Int) - 1, sp := v.sp - 1 } := by
  have hr : receiver x = .ok () := by
    cases x <;> first | exact absurd rfl hnil | rfl
  simp only [step, h0, ho, dispatch, opJumpFalsy, readU16, hx, hr, hf, h1, h2, bind,
    Except.bind, pure, Except.pure, if_true]

/-- One iteration on `OpEqual`. -/
theorem step_equal (env : Env) (v : VM) (op : Nat) (left right : Object) (b : Bool)
    (st : List Object)
    (h0 : getIdx v.curInsts (v.ip + 1) = .ok op) (ho : env.opcode op = some .OpEqual)
    (hr : getIdx v.stack (v.sp - 1) = .ok right) (hl : getIdx v.stack (v.sp - 2) = .ok left)
    (hnil : left ≠ .nil) (he : env.Equals v.world left right = b)
    (hs : setIdx v.stack (v.sp - 2) (if b then Object.True else Object.False) = .ok st) :
    step env v = .ok { v with ip := v.ip + 1, stack := st, sp := v.sp - 2 + 1 } := by
  have hrc : receiver left = .ok () := by
    cases left <;> first | exact absurd rfl hnil | rfl
  cases b with
  | true =>
    rw [if_pos rfl] at hs
    simp only [step, h0, ho, dispatch, opEqual, hr, hl, hrc, he, if_true, push, hs, bind,
      Except.bind, pure, Except.pure]
  | false =>
    simp only [Bool.false_eq_true, if_false] at hs
    simp only [step, h0, ho, dispatch, opEqual, hr, hl, hrc, he, Bool.false_eq_true, if_false,
      push, hs, bind, Except.bind, pure, Except.pure]

/-- One iteration on `OpBinaryOp` when the operation succeeds and the budget allows it. -/
theorem step_binaryOp (env : Env) (v : VM) (op tok : Nat) (left right res : Object)
    (st : List Object)
    (h0 : getIdx v.curInsts (v.ip + 1) = .ok op) (ho : env.opcode op = some .OpBinaryOp)
    (hr : getIdx v.stack (v.sp - 1) = .ok right) (hl : getIdx v.stack (v.sp - 2) = .ok left)
    (ht : getIdx v.curInsts (v.ip + 1 + 1) = .ok tok)
    (hnil : left ≠ .nil)
    (hres : env.BinaryOp v.world left tok right = .ok res)
    (ha : wrap64 (v.allocs - 1) ≠ 0)
    (hs : setIdx v.stack (v.sp - 2) res = .ok st) :
    step env v = .ok { v with
      ip := v.ip + 1 + 1, allocs := wrap64 (v.allocs - 1), stack := st, sp := v.sp - 1 } := by
  have hrc : receiver left = .ok () := by
    cases left <;> first | exact absurd rfl hnil | rfl
  simp only [step, h0, ho, dispatch, opBinaryOp, hr, hl, ht, hrc, hres, charge, hs, bind,
    Except.bind, pure, Except.pure]
  rw [if_neg ha]
  simp only [hs]

set_option maxRecDepth 100000 in
/-- One turn of `loop` with a nonzero argument `n`: nine iterations, from the entry of the
function to its entry again with the argument `n - 1`, in the same frame. -/
theorem tail_turn (n0 n a : Int) (j2 j3 j4 j5 : Object) (fuel : Nat) (hn : n ≠ 0)
    (ha : wrap64 (a - 1) ≠ 0) :
    run Demo.env (fuel + 9)
        (Demo.tailAt n0 [.CompiledFunction Demo.tailFn, .Int n, j2, j3, j4, j5] 2 (-1) a) =
      run Demo.env fuel
        (Demo.tailAt n0 [.CompiledFunction Demo.tailFn, .Int (wrap64 (n - 1)),
          .CompiledFunction Demo.tailFn, .Int (wrap64 (n - 1)), .Int 1, j5] 2 (-1)
          (wrap64 (a - 1))) := by
  have s1 : step Demo.env
      (Demo.tailAt n0 [.CompiledFunction Demo.tailFn, .Int n, j2, j3, j4, j5] 2 (-1) a) =
      .ok (Demo.tailAt n0 [.CompiledFunction Demo.tailFn, .Int n, .Int n, j3, j4, j5] 3 1 a) :=
    rfl
  have s2 : step Demo.env
      (Demo.tailAt n0 [.CompiledFunction Demo.tailFn, .Int n, .Int n, j3, j4, j5] 3 1 a) =
      .ok (Demo.tailAt n0 [.CompiledFunction Demo.tailFn, .Int n, .Int n, .Int 0, j4, j5]
        4 4 a) :=
    step_constant Demo.env _ 0 1 0 (.Int 0) _ rfl rfl rfl rfl rfl rfl
  have s3 : step Demo.env
      (Demo.tailAt n0 [.CompiledFunction Demo.tailFn, .Int n, .Int n, .Int 0, j4, j5] 4 4 a) =
      .ok (Demo.tailAt n0 [.CompiledFunction Demo.tailFn, .Int n, .False, .Int 0, j4, j5]
        3 5 a) :=
    step_equal Demo.env _ 5 (.Int n) (.Int 0) false _ rfl rfl rfl rfl
      (fun h => Object.noConfusion h) (decide_eq_false hn) rfl
  have s4 : step Demo.env
      (Demo.tailAt n0 [.CompiledFunction Demo.tailFn, .Int n, .False, .Int 0, j4, j5] 3 5 a) =
      .ok (Demo.tailAt n0 [.CompiledFunction Demo.tailFn, .Int n, .False, .Int 0, j4, j5]
        2 13 a) :=
    step_jumpFalsy Demo.env _ 9 14 0 .False rfl rfl rfl (fun h => Object.noConfusion h) rfl
      rfl rfl
  have s5 : step Demo.env
      (Demo.tailAt n0 [.CompiledFunction Demo.tailFn, .Int n, .False, .Int 0, j4, j5] 2 13 a) =
      .ok (Demo.tailAt n0 [.CompiledFunction Demo.tailFn, .Int n,
        .CompiledFunction Demo.tailFn, .Int 0, j4, j5] 3 16 a) :=
    step_constant Demo.env _ 0 0 0 (.CompiledFunction Demo.tailFn) _ rfl rfl rfl rfl rfl rfl
  have s6 : step Demo.env
      (Demo.tailAt n0 [.CompiledFunction Demo.tailFn, .Int n,
        .CompiledFunction Demo.tailFn, .Int 0, j4, j5] 3 16 a) =
      .ok (Demo.tailAt n0 [.CompiledFunction Demo.tailFn, .Int n,
        .CompiledFunction Demo.tailFn, .Int n, j4, j5] 4 18 a) :=
    rfl
  have s7 : step Demo.env
      (Demo.tailAt n0 [.CompiledFunction Demo.tailFn, .Int n,
        .CompiledFunction Demo.tailFn, .Int n, j4, j5] 4 18 a) =
      .ok (Demo.tailAt n0 [.CompiledFunction Demo.tailFn, .Int n,
        .CompiledFunction Demo.tailFn, .Int n, .Int 1, j5] 5 21 a) :=
    step_constant Demo.env _ 0 2 0 (.Int 1) _ rfl rfl rfl rfl rfl rfl
  have s8 : step Demo.env
      (Demo.tailAt n0 [.CompiledFunction Demo.tailFn, .Int n,
        .CompiledFunction Demo.tailFn, .Int n, .Int 1, j5] 5 21 a) =
      .ok (Demo.tailAt n0 [.CompiledFunction Demo.tailFn, .Int n,
        .CompiledFunction Demo.tailFn, .Int (wrap64 (n - 1)), .Int 1, j5] 4 23
        (wrap64 (a - 1))) :=
    step_binaryOp Demo.env _ 40 12 (.Int n) (.Int 1) (.Int (wrap64 (n - 1))) _ rfl rfl rfl rfl
      rfl (fun h => Object.noConfusion h) rfl ha rfl
  have s9 : step Demo.env
      (Demo.tailAt n0 [.CompiledFunction Demo.tailFn, .Int n,
        .CompiledFunction Demo.tailFn, .Int (wrap64 (n - 1)), .Int 1, j5] 4 23
        (wrap64 (a - 1))) =
      .ok (Demo.tailAt n0 [.CompiledFunction Demo.tailFn, .Int (wrap64 (n - 1)),
        .CompiledFunction Demo.tailFn, .Int (wrap64 (n - 1)), .Int 1, j5] 2 (-1)
        (wrap64 (a - 1))) :=
    rfl
  exact (run_ok (fuel + 8) rfl s1).trans ((run_ok (fuel + 7) rfl s2).trans
    ((run_ok (fuel + 6) rfl s3).trans ((run_ok (fuel + 5) rfl s4).trans
    ((run_ok (fuel + 4) rfl s5).trans ((run_ok (fuel + 3) rfl s6).trans
    ((run_ok (fuel + 2) rfl s7).trans ((run_ok (fuel + 1) rfl s8).trans
    (run_ok fuel rfl s9))))))))

set_option maxRecDepth 100000 in
/-- The last turn of `loop`, with the argument 0: six iterations to the `Return 1` that
delivers 0 to the main function, and the `Suspend` of the main function. -/
theorem tail_exit (n0 a : Int) (j2 j3 j4 j5 : Object) (fuel : Nat) :
    run Demo.env (fuel + 7)
        (Demo.tailAt n0 [.CompiledFunction Demo.tailFn, .Int 0, j2, j3, j4, j5] 2 (-1) a) =
      some (.returned { Demo.tailAt n0 [.Int 0, .Int 0, .Int 0, .Int 0, j4, j5] 1 9 a with
        framesIndex := 1
        curFrame := 0
        curInsts := Demo.tailMain.Instructions }) := by
  have s1 : step Demo.env
      (Demo.tailAt n0 [.CompiledFunction Demo.tailFn, .Int 0, j2, j3, j4, j5] 2 (-1) a) =
      .ok (Demo.tailAt n0 [.CompiledFunction Demo.tailFn, .Int 0, .Int 0, j3, j4, j5] 3 1 a) :=
    rfl
  have s2 : step Demo.env
      (Demo.tailAt n0 [.CompiledFunction Demo.tailFn, .Int 0, .Int 0, j3, j4, j5] 3 1 a) =
      .ok (Demo.tailAt n0 [.CompiledFunction Demo.tailFn, .Int 0, .Int 0, .Int 0, j4, j5]
        4 4 a) :=
    step_constant Demo.env _ 0 1 0 (.Int 0) _ rfl rfl rfl rfl rfl rfl
  have s3 : step Demo.env
      (Demo.tailAt n0 [.CompiledFunction Demo.tailFn, .Int 0, .Int 0, .Int 0, j4, j5] 4 4 a) =
      .ok (Demo.tailAt n0 [.CompiledFunction Demo.tailFn, .Int 0, .True, .Int 0, j4, j5]
        3 5 a) :=
    step_equal Demo.env _ 5 (.Int 0) (.Int 0) true _ rfl rfl rfl rfl
      (fun h => Object.noConfusion h) rfl rfl
  have s4 : step Demo.env
      (Demo.tailAt n0 [.CompiledFunction Demo.tailFn, .Int 0, .True, .Int 0, j4, j5] 3 5 a) =
      .ok (Demo.tailAt n0 [.CompiledFunction Demo.tailFn, .Int 0, .True, .Int 0, j4, j5]
        2 8 a) :=
    rfl
  have s5 : step Demo.env
      (Demo.tailAt n0 [.CompiledFunction Demo.tailFn, .Int 0, .True, .Int 0, j4, j5] 2 8 a) =
      .ok (Demo.tailAt n0 [.CompiledFunction Demo.tailFn, .Int 0, .Int 0, .Int 0, j4, j5]
        3 11 a) :=
    step_constant Demo.env _ 0 1 0 (.Int 0) _ rfl rfl rfl rfl rfl rfl
  have s6 : step Demo.env
      (Demo.tailAt n0 [.CompiledFunction Demo.tailFn, .Int 0, .Int 0, .Int 0, j4, j5] 3 11 a) =
      .ok { Demo.tailAt n0 [.Int 0, .Int 0, .Int 0, .Int 0, j4, j5] 1 8 a with
        framesIndex := 1
        curFrame := 0
        curInsts := Demo.tailMain.Instructions } :=
    rfl
  have s7 : step Demo.env
      { Demo.tailAt n0 [.Int 0, .Int 0, .Int 0, .Int 0, j4, j5] 1 8 a with
        framesIndex := 1
        curFrame := 0
        curInsts := Demo.tailMain.Instructions } =
      .error (.ret { Demo.tailAt n0 [.Int 0, .Int 0, .Int 0, .Int 0, j4, j5] 1 9 a with
        framesIndex := 1
        curFrame := 0
        curInsts := Demo.tailMain.Instructions }) :=
    rfl
  exact (run_ok (fuel + 6) rfl s1).trans ((run_ok (fuel + 5) rfl s2).trans
    ((run_ok (fuel + 4) rfl s3).trans ((run_ok (fuel + 3) rfl s4).trans
    ((run_ok (fuel + 2) rfl s5).trans ((run_ok (fuel + 1) rfl s6).trans
    (run_ret fuel rfl s7))))))

set_option maxRecDepth 100000 in
/-- The main function of `tailVM`: three iterations to the entry of `loop` in a new frame. -/
theorem tail_enter (n0 : Int) (fuel : Nat) :
    run Demo.env (fuel + 3) (Demo.tailVM n0) =
      run Demo.env fuel
        (Demo.tailAt n0 [.CompiledFunction Demo.tailFn, .Int n0, .nil, .nil, .nil, .nil] 2
          (-1) 0) := by
  have s1 : step Demo.env (Demo.tailVM n0) =
      .ok { Demo.tailVM n0 with
        stack := [.CompiledFunction Demo.tailFn, .nil, .nil, .nil, .nil, .nil]
        sp := 1
        ip := 2 } :=
    step_constant Demo.env _ 0 0 0 (.CompiledFunction Demo.tailFn) _ rfl rfl rfl rfl rfl rfl
  have s2 : step Demo.env
      { Demo.tailVM n0 with
        stack := [.CompiledFunction Demo.tailFn, .nil, .nil, .nil, .nil, .nil]
        sp := 1
        ip := 2 } =
      .ok { Demo.tailVM n0 with
        stack := [.CompiledFunction Demo.tailFn, .Int n0, .nil, .nil, .nil, .nil]
        sp := 2
        ip := 5 } :=
    step_constant Demo.env _ 0 3 0 (.Int n0) _ rfl rfl rfl rfl rfl rfl
  have s3 : step Demo.env
      { Demo.tailVM n0 with
        stack := [.CompiledFunction Demo.tailFn, .Int n0, .nil, .nil, .nil, .nil]
        sp := 2
        ip := 5 } =
      .ok (Demo.tailAt n0 [.CompiledFunction Demo.tailFn, .Int n0, .nil, .nil, .nil, .nil] 2
        (-1) 0) :=
    rfl
  exact (run_ok (fuel + 2) rfl s1).trans ((run_ok (fuel + 1) rfl s2).trans
    (run_ok fuel rfl s3))

/-- From the entry of `loop` with the argument `k`, whatever the depth `k`, the run ends
after `9 * k + 7` iterations in the frame of the main function, with 0 delivered. -/
theorem tail_loop (n0 : Int) : ∀ (k : Nat) (a : Int) (j2 j3 j4 j5 : Object),
    a ≤ 0 → (k : Int) - a < 2 ^ 62 →
    ∃ w, run Demo.env (9 * k + 7)
        (Demo.tailAt n0 [.CompiledFunction Demo.tailFn, .Int k, j2, j3, j4, j5] 2 (-1) a) =
        some (.returned w) ∧
      w.err = none ∧ w.sp = 1 ∧ w.stack.take 1 = [.Int 0] ∧ w.framesIndex = 1 := by
  intro k
  induction k with
  | zero =>
    intro a j2 j3 j4 j5 _ _
    exact ⟨_, tail_exit n0 a j2 j3 j4 j5 0, rfl, rfl, rfl, rfl⟩
  | succ k ih =>
    intro a j2 j3 j4 j5 ha hk
    push_cast at hk
    have hn : ((k + 1 : Nat) : Int) ≠ 0 := by
      push_cast
      omega
    have ha1 : wrap64 (a - 1) = a - 1 := by
      unfold wrap64
      omega
    have hn1 : wrap64 (((k + 1 : Nat) : Int) - 1) = k := by
      unfold wrap64
      push_cast
      omega
    have hne : wrap64 (a - 1) ≠ 0 := by
      rw [ha1]
      omega
    have hturn := tail_turn n0 ((k + 1 : Nat) : Int) a j2 j3 j4 j5 (9 * k + 7) hn hne
    rw [hn1, ha1] at hturn
    obtain ⟨w, hw, h1, h2, h3, h4⟩ := ih (a - 1) (.CompiledFunction Demo.tailFn) (.Int k)
      (.Int 1) j5 (by omega) (by omega)
    refine ⟨w, ?_, h1, h2, h3, h4⟩
    rw [← hw, ← hturn]
    rfl

set_option maxRecDepth 100000 in
/-- The program `loop(k)` on a machine with `MaxFrames = 2` returns nil and delivers 0 for
every depth `k`: the frame of the first call of `loop` is the only one it uses. -/
theorem tail_loop_any_depth (k : Nat) (hk : (k : Int) < 2 ^ 62) :
    (Demo.tailVM k).MaxFrames = 2 ∧
    Demo.delivered (Run Demo.env (9 * k + 10) (Demo.tailVM k)) = some (none, 1, [.Int 0]) := by
  refine ⟨rfl, ?_⟩
  obtain ⟨w, hw, h1, h2, h3, _⟩ := tail_loop k k 0 .nil .nil .nil .nil (le_refl 0) (by omega)
  have hreset : reset (Demo.tailVM k) = some (Demo.tailVM k) := rfl
  have hrun : run Demo.env (9 * k + 10) (Demo.tailVM k) = some (.returned w) := by
    rw [← hw]
    exact tail_enter k (9 * k + 7)
  simp only [Run, hreset, hrun, finish, h1, Demo.delivered, h2, Int.toNat_one, h3]

/-! ### Calls, returns and slices -/

theorem sliceBounds_le (env : Env) (v : VM) (lowIdx highIdx n : Int) (high : Object)
    (hn : 0 ≤ n)
    (hhigh : high = .Undefined ∧ highIdx = n ∨ high = .Int highIdx) (hle : lowIdx ≤ highIdx) :
    sliceBounds env v lowIdx high n = .ok (max 0 (min lowIdx n), max 0 (min highIdx n)) := by
  have hnot : ¬ lowIdx > highIdx := not_lt.mpr hle
  rcases hhigh with ⟨rfl, hh⟩ | rfl
  · subst hh
    simp only [sliceBounds, bind, Except.bind, pure, Except.pure]
    rw [if_neg hnot]
    refine congrArg _ (Prod.ext ?_ ?_) <;> dsimp only <;> split_ifs <;> omega
  · simp only [sliceBounds, bind, Except.bind, pure, Except.pure]
    rw [if_neg hnot]
    refine congrArg _ (Prod.ext ?_ ?_) <;> dsimp only <;> split_ifs <;> omega

theorem sliceBounds_gt (env : Env) (v : VM) (lowIdx highIdx n : Int) (high : Object)
    (hhigh : high = .Undefined ∧ highIdx = n ∨ high = .Int highIdx) (hgt : lowIdx > highIdx) :
    sliceBounds env v lowIdx high n =
      fail v (GoError.Errorf "geçersiz slice index: %d > %d" [Arg.d lowIdx, Arg.d highIdx]) := by
  rcases hhigh with ⟨rfl, rfl⟩ | rfl
  · simp only [sliceBounds, bind, Except.bind, pure, Except.pure, hgt, if_true]
  · simp only [sliceBounds, bind, Except.bind, pure, Except.pure, hgt, if_true]

theorem getIdx_ok {α : Type} {xs : List α} {i : Int} {x : α} (h : getIdx xs i = .ok x) :
    0 ≤ i ∧ i < xs.length ∧ xs[i.toNat]? = some x := by
  unfold getIdx at h
  split at h
  · rename_i h0
    split at h
    · rename_i y hy
      simp only [pure, Except.pure, Except.ok.injEq] at h
      subst h
      refine ⟨h0, ?_, hy⟩
      have := (List.getElem?_eq_some.mp hy).1
      omega
    · simp [throw, throwThe, MonadExceptOf.throw] at h
  · simp [throw, throwThe, MonadExceptOf.throw] at h

theorem setIdx_of_lt {α : Type} (xs : List α) (i : Int) (x : α) (h0 : 0 ≤ i)
    (h1 : i < xs.length) : setIdx xs i x = .ok (xs.set i.toNat x) := by
  simp [setIdx, h0, h1, pure, Except.pure]

theorem sliceExpr_of_le {α : Type} (xs : List α) (lo hi : Int) (h0 : 0 ≤ lo) (h1 : lo ≤ hi)
    (h2 : hi ≤ xs.length) : sliceExpr xs lo hi = .ok ((xs.drop lo.toNat).take (hi - lo).toNat) := by
  simp [sliceExpr, h0, h1, h2, pure, Except.pure]

theorem charge_ok (v : VM) (h : wrap64 (v.allocs - 1) ≠ 0) :
    charge v = .ok { v with allocs := wrap64 (v.allocs - 1) } := by
  simp [charge, h, pure, Except.pure]

/-- The state `OpSliceIndex` continues in when it pushes `val`. -/
theorem opSliceIndex_push (env : Env) (v : VM) (left low high : Object) (lowIdx highIdx : Int)
    (n : Nat)
    (hleft : getIdx v.stack (v.sp - 3) = .ok left)
    (hlow : getIdx v.stack (v.sp - 2) = .ok low)
    (hhigh : getIdx v.stack (v.sp - 1) = .ok high)
    (hl : low = .Undefined ∧ lowIdx = 0 ∨ low = .Int lowIdx)
    (hh : high = .Undefined ∧ highIdx = n ∨ high = .Int highIdx)
    (hbudget : wrap64 (v.allocs - 1) ≠ 0) (hle : lowIdx ≤ highIdx) :
    (∀ xs : GoBytes, xs.length = n →
      (left = .String xs → opSliceIndex env v = .ok { v with
        sp := v.sp - 3 + 1
        allocs := wrap64 (v.allocs - 1)
        stack := v.stack.set (v.sp - 3).toNat (.String
          ((xs.drop (max 0 (min lowIdx n)).toNat).take
            (max 0 (min highIdx n) - max 0 (min lowIdx n)).toNat)) }) ∧
      (left = .Bytes xs → opSliceIndex env v = .ok { v with
        sp := v.sp - 3 + 1
        allocs := wrap64 (v.allocs - 1)
        stack := v.stack.set (v.sp - 3).toNat (.Bytes
          ((xs.drop (max 0 (min lowIdx n)).toNat).take
            (max 0 (min highIdx n) - max 0 (min lowIdx n)).toNat)) })) ∧
    (∀ xs : List Object, xs.length = n →
      (left = .Array xs ∨ left = .ImmutableArray xs) → opSliceIndex env v = .ok { v with
        sp := v.sp - 3 + 1
        allocs := wrap64 (v.allocs - 1)
        stack := v.stack.set (v.sp - 3).toNat (.Array
          ((xs.drop (max 0 (min lowIdx n)).toNat).take
            (max 0 (min highIdx n) - max 0 (min lowIdx n)).toNat)) }) := by
  obtain ⟨h0, h1, -⟩ := getIdx_ok hleft
  have hb := sliceBounds_le env { v with sp := v.sp - 3 } lowIdx highIdx n high
    (by omega) hh hle
  have hs : ∀ {α : Type} (xs : List α), xs.length = n →
      sliceExpr xs (max 0 (min lowIdx n)) (max 0 (min highIdx n)) =
        .ok ((xs.drop (max 0 (min lowIdx n)).toNat).take
          (max 0 (min highIdx n) - max 0 (min lowIdx n)).toNat) := by
    intro α xs hxs
    exact sliceExpr_of_le xs _ _ (by omega) (by omega) (by omega)
  refine ⟨fun xs hxs => ⟨?_, ?_⟩, fun xs hxs hk => ?_⟩
  · rintro rfl
    rcases hl with ⟨rfl, rfl⟩ | rfl <;>
    · simp only [opSliceIndex, hleft, hlow, hhigh, bind, Except.bind, pure, Except.pure, hxs,
        hb, hs xs hxs, charge, push, setIdx, fail]
      rw [if_neg hbudget]
      simp only [h0, h1, and_self, if_true]
  · rintro rfl
    rcases hl with ⟨rfl, rfl⟩ | rfl <;>
    · simp only [opSliceIndex, hleft, hlow, hhigh, bind, Except.bind, pure, Except.pure, hxs,
        hb, hs xs hxs, charge, push, setIdx, fail]
      rw [if_neg hbudget]
      simp only [h0, h1, and_self, if_true]
  · rcases hk with rfl | rfl <;> rcases hl with ⟨rfl, rfl⟩ | rfl <;>
    · simp only [opSliceIndex, hleft, hlow, hhigh, bind, Except.bind, pure, Except.pure, hxs,
        hb, hs xs hxs, charge, push, setIdx, fail]
      rw [if_neg hbudget]
      simp only [h0, h1, and_self, if_true]

/-- `OpSliceIndex` on a sliceable value with `low > high` returns the error. -/
theorem opSliceIndex_gt (env : Env) (v : VM) (left low high : Object) (lowIdx highIdx : Int)
    (n : Nat)
    (hleft : getIdx v.stack (v.sp - 3) = .ok left)
    (hlow : getIdx v.stack (v.sp - 2) = .ok low)
    (hhigh : getIdx v.stack (v.sp - 1) = .ok high)
    (hl : low = .Undefined ∧ lowIdx = 0 ∨ low = .Int lowIdx)
    (hh : high = .Undefined ∧ highIdx = n ∨ high = .Int highIdx)
    (hk : (∃ xs : GoBytes, xs.length = n ∧ (left = .String xs ∨ left = .Bytes xs)) ∨
      (∃ xs : List Object, xs.length = n ∧ (left = .Array xs ∨ left = .ImmutableArray xs)))
    (hgt : lowIdx > highIdx) :
    opSliceIndex env v = fail { v with sp := v.sp - 3 }
      (GoError.Errorf "geçersiz slice index: %d > %d" [Arg.d lowIdx, Arg.d highIdx]) := by
  have hb := sliceBounds_gt env { v with sp := v.sp - 3 } lowIdx highIdx n high hh hgt
  rcases hk with ⟨xs, hxs, rfl | rfl⟩ | ⟨xs, hxs, rfl | rfl⟩ <;>
    rcases hl with ⟨rfl, rfl⟩ | rfl <;>
    · simp only [opSliceIndex, hleft, hlow, hhigh, bind, Except.bind, pure, Except.pure, hxs, hb]
      rfl

/-- `OpSliceIndex` on a sliceable value with `low ≤ high` whose charge brings the counter
to 0 returns `ErrObjectAllocLimit`. -/
theorem opSliceIndex_spent (env : Env) (v : VM) (left low high : Object) (lowIdx highIdx : Int)
    (n : Nat)
    (hleft : getIdx v.stack (v.sp - 3) = .ok left)
    (hlow : getIdx v.stack (v.sp - 2) = .ok low)
    (hhigh : getIdx v.stack (v.sp - 1) = .ok high)
    (hl : low = .Undefined ∧ lowIdx = 0 ∨ low = .Int lowIdx)
    (hh : high = .Undefined ∧ highIdx = n ∨ high = .Int highIdx)
    (hk : (∃ xs : GoBytes, xs.length = n ∧ (left = .String xs ∨ left = .Bytes xs)) ∨
      (∃ xs : List Object, xs.length = n ∧ (left = .Array xs ∨ left = .ImmutableArray xs)))
    (hspent : wrap64 (v.allocs - 1) = 0) (hle : lowIdx ≤ highIdx) :
    opSliceIndex env v = fail { v with sp := v.sp - 3, allocs := wrap64 (v.allocs - 1) }
      GoError.ErrObjectAllocLimit := by
  have hb := sliceBounds_le env { v with sp := v.sp - 3 } lowIdx highIdx n high
    (by omega) hh hle
  have hs : ∀ {α : Type} (xs : List α), xs.length = n →
      sliceExpr xs (max 0 (min lowIdx n)) (max 0 (min highIdx n)) =
        .ok ((xs.drop (max 0 (min lowIdx n)).toNat).take
          (max 0 (min highIdx n) - max 0 (min lowIdx n)).toNat) := by
    intro α xs hxs
    exact sliceExpr_of_le xs _ _ (by omega) (by omega) (by omega)
  rcases hk with ⟨xs, hxs, rfl | rfl⟩ | ⟨xs, hxs, rfl | rfl⟩ <;>
    rcases hl with ⟨rfl, rfl⟩ | rfl <;>
    · simp only [opSliceIndex, hleft, hlow, hhigh, bind, Except.bind, pure, Except.pure, hxs,
        hb, hs xs hxs, charge]
      rw [if_pos hspent]
      rfl

theorem typeName_ne_nil (env : Env) (o : Object) (h : o ≠ .nil) :
    typeName env o = .ok (env.TypeName o) := by
  cases o <;> first | exact absurd rfl h | rfl

/-- C8 (slice clamping), amended.  `OpSliceIndex` on a String, Bytes, Array or
ImmutableArray of length `n`.  When `low` and `high` are each an Int or Undefined (standing
for 0 and `n`), the instruction stops if and only if `low > high` or its charge brings the
allocation counter to 0: with the slice-index error when `low > high`, and else with
`ErrObjectAllocLimit`.  Otherwise it replaces the three operands by the sub-range
`[max 0 (min low n), max 0 (min high n))` of the payload (an Array for both kinds of array),
and for `low ≤ high` these bounds satisfy `0 ≤ lo ≤ hi ≤ n`.  A `low` that is neither Int
nor Undefined, and a `high` that is neither after a valid `low`, stop with the
invalid-slice-index error naming the operand's type. -/
theorem sliceIndex_clamps (env : Env) (v : VM) (left low high : Object) (n : Nat)
    (hleft : getIdx v.stack (v.sp - 3) = .ok left)
    (hlow : getIdx v.stack (v.sp - 2) = .ok low)
    (hhigh : getIdx v.stack (v.sp - 1) = .ok high)
    (hk : (∃ xs : GoBytes, xs.length = n ∧ (left = .String xs ∨ left = .Bytes xs)) ∨
      (∃ xs : List Object, xs.length = n ∧ (left = .Array xs ∨ left = .ImmutableArray xs))) :
    (∀ lowIdx highIdx : Int,
      (low = .Undefined ∧ lowIdx = 0 ∨ low = .Int lowIdx) →
      (high = .Undefined ∧ highIdx = n ∨ high = .Int highIdx) →
      ((∃ s, opSliceIndex env v = .error s) ↔
        (lowIdx > highIdx ∨ wrap64 (v.allocs - 1) = 0)) ∧
      (lowIdx > highIdx → opSliceIndex env v = fail { v with sp := v.sp - 3 }
        (GoError.Errorf "geçersiz slice index: %d > %d" [Arg.d lowIdx, Arg.d highIdx])) ∧
      (lowIdx ≤ highIdx → wrap64 (v.allocs - 1) = 0 →
        opSliceIndex env v = fail { v with sp := v.sp - 3, allocs := wrap64 (v.allocs - 1) }
          GoError.ErrObjectAllocLimit) ∧
      (lowIdx ≤ highIdx →
        0 ≤ max 0 (min lowIdx n) ∧ max 0 (min lowIdx n) ≤ max 0 (min highIdx n) ∧
        max 0 (min highIdx n) ≤ n) ∧
      (lowIdx ≤ highIdx → wrap64 (v.allocs - 1) ≠ 0 →
        ∃ val, opSliceIndex env v = .ok { v with
            sp := v.sp - 3 + 1
            allocs := wrap64 (v.allocs - 1)
            stack := v.stack.set (v.sp - 3).toNat val } ∧
          ((∃ xs : GoBytes, left = .String xs ∧ val = .String
              ((xs.drop (max 0 (min lowIdx n)).toNat).take
                (max 0 (min highIdx n) - max 0 (min lowIdx n)).toNat)) ∨
           (∃ xs : GoBytes, left = .Bytes xs ∧ val = .Bytes
              ((xs.drop (max 0 (min lowIdx n)).toNat).take
                (max 0 (min highIdx n) - max 0 (min lowIdx n)).toNat)) ∨
           (∃ xs : List Object, (left = .Array xs ∨ left = .ImmutableArray xs) ∧ val = .Array
              ((xs.drop (max 0 (min lowIdx n)).toNat).take
                (max 0 (min highIdx n) - max 0 (min lowIdx n)).toNat))))) ∧
    ((∀ i, low ≠ .Int i) → low ≠ .Undefined → low ≠ .nil →
      opSliceIndex env v = fail { v with sp := v.sp - 3 }
        (GoError.Errorf "geçersiz slice index: %s" [Arg.s (env.TypeName low)])) ∧
    (∀ lowIdx : Int, (low = .Undefined ∧ lowIdx = 0 ∨ low = .Int lowIdx) →
      (∀ i, high ≠ .Int i) → high ≠ .Undefined → high ≠ .nil →
      opSliceIndex env v = fail { v with sp := v.sp - 3 }
        (GoError.Errorf "geçersiz slice index: %s" [Arg.s (env.TypeName high)])) := by
  refine ⟨fun lowIdx highIdx hl hh => ?_, fun hi hu hn => ?_, fun lowIdx hl hi hu hn => ?_⟩
  · have hgt := opSliceIndex_gt env v left low high lowIdx highIdx n hleft hlow hhigh hl hh hk
    have hspent := opSliceIndex_spent env v left low high lowIdx highIdx n hleft hlow hhigh
      hl hh hk
    have hval : lowIdx ≤ highIdx → wrap64 (v.allocs - 1) ≠ 0 →
        ∃ val, opSliceIndex env v = .ok { v with
            sp := v.sp - 3 + 1
            allocs := wrap64 (v.allocs - 1)
            stack := v.stack.set (v.sp - 3).toNat val } ∧
          ((∃ xs : GoBytes, left = .String xs ∧ val = .String
              ((xs.drop (max 0 (min lowIdx n)).toNat).take
                (max 0 (min highIdx n) - max 0 (min lowIdx n)).toNat)) ∨
           (∃ xs : GoBytes, left = .Bytes xs ∧ val = .Bytes
              ((xs.drop (max 0 (min lowIdx n)).toNat).take
                (max 0 (min highIdx n) - max 0 (min lowIdx n)).toNat)) ∨
           (∃ xs : List Object, (left = .Array xs ∨ left = .ImmutableArray xs) ∧ val = .Array
              ((xs.drop (max 0 (min lowIdx n)).toNat).take
                (max 0 (min highIdx n) - max 0 (min lowIdx n)).toNat))) := by
      intro hle hbudget
      have hok := opSliceIndex_push env v left low high lowIdx highIdx n hleft hlow hhigh
        hl hh hbudget hle
      rcases hk with ⟨xs, hxs, h | h⟩ | ⟨xs, hxs, h⟩
      · exact ⟨_, (hok.1 xs hxs).1 h, Or.inl ⟨xs, h, rfl⟩⟩
      · exact ⟨_, (hok.1 xs hxs).2 h, Or.inr (Or.inl ⟨xs, h, rfl⟩)⟩
      · exact ⟨_, hok.2 xs hxs h, Or.inr (Or.inr ⟨xs, h, rfl⟩)⟩
    refine ⟨⟨fun ⟨s, hs⟩ => ?_, fun h => ?_⟩, hgt, fun hle h0 => hspent h0 hle,
      fun hle => ⟨by omega, by omega, by omega⟩, hval⟩
    · by_contra hnot
      obtain ⟨hnot1, hnot2⟩ := not_or.mp hnot
      obtain ⟨val, hv, -⟩ := hval (not_lt.mp hnot1) hnot2
      rw [hv] at hs
      cases hs
    · by_cases hgt1 : lowIdx > highIdx
      · exact ⟨_, hgt hgt1⟩
      · exact ⟨_, hspent (h.resolve_left hgt1) (not_lt.mp hgt1)⟩
  · have ht := typeName_ne_nil env low hn
    cases low <;>
      first
      | exact absurd rfl hu
      | exact absurd rfl hn
      | exact absurd rfl (hi _)
      | (simp only [opSliceIndex, hleft, hlow, hhigh, bind, Except.bind, ht]; rfl)
  · have ht := typeName_ne_nil env high hn
    have hb : ∀ m : Int, sliceBounds env { v with sp := v.sp - 3 } lowIdx high m =
        fail { v with sp := v.sp - 3 }
          (GoError.Errorf "geçersiz slice index: %s" [Arg.s (env.TypeName high)]) := by
      intro m
      cases high <;>
        first
        | exact absurd rfl hu
        | exact absurd rfl hn
        | exact absurd rfl (hi _)
        | (simp only [sliceBounds, bind, Except.bind, ht]; rfl)
    rcases hk with ⟨xs, hxs, rfl | rfl⟩ | ⟨xs, hxs, rfl | rfl⟩ <;>
      rcases hl with ⟨rfl, rfl⟩ | rfl <;>
      · simp only [opSliceIndex, hleft, hlow, hhigh, bind, Except.bind, pure, Except.pure, hb]
        rfl

theorem sliceIndex_clamps_witness :
    opSliceIndex Demo.env Demo.sliceHello = .ok { Demo.sliceHello with
      sp := 1
      allocs := 10
      stack := [.String [104, 101, 108, 108, 111], .Int (-1), .Int 100, .nil] } := by
  have h := (sliceIndex_clamps Demo.env Demo.sliceHello (.String [104, 101, 108, 108, 111])
    (.Int (-1)) (.Int 100) 5 rfl rfl rfl (Or.inl ⟨[104, 101, 108, 108, 111], rfl, Or.inl rfl⟩)).1
    (-1) 100 (Or.inr rfl) (Or.inr rfl)
  obtain ⟨val, hv, hval⟩ := h.2.2.2.2 (by decide) (by decide)
  rw [hv]
  rcases hval with ⟨xs, hx, rfl⟩ | ⟨xs, hx, rfl⟩ | ⟨xs, hx | hx, rfl⟩
  · cases hx
    rfl
  · cases hx
  · cases hx
  · cases hx

/-- C8 as written fails: `"hello"[-1:100]` has `low ≤ high`, and with `maxAllocs = 0` the
`OpSliceIndex` of the program `Constant "hello"; Constant -1; Constant 100; SliceIndex;
Suspend` stops, with `ErrObjectAllocLimit`, and `Run` returns that error. -/
theorem sliceIndex_stops_within_bounds :
    ¬ ((-1 : Int) > 100) ∧
    opSliceIndex Demo.env { Demo.sliceHello with allocs := 1 } =
      .error (.ret { Demo.sliceHello with
        sp := 0, allocs := 0, err := some GoError.ErrObjectAllocLimit }) ∧
    ∃ w e, Run Demo.env 5 Demo.sliceRunVM = some (.returned w (some e)) ∧
      e.cause = GoError.ErrObjectAllocLimit :=
  ⟨by decide, rfl, _, _, rfl, rfl⟩

theorem receiver_ne_nil (o : Object) (h : o ≠ .nil) : receiver o = .ok () := by
  cases o <;> first | exact absurd rfl h | rfl

/-- A call without spread of a compiled function goes to `callCompiled`. -/
theorem opCall_compiled (env : Env) (v : VM) (numArgs spread : Nat) (callee : CompiledFunction)
    (hn : getIdx v.curInsts (v.ip + 1) = .ok numArgs)
    (hs : getIdx v.curInsts (v.ip + 2) = .ok spread) (hspread : spread ≠ 1)
    (hv : getIdx v.stack (v.sp - 1 - numArgs) = .ok (.CompiledFunction callee))
    (hc : env.CanCall (.CompiledFunction callee) = true) :
    opCall env v = callCompiled env { v with ip := v.ip + 2 } callee numArgs := by
  simp only [opCall, hn, hs, hv, bind, Except.bind, receiver, pure, Except.pure, hc,
    Bool.not_true, if_neg hspread]
  rfl

/-- What the arity check of `callCompiled` reports. -/
theorem callCompiled_arity (env : Env) (v : VM) (callee : CompiledFunction) (numArgs : Int) :
    ((callee.VarArgs = false ∧ numArgs ≠ callee.NumParameters) →
      callCompiled env v callee numArgs = fail v
        (GoError.Errorf "yanlış argüman sayısı: want=%d, got=%d"
          [Arg.d callee.NumParameters, Arg.d numArgs])) ∧
    ((callee.VarArgs = true ∧ numArgs < callee.NumParameters - 1) →
      callCompiled env v callee numArgs = fail v
        (GoError.Errorf "yanlış argüman sayısı: want>=%d, got=%d"
          [Arg.d (callee.NumParameters - 1), Arg.d numArgs])) := by
  constructor
  · rintro ⟨hva, hne⟩
    simp [callCompiled, gatherVarArgs, hva, hne, bind, Except.bind, pure, Except.pure]
  · rintro ⟨hva, hlt⟩
    have h1 : ¬ (numArgs - (callee.NumParameters - 1) ≥ 0) := by omega
    have h2 : numArgs ≠ callee.NumParameters := by omega
    simp [callCompiled, gatherVarArgs, hva, h1, h2, bind, Except.bind, pure, Except.pure]

theorem getIdx_ne_ret {α : Type} (xs : List α) (i : Int) (w : VM) :
    getIdx xs i ≠ .error (.ret w) := by
  unfold getIdx
  split
  · split <;> simp [pure, Except.pure, throw, throwThe, MonadExceptOf.throw]
  · simp [throw, throwThe, MonadExceptOf.throw]

theorem setIdx_ne_ret {α : Type} (xs : List α) (i : Int) (x : α) (w : VM) :
    setIdx xs i x ≠ .error (.ret w) := by
  unfold setIdx
  split <;> simp [pure, Except.pure, throw, throwThe, MonadExceptOf.throw]

theorem readRange_ne_ret {α : Type} (xs : List α) (lo hi : Int) (w : VM) :
    readRange xs lo hi ≠ .error (.ret w) := by
  unfold readRange
  split
  · simp [pure, Except.pure]
  · split <;> simp [pure, Except.pure, throw, throwThe, MonadExceptOf.throw]

theorem curFrameVal_ne_ret (v w : VM) : curFrameVal v ≠ .error (.ret w) := by
  unfold curFrameVal
  split <;> simp [pure, Except.pure, throw, throwThe, MonadExceptOf.throw]

theorem copyArgs_ne_ret (bp src : Int) (n : Nat) (p : Int) (st : List Object) (w : VM) :
    copyArgs bp src n p st ≠ .error (.ret w) := by
  induction n generalizing p st with
  | zero => simp [copyArgs, pure, Except.pure]
  | succ n ih =>
    simp only [copyArgs, bind, Except.bind]
    split
    · rename_i e he
      intro h
      cases h
      exact getIdx_ne_ret _ _ _ he
    · split
      · rename_i e he
        intro h
        cases h
        exact setIdx_ne_ret _ _ _ _ he
      · exact ih _ _

theorem isTailPosition_ne_ret (env : Env) (v w : VM) :
    isTailPosition env v ≠ .error (.ret w) := by
  simp only [isTailPosition, bind, Except.bind]
  split
  · rename_i e he
    intro h
    cases h
    exact getIdx_ne_ret _ _ _ he
  · split
    · simp [pure, Except.pure]
    · split
      · split
        · rename_i e he
          intro h
          cases h
          exact getIdx_ne_ret _ _ _ he
        · simp [pure, Except.pure]
      · simp [pure, Except.pure]

theorem elideCall_ne_ret (v : VM) (cur : Frame) (n : Int) (w : VM) :
    elideCall v cur n ≠ .error (.ret w) := by
  simp only [elideCall, bind, Except.bind]
  split
  · rename_i e he
    intro h
    cases h
    exact copyArgs_ne_ret _ _ _ _ _ _ he
  · simp [pure, Except.pure]

theorem gatherVarArgs_ne_ret (v : VM) (callee : CompiledFunction) (n : Int) (w : VM) :
    gatherVarArgs v callee n ≠ .error (.ret w) := by
  unfold gatherVarArgs
  split
  · dsimp only
    split
    · simp only [bind, Except.bind]
      split
      · rename_i e he
        intro h
        cases h
        exact readRange_ne_ret _ _ _ _ he
      · split
        · rename_i e he
          intro h
          cases h
          exact setIdx_ne_ret _ _ _ _ he
        · simp [pure, Except.pure]
    · simp [pure, Except.pure]
  · simp [pure, Except.pure]

/-- The only error `pushFrame` returns is the stack overflow, and it leaves the frames alone. -/
theorem pushFrame_ret (v : VM) (cur : Frame) (callee : CompiledFunction) (n : Int) (w : VM)
    (h : pushFrame v cur callee n = .error (.ret w)) :
    w = { v with err := some GoError.ErrStackOverflow } := by
  unfold pushFrame at h
  split at h
  · simp only [fail, throw, throwThe, MonadExceptOf.throw, Except.error.injEq,
      Stop.ret.injEq] at h
    exact h.symm
  · simp only [bind, Except.bind] at h
    split at h
    · rename_i e he
      cases h
      exact absurd he (setIdx_ne_ret _ _ _ _)
    · split at h
      · rename_i e he
        cases h
        exact absurd he (getIdx_ne_ret _ _ _)
      · split at h
        · rename_i e he
          cases h
          exact absurd he (setIdx_ne_ret _ _ _ _)
        · simp [pure, Except.pure] at h

/-- After `gatherVarArgs` an admissible argument count equals `NumParameters`; only `stack`
and `sp` may have changed. -/
theorem gatherVarArgs_ok (v : VM) (callee : CompiledFunction) (n : Int) (v2 : VM) (n2 : Int)
    (h : gatherVarArgs v callee n = .ok (v2, n2))
    (hpass : (callee.VarArgs = false ∧ n = callee.NumParameters) ∨
      (callee.VarArgs = true ∧ n ≥ callee.NumParameters - 1)) :
    n2 = callee.NumParameters ∧ ∃ st sp, v2 = { v with stack := st, sp := sp } := by
  unfold gatherVarArgs at h
  rcases hpass with ⟨hva, hn⟩ | ⟨hva, hn⟩
  · simp only [hva, Bool.false_eq_true, if_false, pure, Except.pure, Except.ok.injEq,
      Prod.mk.injEq] at h
    exact ⟨by rw [← h.2, hn], v.stack, v.sp, h.1.symm⟩
  · have hge : n - (callee.NumParameters - 1) ≥ 0 := by omega
    simp only [hva, if_true, hge, bind, Except.bind] at h
    split at h
    · cases h
    · split at h
      · cases h
      · simp only [pure, Except.pure, Except.ok.injEq, Prod.mk.injEq] at h
        exact ⟨by rw [← h.2]; omega, _, _, h.1.symm⟩

/-- When the arity check passes, the only error `callCompiled` returns is the stack
overflow. -/
theorem callCompiled_ret (env : Env) (v : VM) (callee : CompiledFunction) (n : Int) (w : VM)
    (hpass : (callee.VarArgs = false ∧ n = callee.NumParameters) ∨
      (callee.VarArgs = true ∧ n ≥ callee.NumParameters - 1))
    (h : callCompiled env v callee n = .error (.ret w)) :
    w.err = some GoError.ErrStackOverflow ∧ w.frames = v.frames ∧
      w.framesIndex = v.framesIndex := by
  simp only [callCompiled, bind, Except.bind] at h
  split at h
  · rename_i e he
    cases h
    exact absurd he (gatherVarArgs_ne_ret _ _ _ _)
  · rename_i r hr
    obtain ⟨v2, n2⟩ := r
    obtain ⟨hn2, st, sp, rfl⟩ := gatherVarArgs_ok v callee n v2 n2 hr hpass
    simp only [hn2, ne_eq, not_true_eq_false, if_false] at h
    split at h
    · rename_i e he
      cases h
      exact absurd he (curFrameVal_ne_ret _ _)
    · rename_i cur hcur
      split at h
      · split at h
        · rename_i e he
          cases h
          exact absurd he (isTailPosition_ne_ret _ _ _)
        · split at h
          · exact absurd h (elideCall_ne_ret _ _ _ _)
          · have := pushFrame_ret _ _ _ _ _ h
            subst this
            exact ⟨rfl, rfl, rfl⟩
      · have := pushFrame_ret _ _ _ _ _ h
        subst this
        exact ⟨rfl, rfl, rfl⟩

/-- C5 (arity check).  A `OpCall` without spread of a compiled function with `numArgs`
arguments returns a wrong-number-of-arguments error if and only if the callee is not
variadic and `numArgs ≠ NumParameters`, or is variadic and `numArgs < NumParameters - 1`.
The error reports `want = NumParameters, got = numArgs`, resp.
`want >= NumParameters - 1, got = numArgs`, and the state it returns in differs from the
one before only in `ip` and `err`: no frame is pushed. -/
theorem arity_check (env : Env) (v : VM) (numArgs spread : Nat) (callee : CompiledFunction)
    (hn : getIdx v.curInsts (v.ip + 1) = .ok numArgs)
    (hs : getIdx v.curInsts (v.ip + 2) = .ok spread) (hspread : spread ≠ 1)
    (hv : getIdx v.stack (v.sp - 1 - numArgs) = .ok (.CompiledFunction callee))
    (hc : env.CanCall (.CompiledFunction callee) = true) :
    ((∃ w a b, opCall env v = .error (.ret w) ∧
        (w.err = some (GoError.Errorf "yanlış argüman sayısı: want=%d, got=%d" [a, b]) ∨
          w.err = some (GoError.Errorf "yanlış argüman sayısı: want>=%d, got=%d" [a, b]))) ↔
      (callee.VarArgs = false ∧ (numArgs : Int) ≠ callee.NumParameters) ∨
      (callee.VarArgs = true ∧ (numArgs : Int) < callee.NumParameters - 1)) ∧
    ((callee.VarArgs = false ∧ (numArgs : Int) ≠ callee.NumParameters) →
      opCall env v = .error (.ret { v with
        ip := v.ip + 2
        err := some (GoError.Errorf "yanlış argüman sayısı: want=%d, got=%d"
          [Arg.d callee.NumParameters, Arg.d numArgs]) })) ∧
    ((callee.VarArgs = true ∧ (numArgs : Int) < callee.NumParameters - 1) →
      opCall env v = .error (.ret { v with
        ip := v.ip + 2
        err := some (GoError.Errorf "yanlış argüman sayısı: want>=%d, got=%d"
          [Arg.d (callee.NumParameters - 1), Arg.d numArgs]) })) := by
  have hcall := opCall_compiled env v numArgs spread callee hn hs hspread hv hc
  have har := callCompiled_arity env { v with ip := v.ip + 2 } callee numArgs
  refine ⟨⟨?_, ?_⟩, fun h => hcall.trans (har.1 h), fun h => hcall.trans (har.2 h)⟩
  · rintro ⟨w, a, b, hw, herr⟩
    by_contra hcon
    have hpass : (callee.VarArgs = false ∧ (numArgs : Int) = callee.NumParameters) ∨
        (callee.VarArgs = true ∧ (numArgs : Int) ≥ callee.NumParameters - 1) := by
      cases hva : callee.VarArgs
      · left
        refine ⟨rfl, ?_⟩
        by_contra hne
        exact hcon (Or.inl ⟨hva, hne⟩)
      · right
        refine ⟨rfl, ?_⟩
        by_contra hlt
        exact hcon (Or.inr ⟨hva, by omega⟩)
    rw [hcall] at hw
    have := (callCompiled_ret env _ callee numArgs w hpass hw).1
    rcases herr with herr | herr <;>
    · rw [herr] at this
      cases this
  · rintro (h | h)
    · exact ⟨_, _, _, hcall.trans (har.1 h), Or.inl rfl⟩
    · exact ⟨_, _, _, hcall.trans (har.2 h), Or.inr rfl⟩

theorem arity_check_witness :
    opCall Demo.env Demo.arityVM = .error (.ret { Demo.arityVM with
      ip := 2
      err := some (GoError.Errorf "yanlış argüman sayısı: want=%d, got=%d"
        [Arg.d 1, Arg.d 0]) }) :=
  (arity_check Demo.env Demo.arityVM 0 0 Demo.idFn rfl rfl (by decide) rfl rfl).2.1
    ⟨rfl, by decide⟩

theorem getIdx_ofNat' {α : Type} (xs : List α) (n : Nat) (x : α) (h : xs[n]? = some x) :
    getIdx xs (n : Int) = .ok x := by
  simp [getIdx, h, pure, Except.pure]

theorem getIdx_ok' {α : Type} {xs : List α} {i : Int} {x : α} (h : getIdx xs i = .ok x) :
    0 ≤ i ∧ i < xs.length ∧ xs[i.toNat]? = some x := by
  unfold getIdx at h
  split at h
  · rename_i h0
    split at h
    · rename_i y hy
      simp only [pure, Except.pure, Except.ok.injEq] at h
      subst h
      refine ⟨h0, ?_, hy⟩
      have := (List.getElem?_eq_some.mp hy).1
      omega
    · simp [throw, throwThe, MonadExceptOf.throw] at h
  · simp [throw, throwThe, MonadExceptOf.throw] at h

theorem getIdx_nat {α : Type} (xs : List α) (n : Nat) (h : n < xs.length) :
    getIdx xs (n : Int) = .ok (xs.get ⟨n, h⟩) := by
  have : xs[n]? = some (xs.get ⟨n, h⟩) := by simp [List.getElem?_eq_getElem h]
  simp [getIdx, this, pure, Except.pure]

theorem setIdx_nat {α : Type} (xs : List α) (n : Nat) (x : α) (h : n < xs.length) :
    setIdx xs (n : Int) x = .ok (xs.set n x) := by
  simp [setIdx, h, pure, Except.pure]

/-- The copy loop of the elided call, when the destination does not lie above the source:
the `n` values from `src + p` on land at `bp + p` on, and nothing else changes. -/
theorem copyArgs_spec (bp src : Nat) (hle : bp ≤ src) (n : Nat) :
    ∀ (p : Nat) (st : List Object), src + p + n ≤ st.length →
      ∃ st', copyArgs bp src n p st = .ok st' ∧ st'.length = st.length ∧
        (∀ q, p ≤ q → q < p + n → st'[bp + q]? = st[src + q]?) ∧
        (∀ i, i < bp + p ∨ bp + p + n ≤ i → st'[i]? = st[i]?) := by
  induction n with
  | zero =>
    intro p st _
    exact ⟨st, rfl, rfl, fun q h1 h2 => by omega, fun i _ => rfl⟩
  | succ n ih =>
    intro p st hlen
    have h1 : src + p < st.length := by omega
    have h2 : bp + p < st.length := by omega
    obtain ⟨st', hst', hl', hcopy, hrest⟩ := ih (p + 1) (st.set (bp + p) (st.get ⟨src + p, h1⟩))
      (by simp only [List.length_set]; omega)
    refine ⟨st', ?_, ?_, ?_, ?_⟩
    · have e1 : ((src : Int) + (p : Int)) = ((src + p : Nat) : Int) := by push_cast; rfl
      have e2 : ((bp : Int) + (p : Int)) = ((bp + p : Nat) : Int) := by push_cast; rfl
      have e3 : ((p : Int) + 1) = ((p + 1 : Nat) : Int) := by push_cast; rfl
      simp only [copyArgs, bind, Except.bind, e1, e2, e3, getIdx_nat _ _ h1, setIdx_nat _ _ _ h2]
      exact hst'
    · simpa using hl'
    · intro q hq1 hq2
      rcases Nat.eq_or_lt_of_le hq1 with rfl | hlt
      · rw [hrest (bp + p) (by omega)]
        simp [List.getElem?_set, h2, List.getElem?_eq_getElem h1]
      · rw [hcopy q (by omega) (by omega)]
        rw [List.getElem?_set_ne (by omega)]
    · intro i hi
      rw [hrest i (by omega)]
      rw [List.getElem?_set_ne (by omega)]

/-- One iteration on a decodable opcode is the handler of that opcode, run after `v.ip++`. -/
theorem step_of_opcode (env : Env) (v : VM) (b : Nat) (o : Opcode)
    (hb : getIdx v.curInsts (v.ip + 1) = .ok b) (ho : env.opcode b = some o) :
    step env v = dispatch env { v with ip := v.ip + 1 } o := by
  simp only [step, hb, ho, bind, Except.bind]

/-- The test of `OpCall` for a call in tail position, on the bytes after its operands. -/
theorem isTailPosition_true (env : Env) (v : VM) (b1 : Nat)
    (h1 : getIdx v.curInsts (v.ip + 1) = .ok b1)
    (h : env.opcode b1 = some Opcode.OpReturn ∨
      (env.opcode b1 = some Opcode.OpPop ∧
        ∃ b2, getIdx v.curInsts (v.ip + 2) = .ok b2 ∧ env.opcode b2 = some Opcode.OpReturn)) :
    isTailPosition env v = .ok true := by
  rcases h with h | ⟨h, b2, h2, h3⟩
  · simp [isTailPosition, h1, h, bind, Except.bind, pure, Except.pure]
  · simp [isTailPosition, h1, h, h2, h3, bind, Except.bind, pure, Except.pure]

theorem getIdx_congr_nat {α : Type} (xs ys : List α) (i : Int) (n : Nat) (hi : i = n)
    (j : Int) (m : Nat) (hj : j = m) (h : xs[n]? = ys[m]?) : getIdx xs i = getIdx ys j := by
  subst hi hj
  simp [getIdx, h]

/-- The push loop changes only `stack` and `sp`. -/
theorem pushAll_frame (xs : List Object) : ∀ (v v1 : VM), pushAll v xs = .ok v1 →
    ∃ st sp, v1 = { v with stack := st, sp := sp } := by
  induction xs with
  | nil =>
    intro v v1 h
    simp only [pushAll, pure, Except.pure, Except.ok.injEq] at h
    exact ⟨v.stack, v.sp, h.symm⟩
  | cons x xs ih =>
    intro v v1 h
    simp only [pushAll, push, bind, Except.bind] at h
    split at h
    · cases h
    · rename_i v2 h2
      split at h2
      · cases h2
      · rename_i st hst
        simp only [pure, Except.pure, Except.ok.injEq] at h2
        subst h2
        obtain ⟨st', sp', rfl⟩ := ih _ _ h
        exact ⟨st', sp', rfl⟩

/-- The spread block changes only `stack` and `sp`. -/
theorem spreadArgs_frame (env : Env) (v v1 : VM) (n n1 : Int)
    (h : spreadArgs env v n = .ok (v1, n1)) :
    ∃ st sp, v1 = { v with stack := st, sp := sp } := by
  simp only [spreadArgs, bind, Except.bind] at h
  split at h
  · cases h
  · rename_i arr harr
    split at h
    · split at h
      · cases h
      · rename_i v2 h2
        simp only [pure, Except.pure, Except.ok.injEq, Prod.mk.injEq] at h
        obtain ⟨st, sp, e⟩ := pushAll_frame _ _ _ h2
        exact ⟨st, sp, by rw [← h.1, e]⟩
    · split at h
      · cases h
      · rename_i v2 h2
        simp only [pure, Except.pure, Except.ok.injEq, Prod.mk.injEq] at h
        obtain ⟨st, sp, e⟩ := pushAll_frame _ _ _ h2
        exact ⟨st, sp, by rw [← h.1, e]⟩
    · split at h
      · cases h
      · simp [fail, throw, throwThe, MonadExceptOf.throw] at h

/-- The gathering block changes only `stack` and `sp`. -/
theorem gatherVarArgs_frame (v : VM) (callee : CompiledFunction) (n : Int) (v2 : VM) (n2 : Int)
    (h : gatherVarArgs v callee n = .ok (v2, n2)) :
    ∃ st sp, v2 = { v with stack := st, sp := sp } := by
  unfold gatherVarArgs at h
  split at h
  · dsimp only at h
    split at h
    · simp only [bind, Except.bind] at h
      split at h
      · cases h
      · split at h
        · cases h
        · simp only [pure, Except.pure, Except.ok.injEq, Prod.mk.injEq] at h
          exact ⟨_, _, h.1.symm⟩
    · simp only [pure, Except.pure, Except.ok.injEq, Prod.mk.injEq] at h
      exact ⟨v.stack, v.sp, h.1.symm⟩
  · simp only [pure, Except.pure, Except.ok.injEq, Prod.mk.injEq] at h
    exact ⟨v.stack, v.sp, h.1.symm⟩

/-- An elided self-call: the state `callCompiled` continues in, from the state `v2` and the
argument count `n2` that the gathering of variadic arguments leaves. -/
theorem callCompiled_elide (env : Env) (v v2 : VM) (callee f : CompiledFunction) (n : Int)
    (n2 : Nat) (cur : Frame)
    (hg : gatherVarArgs v callee n = .ok (v2, (n2 : Int)))
    (hP : (n2 : Int) = callee.NumParameters)
    (hcur : v.frames[v.curFrame]? = some cur) (hfn : cur.fn = some f)
    (hself : f.addr = callee.addr)
    (htail : isTailPosition env v = .ok true)
    (hbp : 0 ≤ cur.basePointer) (hlay : cur.basePointer ≤ v2.sp - n2)
    (hsp : v2.sp ≤ v2.stack.length) :
    ∃ st, callCompiled env v callee n =
        .ok { v2 with stack := st, sp := v2.sp - (n2 + 1), ip := -1 } ∧
      st.length = v2.stack.length ∧
      (∀ p : Nat, p < n2 →
        getIdx st (cur.basePointer + p) = getIdx v2.stack (v2.sp - n2 + p)) ∧
      (∀ i : Nat, (i : Int) < cur.basePointer ∨ cur.basePointer + n2 ≤ i →
        st[i]? = v2.stack[i]?) := by
  obtain ⟨bp, hbpe⟩ := Int.eq_ofNat_of_zero_le hbp
  obtain ⟨src, hsrc⟩ := Int.eq_ofNat_of_zero_le (by omega : 0 ≤ v2.sp - n2)
  obtain ⟨st, hst, hlen, hcopy, hrest⟩ := copyArgs_spec bp src (by omega) n2 0 v2.stack
    (by omega)
  obtain ⟨st2, sp2, rfl⟩ := gatherVarArgs_frame v callee n v2 n2 hg
  refine ⟨st, ?_, hlen, ?_, ?_⟩
  · have hc : curFrameVal { v with stack := st2, sp := sp2 } = .ok cur := by
      simp [curFrameVal, hcur, pure, Except.pure]
    have ht : isTailPosition env { v with stack := st2, sp := sp2 } = .ok true := htail
    have hne : ¬ ((n2 : Int) ≠ callee.NumParameters) := by simp [hP]
    simp only [callCompiled, hg, bind, Except.bind]
    rw [if_neg hne]
    simp only [Nat.cast_zero] at hst
    simp only [hc, hfn, Option.map_some', hself, if_true, ht, elideCall, Int.toNat_ofNat,
      hbpe, pure, Except.pure]
    simp only [hsrc, hst, bind, Except.bind]
  · intro p hp
    refine getIdx_congr_nat st _ _ (bp + p) (by omega) _ (src + p) (by omega) ?_
    exact hcopy p (by omega) (by omega)
  · intro i hi
    exact hrest i (by omega)

/-- A call of a compiled function: after the callable test and the spread block, it goes to
`callCompiled` with the state and argument count the spread block leaves. -/
theorem opCall_prepared (env : Env) (v v1 : VM) (numArgs spread : Nat) (n1 : Int)
    (callee : CompiledFunction)
    (hn : getIdx v.curInsts (v.ip + 1) = .ok numArgs)
    (hs : getIdx v.curInsts (v.ip + 2) = .ok spread)
    (hv : getIdx v.stack (v.sp - 1 - numArgs) = .ok (.CompiledFunction callee))
    (hc : env.CanCall (.CompiledFunction callee) = true)
    (hprep : (if spread = 1 then spreadArgs env { v with ip := v.ip + 2 } numArgs
      else pure ({ v with ip := v.ip + 2 }, (numArgs : Int)) : Exec (VM × Int)) = .ok (v1, n1)) :
    opCall env v = callCompiled env v1 callee n1 := by
  simp only [opCall, hn, hs, hv, bind, Except.bind, receiver, pure, Except.pure, hc,
    Bool.not_true] at hprep ⊢
  simp only [Bool.false_eq_true, if_false, hprep]

/-- The frame push of `OpCall` when there is a free frame. -/
theorem pushFrame_ok (v : VM) (cur : Frame) (callee : CompiledFunction) (n : Int)
    (hcur : v.frames[v.curFrame]? = some cur) (h0 : 0 ≤ v.framesIndex)
    (hfi : v.framesIndex < v.MaxFrames) :
    ∃ old, (v.frames.set v.curFrame { cur with ip := v.ip })[v.framesIndex.toNat]? = some old ∧
      pushFrame v cur callee n = .ok { v with
        frames := (v.frames.set v.curFrame { cur with ip := v.ip }).set v.framesIndex.toNat
          { old with fn := some callee, freeVars := callee.Free, basePointer := v.sp - n }
        curFrame := v.framesIndex.toNat
        curInsts := callee.Instructions
        ip := -1
        framesIndex := v.framesIndex + 1
        sp := v.sp - n + callee.NumLocals } := by
  have hcl : v.curFrame < v.frames.length := (List.getElem?_eq_some.mp hcur).1
  unfold VM.MaxFrames at hfi
  obtain ⟨k, hk⟩ := Int.eq_ofNat_of_zero_le h0
  have hkl : k < v.frames.length := by omega
  have hkl' : k < (v.frames.set v.curFrame { cur with ip := v.ip }).length := by
    simpa using hkl
  refine ⟨(v.frames.set v.curFrame { cur with ip := v.ip }).get ⟨k, hkl'⟩, ?_, ?_⟩
  · rw [hk]
    simp [List.getElem?_eq_getElem hkl']
  · have hnot : ¬ (v.framesIndex ≥ v.MaxFrames) := by
      unfold VM.MaxFrames
      omega
    unfold pushFrame
    rw [if_neg hnot]
    simp only [bind, Except.bind, setIdx_nat _ _ _ hcl, hk, getIdx_nat _ _ hkl',
      setIdx_nat _ _ _ hkl', pure, Except.pure, Int.toNat_ofNat]

/-- `OpReturn` between two frames. -/
theorem opReturn_ok (w : VM) (flag : Nat) (r : Object) (caller last : Frame)
    (fn : CompiledFunction)
    (hflag : getIdx w.curInsts (w.ip + 1) = .ok flag)
    (hr : flag = 1 → getIdx w.stack (w.sp - 1) = .ok r)
    (hcaller : getIdx w.frames (w.framesIndex - 1 - 1) = .ok caller)
    (hfn : caller.fn = some fn)
    (hlast : getIdx w.frames (w.framesIndex - 1) = .ok last)
    (hb0 : 0 ≤ last.basePointer - 1) (hb1 : last.basePointer - 1 < w.stack.length) :
    opReturn w = .ok { w with
      ip := caller.ip
      framesIndex := w.framesIndex - 1
      curFrame := (w.framesIndex - 1 - 1).toNat
      curInsts := fn.Instructions
      sp := last.basePointer
      stack := w.stack.set (last.basePointer - 1).toNat
        (if flag = 1 then r else Object.Undefined) } := by
  by_cases h1 : flag = 1
  · simp only [opReturn, hflag, bind, Except.bind, h1, if_true, hr h1, hcaller, hfn, hlast,
      setIdx, hb0, hb1, and_self, pure, Except.pure]
  · simp only [opReturn, hflag, bind, Except.bind, h1, if_false, hcaller, hfn, hlast,
      setIdx, hb0, hb1, and_self, if_true, pure, Except.pure]

/-- A call that is not elided pushes a frame (`callCompiled`, from the state `v2` and the
count `n2` the gathering leaves). -/
theorem callCompiled_push (env : Env) (v v2 : VM) (callee fn : CompiledFunction) (n n2 : Int)
    (cur : Frame)
    (hg : gatherVarArgs v callee n = .ok (v2, n2))
    (hP : n2 = callee.NumParameters)
    (hcur : v.frames[v.curFrame]? = some cur) (hfn : cur.fn = some fn)
    (hne : fn.addr ≠ callee.addr ∨ isTailPosition env v = .ok false) :
    callCompiled env v callee n = pushFrame v2 cur callee n2 := by
  obtain ⟨st2, sp2, rfl⟩ := gatherVarArgs_frame v callee n v2 n2 hg
  have hc : curFrameVal { v with stack := st2, sp := sp2 } = .ok cur := by
    simp [curFrameVal, hcur, pure, Except.pure]
  have hnot : ¬ (n2 ≠ callee.NumParameters) := by simp [hP]
  simp only [callCompiled, hg, bind, Except.bind]
  rw [if_neg hnot]
  simp only [hc, hfn, Option.map_some', Option.some.injEq]
  rcases hne with hne | hne
  · rw [if_neg hne]
  · have ht : isTailPosition env { v with stack := st2, sp := sp2 } = .ok false := hne
    by_cases hself : fn.addr = callee.addr
    · rw [if_pos hself]
      simp only [ht, Bool.false_eq_true, if_false]
    · rw [if_neg hself]

/-- C2 (call/return round trip).  `v` executes a `OpCall` without spread of a non-variadic
compiled function with `NumParameters = numArgs` that is not elided, with a free frame.
Then the call pushes a frame whose locals start at `v.sp - numArgs` and saves `v.ip + 3`,
the offset of the last operand byte, in the caller's frame.  When a later state `w` of that
frame (same depth, the caller's frame entry and the callee's base pointer as the call left
them) executes `OpReturn` with flag `flag` and top of stack `r`, the machine continues with
`sp` one above the callee's slot, that slot holding `r` (`Undefined` when `flag ≠ 1`),
`framesIndex` and `curFrame` as before the call, the caller's instructions and the saved
`ip`. -/
theorem call_return_round_trip (env : Env) (v w : VM) (op numArgs spread opR flag : Nat)
    (callee fn : CompiledFunction) (cur last : Frame) (r : Object)
    (hop : getIdx v.curInsts (v.ip + 1) = .ok op) (hcall : env.opcode op = some Opcode.OpCall)
    (hn : getIdx v.curInsts (v.ip + 2) = .ok numArgs)
    (hs : getIdx v.curInsts (v.ip + 3) = .ok spread) (hspread : spread ≠ 1)
    (hv : getIdx v.stack (v.sp - 1 - numArgs) = .ok (.CompiledFunction callee))
    (hc : env.CanCall (.CompiledFunction callee) = true)
    (hva : callee.VarArgs = false) (hP : callee.NumParameters = numArgs)
    (hcf : (v.curFrame : Int) = v.framesIndex - 1)
    (hcur : v.frames[v.curFrame]? = some cur) (hfn : cur.fn = some fn)
    (hne : fn.addr ≠ callee.addr ∨ isTailPosition env { v with ip := v.ip + 3 } = .ok false)
    (hfi : v.framesIndex < v.MaxFrames)
    (hwfi : w.framesIndex = v.framesIndex + 1)
    (hwcaller : getIdx w.frames (v.framesIndex - 1) = .ok { cur with ip := v.ip + 3 })
    (hwlast : getIdx w.frames v.framesIndex = .ok last)
    (hwbp : last.basePointer = v.sp - numArgs)
    (hwlen : w.stack.length = v.stack.length)
    (hopR : getIdx w.curInsts (w.ip + 1) = .ok opR)
    (hret : env.opcode opR = some Opcode.OpReturn)
    (hflag : getIdx w.curInsts (w.ip + 2) = .ok flag)
    (hr : flag = 1 → getIdx w.stack (w.sp - 1) = .ok r) :
    (∃ v1 l, step env v = .ok v1 ∧ v1.framesIndex = v.framesIndex + 1 ∧
      getIdx v1.frames (v.framesIndex - 1) = .ok { cur with ip := v.ip + 3 } ∧
      getIdx v1.frames v.framesIndex = .ok l ∧ l.basePointer = v.sp - numArgs ∧
      l.fn = some callee ∧ v1.stack = v.stack ∧ v1.curInsts = callee.Instructions ∧
      v1.ip = -1) ∧
    step env w = .ok { w with
      ip := v.ip + 3
      framesIndex := v.framesIndex
      curFrame := v.curFrame
      curInsts := fn.Instructions
      sp := v.sp - 1 - numArgs + 1
      stack := w.stack.set (v.sp - 1 - numArgs).toNat
        (if flag = 1 then r else Object.Undefined) } := by
  have e2 : v.ip + 1 + 1 = v.ip + 2 := by ring
  have e3 : v.ip + 1 + 2 = v.ip + 3 := by ring
  constructor
  · have hprep : (if spread = 1 then
        spreadArgs env { ({ v with ip := v.ip + 1 } : VM) with ip := v.ip + 1 + 2 } numArgs
        else pure ({ ({ v with ip := v.ip + 1 } : VM) with ip := v.ip + 1 + 2 }, (numArgs : Int))
          : Exec (VM × Int)) = .ok ({ v with ip := v.ip + 3 }, (numArgs : Int)) := by
      rw [if_neg hspread, e3]
      rfl
    have hopc := opCall_prepared env { v with ip := v.ip + 1 } { v with ip := v.ip + 3 }
      numArgs spread numArgs callee (by simpa only [e2] using hn) (by simpa only [e3] using hs)
      hv hc hprep
    have hg : gatherVarArgs { v with ip := v.ip + 3 } callee numArgs =
        .ok ({ v with ip := v.ip + 3 }, (numArgs : Int)) := by
      simp [gatherVarArgs, hva, pure, Except.pure]
    have hpush := callCompiled_push env { v with ip := v.ip + 3 } { v with ip := v.ip + 3 }
      callee fn numArgs numArgs cur hg hP.symm hcur hfn hne
    obtain ⟨old, hold, hpf⟩ := pushFrame_ok { v with ip := v.ip + 3 } cur callee numArgs hcur
      (by show 0 ≤ v.framesIndex; omega) hfi
    have hcl : v.curFrame < v.frames.length := (List.getElem?_eq_some.mp hcur).1
    have hfl : v.framesIndex.toNat < v.frames.length := by
      have : v.framesIndex < v.frames.length := hfi
      omega
    have hne' : v.curFrame ≠ v.framesIndex.toNat := by omega
    have hstep : step env v = pushFrame { v with ip := v.ip + 3 } cur callee numArgs := by
      rw [step_of_opcode env v op _ hop hcall]
      show opCall env _ = _
      rw [hopc, hpush]
    rw [hpf] at hstep
    refine ⟨_, Frame.mk (some callee) callee.Free old.ip (v.sp - numArgs),
      hstep, rfl, ?_, ?_, rfl, rfl, rfl, rfl, rfl⟩
    · have : v.framesIndex - 1 = ((v.curFrame : Nat) : Int) := by omega
      rw [this]
      apply getIdx_ofNat'
      simp [List.getElem?_set, hne'.symm, hcl]
    · obtain ⟨k, hk⟩ := Int.eq_ofNat_of_zero_le (by omega : 0 ≤ v.framesIndex)
      simp only [hk, Int.toNat_ofNat] at hfl ⊢
      apply getIdx_ofNat'
      simp [List.getElem?_set, hfl]
  · rw [step_of_opcode env w opR _ hopR hret]
    have hb := (getIdx_ok' hv)
    have := opReturn_ok { w with ip := w.ip + 1 } flag r { cur with ip := v.ip + 3 } last fn
      (by simpa only [show w.ip + 1 + 1 = w.ip + 2 by ring] using hflag) hr
      (by show getIdx w.frames (w.framesIndex - 1 - 1) = _
          rw [hwfi, show v.framesIndex + 1 - 1 - 1 = v.framesIndex - 1 by ring]
          exact hwcaller)
      hfn
      (by show getIdx w.frames (w.framesIndex - 1) = _
          rw [hwfi, show v.framesIndex + 1 - 1 = v.framesIndex by ring]
          exact hwlast)
      (by rw [hwbp]; omega) (by show _ < (w.stack.length : Int); rw [hwbp, hwlen]; omega)
    show opReturn _ = _
    rw [this]
    dsimp only
    have e5 : (w.framesIndex - 1 - 1).toNat = v.curFrame := by omega
    have e6 : w.framesIndex - 1 = v.framesIndex := by omega
    have e7 : last.basePointer = v.sp - 1 - numArgs + 1 := by omega
    have e8 : v.sp - 1 - numArgs + 1 - 1 = v.sp - 1 - numArgs := by omega
    have e9 : (v.framesIndex - 1).toNat = v.curFrame := by omega
    simp only [e5, e6, e7, e8, e9]

/-- C3 (self-tail-call elision step).  `v` executes a `OpCall` of the function of the
current frame; `v2` and `n2` are the state and the argument count that the spread block and
the gathering of variadic arguments leave (for a call without spread of a non-variadic
function: `v` after its operands were read, and `numArgs`).  When the arity check passes
(`n2 = NumParameters`), the byte after the operands is `OpReturn`, or `OpPop` followed by
`OpReturn`, and the arguments lie at or above the frame's locals, the call continues, for
every value of `framesIndex`, without pushing a frame: frames, `framesIndex` and `curFrame`
are unchanged, the locals `basePointer + p` for `p < n2` hold the `n2` arguments in order,
`sp` has dropped by `n2 + 1`, and `ip = -1`.  Hence the tail-recursive
`loop := func(n) { if n == 0 { return 0 }; return loop(n - 1) }` called with any depth `k`
on a machine with `MaxFrames = 2` returns nil and delivers 0: it never needs a frame
beyond the one of its first call. -/
theorem self_tail_call_elided (env : Env) (v v1 v2 : VM) (op numArgs spread b1 : Nat)
    (n1 : Int) (n2 : Nat) (callee f : CompiledFunction) (cur : Frame)
    (hop : getIdx v.curInsts (v.ip + 1) = .ok op) (hcall : env.opcode op = some Opcode.OpCall)
    (hn : getIdx v.curInsts (v.ip + 2) = .ok numArgs)
    (hs : getIdx v.curInsts (v.ip + 3) = .ok spread)
    (hv : getIdx v.stack (v.sp - 1 - numArgs) = .ok (.CompiledFunction callee))
    (hc : env.CanCall (.CompiledFunction callee) = true)
    (hprep : (if spread = 1 then spreadArgs env { v with ip := v.ip + 3 } numArgs
      else pure ({ v with ip := v.ip + 3 }, (numArgs : Int)) : Exec (VM × Int)) = .ok (v1, n1))
    (hg : gatherVarArgs v1 callee n1 = .ok (v2, (n2 : Int)))
    (harity : (n2 : Int) = callee.NumParameters)
    (hcur : v.frames[v.curFrame]? = some cur) (hfn : cur.fn = some f)
    (hself : f.addr = callee.addr)
    (h1 : getIdx v.curInsts (v.ip + 4) = .ok b1)
    (htail : env.opcode b1 = some Opcode.OpReturn ∨
      (env.opcode b1 = some Opcode.OpPop ∧
        ∃ b2, getIdx v.curInsts (v.ip + 5) = .ok b2 ∧ env.opcode b2 = some Opcode.OpReturn))
    (hbp : 0 ≤ cur.basePointer) (hlay : cur.basePointer ≤ v2.sp - n2)
    (hsp : v2.sp ≤ v2.stack.length) :
    (∃ st, step env v = .ok { v2 with stack := st, sp := v2.sp - (n2 + 1), ip := -1 } ∧
      v2.framesIndex = v.framesIndex ∧ v2.frames = v.frames ∧ v2.curFrame = v.curFrame ∧
      v2.curInsts = v.curInsts ∧ v2.err = v.err ∧
      (∀ p : Nat, p < n2 →
        getIdx st (cur.basePointer + p) = getIdx v2.stack (v2.sp - n2 + p)) ∧
      (spread ≠ 1 → callee.VarArgs = false →
        v2 = { v with ip := v.ip + 3 } ∧ n2 = numArgs)) ∧
    (∀ k : Nat, (k : Int) < 2 ^ 62 →
      (Demo.tailVM k).MaxFrames = 2 ∧
      Demo.delivered (Run Demo.env (9 * k + 10) (Demo.tailVM k)) =
        some (none, 1, [.Int 0])) := by
  refine ⟨?_, fun k hk => tail_loop_any_depth k hk⟩
  have e2 : v.ip + 1 + 1 = v.ip + 2 := by ring
  have e3 : v.ip + 1 + 2 = v.ip + 3 := by ring
  have hopc := opCall_prepared env { v with ip := v.ip + 1 } v1 numArgs spread n1 callee
    (by simpa only [e2] using hn) (by simpa only [e3] using hs) hv hc
    (by simpa only [e3] using hprep)
  have hv1 : ∃ st sp, v1 = { v with ip := v.ip + 3, stack := st, sp := sp } := by
    by_cases hsp1 : spread = 1
    · rw [if_pos hsp1] at hprep
      obtain ⟨st, sp, e⟩ := spreadArgs_frame env _ _ _ _ hprep
      exact ⟨st, sp, e⟩
    · rw [if_neg hsp1] at hprep
      simp only [pure, Except.pure, Except.ok.injEq, Prod.mk.injEq] at hprep
      exact ⟨v.stack, v.sp, hprep.1.symm⟩
  obtain ⟨st1, sp1, rfl⟩ := hv1
  have ht := isTailPosition_true env { v with ip := v.ip + 3, stack := st1, sp := sp1 } b1
    (by simpa only [show v.ip + 3 + 1 = v.ip + 4 by ring] using h1)
    (by simpa only [show v.ip + 3 + 2 = v.ip + 5 by ring] using htail)
  obtain ⟨st, hst, -, hcopy, -⟩ := callCompiled_elide env _ v2 callee f n1 n2 cur hg harity
    hcur hfn hself ht hbp hlay hsp
  obtain ⟨st2, sp2, rfl⟩ := gatherVarArgs_frame _ callee n1 v2 n2 hg
  refine ⟨st, ?_, rfl, rfl, rfl, rfl, rfl, hcopy, fun hns hva => ?_⟩
  · rw [step_of_opcode env v op _ hop hcall]
    show opCall env _ = _
    rw [hopc, hst]
  · rw [if_neg hns] at hprep
    simp only [pure, Except.pure, Except.ok.injEq, Prod.mk.injEq] at hprep
    simp only [gatherVarArgs, hva, Bool.false_eq_true, if_false, pure, Except.pure,
      Except.ok.injEq, Prod.mk.injEq] at hg
    refine ⟨by rw [← hg.1, ← hprep.1], ?_⟩
    have := hg.2.symm.trans hprep.2.symm
    exact_mod_cast this

theorem readRange_nat {α : Type} (xs : List α) (lo hi : Nat) (hle : lo ≤ hi)
    (hhi : hi ≤ xs.length) :
    readRange xs (lo : Int) (hi : Int) = .ok ((xs.drop lo).take (hi - lo)) := by
  unfold readRange
  by_cases h : (hi : Int) ≤ lo
  · have : hi = lo := by omega
    subst this
    simp [pure, Except.pure]
  · rw [if_neg h]
    have h2 : (0 : Int) ≤ lo ∧ (hi : Int) ≤ xs.length := ⟨by omega, by omega⟩
    rw [if_pos h2]
    have e : ((hi : Int) - (lo : Int)).toNat = hi - lo := by omega
    simp [pure, Except.pure, e]

/-- The gathering of the surplus arguments of a variadic callee. -/
theorem gatherVarArgs_variadic (v : VM) (callee : CompiledFunction) (numArgs : Int)
    (start : Nat)
    (hva : callee.VarArgs = true) (hge : numArgs ≥ callee.NumParameters - 1)
    (hstart : (start : Int) = v.sp - (numArgs - (callee.NumParameters - 1)))
    (hsp : v.sp ≤ v.stack.length) (hroom : start < v.stack.length) :
    gatherVarArgs v callee numArgs = .ok ({ v with
        stack := v.stack.set start (.Array ((v.stack.drop start).take (v.sp.toNat - start)))
        sp := start + 1 },
      callee.NumParameters - 1 + 1) := by
  have hvar : numArgs - (callee.NumParameters - 1) ≥ 0 := by omega
  obtain ⟨spn, hspn⟩ := Int.eq_ofNat_of_zero_le (by omega : 0 ≤ v.sp)
  have hr := readRange_nat v.stack start spn (by omega) (by omega)
  unfold gatherVarArgs
  rw [if_pos hva]
  dsimp only
  rw [if_pos hvar, ← hstart, hspn]
  simp only [bind, Except.bind, hr, setIdx_nat _ _ _ hroom, pure, Except.pure,
    Int.toNat_ofNat]

/-- C6 (variadic gathering).  A `OpCall` without spread of a variadic compiled function
with `P = NumParameters ≥ 1` and `numArgs ≥ P - 1` arguments that pushes a frame: the locals
of the new frame start at `v.sp - numArgs`, locals `0 .. P - 2` are the first `P - 1`
arguments unchanged, and local `P - 1` is an Array whose `numArgs - (P - 1)` elements are
the remaining arguments in order. -/
theorem variadic_gathering (env : Env) (v : VM) (numArgs spread start : Nat)
    (callee fn : CompiledFunction) (cur : Frame)
    (hn : getIdx v.curInsts (v.ip + 1) = .ok numArgs)
    (hs : getIdx v.curInsts (v.ip + 2) = .ok spread) (hspread : spread ≠ 1)
    (hv : getIdx v.stack (v.sp - 1 - numArgs) = .ok (.CompiledFunction callee))
    (hc : env.CanCall (.CompiledFunction callee) = true)
    (hva : callee.VarArgs = true) (_hP : 1 ≤ callee.NumParameters)
    (hge : (numArgs : Int) ≥ callee.NumParameters - 1)
    (hcur : v.frames[v.curFrame]? = some cur) (hfn : cur.fn = some fn)
    (hne : fn.addr ≠ callee.addr ∨ isTailPosition env { v with ip := v.ip + 2 } = .ok false)
    (h0 : 0 ≤ v.framesIndex) (hfi : v.framesIndex < v.MaxFrames)
    (hstart : (start : Int) = v.sp - numArgs + (callee.NumParameters - 1))
    (hsp : v.sp ≤ v.stack.length) (hroom : start < v.stack.length) :
    ∃ v1 new es, opCall env v = .ok v1 ∧
      v1.framesIndex = v.framesIndex + 1 ∧ v1.curFrame = v.framesIndex.toNat ∧
      v1.frames[v1.curFrame]? = some new ∧ new.fn = some callee ∧
      new.basePointer = v.sp - numArgs ∧
      (∀ i : Nat, (i : Int) < callee.NumParameters - 1 →
        getIdx v1.stack (new.basePointer + i) = getIdx v.stack (v.sp - numArgs + i)) ∧
      getIdx v1.stack (new.basePointer + (callee.NumParameters - 1)) = .ok (.Array es) ∧
      (es.length : Int) = numArgs - (callee.NumParameters - 1) ∧
      (∀ j : Nat, j < es.length → ∃ a, es[j]? = some a ∧
        getIdx v.stack (v.sp - numArgs + (callee.NumParameters - 1) + j) = .ok a) := by
  obtain ⟨hv0, -, -⟩ := getIdx_ok' hv
  have hcall := opCall_compiled env v numArgs spread callee hn hs hspread hv hc
  have hg := gatherVarArgs_variadic { v with ip := v.ip + 2 } callee numArgs start hva hge
    (by show (start : Int) = v.sp - (numArgs - (callee.NumParameters - 1)); omega) hsp hroom
  have hpush := callCompiled_push env { v with ip := v.ip + 2 } _ callee fn numArgs _ cur hg
    (by ring) hcur hfn hne
  obtain ⟨old, hold, hpf⟩ := pushFrame_ok ({ ({ v with ip := v.ip + 2 } : VM) with
      stack := v.stack.set start (.Array ((v.stack.drop start).take (v.sp.toNat - start)))
      sp := (start : Int) + 1 }) cur callee (callee.NumParameters - 1 + 1) hcur h0 hfi
  have hstep : opCall env v = _ := hcall.trans (hpush.trans hpf)
  have hfl : v.framesIndex.toNat < v.frames.length := by
    have : v.framesIndex < v.frames.length := hfi
    omega
  have hlen : ((v.stack.drop start).take (v.sp.toNat - start)).length = v.sp.toNat - start := by
    rw [List.length_take, List.length_drop]
    omega
  refine ⟨_, Frame.mk (some callee) callee.Free old.ip (v.sp - numArgs),
    (v.stack.drop start).take (v.sp.toNat - start), hstep, rfl, rfl, ?_, rfl, rfl, ?_, ?_, ?_, ?_⟩
  · show ((v.frames.set v.curFrame _).set v.framesIndex.toNat _)[v.framesIndex.toNat]? = _
    simp [List.getElem?_set, hfl]
    omega
  · intro i hi
    obtain ⟨k, hk⟩ := Int.eq_ofNat_of_zero_le (by omega : 0 ≤ v.sp - numArgs)
    refine getIdx_congr_nat _ _ _ (k + i) (by show v.sp - numArgs + i = _; omega) _ (k + i)
      (by omega) ?_
    show (v.stack.set start _)[k + i]? = _
    rw [List.getElem?_set_ne (by omega)]
  · have e : v.sp - numArgs + (callee.NumParameters - 1) = (start : Int) := by omega
    show getIdx (v.stack.set start _) (v.sp - numArgs + (callee.NumParameters - 1)) = _
    rw [e]
    apply getIdx_ofNat'
    simp [List.getElem?_set, hroom]
  · rw [hlen]
    omega
  · intro j hj
    rw [hlen] at hj
    have hsj : start + j < v.stack.length := by omega
    refine ⟨v.stack.get ⟨start + j, hsj⟩, ?_, ?_⟩
    · rw [List.getElem?_take_of_lt hj, List.getElem?_drop]
      exact List.getElem?_eq_getElem hsj
    · have e : v.sp - numArgs + (callee.NumParameters - 1) + j = ((start + j : Nat) : Int) := by
        omega
      rw [e]
      exact getIdx_nat _ _ hsj

/-- The push loop of the spread block when the stack has room: the items land at `sp` on, in
order, and nothing below `sp` changes. -/
theorem pushAll_spec (xs : List Object) : ∀ (v : VM) (k : Nat), v.sp = k →
    k + xs.length ≤ v.stack.length →
    ∃ st, pushAll v xs = .ok { v with stack := st, sp := v.sp + xs.length } ∧
      st.length = v.stack.length ∧
      (∀ i : Nat, i < xs.length → st[k + i]? = xs[i]?) ∧
      (∀ j : Nat, j < k → st[j]? = v.stack[j]?) := by
  induction xs with
  | nil =>
    intro v k hk _
    refine ⟨v.stack, ?_, rfl, fun i hi => absurd hi (by simp), fun j _ => rfl⟩
    simp [pushAll, pure, Except.pure]
  | cons x xs ih =>
    intro v k hk hlen
    simp only [List.length_cons] at hlen
    have hkl : k < v.stack.length := by omega
    obtain ⟨st, hst, hl, hel, hlow⟩ := ih { v with stack := v.stack.set k x, sp := v.sp + 1 }
      (k + 1) (by show v.sp + 1 = _; rw [hk]; push_cast; rfl)
      (by simp only [List.length_set]; omega)
    refine ⟨st, ?_, ?_, ?_, ?_⟩
    · simp only [pushAll, push, bind, Except.bind, hk, setIdx_nat _ _ _ hkl, pure, Except.pure]
      simp only [hk] at hst
      rw [hst]
      simp only [List.length_cons, Nat.cast_add, Nat.cast_one]
      congr 2
      ring
    · simpa using hl
    · intro i hi
      cases i with
      | zero =>
        rw [Nat.add_zero, hlow k (by omega)]
        simp [List.getElem?_set, hkl]
      | succ i =>
        have := hel i (by simpa using hi)
        rw [show k + (i + 1) = k + 1 + i by omega, this]
        simp
    · intro j hj
      rw [hlow j (by omega)]
      show (v.stack.set k x)[j]? = _
      rw [List.getElem?_set_ne (by omega)]

/-- The spread block on an array of `es` when the stack has room. -/
theorem spreadArgs_array (env : Env) (v : VM) (numArgs : Int) (arr : Object)
    (es : List Object) (k : Nat)
    (htop : getIdx v.stack (v.sp - 1) = .ok arr)
    (harr : arr = .Array es ∨ arr = .ImmutableArray es)
    (hk : v.sp - 1 = k) (hroom : k + es.length ≤ v.stack.length) :
    ∃ st, spreadArgs env v numArgs =
        .ok ({ v with stack := st, sp := v.sp - 1 + es.length }, numArgs + (es.length - 1)) ∧
      st.length = v.stack.length ∧
      (∀ i : Nat, i < es.length → st[k + i]? = es[i]?) ∧
      (∀ j : Nat, j < k → st[j]? = v.stack[j]?) := by
  obtain ⟨st, hst, hl, hel, hlow⟩ := pushAll_spec es { v with sp := v.sp - 1 } k hk hroom
  refine ⟨st, ?_, hl, hel, hlow⟩
  rcases harr with rfl | rfl <;>
    simp only [spreadArgs, htop, bind, Except.bind, hst, pure, Except.pure]

/-- The spread block on a value that is not an array. -/
theorem spreadArgs_other (env : Env) (v : VM) (numArgs : Int) (arr : Object)
    (htop : getIdx v.stack (v.sp - 1) = .ok arr)
    (hne : ∀ es, arr ≠ .Array es ∧ arr ≠ .ImmutableArray es) (hnil : arr ≠ .nil) :
    spreadArgs env v numArgs = fail { v with sp := v.sp - 1 }
      (GoError.Errorf "array değil: %s" [Arg.s (env.TypeName arr)]) := by
  have ht := typeName_ne_nil env arr hnil
  cases arr <;>
    first
    | exact absurd rfl (hne _).1
    | exact absurd rfl (hne _).2
    | simp only [spreadArgs, htop, bind, Except.bind, ht]

/-- C7 (spread call).  For a `OpCall` with spread 1 whose topmost argument is an Array or
ImmutableArray of `es`, with room on the stack: the array is replaced on the stack by the
elements of `es` in order, everything below it (the callee included) is unchanged, and the
call proceeds with the callee read at `sp - 1 - numArgs` and `numArgs - 1 + es.length`
arguments.  For any other non-nil topmost argument the call returns the error
`array değil`.  `add3`, of three parameters, called with the spread of a three-element
array gets a frame whose locals are the three elements; called with the spread of a
two-element array the call returns the error `want=3, got=2`. -/
theorem spread_call :
    (∀ (env : Env) (v : VM) (numArgs : Nat) (value arr : Object) (es : List Object),
      getIdx v.curInsts (v.ip + 1) = .ok numArgs →
      getIdx v.curInsts (v.ip + 2) = .ok 1 →
      getIdx v.stack (v.sp - 1 - numArgs) = .ok value →
      value ≠ .nil → env.CanCall value = true →
      1 ≤ numArgs →
      getIdx v.stack (v.sp - 1) = .ok arr →
      (arr = .Array es ∨ arr = .ImmutableArray es) →
      v.sp - 1 + es.length ≤ v.stack.length →
      ∃ st, opCall env v =
          (match value with
          | .CompiledFunction callee => callCompiled env
              { v with ip := v.ip + 2, stack := st, sp := v.sp - 1 + es.length } callee
              (numArgs - 1 + es.length)
          | _ => callNative env
              { v with ip := v.ip + 2, stack := st, sp := v.sp - 1 + es.length } value
              (numArgs - 1 + es.length)) ∧
        (∀ i : Nat, i < es.length → ∃ e, es[i]? = some e ∧ getIdx st (v.sp - 1 + i) = .ok e) ∧
        (∀ j : Nat, (j : Int) < v.sp - 1 → st[j]? = v.stack[j]?) ∧
        getIdx st (v.sp - 1 - numArgs) = .ok value) ∧
    (∀ (env : Env) (v : VM) (numArgs : Nat) (value arr : Object),
      getIdx v.curInsts (v.ip + 1) = .ok numArgs →
      getIdx v.curInsts (v.ip + 2) = .ok 1 →
      getIdx v.stack (v.sp - 1 - numArgs) = .ok value →
      value ≠ .nil → env.CanCall value = true →
      getIdx v.stack (v.sp - 1) = .ok arr →
      (∀ es, arr ≠ .Array es ∧ arr ≠ .ImmutableArray es) → arr ≠ .nil →
      opCall env v = fail { v with ip := v.ip + 2, sp := v.sp - 1 }
        (GoError.Errorf "array değil: %s" [Arg.s (env.TypeName arr)])) ∧
    (∀ e0 e1 e2 : Object,
      step Demo.env (Demo.spreadVM (.Array [e0, e1, e2])) = .ok { Demo.spreadVM (.Array [e0, e1, e2]) with
        stack := [.CompiledFunction Demo.add3, e0, e1, e2, .nil]
        sp := 4
        frames := [{ Demo.frameOf Demo.callMain 0 with ip := 2 },
          { fn := some Demo.add3, freeVars := [], ip := 0, basePointer := 1 }]
        framesIndex := 2
        curFrame := 1
        curInsts := Demo.add3.Instructions
        ip := -1 }) ∧
    (∀ e0 e1 : Object,
      step Demo.env (Demo.spreadVM (.Array [e0, e1])) = fail { Demo.spreadVM (.Array [e0, e1]) with
          stack := [.CompiledFunction Demo.add3, e0, e1, .nil, .nil]
          sp := 3
          ip := 2 }
        (GoError.Errorf "yanlış argüman sayısı: want=%d, got=%d" [Arg.d 3, Arg.d 2])) := by
  refine ⟨?_, ?_, fun e0 e1 e2 => rfl, fun e0 e1 => rfl⟩
  · intro env v numArgs value arr es hn hs hv hvn hc hnum htop harr hroom
    obtain ⟨h0, -, hvs⟩ := getIdx_ok' hv
    obtain ⟨k, hk⟩ := Int.eq_ofNat_of_zero_le (by omega : 0 ≤ v.sp - 1)
    obtain ⟨st, hst, hl, hel, hlow⟩ := spreadArgs_array env { v with ip := v.ip + 2 } numArgs arr
      es k htop harr hk (by show k + es.length ≤ v.stack.length; omega)
    replace hl : st.length = v.stack.length := hl
    refine ⟨st, ?_, ?_, ?_, ?_⟩
    · have e : (numArgs : Int) + ((es.length : Int) - 1) = numArgs - 1 + es.length := by ring
      rw [e] at hst
      simp only [opCall, hn, hs, hv, bind, Except.bind, receiver_ne_nil value hvn, hc,
        Bool.not_true, Bool.false_eq_true, if_false, if_true, hst]
      cases value <;> rfl
    · intro i hi
      have hki : k + i < st.length := by omega
      refine ⟨st.get ⟨k + i, hki⟩, ?_, ?_⟩
      · rw [← hel i hi]
        exact List.getElem?_eq_getElem hki
      · rw [hk]
        exact_mod_cast getIdx_nat st (k + i) hki
    · intro j hj
      exact hlow j (by omega)
    · obtain ⟨m, hm⟩ := Int.eq_ofNat_of_zero_le h0
      rw [hm] at hvs ⊢
      apply getIdx_ofNat'
      rw [hlow m (by omega)]
      simpa using hvs
  · intro env v numArgs value arr hn hs hv hvn hc htop hne hnil
    have hsp := spreadArgs_other env { v with ip := v.ip + 2 } numArgs arr htop hne hnil
    simp only [opCall, hn, hs, hv, bind, Except.bind, receiver_ne_nil value hvn, hc,
      Bool.not_true, Bool.false_eq_true, if_false, if_true, hsp]
    rfl

theorem call_return_round_trip_witness :
    step Demo.env Demo.atReturnVM = .ok { Demo.atReturnVM with
      ip := 2
      framesIndex := 1
      curFrame := 0
      curInsts := Demo.callMain.Instructions
      sp := 1
      stack := [.Int 7, .Int 7, .Int 7, .nil] } :=
  (call_return_round_trip Demo.env Demo.callVM Demo.atReturnVM 20 1 0 21 1 Demo.idFn
    Demo.callMain (Demo.frameOf Demo.callMain 0)
    { fn := some Demo.idFn, freeVars := [], ip := 0, basePointer := 1 } (.Int 7)
    rfl rfl rfl rfl (by decide) rfl rfl rfl rfl rfl rfl rfl (Or.inl (by decide)) (by decide)
    rfl rfl rfl rfl rfl rfl rfl rfl (fun _ => rfl)).2

theorem self_tail_call_elided_witness :
    Demo.selfCallVM.framesIndex = Demo.selfCallVM.MaxFrames ∧
    (∃ st, step Demo.env Demo.selfCallVM =
        .ok { Demo.selfCallVM with stack := st, sp := 2, ip := -1 } ∧
      getIdx st 1 = .ok (.Int 2)) ∧
    Demo.delivered (Run Demo.env (9 * 100000 + 10) (Demo.tailVM (100000 : Nat))) =
      some (none, 1, [.Int 0]) := by
  obtain ⟨⟨st, h, -, -, -, -, -, hl, -⟩, hloop⟩ := self_tail_call_elided Demo.env
    Demo.selfCallVM
    { Demo.selfCallVM with ip := 2 } { Demo.selfCallVM with ip := 2 } 20 1 0 21 1 1
    Demo.loopFn Demo.loopFn (Demo.frameOf Demo.loopFn 1)
    rfl rfl rfl rfl rfl rfl rfl rfl rfl rfl rfl rfl rfl (Or.inl rfl) (by decide) (by decide)
    (by decide)
  exact ⟨rfl, ⟨st, h, hl 0 (by decide)⟩, (hloop 100000 (by norm_num)).2⟩

theorem variadic_gathering_witness :
    ∃ v1 new, opCall Demo.env { Demo.varCallVM (.Int 1) (.Int 2) (.Int 3) with ip := 0 } =
        .ok v1 ∧ v1.frames[v1.curFrame]? = some new ∧ new.basePointer = 1 ∧
      getIdx v1.stack 1 = .ok (.Int 1) ∧
      getIdx v1.stack 2 = .ok (.Array [.Int 2, .Int 3]) := by
  obtain ⟨v1, new, es, h, -, -, hnew, -, hbp, hlow, -, -, -⟩ := variadic_gathering Demo.env
    { Demo.varCallVM (.Int 1) (.Int 2) (.Int 3) with ip := 0 } 3 0 2 Demo.varFn Demo.callMain
    (Demo.frameOf Demo.callMain 0) rfl rfl (by decide) rfl rfl rfl (by decide) (by decide)
    rfl rfl (Or.inl (by decide)) (by decide) (by decide) rfl (by decide) (by decide)
  have hv1 : v1 = { Demo.varCallVM (.Int 1) (.Int 2) (.Int 3) with
      stack := [.CompiledFunction Demo.varFn, .Int 1, .Array [.Int 2, .Int 3], .Int 3, .nil]
      sp := 3
      frames := [{ Demo.frameOf Demo.callMain 0 with ip := 2 },
        { fn := some Demo.varFn, freeVars := [], ip := 0, basePointer := 1 }]
      framesIndex := 2
      curFrame := 1
      curInsts := Demo.varFn.Instructions
      ip := -1 } := by
    have h2 : opCall Demo.env { Demo.varCallVM (.Int 1) (.Int 2) (.Int 3) with ip := 0 } =
        .ok _ := h
    exact (Except.ok.inj (h.symm.trans rfl))
  subst hv1
  exact ⟨_, _, h, rfl, rfl, rfl, rfl⟩

/-- C9 (stack effect of `OpSliceIndex`), at the failing input: on the integer 5 with both
bounds `Undefined` the instruction sets no error and continues with `sp` reduced by 3 and
nothing pushed. -/
theorem sliceIndex_on_int_pushes_nothing :
    step Demo.env Demo.sliceInt = .ok { Demo.sliceInt with ip := 0, sp := 0 } := rfl

/-- C10 (repeated `Run`), at the failing input: the first `Run` of `onceVM` returns the
unknown-opcode error; the second `Run` of the machine it left executes
`GetGlobal; JumpFalsy; Suspend`, none of which reports an error (run with `err` cleared it
returns nil), and returns the error of the first. -/
theorem run_returns_stale_error :
    NewVM 4 2 1 100 { Constants := [], MainFunction := some Demo.onceMain }
      (some [Object.Undefined]) 10 = some Demo.onceVM ∧
    Run Demo.env 10 Demo.onceVM = some (.returned
      { Demo.onceVM with
        stack := [.True, .nil, .nil, .nil]
        globals := [.True]
        ip := 11
        allocs := 11
        err := some (GoError.Errorf "bilinmeyen opcode: %d" [Arg.d 255]) }
      (some (GoError.Wrap "Çalışma Hatası: %w\n\tat %s"
        (GoError.Errorf "bilinmeyen opcode: %d" [Arg.d 255]) [Arg.s "-"]))) ∧
    Run Demo.env 10
      { Demo.onceVM with
        stack := [.True, .nil, .nil, .nil]
        globals := [.True]
        ip := 11
        allocs := 11
        err := some (GoError.Errorf "bilinmeyen opcode: %d" [Arg.d 255]) } =
      some (.returned
        { Demo.onceVM with
          stack := [.True, .nil, .nil, .nil]
          globals := [.True]
          ip := 6
          allocs := 11
          err := some (GoError.Errorf "bilinmeyen opcode: %d" [Arg.d 255]) }
        (some (GoError.Wrap "Çalışma Hatası: %w\n\tat %s"
          (GoError.Errorf "bilinmeyen opcode: %d" [Arg.d 255]) [Arg.s "-"]))) ∧
    Run Demo.env 10
      { Demo.onceVM with
        stack := [.True, .nil, .nil, .nil]
        globals := [.True]
        ip := 11
        allocs := 11
        err := none } =
      some (.returned
        { Demo.onceVM with
          stack := [.True, .nil, .nil, .nil]
          globals := [.True]
          ip := 6
          allocs := 11
          err := none }
        none) :=
  ⟨rfl, rfl, rfl, rfl⟩

/-! ### States that differ in the allocation budget: outcomes -/


theorem ok_bind {α β : Type} (x : α) (f : α → Exec β) : (Except.ok x >>= f) = f x := rfl

theorem error_bind {α β : Type} (e : Stop) (f : α → Exec β) :
    ((Except.error e : Exec α) >>= f) = Except.error e := rfl

theorem getIdx_eq {α : Type} (xs : List α) (i : Int) :
    getIdx xs i = orPanic (if 0 ≤ i then xs[i.toNat]? else none) := by
  unfold getIdx
  by_cases h : 0 ≤ i
  · rw [if_pos h, if_pos h]
    cases xs[i.toNat]? <;> rfl
  · rw [if_neg h, if_neg h]
    rfl

theorem setIdx_eq {α : Type} (xs : List α) (i : Int) (x : α) :
    setIdx xs i x = orPanic (if 0 ≤ i ∧ i < xs.length then some (xs.set i.toNat x) else none) := by
  unfold setIdx orPanic
  split <;> simp [pure, Except.pure, throw, throwThe, MonadExceptOf.throw]

theorem readRange_eq {α : Type} (xs : List α) (lo hi : Int) :
    readRange xs lo hi = orPanic (if hi ≤ lo then some []
      else if 0 ≤ lo ∧ hi ≤ xs.length then some ((xs.drop lo.toNat).take (hi - lo).toNat)
      else none) := by
  unfold readRange orPanic
  split
  · simp [pure, Except.pure]
  · split <;> simp [pure, Except.pure, throw, throwThe, MonadExceptOf.throw]

theorem sliceExpr_eq {α : Type} (xs : List α) (lo hi : Int) :
    sliceExpr xs lo hi = orPanic (if 0 ≤ lo ∧ lo ≤ hi ∧ hi ≤ xs.length
      then some ((xs.drop lo.toNat).take (hi - lo).toNat) else none) := by
  unfold sliceExpr orPanic
  split <;> simp [pure, Except.pure, throw, throwThe, MonadExceptOf.throw]

theorem receiver_eq (o : Object) :
    receiver o = orPanic (match o with
      | .nil => none
      | _ => some ()) := by
  cases o <;> rfl

theorem typeName_eq (env : Env) (o : Object) :
    typeName env o = orPanic (match o with
      | .nil => none
      | _ => some (env.TypeName o)) := by
  cases o <;> rfl

theorem curFrameVal_eq (v : VM) : curFrameVal v = orPanic v.frames[v.curFrame]? := by
  unfold curFrameVal
  cases v.frames[v.curFrame]? <;> rfl

theorem mapB_ok (a m : Int) (w : VM) : mapB a m (.ok w) = .ok (w.withBudget a m) := rfl

theorem mapB_ret (a m : Int) (w : VM) :
    mapB a m (.error (.ret w)) = .error (.ret (w.withBudget a m)) := rfl

theorem mapB_panic (a m : Int) : mapB a m (.error .panic) = .error .panic := rfl

theorem mapE_ok {α : Type} (a m : Int) (x : α) : mapE a m (.ok x : Exec α) = .ok x := rfl

theorem mapE_ret {α : Type} (a m : Int) (w : VM) :
    mapE a m (.error (.ret w) : Exec α) = .error (.ret (w.withBudget a m)) := rfl

theorem mapE_panic {α : Type} (a m : Int) :
    mapE a m (.error .panic : Exec α) = .error .panic := rfl

theorem mapE_orPanic {α : Type} (a m : Int) (o : Option α) :
    mapE a m (orPanic o) = orPanic o := by
  cases o <;> rfl

theorem mapE_of_noRet {α : Type} (a m : Int) (x : Exec α) (h : NoRet x) : mapE a m x = x := by
  match x, h with
  | .ok _, _ => rfl
  | .error .panic, _ => rfl
  | .error (.ret w), h => exact absurd rfl (h w)

theorem mapB_bind {α : Type} (a m : Int) (x : Exec α) (f : α → Exec VM) :
    mapB a m (x >>= f) = (mapE a m x >>= fun y => mapB a m (f y)) := by
  match x with
  | .ok _ => rfl
  | .error .panic => rfl
  | .error (.ret _) => rfl

theorem mapE_bind {α β : Type} (a m : Int) (x : Exec α) (f : α → Exec β) :
    mapE a m (x >>= f) = (mapE a m x >>= fun y => mapE a m (f y)) := by
  match x with
  | .ok _ => rfl
  | .error .panic => rfl
  | .error (.ret _) => rfl

theorem mapB_ite (a m : Int) (c : Prop) [Decidable c] (x y : Exec VM) :
    mapB a m (if c then x else y) = if c then mapB a m x else mapB a m y := by
  split <;> rfl

theorem mapE_ite {α : Type} (a m : Int) (c : Prop) [Decidable c] (x y : Exec α) :
    mapE a m (if c then x else y) = if c then mapE a m x else mapE a m y := by
  split <;> rfl

theorem noRet_orPanic {α : Type} (o : Option α) : NoRet (orPanic o) := by
  intro w h
  cases o <;> cases h

theorem noRet_bind {α β : Type} (x : Exec α) (f : α → Exec β) (hx : NoRet x)
    (hf : ∀ y, NoRet (f y)) : NoRet (x >>= f) := by
  match x, hx with
  | .ok y, _ => exact hf y
  | .error .panic, _ =>
    intro w h
    cases h
  | .error (.ret w), hx => exact absurd rfl (hx w)

theorem noRet_ok {α : Type} (x : α) : NoRet (Except.ok x : Exec α) := by
  intro w h
  cases h

theorem noRet_copyArgs (bp src : Int) (n : Nat) : ∀ (p : Int) (st : List Object),
    NoRet (copyArgs bp src n p st) := by
  induction n with
  | zero =>
    intro p st
    exact noRet_ok st
  | succ n ih =>
    intro p st
    simp only [copyArgs, getIdx_eq, setIdx_eq]
    exact noRet_bind _ _ (noRet_orPanic _) fun x =>
      noRet_bind _ _ (noRet_orPanic _) fun st1 => ih _ _

theorem noRet_buildMap (stack : List Object) (sp : Int) (n : Nat) :
    ∀ (i : Int) (kv : List (GoBytes × Object)), NoRet (buildMap stack sp n i kv) := by
  induction n with
  | zero =>
    intro i kv
    exact noRet_ok kv
  | succ n ih =>
    intro i kv
    unfold buildMap
    split
    · simp only [getIdx_eq]
      refine noRet_bind _ _ (noRet_orPanic _) fun key =>
        noRet_bind _ _ (noRet_orPanic _) fun value => ?_
      split
      · exact ih _ _
      · exact noRet_orPanic none
    · exact noRet_ok kv

theorem noRet_captureFree (stack : List Object) (base : Int) (n : Nat) :
    ∀ i : Int, NoRet (captureFree stack base n i) := by
  induction n with
  | zero =>
    intro i
    exact noRet_ok []
  | succ n ih =>
    intro i
    simp only [captureFree, getIdx_eq]
    exact noRet_bind _ _ (noRet_orPanic _) fun x =>
      noRet_bind _ _ (ih _) fun rest => noRet_ok _

theorem mapE_copyArgs (a m : Int) (bp src : Int) (n : Nat) (p : Int) (st : List Object) :
    mapE a m (copyArgs bp src n p st) = copyArgs bp src n p st :=
  mapE_of_noRet a m _ (noRet_copyArgs bp src n p st)

theorem mapE_buildMap (a m : Int) (stack : List Object) (sp : Int) (n : Nat) (i : Int)
    (kv : List (GoBytes × Object)) :
    mapE a m (buildMap stack sp n i kv) = buildMap stack sp n i kv :=
  mapE_of_noRet a m _ (noRet_buildMap stack sp n i kv)

theorem mapE_captureFree (a m : Int) (stack : List Object) (base : Int) (n : Nat) (i : Int) :
    mapE a m (captureFree stack base n i) = captureFree stack base n i :=
  mapE_of_noRet a m _ (noRet_captureFree stack base n i)

/-! ### Opcodes that never charge -/

set_option maxHeartbeats 4000000 in
theorem dispatch_plain (env : Env) (v : VM) (a m : Int) (o : Opcode)
    (ho : o ∉ [Opcode.OpBinaryOp, .OpBComplement, .OpMinus, .OpArray, .OpMap, .OpError,
      .OpImmutable, .OpSliceIndex, .OpClosure, .OpIteratorInit, .OpCall]) :
    dispatch env (v.withBudget a m) o = mapB a m (dispatch env v o) := by
  cases o <;> first
    | (exfalso; revert ho; decide)
    | skip
  all_goals simp only [dispatch, opConstant, opNull, opPop, opTrue, opFalse, opJump,
    opSetGlobal, opGetGlobal, opDefineLocal, opSetLocal, opGetLocal, opGetFreePtr, opGetFree,
    opSetFree, opGetLocalPtr, opReturn, opEqual, opNotEqual, opLNot, opJumpFalsy, opAndJump,
    opOrJump, opIndex, opGetBuiltin, opIteratorNext, opIteratorKey, opIteratorValue,
    opSetSelGlobal, opSetSelLocal, opSetSelFree,
    VM.withBudget, readU16, push, fail, typeName_eq, receiver_eq, curFrameVal_eq, deref,
    assign, finishSetSel, getIdx_eq, setIdx_eq, readRange_eq, sliceExpr_eq, pure,
    Except.pure, ok_bind, error_bind, throw, throwThe, MonadExceptOf.throw, mapB_bind,
    mapE_bind, mapB_ite, mapE_ite, mapB_ok, mapB_ret, mapB_panic, mapE_ok, mapE_ret,
    mapE_panic, mapE_orPanic, mapE_copyArgs, mapE_buildMap, mapE_captureFree, bind_assoc]
  all_goals repeat' (first
    | rfl
    | (refine bind_congr ?_; intro _)
    | (split <;> try simp only [*, VM.withBudget, readU16, push, fail, typeName_eq,
        receiver_eq, curFrameVal_eq, deref, assign, finishSetSel, getIdx_eq, setIdx_eq,
        readRange_eq, sliceExpr_eq, pure, Except.pure, ok_bind, error_bind, throw,
        throwThe, MonadExceptOf.throw, mapB_bind, mapE_bind, mapB_ite, mapE_ite, mapB_ok,
        mapB_ret, mapB_panic, mapE_ok, mapE_ret, mapE_panic, mapE_orPanic, mapE_copyArgs,
        mapE_buildMap, mapE_captureFree, bind_assoc]))

/-! ### Opcodes that charge -/

theorem same_panic (a b m : Int) : Same a b m (.error .panic) (.error .panic) :=
  ⟨rfl, trivial⟩

theorem same_ok {a b m : Int} {w wb : VM} (ha : w.allocs = a) (hb : wb = w.withBudget b m) :
    Same a b m (.ok w) (.ok wb) := by
  subst hb
  exact ⟨rfl, ha⟩

theorem same_ret {a b m : Int} {w wb : VM} (ha : w.allocs = a) (hb : wb = w.withBudget b m) :
    Same a b m (.error (.ret w)) (.error (.ret wb)) := by
  subst hb
  exact ⟨rfl, ha⟩

theorem same_bind {α : Type} {a b m : Int} {o : Option α} {f g : α → Exec VM}
    (h : ∀ y, Same a b m (f y) (g y)) : Same a b m (orPanic o >>= f) (orPanic o >>= g) := by
  cases o with
  | none => exact same_panic a b m
  | some y => exact h y

theorem sim_panic (v : VM) (b m : Int) : Sim v b m (.error .panic) (.error .panic) :=
  Or.inl (same_panic _ b m)

theorem sim_ok {v : VM} {b m : Int} {w wb : VM} (ha : w.allocs = v.allocs)
    (hb : wb = w.withBudget b m) : Sim v b m (.ok w) (.ok wb) :=
  Or.inl (same_ok ha hb)

theorem sim_ret {v : VM} {b m : Int} {w wb : VM} (ha : w.allocs = v.allocs)
    (hb : wb = w.withBudget b m) : Sim v b m (.error (.ret w)) (.error (.ret wb)) :=
  Or.inl (same_ret ha hb)

theorem sim_bind {α : Type} {v : VM} {b m : Int} {o : Option α} {f g : α → Exec VM}
    (h : ∀ y, Sim v b m (f y) (g y)) : Sim v b m (orPanic o >>= f) (orPanic o >>= g) := by
  cases o with
  | none => exact sim_panic v b m
  | some y => exact h y

theorem sim_charge {v v1 v1b : VM} {b m : Int} {f g : VM → Exec VM}
    (ha : v1.allocs = v.allocs) (hF : SameFrames v v1) (hb : v1b = v1.withBudget b m)
    (hfg : ∀ a1 b1, Same a1 b1 m (f { v1 with allocs := a1 })
      (g ({ v1 with allocs := a1 }.withBudget b1 m))) :
    Sim v b m (charge v1 >>= f) (charge v1b >>= g) := by
  subst hb
  by_cases h1 : wrap64 (v1.allocs - 1) = 0
  · refine Or.inr (Or.inl ?_)
    simp only [charge, fail, if_pos h1, throw, throwThe, MonadExceptOf.throw, error_bind]
    exact ⟨_, rfl, rfl⟩
  · have hr : (charge v1 >>= f) = f { v1 with allocs := wrap64 (v1.allocs - 1) } := by
      simp only [charge, if_neg h1, pure, Except.pure, ok_bind]
    rw [hr]
    refine Or.inr (Or.inr ⟨ha ▸ h1, ha ▸ (hfg _ 0).2, ?_⟩)
    by_cases h2 : wrap64 (b - 1) = 0
    · rw [if_pos h2]
      simp only [charge, fail, VM.withBudget, if_pos h2, throw, throwThe, MonadExceptOf.throw,
        error_bind]
      exact ⟨_, rfl, rfl, h2, hF⟩
    · rw [if_neg h2]
      have := (hfg (wrap64 (v1.allocs - 1)) (wrap64 (b - 1))).1
      simp only [charge, VM.withBudget, if_neg h2, pure, Except.pure, ok_bind]
      exact this

theorem same_bind_noRet {α : Type} {a b m : Int} {x : Exec α} {f g : α → Exec VM}
    (hx : NoRet x) (h : ∀ y, Same a b m (f y) (g y)) : Same a b m (x >>= f) (x >>= g) := by
  match x, hx with
  | .ok y, _ => exact h y
  | .error .panic, _ => exact same_panic a b m
  | .error (.ret w), hx => exact absurd rfl (hx w)

theorem sim_bind_noRet {α : Type} {v : VM} {b m : Int} {x : Exec α} {f g : α → Exec VM}
    (hx : NoRet x) (h : ∀ y, Sim v b m (f y) (g y)) : Sim v b m (x >>= f) (x >>= g) := by
  match x, hx with
  | .ok y, _ => exact h y
  | .error .panic, _ => exact sim_panic v b m
  | .error (.ret w), hx => exact absurd rfl (hx w)

set_option maxHeartbeats 4000000 in
theorem dispatch_sim_charging (env : Env) (v : VM) (b m : Int) (o : Opcode)
    (ho : o ∈ [Opcode.OpBinaryOp, .OpBComplement, .OpMinus, .OpArray, .OpMap, .OpError,
      .OpImmutable, .OpSliceIndex, .OpClosure, .OpIteratorInit]) :
    Sim v b m (dispatch env v o) (dispatch env (v.withBudget b m) o) := by
  cases o <;> first
    | (exfalso; revert ho; decide)
    | skip
  all_goals simp only [dispatch, opBinaryOp, opBComplement, opMinus, opArray, opMap, opError,
    opImmutable, opSliceIndex, opClosure, opIteratorInit, VM.withBudget, readU16, push, fail, typeName_eq,
        receiver_eq, curFrameVal_eq, getIdx_eq, setIdx_eq, readRange_eq, sliceExpr_eq,
        sliceBounds, pure, Except.pure, ok_bind, error_bind, throw, throwThe,
        MonadExceptOf.throw, bind_assoc]
  all_goals repeat' (first
    | exact sim_panic _ _ _
    | exact sim_ok rfl rfl
    | exact sim_ret rfl rfl
    | exact same_panic _ _ _
    | exact same_ok rfl rfl
    | exact same_ret rfl rfl
    | (refine sim_bind ?_; intro _)
    | (refine same_bind ?_; intro _)
    | (refine sim_bind_noRet (noRet_buildMap _ _ _ _ _) ?_; intro _)
    | (refine sim_bind_noRet (noRet_captureFree _ _ _ _) ?_; intro _)
    | (refine sim_charge rfl ⟨rfl, rfl, rfl⟩ rfl ?_; intro _ _; dsimp only [VM.withBudget])
    | (split <;> try simp only [*, VM.withBudget, readU16, push, fail, typeName_eq,
        receiver_eq, curFrameVal_eq, getIdx_eq, setIdx_eq, readRange_eq, sliceExpr_eq,
        sliceBounds, pure, Except.pure, ok_bind, error_bind, throw, throwThe,
        MonadExceptOf.throw, bind_assoc]))

/-! ### `OpCall` and one iteration under another budget -/

theorem sameFrames_trans {u v w : VM} (h1 : SameFrames u v) (h2 : SameFrames v w) :
    SameFrames u w :=
  ⟨h2.1.trans h1.1, h2.2.1.trans h1.2.1, h2.2.2.trans h1.2.2⟩

theorem sim_congr {v v1 : VM} {b m : Int} {r rb : Exec VM} (ha : v1.allocs = v.allocs)
    (hF : SameFrames v v1) (h : Sim v1 b m r rb) : Sim v b m r rb := by
  unfold Sim at h ⊢
  rw [ha] at h
  rcases h with h | h | ⟨h0, hh, h⟩
  · exact Or.inl h
  · exact Or.inr (Or.inl h)
  · refine Or.inr (Or.inr ⟨h0, hh, ?_⟩)
    by_cases h2 : wrap64 (b - 1) = 0
    · rw [if_pos h2] at h ⊢
      obtain ⟨wb, h3, h4, h5, h6⟩ := h
      exact ⟨wb, h3, h4, h5, sameFrames_trans hF h6⟩
    · rw [if_neg h2] at h ⊢
      exact h

theorem holds_of_plain {a m : Int} {r : Exec VM} (h : r = mapB a m r) :
    Holds (fun w => w.allocs = a) r := by
  match r, h with
  | .ok w, h =>
    have h1 : w = w.withBudget a m := Except.ok.inj h
    show w.allocs = a
    rw [h1]
    rfl
  | .error (.ret w), h =>
    have h1 : w = w.withBudget a m := Stop.ret.inj (Except.error.inj h)
    show w.allocs = a
    rw [h1]
    rfl
  | .error .panic, _ => trivial

theorem sim_of_plain {v : VM} {b m : Int} {h : VM → Exec VM}
    (hp : ∀ a m, h (v.withBudget a m) = mapB a m (h v)) :
    Sim v b m (h v) (h (v.withBudget b m)) :=
  Or.inl ⟨hp b m, holds_of_plain (hp v.allocs v.maxAllocs)⟩

set_option maxHeartbeats 4000000 in
theorem callCompiled_plain (env : Env) (v : VM) (callee : CompiledFunction) (numArgs : Int)
    (a m : Int) :
    callCompiled env (v.withBudget a m) callee numArgs =
      mapB a m (callCompiled env v callee numArgs) := by
  simp only [callCompiled, gatherVarArgs, isTailPosition, elideCall, pushFrame, VM.withBudget, VM.MaxFrames, readU16, push, fail, typeName_eq, receiver_eq,
    curFrameVal_eq, getIdx_eq, setIdx_eq, readRange_eq, sliceExpr_eq, pure, Except.pure,
    ok_bind, error_bind, throw, throwThe, MonadExceptOf.throw, mapB_bind, mapE_bind,
    mapB_ite, mapE_ite, mapB_ok, mapB_ret, mapB_panic, mapE_ok, mapE_ret, mapE_panic,
    mapE_orPanic, mapE_copyArgs, bind_assoc]
  repeat' (first
    | rfl
    | (split <;> try simp only [*, VM.withBudget, VM.MaxFrames, readU16, push, fail, typeName_eq, receiver_eq,
    curFrameVal_eq, getIdx_eq, setIdx_eq, readRange_eq, sliceExpr_eq, pure, Except.pure,
    ok_bind, error_bind, throw, throwThe, MonadExceptOf.throw, mapB_bind, mapE_bind,
    mapB_ite, mapE_ite, mapB_ok, mapB_ret, mapB_panic, mapE_ok, mapE_ret, mapE_panic,
    mapE_orPanic, mapE_copyArgs, bind_assoc]))

theorem callNative_sim (env : Env) (v : VM) (value : Object) (numArgs : Int) (b m : Int) :
    Sim v b m (callNative env v value numArgs)
      (callNative env (v.withBudget b m) value numArgs) := by
  simp only [callNative, VM.withBudget, VM.MaxFrames, readU16, push, fail, typeName_eq, receiver_eq,
    curFrameVal_eq, getIdx_eq, setIdx_eq, readRange_eq, sliceExpr_eq, pure, Except.pure,
    ok_bind, error_bind, throw, throwThe, MonadExceptOf.throw, mapB_bind, mapE_bind,
    mapB_ite, mapE_ite, mapB_ok, mapB_ret, mapB_panic, mapE_ok, mapE_ret, mapE_panic,
    mapE_orPanic, mapE_copyArgs, bind_assoc]
  repeat' (first
    | exact sim_panic _ _ _
    | exact sim_ok rfl rfl
    | exact sim_ret rfl rfl
    | exact same_panic _ _ _
    | exact same_ok rfl rfl
    | exact same_ret rfl rfl
    | (refine sim_bind ?_; intro _)
    | (refine same_bind ?_; intro _)
    | (refine sim_charge rfl ⟨rfl, rfl, rfl⟩ rfl ?_; intro _ _; dsimp only [VM.withBudget])
    | (split <;> try simp only [*, VM.withBudget, VM.MaxFrames, readU16, push, fail, typeName_eq, receiver_eq,
    curFrameVal_eq, getIdx_eq, setIdx_eq, readRange_eq, sliceExpr_eq, pure, Except.pure,
    ok_bind, error_bind, throw, throwThe, MonadExceptOf.throw, mapB_bind, mapE_bind,
    mapB_ite, mapE_ite, mapB_ok, mapB_ret, mapB_panic, mapE_ok, mapE_ret, mapE_panic,
    mapE_orPanic, mapE_copyArgs, bind_assoc]))

theorem pushAll_budget (b m : Int) : ∀ (xs : List Object) (v : VM),
    (pushAll v xs = .error .panic ∧ pushAll (v.withBudget b m) xs = .error .panic) ∨
    (∃ w, pushAll v xs = .ok w ∧ pushAll (v.withBudget b m) xs = .ok (w.withBudget b m) ∧
      w.allocs = v.allocs ∧ SameFrames v w) := by
  intro xs
  induction xs with
  | nil =>
    intro v
    exact Or.inr ⟨v, rfl, rfl, rfl, rfl, rfl, rfl⟩
  | cons x xs ih =>
    intro v
    by_cases h : 0 ≤ v.sp ∧ v.sp < v.stack.length
    · have h1 : pushAll v (x :: xs) =
          pushAll { v with stack := v.stack.set v.sp.toNat x, sp := v.sp + 1 } xs := by
        simp only [pushAll, push, setIdx, if_pos h, pure, Except.pure, ok_bind]
      have h2 : pushAll (v.withBudget b m) (x :: xs) =
          pushAll ({ v with stack := v.stack.set v.sp.toNat x, sp := v.sp + 1 }.withBudget b m)
            xs := by
        simp only [pushAll, push, setIdx, VM.withBudget, if_pos h, pure, Except.pure, ok_bind]
      rw [h1, h2]
      rcases ih { v with stack := v.stack.set v.sp.toNat x, sp := v.sp + 1 } with h3 | h3
      · exact Or.inl h3
      · obtain ⟨w, h4, h5, h6, h7⟩ := h3
        exact Or.inr ⟨w, h4, h5, h6, h7⟩
    · refine Or.inl ⟨?_, ?_⟩
      · simp only [pushAll, push, setIdx, if_neg h, throw, throwThe, MonadExceptOf.throw,
          error_bind]
      · simp only [pushAll, push, setIdx, VM.withBudget, if_neg h, throw, throwThe,
          MonadExceptOf.throw, error_bind]

theorem spreadArgs_budget (env : Env) (v : VM) (numArgs : Int) (b m : Int) :
    (spreadArgs env v numArgs = .error .panic ∧
      spreadArgs env (v.withBudget b m) numArgs = .error .panic) ∨
    (∃ w, spreadArgs env v numArgs = .error (.ret w) ∧
      spreadArgs env (v.withBudget b m) numArgs = .error (.ret (w.withBudget b m)) ∧
      w.allocs = v.allocs ∧ SameFrames v w) ∨
    (∃ w k, spreadArgs env v numArgs = .ok (w, k) ∧
      spreadArgs env (v.withBudget b m) numArgs = .ok (w.withBudget b m, k) ∧
      w.allocs = v.allocs ∧ SameFrames v w) := by
  have key : ∀ (xs : List Object) (k : Int),
      ((pushAll { v with sp := v.sp - 1 } xs >>= fun w => (pure (w, k) : Exec (VM × Int))) =
          .error .panic ∧
        (pushAll ({ v with sp := v.sp - 1 }.withBudget b m) xs >>=
          fun w => (pure (w, k) : Exec (VM × Int))) = .error .panic) ∨
      (∃ w, (pushAll { v with sp := v.sp - 1 } xs >>=
          fun w => (pure (w, k) : Exec (VM × Int))) = .error (.ret w) ∧
        (pushAll ({ v with sp := v.sp - 1 }.withBudget b m) xs >>=
          fun w => (pure (w, k) : Exec (VM × Int))) = .error (.ret (w.withBudget b m)) ∧
        w.allocs = v.allocs ∧ SameFrames v w) ∨
      (∃ w k1, (pushAll { v with sp := v.sp - 1 } xs >>=
          fun w => (pure (w, k) : Exec (VM × Int))) = .ok (w, k1) ∧
        (pushAll ({ v with sp := v.sp - 1 }.withBudget b m) xs >>=
          fun w => (pure (w, k) : Exec (VM × Int))) = .ok (w.withBudget b m, k1) ∧
        w.allocs = v.allocs ∧ SameFrames v w) := by
    intro xs k
    rcases pushAll_budget b m xs { v with sp := v.sp - 1 } with ⟨h1, h2⟩ | ⟨w, h1, h2, h3, h4⟩
    · rw [h1, h2]
      exact Or.inl ⟨rfl, rfl⟩
    · rw [h1, h2]
      exact Or.inr (Or.inr ⟨w, k, rfl, rfl, h3, h4⟩)
  unfold spreadArgs
  simp only [VM.withBudget, getIdx_eq, typeName_eq, fail, throw, throwThe, MonadExceptOf.throw]
  cases hget : (if 0 ≤ v.sp - 1 then v.stack[(v.sp - 1).toNat]? else none) with
  | none => exact Or.inl ⟨rfl, rfl⟩
  | some arr =>
    simp only [orPanic, ok_bind]
    cases arr
    case Array xs => exact key xs _
    case ImmutableArray xs => exact key xs _
    case nil => exact Or.inl ⟨rfl, rfl⟩
    all_goals exact Or.inr (Or.inl ⟨_, rfl, rfl, rfl, rfl, rfl, rfl⟩)

theorem callee_sim (env : Env) (v w : VM) (value : Object) (k : Int) (b m : Int)
    (ha : w.allocs = v.allocs) (hF : SameFrames v w) :
    Sim v b m
      (match value with
        | .CompiledFunction callee => callCompiled env w callee k
        | _ => callNative env w value k)
      (match value with
        | .CompiledFunction callee => callCompiled env (w.withBudget b m) callee k
        | _ => callNative env (w.withBudget b m) value k) := by
  refine sim_congr ha hF ?_
  cases value
  case CompiledFunction callee =>
    exact sim_of_plain (h := fun u => callCompiled env u callee k)
      (fun a m => callCompiled_plain env w callee k a m)
  all_goals exact callNative_sim env w _ k b m

theorem opCall_sim (env : Env) (v : VM) (b m : Int) :
    Sim v b m (opCall env v) (opCall env (v.withBudget b m)) := by
  unfold opCall
  simp only [getIdx_eq, receiver_eq]
  refine sim_bind ?_
  intro numArgs
  refine sim_bind ?_
  intro spread
  refine sim_bind ?_
  intro value
  refine sim_bind ?_
  intro _
  split
  · exact sim_ret rfl rfl
  · split
    · rcases spreadArgs_budget env { v with ip := v.ip + 2 } numArgs b m with
        ⟨h1, h2⟩ | ⟨w, h1, h2, h3, _⟩ | ⟨w, k, h1, h2, h3, h4⟩
      · have h2b : spreadArgs env { v.withBudget b m with ip := (v.withBudget b m).ip + 2 }
            numArgs = .error .panic := h2
        rw [h1, h2b]
        exact sim_panic _ _ _
      · have h2b : spreadArgs env { v.withBudget b m with ip := (v.withBudget b m).ip + 2 }
            numArgs = .error (.ret (w.withBudget b m)) := h2
        rw [h1, h2b]
        exact sim_ret h3 rfl
      · have h2b : spreadArgs env { v.withBudget b m with ip := (v.withBudget b m).ip + 2 }
            numArgs = .ok (w.withBudget b m, k) := h2
        rw [h1, h2b]
        exact callee_sim env v w value k b m h3 h4
    · exact callee_sim env v { v with ip := v.ip + 2 } value numArgs b m rfl ⟨rfl, rfl, rfl⟩

theorem dispatch_sim (env : Env) (v : VM) (b m : Int) (o : Opcode) :
    Sim v b m (dispatch env v o) (dispatch env (v.withBudget b m) o) := by
  by_cases h1 : o ∈ [Opcode.OpBinaryOp, .OpBComplement, .OpMinus, .OpArray, .OpMap, .OpError,
      .OpImmutable, .OpSliceIndex, .OpClosure, .OpIteratorInit]
  · exact dispatch_sim_charging env v b m o h1
  · by_cases h2 : o = .OpCall
    · subst h2
      exact opCall_sim env v b m
    · refine sim_of_plain (h := fun u => dispatch env u o)
        (fun a m => dispatch_plain env v a m o ?_)
      intro h3
      rcases List.mem_cons.mp h3 with h | h
      · exact h1 (h ▸ List.mem_cons_self _ _)
      · revert h h1 h2
        cases o <;> decide

theorem step_sim (env : Env) (v : VM) (b m : Int) :
    Sim v b m (step env v) (step env (v.withBudget b m)) := by
  unfold step
  simp only [getIdx_eq]
  refine sim_bind ?_
  intro op
  split
  · next o _ =>
    exact @sim_congr v { v with ip := v.ip + 1 } b m _ _ rfl ⟨rfl, rfl, rfl⟩
      (dispatch_sim env { v with ip := v.ip + 1 } b m o)
  · exact sim_ret rfl rfl

/-! ### Opcodes that keep the frames -/

theorem holds_panic (P : VM → Prop) : Holds P (.error .panic) := trivial

theorem holds_ok {P : VM → Prop} {w : VM} (h : P w) : Holds P (.ok w) := h

theorem holds_ret {P : VM → Prop} {w : VM} (h : P w) : Holds P (.error (.ret w)) := h

theorem holds_bind {α : Type} {P : VM → Prop} {x : Exec α} {f : α → Exec VM}
    (hx : NoRet x) (h : ∀ y, Holds P (f y)) : Holds P (x >>= f) := by
  match x, hx with
  | .ok y, _ => exact h y
  | .error .panic, _ => exact holds_panic P
  | .error (.ret w), hx => exact absurd rfl (hx w)

set_option maxHeartbeats 4000000 in
theorem dispatch_keeps (env : Env) (v : VM) (o : Opcode)
    (ho : o ∉ [Opcode.OpCall, .OpReturn]) : Holds (SameFrames v) (dispatch env v o) := by
  cases o <;> first
    | (exfalso; revert ho; decide)
    | skip
  all_goals simp only [dispatch, opConstant, opNull, opPop, opTrue, opFalse, opJump,
    opSetGlobal, opGetGlobal, opDefineLocal, opSetLocal, opGetLocal, opGetFreePtr, opGetFree,
    opSetFree, opGetLocalPtr, opEqual, opNotEqual, opLNot, opJumpFalsy, opAndJump,
    opOrJump, opIndex, opGetBuiltin, opIteratorNext, opIteratorKey, opIteratorValue,
    opSetSelGlobal, opSetSelLocal, opSetSelFree, opBinaryOp, opBComplement, opMinus, opArray,
    opMap, opError, opImmutable, opSliceIndex, opClosure, opIteratorInit, sliceBounds, charge,
    readU16, push, fail, typeName_eq, receiver_eq, curFrameVal_eq, deref,
    assign, finishSetSel, getIdx_eq, setIdx_eq, readRange_eq, sliceExpr_eq, pure,
    Except.pure, ok_bind, error_bind, throw, throwThe, MonadExceptOf.throw, bind_assoc]
  all_goals repeat' (first
    | exact holds_panic _
    | exact holds_ok ⟨rfl, rfl, rfl⟩
    | exact holds_ret ⟨rfl, rfl, rfl⟩
    | (refine holds_bind (noRet_orPanic _) ?_; intro _)
    | (refine holds_bind (noRet_buildMap _ _ _ _ _) ?_; intro _)
    | (refine holds_bind (noRet_captureFree _ _ _ _) ?_; intro _)
    | (split <;> try simp only [*, charge,
        readU16, push, fail, typeName_eq, receiver_eq, curFrameVal_eq, deref,
        assign, finishSetSel, getIdx_eq, setIdx_eq, readRange_eq, sliceExpr_eq, pure,
        Except.pure, ok_bind, error_bind, throw, throwThe, MonadExceptOf.throw, bind_assoc]))

/-! ### Every iteration keeps the frame invariant -/

theorem holds_mono {P Q : VM → Prop} {r : Exec VM} (h : ∀ w, P w → Q w) (hr : Holds P r) :
    Holds Q r := by
  match r, hr with
  | .ok w, hr => exact h w hr
  | .error (.ret w), hr => exact h w hr
  | .error .panic, _ => trivial

theorem holds_bind_eq {α : Type} {P : VM → Prop} {o : Option α} {f : α → Exec VM}
    (h : ∀ y, o = some y → Holds P (f y)) : Holds P (orPanic o >>= f) := by
  cases o with
  | none => exact holds_panic P
  | some y => exact h y rfl

theorem inv_of_sameFrames {v w : VM} (h : Inv v) (hF : SameFrames v w) : Inv w := by
  obtain ⟨h1, h2, h3⟩ := hF
  unfold Inv at h ⊢
  rw [h1, h2, h3]
  exact h

theorem pushFrame_inv (v : VM) (cur : Frame) (callee : CompiledFunction) (n : Int)
    (h : Inv v) (hcur : v.frames[v.curFrame]? = some cur) :
    Holds Inv (pushFrame v cur callee n) := by
  by_cases hfi : v.framesIndex ≥ v.MaxFrames
  · unfold pushFrame
    rw [if_pos hfi]
    exact holds_ret h
  · obtain ⟨h1, h2, h3, h4⟩ := h
    obtain ⟨old, hold, hpush⟩ := pushFrame_ok v cur callee n hcur (by omega) (by omega)
    rw [hpush]
    obtain ⟨k, hk⟩ := Int.eq_ofNat_of_zero_le (by omega : 0 ≤ v.framesIndex)
    have hlen : (k : Int) < v.frames.length := by
      unfold VM.MaxFrames at hfi
      omega
    refine holds_ok ⟨?_, ?_, ?_, ?_⟩
    · show 1 ≤ v.framesIndex + 1
      omega
    · show v.framesIndex + 1 ≤ ((v.frames.set v.curFrame _).set v.framesIndex.toNat _).length
      simp only [List.length_set]
      omega
    · show ((v.framesIndex.toNat : Nat) : Int) = v.framesIndex + 1 - 1
      omega
    · intro i hi
      have hi : (i : Int) < v.framesIndex + 1 := hi
      show ∃ f fn, ((v.frames.set v.curFrame _).set v.framesIndex.toNat _)[i]? = some f ∧
        f.fn = some fn
      rw [hk, Int.toNat_ofNat]
      by_cases hik : i = k
      · subst hik
        refine ⟨Frame.mk (some callee) callee.Free old.ip (v.sp - n), callee, ?_, rfl⟩
        refine List.getElem?_set_self ?_
        simp only [List.length_set]
        omega
      · rw [List.getElem?_set_ne (Ne.symm hik)]
        obtain ⟨f, fn, hf, hfn⟩ := h4 i (by omega)
        by_cases hic : i = v.curFrame
        · subst hic
          rw [hcur] at hf
          cases hf
          refine ⟨Frame.mk cur.fn cur.freeVars v.ip cur.basePointer, fn, ?_, hfn⟩
          exact List.getElem?_set_self (List.getElem?_eq_some.mp hcur).1
        · rw [List.getElem?_set_ne (Ne.symm hic)]
          exact ⟨f, fn, hf, hfn⟩

theorem callCompiled_inv (env : Env) (v : VM) (callee : CompiledFunction) (numArgs : Int)
    (h : Inv v) : Holds Inv (callCompiled env v callee numArgs) := by
  simp only [callCompiled, gatherVarArgs, isTailPosition, elideCall, readU16, push, fail, charge, typeName_eq, receiver_eq, curFrameVal_eq,
    getIdx_eq, setIdx_eq, readRange_eq, sliceExpr_eq, pure, Except.pure, ok_bind,
    error_bind, throw, throwThe, MonadExceptOf.throw, bind_assoc]
  repeat' (first
    | exact holds_panic _
    | exact holds_ok h
    | exact holds_ret h
    | (refine pushFrame_inv _ _ _ _ h ?_; assumption)
    | (refine holds_bind_eq ?_; intro _ _)
    | (refine holds_bind (noRet_copyArgs _ _ _ _ _) ?_; intro _)
    | (split <;> try simp only [*, readU16, push, fail, charge, typeName_eq, receiver_eq, curFrameVal_eq,
    getIdx_eq, setIdx_eq, readRange_eq, sliceExpr_eq, pure, Except.pure, ok_bind,
    error_bind, throw, throwThe, MonadExceptOf.throw, bind_assoc]))

theorem callNative_keeps (env : Env) (v : VM) (value : Object) (numArgs : Int) :
    Holds (SameFrames v) (callNative env v value numArgs) := by
  simp only [callNative, readU16, push, fail, charge, typeName_eq, receiver_eq, curFrameVal_eq,
    getIdx_eq, setIdx_eq, readRange_eq, sliceExpr_eq, pure, Except.pure, ok_bind,
    error_bind, throw, throwThe, MonadExceptOf.throw, bind_assoc]
  repeat' (first
    | exact holds_panic _
    | exact holds_ok ⟨rfl, rfl, rfl⟩
    | exact holds_ret ⟨rfl, rfl, rfl⟩
    | (refine holds_bind (noRet_orPanic _) ?_; intro _)
    | (split <;> try simp only [*, readU16, push, fail, charge, typeName_eq, receiver_eq, curFrameVal_eq,
    getIdx_eq, setIdx_eq, readRange_eq, sliceExpr_eq, pure, Except.pure, ok_bind,
    error_bind, throw, throwThe, MonadExceptOf.throw, bind_assoc]))

theorem callee_inv (env : Env) (w : VM) (value : Object) (k : Int) (h : Inv w) :
    Holds Inv
      (match value with
        | .CompiledFunction callee => callCompiled env w callee k
        | _ => callNative env w value k) := by
  cases value
  case CompiledFunction callee => exact callCompiled_inv env w callee k h
  all_goals exact holds_mono (fun _ hF => inv_of_sameFrames h hF) (callNative_keeps env w _ k)

theorem opCall_inv (env : Env) (v : VM) (h : Inv v) : Holds Inv (opCall env v) := by
  unfold opCall
  simp only [getIdx_eq, receiver_eq]
  refine holds_bind (noRet_orPanic _) ?_
  intro numArgs
  refine holds_bind (noRet_orPanic _) ?_
  intro spread
  refine holds_bind (noRet_orPanic _) ?_
  intro value
  refine holds_bind (noRet_orPanic _) ?_
  intro _
  split
  · exact holds_ret h
  · split
    · rcases spreadArgs_budget env { v with ip := v.ip + 2 } numArgs 0 0 with
        ⟨h1, _⟩ | ⟨w, h1, _, _, h4⟩ | ⟨w, k, h1, _, _, h4⟩
      · rw [h1]
        exact holds_panic _
      · rw [h1]
        exact holds_ret (inv_of_sameFrames (v := { v with ip := v.ip + 2 }) h h4)
      · rw [h1]
        exact callee_inv env w value k (inv_of_sameFrames (v := { v with ip := v.ip + 2 }) h h4)
    · exact callee_inv env { v with ip := v.ip + 2 } value numArgs h

theorem opReturn_inv (v : VM) (h : Inv v) : Holds Inv (opReturn v) := by
  obtain ⟨h1, h2, h3, h4⟩ := h
  simp only [opReturn, getIdx_eq, setIdx_eq, pure, Except.pure, throw, throwThe,
    MonadExceptOf.throw]
  refine holds_bind (noRet_orPanic _) ?_
  intro flag
  refine holds_bind ?_ ?_
  · split
    · exact noRet_orPanic _
    · exact noRet_ok _
  intro retVal
  refine holds_bind_eq ?_
  intro cur hcur
  split
  · exact holds_panic _
  · refine holds_bind (noRet_orPanic _) ?_
    intro last
    refine holds_bind (noRet_orPanic _) ?_
    intro st
    have h0 : 0 ≤ v.framesIndex - 1 - 1 := by
      by_contra hn
      rw [if_neg hn] at hcur
      cases hcur
    refine holds_ok ⟨?_, ?_, ?_, ?_⟩
    · show 1 ≤ v.framesIndex - 1
      omega
    · show v.framesIndex - 1 ≤ v.frames.length
      omega
    · show (((v.framesIndex - 1 - 1).toNat : Nat) : Int) = v.framesIndex - 1 - 1
      omega
    · intro i hi
      have hi : (i : Int) < v.framesIndex - 1 := hi
      exact h4 i (by omega)

theorem step_inv (env : Env) (v : VM) (h : Inv v) : Holds Inv (step env v) := by
  unfold step
  simp only [getIdx_eq]
  refine holds_bind (noRet_orPanic _) ?_
  intro op
  split
  · next o _ =>
    by_cases h1 : o = .OpCall
    · subst h1
      exact opCall_inv env _ h
    · by_cases h2 : o = .OpReturn
      · subst h2
        exact opReturn_inv _ h
      · refine holds_mono (fun _ hF => inv_of_sameFrames (v := { v with ip := v.ip + 1 }) h hF)
          (dispatch_keeps env _ o ?_)
        intro h3
        rcases List.mem_cons.mp h3 with h3 | h3
        · exact h1 h3
        · rcases List.mem_cons.mp h3 with h3 | h3
          · exact h2 h3
          · cases h3
  · exact holds_ret h

/-! ### Runs under another budget -/

theorem wrap64_pred_ne (a : Int) : wrap64 (a - 1) ≠ a := by
  unfold wrap64
  omega

theorem sim_ok_cases {v v1 : VM} {b m : Int} {rb : Exec VM} (h : Sim v b m (.ok v1) rb) :
    (v1.allocs = v.allocs ∧ rb = .ok (v1.withBudget b m)) ∨
    (v1.allocs ≠ v.allocs ∧
      if wrap64 (b - 1) = 0 then
        ∃ wb, rb = .error (.ret wb) ∧ wb.err = some GoError.ErrObjectAllocLimit ∧
          wb.allocs = 0 ∧ SameFrames v wb
      else rb = .ok (v1.withBudget (wrap64 (b - 1)) m)) := by
  rcases h with ⟨h1, h2⟩ | ⟨w, h1, _⟩ | ⟨_, h2, h3⟩
  · exact Or.inl ⟨h2, h1⟩
  · cases h1
  · refine Or.inr ⟨?_, h3⟩
    have h2 : v1.allocs = wrap64 (v.allocs - 1) := h2
    rw [h2]
    exact wrap64_pred_ne _

theorem sim_ret_cases {v v1 : VM} {b m : Int} {rb : Exec VM}
    (h : Sim v b m (.error (.ret v1)) rb) (he : v1.err = none) :
    (v1.allocs = v.allocs ∧ rb = .error (.ret (v1.withBudget b m))) ∨
    (v1.allocs ≠ v.allocs ∧
      if wrap64 (b - 1) = 0 then
        ∃ wb, rb = .error (.ret wb) ∧ wb.err = some GoError.ErrObjectAllocLimit ∧
          wb.allocs = 0 ∧ SameFrames v wb
      else rb = .error (.ret (v1.withBudget (wrap64 (b - 1)) m))) := by
  rcases h with ⟨h1, h2⟩ | ⟨w, h1, h2⟩ | ⟨_, h2, h3⟩
  · exact Or.inl ⟨h2, h1⟩
  · cases h1
    rw [he] at h2
    cases h2
  · refine Or.inr ⟨?_, h3⟩
    have h2 : v1.allocs = wrap64 (v.allocs - 1) := h2
    rw [h2]
    exact wrap64_pred_ne _

theorem run_pass (env : Env) (m : Int) : ∀ (fuel : Nat) (v vf : VM) (b : Int),
    run env fuel v = some (.returned vf) → vf.err = none →
    (charges env fuel v : Int) < 2 ^ 63 → b = wrap64 (charges env fuel v + 1) →
    ∃ b1, run env fuel (v.withBudget b m) = some (.returned (vf.withBudget b1 m)) := by
  intro fuel
  induction fuel with
  | zero =>
    intro v vf b hrun _ _ _
    by_cases ha : v.aborting = 0
    · simp only [run, if_pos ha] at hrun
      cases hrun
    · have hab : ¬ (v.withBudget b m).aborting = 0 := ha
      simp only [run, if_neg ha, Option.some.injEq, Ended.returned.injEq] at hrun
      subst hrun
      exact ⟨b, by simp only [run, if_neg hab]⟩
  | succ fuel ih =>
    intro v vf b hrun herr hc hb
    have hsim := step_sim env v b m
    by_cases ha : v.aborting = 0
    · have hab : (v.withBudget b m).aborting = 0 := ha
      simp only [run, if_pos ha] at hrun
      simp only [charges, if_pos ha] at hc hb
      simp only [run, if_pos hab]
      cases hstep : step env v with
      | ok v1 =>
        rw [hstep] at hrun hc hb hsim
        dsimp only at hrun hc hb
        rcases sim_ok_cases hsim with ⟨h1, h2⟩ | ⟨h1, h2⟩
        · rw [h2]
          dsimp only
          rw [if_pos h1, Nat.zero_add] at hc hb
          exact ih v1 vf b hrun herr hc hb
        · rw [if_neg h1] at hc hb
          push_cast at hc hb
          have hw : wrap64 (b - 1) = charges env fuel v1 + 1 := by
            rw [hb]
            unfold wrap64
            omega
          have hne : wrap64 (b - 1) ≠ 0 := by omega
          rw [if_neg hne] at h2
          rw [h2]
          dsimp only
          refine ih v1 vf (wrap64 (b - 1)) hrun herr (by omega) ?_
          rw [hw]
          unfold wrap64
          omega
      | error e =>
        cases e with
        | panic =>
          rw [hstep] at hrun
          cases hrun
        | ret v1 =>
          rw [hstep] at hrun hc hb hsim
          simp only [Option.some.injEq, Ended.returned.injEq] at hrun
          subst hrun
          dsimp only at hc hb
          rcases sim_ret_cases hsim herr with ⟨_, h2⟩ | ⟨h1, h2⟩
          · rw [h2]
            exact ⟨b, rfl⟩
          · rw [if_neg h1] at hc hb
            have hne : wrap64 (b - 1) ≠ 0 := by
              rw [hb]
              unfold wrap64
              omega
            rw [if_neg hne] at h2
            rw [h2]
            exact ⟨_, rfl⟩
    · have hab : ¬ (v.withBudget b m).aborting = 0 := ha
      simp only [run, if_neg ha, Option.some.injEq, Ended.returned.injEq] at hrun
      subst hrun
      exact ⟨b, by simp only [run, if_neg hab]⟩

theorem run_fail (env : Env) (m : Int) : ∀ (fuel : Nat) (v vf : VM) (b : Int), Inv v →
    run env fuel v = some (.returned vf) → vf.err = none →
    1 ≤ charges env fuel v → (charges env fuel v : Int) < 2 ^ 63 →
    b = charges env fuel v →
    ∃ w, run env fuel (v.withBudget b m) = some (.returned w) ∧
      w.err = some GoError.ErrObjectAllocLimit ∧ w.allocs = 0 ∧ Inv w := by
  intro fuel
  induction fuel with
  | zero =>
    intro v vf b _ _ _ h1 _ _
    simp only [charges] at h1
    omega
  | succ fuel ih =>
    intro v vf b hinv hrun herr h1 hc hb
    have hsim := step_sim env v b m
    have hstepinv := step_inv env v hinv
    by_cases ha : v.aborting = 0
    · have hab : (v.withBudget b m).aborting = 0 := ha
      simp only [run, if_pos ha] at hrun
      simp only [charges, if_pos ha] at h1 hc hb
      simp only [run, if_pos hab]
      cases hstep : step env v with
      | ok v1 =>
        rw [hstep] at hrun h1 hc hb hsim hstepinv
        dsimp only at hrun h1 hc hb
        have hinv1 : Inv v1 := hstepinv
        rcases sim_ok_cases hsim with ⟨h2, h3⟩ | ⟨h2, h3⟩
        · rw [h3]
          dsimp only
          rw [if_pos h2, Nat.zero_add] at h1 hc hb
          exact ih v1 vf b hinv1 hrun herr h1 hc hb
        · rw [if_neg h2] at h1 hc hb
          push_cast at hc hb
          have hw : wrap64 (b - 1) = charges env fuel v1 := by
            rw [hb]
            unfold wrap64
            omega
          by_cases h0 : wrap64 (b - 1) = 0
          · rw [if_pos h0] at h3
            obtain ⟨wb, h4, h5, h6, h7⟩ := h3
            rw [h4]
            exact ⟨wb, rfl, h5, h6, inv_of_sameFrames hinv h7⟩
          · rw [if_neg h0] at h3
            rw [h3]
            dsimp only
            exact ih v1 vf (wrap64 (b - 1)) hinv1 hrun herr (by omega) (by omega) hw
      | error e =>
        cases e with
        | panic =>
          rw [hstep] at hrun
          cases hrun
        | ret v1 =>
          rw [hstep] at hrun h1 hc hb hsim
          simp only [Option.some.injEq, Ended.returned.injEq] at hrun
          subst hrun
          dsimp only at h1 hc hb
          rcases sim_ret_cases hsim herr with ⟨h2, _⟩ | ⟨h2, h3⟩
          · rw [if_pos h2] at h1
            omega
          · rw [if_neg h2] at hb
            have h0 : wrap64 (b - 1) = 0 := by
              rw [hb]
              rfl
            rw [if_pos h0] at h3
            obtain ⟨wb, h4, h5, h6, h7⟩ := h3
            rw [h4]
            exact ⟨wb, rfl, h5, h6, inv_of_sameFrames hinv h7⟩
    · simp only [charges, if_neg ha] at h1
      omega

/-! ### The allocation budget boundary -/

theorem unwindTrace_ok (env : Env) : ∀ (n : Nat) (v : VM) (err : GoError),
    (∀ i : Nat, (i : Int) < v.framesIndex → ∃ f fn, v.frames[i]? = some f ∧ f.fn = some fn) →
    ∃ w e, unwindTrace env n v err = some (w, e) ∧ e.cause = err.cause ∧
      w.allocs = v.allocs := by
  intro n
  induction n with
  | zero =>
    intro v err _
    exact ⟨v, err, rfl, rfl, rfl⟩
  | succ n ih =>
    intro v err h
    unfold unwindTrace
    by_cases hfi : v.framesIndex > 1
    · have h0 : 0 ≤ v.framesIndex - 1 - 1 := by omega
      obtain ⟨f, fn, hf, hfn⟩ := h (v.framesIndex - 1 - 1).toNat (by omega)
      rw [if_pos hfi]
      dsimp only
      rw [if_pos h0, hf]
      dsimp only
      rw [hfn]
      dsimp only
      obtain ⟨w, e, h1, h2, h3⟩ := ih
        { v with framesIndex := v.framesIndex - 1, curFrame := (v.framesIndex - 1 - 1).toNat }
        (GoError.Wrap "%w\n\tat %s" err [Arg.s (env.filePos fn (f.ip - 1))])
        (fun i hi => h i (by
          have hi : (i : Int) < v.framesIndex - 1 := hi
          omega))
      exact ⟨w, e, h1, h2, h3⟩
    · rw [if_neg hfi]
      exact ⟨v, err, rfl, rfl, rfl⟩

theorem finish_error (env : Env) (w : VM) (e : GoError) (h : Inv w) (he : w.err = some e) :
    ∃ w1 e1, finish env w = .returned w1 (some e1) ∧ e1.cause = e.cause ∧
      w1.allocs = w.allocs := by
  obtain ⟨h1, h2, h3, h4⟩ := h
  obtain ⟨f, fn, hf, hfn⟩ := h4 w.curFrame (by omega)
  unfold finish
  dsimp only
  rw [he]
  dsimp only
  rw [hf]
  dsimp only
  rw [hfn]
  dsimp only
  obtain ⟨w1, e1, h5, h6, h7⟩ := unwindTrace_ok env (w.framesIndex - 1).toNat
    { w with aborting := 0, err := some e }
    (GoError.Wrap "Çalışma Hatası: %w\n\tat %s" e [Arg.s (env.filePos fn (w.ip - 1))]) h4
  rw [h5]
  exact ⟨w1, e1, rfl, h6, h7⟩

theorem finish_none (env : Env) (w : VM) (he : w.err = none) :
    finish env w = .returned { w with aborting := 0 } none := by
  unfold finish
  dsimp only
  rw [he]

theorem err_of_finish (env : Env) (w vf : VM) (h : finish env w = .returned vf none) :
    w.err = none := by
  cases he : w.err with
  | none => rfl
  | some e =>
    unfold finish at h
    dsimp only at h
    rw [he] at h
    dsimp only at h
    split at h
    · split at h
      · split at h
        · cases h
        · cases h
      · cases h
    · cases h

theorem reset_budget (v v0 : VM) (m : Int) (h : reset v = some v0) :
    reset { v with maxAllocs := m } = some (v0.withBudget (wrap64 (m + 1)) m) := by
  unfold reset at h ⊢
  dsimp only at h ⊢
  split at h
  · split at h
    · cases h
      rfl
    · cases h
  · cases h

theorem inv_reset (v v0 : VM) (h : reset v = some v0) : Inv v0 := by
  unfold reset at h
  split at h
  · next f0 hf0 =>
    split at h
    · next fn hfn =>
      cases h
      have hlen : 0 < v.frames.length := (List.getElem?_eq_some.mp hf0).1
      refine ⟨le_refl _, ?_, rfl, ?_⟩
      · show (1 : Int) ≤ v.frames.length
        omega
      · intro i hi
        have hi : (i : Int) < 1 := hi
        have hi0 : i = 0 := by omega
        subst hi0
        exact ⟨f0, fn, hf0, hfn⟩
    · cases h
  · cases h

/-- C1 (allocation budget boundary).  A reference `Run` of the machine `v` returns nil,
and `k` of its iterations execute `v.allocs--` (the allocation-charging executions), with
`1 ≤ k` and `k` an `int64`.  Then the `Run` of the same machine with `maxAllocs = k - 1`
returns an error that wraps `ErrObjectAllocLimit`, raised by a charge that brought the
counter to 0, and the `Run` with `maxAllocs = k` returns nil. -/
theorem alloc_budget_boundary (env : Env) (v v0 vf : VM) (fuel k : Nat)
    (hreset : reset v = some v0)
    (href : Run env fuel v = some (.returned vf none))
    (hk : charges env fuel v0 = k) (hk1 : 1 ≤ k) (hk2 : (k : Int) < 2 ^ 63) :
    (∃ w e, Run env fuel { v with maxAllocs := (k : Int) - 1 } = some (.returned w (some e)) ∧
      e.cause = GoError.ErrObjectAllocLimit ∧ w.allocs = 0) ∧
    (∃ w, Run env fuel { v with maxAllocs := (k : Int) } = some (.returned w none)) := by
  unfold Run at href
  rw [hreset] at href
  dsimp only at href
  cases hrun : run env fuel v0 with
  | none =>
    rw [hrun] at href
    cases href
  | some r =>
    cases r with
    | panicked =>
      rw [hrun] at href
      cases href
    | returned v1 =>
      rw [hrun] at href
      have hfin : finish env v1 = .returned vf none := Option.some.inj href
      have herr : v1.err = none := err_of_finish env v1 vf hfin
      subst hk
      constructor
      · have hb : wrap64 ((charges env fuel v0 : Int) - 1 + 1) = charges env fuel v0 := by
          unfold wrap64
          omega
        obtain ⟨w, h1, h2, h3, h4⟩ := run_fail env ((charges env fuel v0 : Int) - 1) fuel v0 v1
          (charges env fuel v0) (inv_reset v v0 hreset) hrun herr hk1 hk2 rfl
        obtain ⟨w1, e1, h5, h6, h7⟩ := finish_error env w _ h4 h2
        refine ⟨w1, e1, ?_, h6, h7.trans h3⟩
        unfold Run
        rw [reset_budget v v0 _ hreset, hb]
        dsimp only
        rw [h1]
        dsimp only
        rw [h5]
      · obtain ⟨b1, h1⟩ := run_pass env (charges env fuel v0 : Int) fuel v0 v1
          (wrap64 ((charges env fuel v0 : Int) + 1)) hrun herr hk2 rfl
        refine ⟨{ v1.withBudget b1 (charges env fuel v0 : Int) with aborting := 0 }, ?_⟩
        unfold Run
        rw [reset_budget v v0 _ hreset]
        dsimp only
        rw [h1]
        dsimp only
        exact congrArg some (finish_none env (v1.withBudget b1 _) herr)

set_option maxRecDepth 100000 in
theorem alloc_budget_boundary_witness :
    Demo.delivered (Run Demo.env 4 Demo.negVM) = some (none, 1, [.Int 0]) ∧
    (∃ w e, Run Demo.env 4 { Demo.negVM with maxAllocs := ((2 : Nat) : Int) - 1 } =
        some (.returned w (some e)) ∧
      e.cause = GoError.ErrObjectAllocLimit ∧ w.allocs = 0) ∧
    (∃ w, Run Demo.env 4 { Demo.negVM with maxAllocs := ((2 : Nat) : Int) } =
      some (.returned w none)) :=
  ⟨rfl, alloc_budget_boundary Demo.env Demo.negVM _ _ 4 2 rfl rfl rfl (by decide)
    (by norm_num)⟩

/-! ### The elision against the frame push -/

set_option maxRecDepth 100000 in
/-- C4 (self-tail-call elision against the frame push), at the failing input: the program
`g := func(n) { if n { g(n - 1) } else { return 5 } }; g(1)`, in which the call of `g` in
`g` is followed by `Pop; Return 0`, on the machine `NewVM` builds for it.  `Run`, which
elides that call, delivers 5 to the main function; the same run with the call executed by
pushing a frame and returning from it delivers `Undefined`.  Both return nil and leave
`sp = 1`. -/
theorem elision_changes_delivered_value :
    NewVM 8 4 0 100 ⟨[.CompiledFunction Demo.countFn, .Int 1, .Int 5], some Demo.countMain⟩
      (some []) 10 = some Demo.countVM ∧
    Demo.delivered (Run Demo.env 20 Demo.countVM) = some (none, 1, [.Int 5]) ∧
    Demo.delivered (RunFramed Demo.env 20 Demo.countVM) = some (none, 1, [.Undefined]) :=
  ⟨rfl, rfl, rfl⟩

/-! ### Errors and the abort flag along a run -/

theorem ends_panic (P Q : VM → Prop) : Ends P Q (.error .panic) := trivial

theorem ends_ok {P Q : VM → Prop} {w : VM} (h : P w) : Ends P Q (.ok w) := h

theorem ends_ret {P Q : VM → Prop} {w : VM} (h : Q w) : Ends P Q (.error (.ret w)) := h

theorem ends_bind {α : Type} {P Q : VM → Prop} {x : Exec α} {f : α → Exec VM}
    (hx : NoRet x) (h : ∀ y, Ends P Q (f y)) : Ends P Q (x >>= f) := by
  match x, hx with
  | .ok y, _ => exact h y
  | .error .panic, _ => exact ends_panic P Q
  | .error (.ret w), hx => exact absurd rfl (hx w)

theorem ends_mono {P Q P1 Q1 : VM → Prop} {r : Exec VM} (hp : ∀ w, P w → P1 w)
    (hq : ∀ w, Q w → Q1 w) (h : Ends P Q r) : Ends P1 Q1 r := by
  match r, h with
  | .ok w, h => exact hp w h
  | .error (.ret w), h => exact hq w h
  | .error .panic, _ => trivial

set_option maxHeartbeats 4000000 in
/-- Every opcode but `OpCall` and `OpSuspend`: when the handler continues, `err` and the
abort flag are as before; when it returns, `err` is set. -/
theorem dispatch_quiet (env : Env) (v : VM) (o : Opcode)
    (ho : o ∉ [Opcode.OpCall, .OpSuspend]) :
    Ends (fun w => w.err = v.err ∧ w.aborting = v.aborting)
      (fun w => w.err ≠ none ∧ w.aborting = v.aborting) (dispatch env v o) := by
  cases o <;> first
    | (exfalso; revert ho; decide)
    | skip
  all_goals simp only [dispatch, opConstant, opNull, opPop, opTrue, opFalse, opJump,
    opSetGlobal, opGetGlobal, opDefineLocal, opSetLocal, opGetLocal, opGetFreePtr, opGetFree,
    opSetFree, opGetLocalPtr, opEqual, opNotEqual, opLNot, opJumpFalsy, opAndJump,
    opOrJump, opIndex, opGetBuiltin, opIteratorNext, opIteratorKey, opIteratorValue,
    opSetSelGlobal, opSetSelLocal, opSetSelFree, opBinaryOp, opBComplement, opMinus, opArray,
    opMap, opError, opImmutable, opSliceIndex, opClosure, opIteratorInit, opReturn,
    sliceBounds, charge,
    readU16, push, fail, typeName_eq, receiver_eq, curFrameVal_eq, deref,
    assign, finishSetSel, getIdx_eq, setIdx_eq, readRange_eq, sliceExpr_eq, pure,
    Except.pure, ok_bind, error_bind, throw, throwThe, MonadExceptOf.throw, bind_assoc]
  all_goals repeat' (first
    | exact ends_panic _ _
    | exact ends_ok ⟨rfl, rfl⟩
    | exact ends_ret ⟨Option.some_ne_none _, rfl⟩
    | (refine ends_bind (noRet_orPanic _) ?_; intro _)
    | (refine ends_bind (noRet_buildMap _ _ _ _ _) ?_; intro _)
    | (refine ends_bind (noRet_captureFree _ _ _ _) ?_; intro _)
    | (split <;> try simp only [*, charge,
        readU16, push, fail, typeName_eq, receiver_eq, curFrameVal_eq, deref,
        assign, finishSetSel, getIdx_eq, setIdx_eq, readRange_eq, sliceExpr_eq, pure,
        Except.pure, ok_bind, error_bind, throw, throwThe, MonadExceptOf.throw, bind_assoc]))

theorem callCompiled_quiet (env : Env) (v : VM) (callee : CompiledFunction) (numArgs : Int) :
    Ends (fun w => w.err = v.err ∧ w.aborting = v.aborting)
      (fun w => w.err ≠ none ∧ w.aborting = v.aborting)
      (callCompiled env v callee numArgs) := by
  simp only [callCompiled, gatherVarArgs, isTailPosition, elideCall, pushFrame, readU16, push, fail, charge, typeName_eq, receiver_eq, curFrameVal_eq,
    getIdx_eq, setIdx_eq, readRange_eq, sliceExpr_eq, VM.MaxFrames, pure, Except.pure,
    ok_bind, error_bind, throw, throwThe, MonadExceptOf.throw, bind_assoc]
  repeat' (first
    | exact ends_panic _ _
    | exact ends_ok ⟨rfl, rfl⟩
    | exact ends_ret ⟨Option.some_ne_none _, rfl⟩
    | (refine ends_bind (noRet_orPanic _) ?_; intro _)
    | (refine ends_bind (noRet_copyArgs _ _ _ _ _) ?_; intro _)
    | (split <;> try simp only [*, readU16, push, fail, charge, typeName_eq, receiver_eq, curFrameVal_eq,
    getIdx_eq, setIdx_eq, readRange_eq, sliceExpr_eq, VM.MaxFrames, pure, Except.pure,
    ok_bind, error_bind, throw, throwThe, MonadExceptOf.throw, bind_assoc]))

theorem callNative_quiet (env : Env) (v : VM) (value : Object) (numArgs : Int) :
    Ends (fun w => w.err = v.err ∧ w.aborting = v.aborting)
      (fun w => w.err ≠ none ∧ w.aborting = v.aborting)
      (callNative env v value numArgs) := by
  simp only [callNative, readU16, push, fail, charge, typeName_eq, receiver_eq, curFrameVal_eq,
    getIdx_eq, setIdx_eq, readRange_eq, sliceExpr_eq, VM.MaxFrames, pure, Except.pure,
    ok_bind, error_bind, throw, throwThe, MonadExceptOf.throw, bind_assoc]
  repeat' (first
    | exact ends_panic _ _
    | exact ends_ok ⟨rfl, rfl⟩
    | exact ends_ret ⟨Option.some_ne_none _, rfl⟩
    | (refine ends_bind (noRet_orPanic _) ?_; intro _)
    | (split <;> try simp only [*, readU16, push, fail, charge, typeName_eq, receiver_eq, curFrameVal_eq,
    getIdx_eq, setIdx_eq, readRange_eq, sliceExpr_eq, VM.MaxFrames, pure, Except.pure,
    ok_bind, error_bind, throw, throwThe, MonadExceptOf.throw, bind_assoc]))

theorem callee_quiet (env : Env) (v w : VM) (value : Object) (k : Int)
    (he : w.err = v.err) (ha : w.aborting = v.aborting) :
    Ends (fun u => u.err = v.err ∧ u.aborting = v.aborting)
      (fun u => u.err ≠ none ∧ u.aborting = v.aborting)
      (match value with
        | .CompiledFunction callee => callCompiled env w callee k
        | _ => callNative env w value k) := by
  have hp : ∀ u : VM, (u.err = w.err ∧ u.aborting = w.aborting) →
      (u.err = v.err ∧ u.aborting = v.aborting) :=
    fun u h => ⟨h.1.trans he, h.2.trans ha⟩
  have hq : ∀ u : VM, (u.err ≠ none ∧ u.aborting = w.aborting) →
      (u.err ≠ none ∧ u.aborting = v.aborting) :=
    fun u h => ⟨h.1, h.2.trans ha⟩
  cases value
  case CompiledFunction callee => exact ends_mono hp hq (callCompiled_quiet env w callee k)
  all_goals exact ends_mono hp hq (callNative_quiet env w _ k)

theorem spreadArgs_quiet (env : Env) (v : VM) (numArgs : Int) :
    (spreadArgs env v numArgs = .error .panic) ∨
    (∃ w, spreadArgs env v numArgs = .error (.ret w) ∧ w.err ≠ none ∧
      w.aborting = v.aborting) ∨
    (∃ w k, spreadArgs env v numArgs = .ok (w, k) ∧ w.err = v.err ∧
      w.aborting = v.aborting) := by
  cases h : spreadArgs env v numArgs with
  | ok r =>
    obtain ⟨w, k⟩ := r
    obtain ⟨st, sp, rfl⟩ := spreadArgs_frame env v w numArgs k h
    exact Or.inr (Or.inr ⟨_, k, rfl, rfl, rfl⟩)
  | error e =>
    cases e with
    | panic => exact Or.inl rfl
    | ret w =>
      refine Or.inr (Or.inl ⟨w, rfl, ?_⟩)
      simp only [spreadArgs, getIdx_eq, typeName_eq, fail, throw, throwThe,
        MonadExceptOf.throw] at h
      cases hget : (if 0 ≤ v.sp - 1 then v.stack[(v.sp - 1).toNat]? else none) with
      | none =>
        rw [hget] at h
        cases h
      | some arr =>
        rw [hget] at h
        simp only [orPanic, ok_bind] at h
        have key : ∀ (xs : List Object) (k : Int),
            (pushAll { v with sp := v.sp - 1 } xs >>=
              fun u => (pure (u, k) : Exec (VM × Int))) ≠ .error (.ret w) := by
          intro xs k hk
          rcases pushAll_budget 0 0 xs { v with sp := v.sp - 1 } with ⟨h1, _⟩ | ⟨u, h1, _⟩
          · rw [h1] at hk
            cases hk
          · rw [h1] at hk
            cases hk
        cases arr
        case Array xs => exact absurd h (key xs _)
        case ImmutableArray xs => exact absurd h (key xs _)
        case nil => cases h
        all_goals
          cases h
          exact ⟨Option.some_ne_none _, rfl⟩

theorem opCall_quiet (env : Env) (v : VM) :
    Ends (fun w => w.err = v.err ∧ w.aborting = v.aborting)
      (fun w => w.err ≠ none ∧ w.aborting = v.aborting) (opCall env v) := by
  unfold opCall
  simp only [getIdx_eq, receiver_eq]
  refine ends_bind (noRet_orPanic _) ?_
  intro numArgs
  refine ends_bind (noRet_orPanic _) ?_
  intro spread
  refine ends_bind (noRet_orPanic _) ?_
  intro value
  refine ends_bind (noRet_orPanic _) ?_
  intro _
  split
  · exact ends_ret ⟨Option.some_ne_none _, rfl⟩
  · split
    · rcases spreadArgs_quiet env { v with ip := v.ip + 2 } numArgs with
        h1 | ⟨w, h1, h2, h3⟩ | ⟨w, k, h1, h2, h3⟩
      · rw [h1]
        exact ends_panic _ _
      · rw [h1]
        exact ends_ret ⟨h2, h3⟩
      · rw [h1]
        exact callee_quiet env v w value k h2 h3
    · exact callee_quiet env v { v with ip := v.ip + 2 } value numArgs rfl rfl

/-- One iteration: when it continues, `err` and the abort flag are as before; when it
returns, either `err` is set or the opcode was `OpSuspend` and only `ip` has moved. -/
theorem step_quiet (env : Env) (v : VM) :
    Ends (fun w => w.err = v.err ∧ w.aborting = v.aborting)
      (fun w => w.err ≠ none ∨
        (nextOpcode env v = some Opcode.OpSuspend ∧ w = { v with ip := v.ip + 1 }))
      (step env v) := by
  unfold step nextOpcode
  simp only [getIdx_eq]
  cases hget : (if 0 ≤ v.ip + 1 then v.curInsts[(v.ip + 1).toNat]? else none) with
  | none => exact ends_panic _ _
  | some op =>
    simp only [orPanic, ok_bind]
    cases hop : env.opcode op with
    | none => exact ends_ret (Or.inl (Option.some_ne_none _))
    | some o =>
      dsimp only
      by_cases h1 : o = .OpSuspend
      · subst h1
        exact ends_ret (Or.inr ⟨rfl, rfl⟩)
      · by_cases h2 : o = .OpCall
        · subst h2
          exact ends_mono (fun _ h => h) (fun _ h => Or.inl h.1)
            (opCall_quiet env { v with ip := v.ip + 1 })
        · refine ends_mono (fun _ h => h) (fun _ h => Or.inl h.1)
            (dispatch_quiet env { v with ip := v.ip + 1 } o ?_)
          intro h3
          rcases List.mem_cons.mp h3 with h3 | h3
          · exact h2 h3
          · rcases List.mem_cons.mp h3 with h3 | h3
            · exact h1 h3
            · cases h3

/-! ### The end of a run -/

theorem run_aborting (env : Env) (fuel : Nat) (v : VM) (h : v.aborting ≠ 0) :
    run env fuel v = some (.returned v) := by
  cases fuel with
  | zero => simp only [run, if_neg h]
  | succ n => simp only [run, if_neg h]

theorem stateAt_aborting (env : Env) : ∀ (n : Nat) (u s : VM),
    stateAt env n u = some s →
      s.aborting = u.aborting ∧ s.err = u.err ∧ (u.aborting ≠ 0 → s = u) := by
  intro n
  induction n with
  | zero =>
    intro u s h
    simp only [stateAt, Option.some.injEq] at h
    subst h
    exact ⟨rfl, rfl, fun _ => rfl⟩
  | succ n ih =>
    intro u s h
    by_cases ha : u.aborting = 0
    · simp only [stateAt, if_pos ha] at h
      have hq := step_quiet env u
      cases hstep : step env u with
      | ok v1 =>
        rw [hstep] at h hq
        obtain ⟨h1, h1e, _⟩ := ih v1 s h
        have h2 : v1.err = u.err ∧ v1.aborting = u.aborting := hq
        exact ⟨h1.trans h2.2, h1e.trans h2.1, fun hne => absurd ha hne⟩
      | error e =>
        rw [hstep] at h
        cases h
    · simp only [stateAt, if_neg ha] at h
      cases h

/-- A run that returns with `err` nil ended at the abort test or on `OpSuspend`. -/
theorem run_end (env : Env) : ∀ (fuel : Nat) (u w : VM),
    run env fuel u = some (.returned w) → w.err = none →
    ∃ n s, stateAt env n u = some s ∧
      ((s.aborting ≠ 0 ∧ w = s) ∨
       (nextOpcode env s = some Opcode.OpSuspend ∧ w = { s with ip := s.ip + 1 })) := by
  intro fuel
  induction fuel with
  | zero =>
    intro u w h _
    by_cases ha : u.aborting = 0
    · simp only [run, if_pos ha] at h
      cases h
    · simp only [run, if_neg ha, Option.some.injEq, Ended.returned.injEq] at h
      exact ⟨0, u, rfl, Or.inl ⟨ha, h.symm⟩⟩
  | succ fuel ih =>
    intro u w h herr
    by_cases ha : u.aborting = 0
    · simp only [run, if_pos ha] at h
      have hq := step_quiet env u
      cases hstep : step env u with
      | ok v1 =>
        rw [hstep] at h
        obtain ⟨n, s, hs, hcase⟩ := ih v1 w h herr
        refine ⟨n + 1, s, ?_, hcase⟩
        simp only [stateAt, if_pos ha, hstep]
        exact hs
      | error e =>
        cases e with
        | panic =>
          rw [hstep] at h
          cases h
        | ret v1 =>
          rw [hstep] at h hq
          simp only [Option.some.injEq, Ended.returned.injEq] at h
          subst h
          have hq : v1.err ≠ none ∨
              (nextOpcode env u = some Opcode.OpSuspend ∧ v1 = { u with ip := u.ip + 1 }) := hq
          rcases hq with hq | hq
          · exact absurd herr hq
          · exact ⟨0, u, rfl, Or.inr hq⟩
    · simp only [run, if_neg ha, Option.some.injEq, Ended.returned.injEq] at h
      exact ⟨0, u, rfl, Or.inl ⟨ha, h.symm⟩⟩

theorem reset_framesIndex (v v0 : VM) (h : reset v = some v0) : v0.framesIndex = 1 := by
  unfold reset at h
  split at h
  · split at h
    · cases h
      rfl
    · cases h
  · cases h

theorem run_of_Run (env : Env) (fuel : Nat) (v v0 vf : VM) (e : Option GoError)
    (hreset : reset v = some v0) (h : Run env fuel v = some (.returned vf e)) :
    ∃ w, run env fuel v0 = some (.returned w) ∧ finish env w = .returned vf e := by
  unfold Run at h
  rw [hreset] at h
  dsimp only at h
  cases hrun : run env fuel v0 with
  | none =>
    rw [hrun] at h
    cases h
  | some r =>
    cases r with
    | panicked =>
      rw [hrun] at h
      cases h
    | returned w =>
      rw [hrun] at h
      exact ⟨w, rfl, Option.some.inj h⟩

theorem run_nil_plain (env : Env) (v v0 vf : VM) (fuel : Nat)
    (hreset : reset v = some v0) (hwf : SuspendsInMain env v0)
    (hrun : Run env fuel v = some (.returned vf none)) :
    vf.framesIndex = 1 ∧ vf.aborting = 0 := by
  obtain ⟨w, hw, hfin⟩ := run_of_Run env fuel v v0 vf none hreset hrun
  have herr : w.err = none := err_of_finish env w vf hfin
  have hvf : vf = { w with aborting := 0 } := by
    rw [finish_none env w herr] at hfin
    cases hfin
    rfl
  subst hvf
  refine ⟨?_, rfl⟩
  show w.framesIndex = 1
  obtain ⟨n, s, hs, hcase⟩ := run_end env fuel v0 w hw herr
  rcases hcase with ⟨ha, rfl⟩ | ⟨hop, rfl⟩
  · obtain ⟨h1, _, h2⟩ := stateAt_aborting env n v0 w hs
    rw [h2 (h1 ▸ ha)]
    exact reset_framesIndex v v0 hreset
  · exact hwf n s hs hop

theorem runAborted_nil (env : Env) (v v0 s : VM) (k fuel : Nat)
    (hreset : reset v = some v0) (hs : stateAt env k v0 = some s) (herr : v0.err = none) :
    RunAborted env k fuel v = some (.returned { s with aborting := 0 } none) := by
  have hrun : run env fuel (Abort s) = some (.returned (Abort s)) :=
    run_aborting env fuel (Abort s) (by simp [Abort])
  have he : (Abort s).err = none := by
    show s.err = none
    rw [(stateAt_aborting env k v0 s hs).2.1]
    exact herr
  unfold RunAborted
  rw [hreset]
  dsimp only
  rw [hs]
  dsimp only
  rw [hrun]
  dsimp only
  rw [finish_none env (Abort s) he]
  rfl

/-- C11 (state after a successful `Run`), amended.  For a program in which `OpSuspend` is
reached only in the main function (at frame depth 1): a `Run` during which `Abort` is not
called and that returns nil leaves `framesIndex = 1` and the abort flag 0; a `Run` that
starts with `err` nil and is interrupted by `Abort` after `k` iterations returns nil with
the abort flag 0 and everything else, `framesIndex` included, as in the state `s` the
loop had reached. -/
theorem run_nil_depth_one (env : Env) (v v0 : VM)
    (hreset : reset v = some v0) (hwf : SuspendsInMain env v0) :
    (∀ fuel vf, Run env fuel v = some (.returned vf none) →
      vf.framesIndex = 1 ∧ vf.aborting = 0) ∧
    (∀ k fuel s, stateAt env k v0 = some s → v0.err = none →
      RunAborted env k fuel v = some (.returned { s with aborting := 0 } none)) :=
  ⟨fun fuel vf h => run_nil_plain env v v0 vf fuel hreset hwf h,
   fun k fuel s hs herr => runAborted_nil env v v0 s k fuel hreset hs herr⟩

set_option maxRecDepth 100000 in
theorem tailVM_zero_suspends : SuspendsInMain Demo.env (Demo.tailVM 0) := by
  intro n s hs hop
  match n, hs with
  | 0, hs => cases hs; rfl
  | 1, hs => cases hs; rfl
  | 2, hs => cases hs; rfl
  | 3, hs => cases hs; exfalso; revert hop; decide
  | 4, hs => cases hs; exfalso; revert hop; decide
  | 5, hs => cases hs; exfalso; revert hop; decide
  | 6, hs => cases hs; exfalso; revert hop; decide
  | 7, hs => cases hs; exfalso; revert hop; decide
  | 8, hs => cases hs; exfalso; revert hop; decide
  | 9, hs => cases hs; rfl
  | n + 10, hs =>
    have h : stateAt Demo.env (n + 10) (Demo.tailVM 0) = none := rfl
    rw [h] at hs
    cases hs

set_option maxRecDepth 100000 in
/-- C11, counterexample.  The program `loop(0)` reaches `OpSuspend` only in its main
function; when `Abort` is called after 4 iterations, inside the call of `loop`, `Run`
returns nil and leaves `framesIndex = 2`. -/
theorem aborted_run_returns_nil_in_callee :
    SuspendsInMain Demo.env (Demo.tailVM 0) ∧
    ∃ vf, RunAborted Demo.env 4 0 (Demo.tailVM 0) = some (.returned vf none) ∧
      vf.framesIndex = 2 ∧ vf.aborting = 0 :=
  ⟨tailVM_zero_suspends, _, rfl, rfl, rfl⟩

set_option maxRecDepth 100000 in
theorem run_nil_depth_one_witness :
    (∃ vf, Run Demo.env 10 (Demo.tailVM 0) = some (.returned vf none) ∧
      vf.framesIndex = 1 ∧ vf.aborting = 0) ∧
    (∃ s, stateAt Demo.env 4 (Demo.tailVM 0) = some s ∧ s.framesIndex = 2 ∧
      RunAborted Demo.env 4 0 (Demo.tailVM 0) = some (.returned { s with aborting := 0 } none)) :=
  ⟨⟨_, rfl, (run_nil_depth_one Demo.env (Demo.tailVM 0) (Demo.tailVM 0) rfl
      tailVM_zero_suspends).1 10 _ rfl⟩,
   ⟨_, rfl, rfl, (run_nil_depth_one Demo.env (Demo.tailVM 0) (Demo.tailVM 0) rfl
      tailVM_zero_suspends).2 4 0 _ rfl rfl⟩⟩

/-! ### Abort -/

theorem unwindTrace_aborting (env : Env) : ∀ (n : Nat) (v w : VM) (e e1 : GoError),
    unwindTrace env n v e = some (w, e1) → w.aborting = v.aborting := by
  intro n
  induction n with
  | zero =>
    intro v w e e1 h
    simp only [unwindTrace, Option.some.injEq, Prod.mk.injEq] at h
    rw [← h.1]
  | succ n ih =>
    intro v w e e1 h
    unfold unwindTrace at h
    split at h
    · dsimp only at h
      split at h
      · split at h
        · split at h
          · exact (ih _ w _ e1 h).trans rfl
          · cases h
        · cases h
      · cases h
    · simp only [Option.some.injEq, Prod.mk.injEq] at h
      rw [← h.1]

theorem finish_aborting (env : Env) (w vf : VM) (e : Option GoError)
    (h : finish env w = .returned vf e) : vf.aborting = 0 := by
  unfold finish at h
  dsimp only at h
  split at h
  · split at h
    · split at h
      · split at h
        · rename_i hu
          cases h
          exact unwindTrace_aborting env _ _ _ _ _ hu
        · cases h
      · cases h
    · cases h
  · cases h
    rfl

/-- C12 (abort).  Every iteration of the loop of `run` starts with the test of the abort
flag, before the fetch; when the flag is not zero at that test, `run` returns at once in
the state it was in, with no instruction executed and `err` untouched; a `Run` that
returns leaves the flag 0; and a `Run` on a machine fresh from `NewVM` on which `Abort`
was called returns nil, the machine being as `NewVM` built it but for the `allocs`
counter that `Run` sets before the loop. -/
theorem abort_exits_loop (env : Env) :
    (∀ fuel v, run env (fuel + 1) v =
      if v.aborting = 0 then
        match step env v with
        | .ok v1 => run env fuel v1
        | .error (Stop.ret v1) => some (Ended.returned v1)
        | .error Stop.panic => some Ended.panicked
      else some (Ended.returned v)) ∧
    (∀ fuel v, v.aborting ≠ 0 → run env fuel v = some (Ended.returned v)) ∧
    (∀ fuel v vf e, Run env fuel v = some (.returned vf e) → vf.aborting = 0) ∧
    (∀ (S M G addr : Nat) (bc : Bytecode) (globals : Option (List Object))
        (maxAllocs : Int) (v : VM) (fuel : Nat),
      NewVM S M G addr bc globals maxAllocs = some v →
        Run env fuel (Abort v) =
          some (.returned { v with allocs := wrap64 (maxAllocs + 1) } none)) := by
  refine ⟨fun fuel v => rfl, fun fuel v h => run_aborting env fuel v h, ?_, ?_⟩
  · intro fuel v vf e h
    cases hr : reset v with
    | none =>
      unfold Run at h
      rw [hr] at h
      cases h
    | some v0 =>
      obtain ⟨w, _, hfin⟩ := run_of_Run env fuel v v0 vf e hr h
      exact finish_aborting env w vf e hfin
  · intro S M G addr bc globals maxAllocs v fuel h
    unfold NewVM at h
    split at h
    · cases h
    · rename_i main hm
      cases h
      unfold Run
      simp only [reset, Abort, List.getElem?_cons_zero]
      rw [run_aborting env fuel _ (by simp)]
      dsimp only
      rw [finish_none env _ rfl]

/-! ### Variables shared between a function and its closures -/

theorem getIdx_set {α : Type} (xs : List α) (i j : Int) (x : α) (hj : 0 ≤ j)
    (hjl : j < xs.length) (hi : 0 ≤ i) :
    getIdx (xs.set j.toNat x) i = if i = j then .ok x else getIdx xs i := by
  obtain ⟨n, rfl⟩ := Int.eq_ofNat_of_zero_le hj
  obtain ⟨m, rfl⟩ := Int.eq_ofNat_of_zero_le hi
  have hn : n < xs.length := by omega
  by_cases h : m = n
  · subst h
    simp [getIdx, List.getElem?_set_self hn, pure, Except.pure]
  · have h1 : ¬ ((m : Int) = (n : Int)) := by omega
    have h2 : n ≠ m := fun e => h e.symm
    simp [getIdx, List.getElem?_set_ne h2, h1]

theorem curFrameVal_of {v : VM} {cur : Frame} (h : v.frames[v.curFrame]? = some cur) :
    curFrameVal v = .ok cur := by
  simp [curFrameVal, h, pure, Except.pure]

theorem deref_assign (v : VM) (c : Loc) (x old : Object) (hold : deref v c = .ok old) :
    ∃ w, assign v c x = .ok w ∧ deref w c = .ok x ∧
      (∀ c1, c1 ≠ c → deref w c1 = deref v c1) ∧
      w.sp = v.sp ∧ w.ip = v.ip ∧ w.frames = v.frames ∧ w.curFrame = v.curFrame ∧
      w.stack.length = v.stack.length ∧ w.curInsts = v.curInsts := by
  cases c with
  | stack i =>
    obtain ⟨h0, h1, _⟩ := getIdx_ok hold
    refine ⟨{ v with stack := v.stack.set i x }, ?_, ?_, ?_, rfl, rfl, rfl, rfl, ?_, rfl⟩
    · have := setIdx_of_lt v.stack (i : Int) x h0 h1
      simp only [assign, this, bind, Except.bind, pure, Except.pure, Int.toNat_ofNat]
    · have := getIdx_set v.stack (i : Int) (i : Int) x h0 h1 h0
      simpa [deref] using this
    · intro c1 hc1
      cases c1 with
      | stack k =>
        have hne : ¬ ((k : Int) = (i : Int)) := by
          intro e
          apply hc1
          have : k = i := by omega
          rw [this]
        have := getIdx_set v.stack (k : Int) (i : Int) x h0 h1 (by omega)
        simpa [deref, hne] using this
      | heap a => rfl
    · simp
  | heap a =>
    obtain ⟨h0, h1, _⟩ := getIdx_ok hold
    refine ⟨{ v with cells := v.cells.set a x }, ?_, ?_, ?_, rfl, rfl, rfl, rfl, rfl, rfl⟩
    · have := setIdx_of_lt v.cells (a : Int) x h0 h1
      simp only [assign, this, bind, Except.bind, pure, Except.pure, Int.toNat_ofNat]
    · have := getIdx_set v.cells (a : Int) (a : Int) x h0 h1 h0
      simpa [deref] using this
    · intro c1 hc1
      cases c1 with
      | stack k => rfl
      | heap k =>
        have hne : ¬ ((k : Int) = (a : Int)) := by
          intro e
          apply hc1
          have : k = a := by omega
          rw [this]
        have := getIdx_set v.cells (k : Int) (a : Int) x h0 h1 (by omega)
        simpa [deref, hne] using this

theorem getIdx_append_last {α : Type} (xs : List α) (x : α) :
    getIdx (xs ++ [x]) (xs.length : Int) = .ok x := by
  simp [getIdx, pure, Except.pure]

/-- The case `OpGetLocalPtr`: the slot and the top of the stack hold one cell. -/
theorem getLocalPtr_cell (v : VM) (k : Nat) (cur : Frame) (val : Object)
    (hk : getIdx v.curInsts (v.ip + 1) = .ok k) (hf : v.frames[v.curFrame]? = some cur)
    (hval : getIdx v.stack (cur.basePointer + k) = .ok val)
    (hsp : 0 ≤ v.sp ∧ v.sp < v.stack.length) :
    ∃ w c, opGetLocalPtr v = .ok w ∧ w.sp = v.sp + 1 ∧ w.ip = v.ip + 1 ∧
      getIdx w.stack (cur.basePointer + k) = .ok (.ObjectPtr c) ∧
      getIdx w.stack v.sp = .ok (.ObjectPtr c) ∧
      (∀ p, val = .ObjectPtr p → c = p ∧ w.cells = v.cells) ∧
      ((∀ p, val ≠ .ObjectPtr p) →
        c = .heap v.cells.length ∧ w.cells = v.cells ++ [val] ∧ deref w c = .ok val) := by
  obtain ⟨hs0, hs1, -⟩ := getIdx_ok hval
  have hcur : curFrameVal { v with ip := v.ip + 1 } = .ok cur := curFrameVal_of hf
  unfold opGetLocalPtr
  simp only [hk, hcur, hval, bind, Except.bind, pure, Except.pure]
  split
  · rename_i p
    have hset := setIdx_of_lt v.stack v.sp (Object.ObjectPtr p) hsp.1 hsp.2
    simp only [push, hset, bind, Except.bind, pure, Except.pure]
    refine ⟨_, p, rfl, rfl, rfl, ?_, ?_, fun q hq => ?_, fun hq => absurd rfl (hq p)⟩
    · rw [getIdx_set v.stack _ v.sp _ hsp.1 hsp.2 hs0]
      split
      · rfl
      · exact hval
    · rw [getIdx_set v.stack _ v.sp _ hsp.1 hsp.2 hsp.1, if_pos rfl]
    · cases hq
      exact ⟨rfl, rfl⟩
  · rename_i hnot
    have hset1 := setIdx_of_lt v.stack (cur.basePointer + k)
      (Object.ObjectPtr (Loc.heap v.cells.length)) hs0 hs1
    have hlen : (v.stack.set (cur.basePointer + (k : Int)).toNat
        (Object.ObjectPtr (Loc.heap v.cells.length))).length = v.stack.length := by simp
    have hset2 := setIdx_of_lt (v.stack.set (cur.basePointer + (k : Int)).toNat
        (Object.ObjectPtr (Loc.heap v.cells.length))) v.sp
      (Object.ObjectPtr (Loc.heap v.cells.length)) hsp.1 (by rw [hlen]; exact hsp.2)
    simp only [push, hset1, hset2, bind, Except.bind, pure, Except.pure]
    refine ⟨_, Loc.heap v.cells.length, rfl, rfl, rfl,
      ?_, ?_, fun q hq => absurd hq (hnot q), fun _ => ⟨rfl, rfl, ?_⟩⟩
    · rw [getIdx_set _ _ v.sp _ hsp.1 (by rw [hlen]; exact hsp.2) hs0]
      split
      · rfl
      · rw [getIdx_set v.stack _ _ _ hs0 hs1 hs0, if_pos rfl]
    · rw [getIdx_set _ _ v.sp _ hsp.1 (by rw [hlen]; exact hsp.2) hsp.1, if_pos rfl]
    · exact getIdx_append_last v.cells val

/-- The case `OpGetLocal` on a slot that holds a cell pushes what the cell points at. -/
theorem getLocal_cell (u : VM) (k : Nat) (cur : Frame) (c : Loc) (x : Object)
    (hk : getIdx u.curInsts (u.ip + 1) = .ok k) (hf : u.frames[u.curFrame]? = some cur)
    (hslot : getIdx u.stack (cur.basePointer + k) = .ok (.ObjectPtr c))
    (hd : deref u c = .ok x) (hsp : 0 ≤ u.sp ∧ u.sp < u.stack.length) :
    opGetLocal u = .ok { u with
      ip := u.ip + 1, stack := u.stack.set u.sp.toNat x, sp := u.sp + 1 } := by
  have hcur : curFrameVal { u with ip := u.ip + 1 } = .ok cur := curFrameVal_of hf
  have hd1 : deref { u with ip := u.ip + 1 } c = .ok x := by
    cases c <;> exact hd
  have hset := setIdx_of_lt u.stack u.sp x hsp.1 hsp.2
  simp only [opGetLocal, hk, hcur, hslot, hd1, push, hset, bind, Except.bind, pure,
    Except.pure]

/-- The case `OpGetFree` pushes what the cell of the free variable points at. -/
theorem getFree_cell (u : VM) (j : Nat) (cur : Frame) (c : Loc) (x : Object)
    (hj : getIdx u.curInsts (u.ip + 1) = .ok j) (hf : u.frames[u.curFrame]? = some cur)
    (hc : getIdx cur.freeVars j = .ok c)
    (hd : deref u c = .ok x) (hsp : 0 ≤ u.sp ∧ u.sp < u.stack.length) :
    opGetFree u = .ok { u with
      ip := u.ip + 1, stack := u.stack.set u.sp.toNat x, sp := u.sp + 1 } := by
  have hcur : curFrameVal { u with ip := u.ip + 1 } = .ok cur := curFrameVal_of hf
  have hd1 : deref { u with ip := u.ip + 1 } c = .ok x := by
    cases c <;> exact hd
  have hset := setIdx_of_lt u.stack u.sp x hsp.1 hsp.2
  simp only [opGetFree, hj, hcur, hc, hd1, push, hset, bind, Except.bind, pure,
    Except.pure]

theorem pushed_top (u : VM) (x : Object) (hsp : 0 ≤ u.sp ∧ u.sp < u.stack.length) :
    getIdx (u.stack.set u.sp.toNat x) u.sp = .ok x := by
  rw [getIdx_set u.stack _ u.sp _ hsp.1 hsp.2 hsp.1, if_pos rfl]

theorem deref_congr (w v : VM) (hs : w.stack = v.stack) (hc : w.cells = v.cells) (c : Loc) :
    deref w c = deref v c := by
  cases c with
  | stack i => simp only [deref, hs]
  | heap a => simp only [deref, hc]

theorem deref_stack_set (v : VM) (n : Nat) (z : Object) (hn : n < v.stack.length) (c : Loc) :
    deref { v with stack := v.stack.set n z } c =
      if c = Loc.stack n then .ok z else deref v c := by
  cases c with
  | heap a => simp [deref]
  | stack i =>
    have h := getIdx_set v.stack (i : Int) (n : Int) z (by omega) (by omega) (by omega)
    simp only [Int.toNat_ofNat] at h
    simp only [deref, h, Loc.stack.injEq, Nat.cast_inj]

/-- The case `OpSetFree` writes the top of the stack into the cell of the free variable
and into nothing else. -/
theorem setFree_cell (v : VM) (j : Nat) (cur : Frame) (c : Loc) (x old : Object)
    (hj : getIdx v.curInsts (v.ip + 1) = .ok j) (hf : v.frames[v.curFrame]? = some cur)
    (hc : getIdx cur.freeVars j = .ok c) (hx : getIdx v.stack (v.sp - 1) = .ok x)
    (hold : deref v c = .ok old) :
    ∃ w, opSetFree v = .ok w ∧ deref w c = .ok x ∧
      (∀ c1, c1 ≠ c → deref w c1 = deref v c1) ∧ w.sp = v.sp - 1 ∧ w.ip = v.ip + 1 := by
  have hcur : curFrameVal { v with ip := v.ip + 1 } = .ok cur := curFrameVal_of hf
  have e0 : ∀ c1, deref { v with ip := v.ip + 1 } c1 = deref v c1 :=
    fun c1 => deref_congr _ _ rfl rfl c1
  obtain ⟨w, hw, h1, h2, h3, h4, _⟩ :=
    deref_assign { v with ip := v.ip + 1 } c x old ((e0 c).trans hold)
  have e1 : ∀ c1, deref { w with sp := w.sp - 1 } c1 = deref w c1 :=
    fun c1 => deref_congr _ _ rfl rfl c1
  refine ⟨{ w with sp := w.sp - 1 }, ?_, (e1 c).trans h1,
    fun c1 hc1 => (e1 c1).trans ((h2 c1 hc1).trans (e0 c1)), ?_, h4⟩
  · simp only [opSetFree, hj, hcur, hc, hx, hw, bind, Except.bind, pure, Except.pure]
  · show w.sp - 1 = v.sp - 1
    rw [h3]

/-- The case `OpSetLocal` on a slot that holds a cell writes into the cell, and the slot
keeps the cell. -/
theorem setLocal_cell (v : VM) (k : Nat) (cur : Frame) (c : Loc) (y old : Object)
    (hk : getIdx v.curInsts (v.ip + 1) = .ok k) (hf : v.frames[v.curFrame]? = some cur)
    (hy : getIdx v.stack (v.sp - 1) = .ok y)
    (hslot : getIdx v.stack (cur.basePointer + k) = .ok (.ObjectPtr c))
    (hne : c ≠ Loc.stack (cur.basePointer + k).toNat)
    (hold : deref v c = .ok old) :
    ∃ w, opSetLocal v = .ok w ∧
      getIdx w.stack (cur.basePointer + k) = .ok (.ObjectPtr c) ∧
      deref w c = .ok y ∧ (∀ c1, c1 ≠ c → deref w c1 = deref v c1) ∧
      w.sp = v.sp - 1 ∧ w.ip = v.ip + 1 := by
  obtain ⟨hs0, hs1, -⟩ := getIdx_ok hslot
  have hcur : curFrameVal { v with ip := v.ip + 1 } = .ok cur := curFrameVal_of hf
  have e0 : ∀ c1, deref { v with ip := v.ip + 1, sp := v.sp - 1 } c1 = deref v c1 :=
    fun c1 => deref_congr _ _ rfl rfl c1
  obtain ⟨w, hw, h1, h2, h3, h4, _, _, h7, _⟩ :=
    deref_assign { v with ip := v.ip + 1, sp := v.sp - 1 } c y old ((e0 c).trans hold)
  have h7 : w.stack.length = v.stack.length := h7
  have hn : (cur.basePointer + (k : Int)).toNat < w.stack.length := by
    rw [h7]
    omega
  have hset := setIdx_of_lt w.stack (cur.basePointer + k) (Object.ObjectPtr c) hs0
    (by rw [h7]; exact hs1)
  have hslotw : getIdx w.stack (cur.basePointer + k) = .ok (.ObjectPtr c) := by
    have h := (h2 (Loc.stack (cur.basePointer + (k : Int)).toNat)
      (fun e => hne e.symm)).trans (e0 _)
    simp only [deref, Int.toNat_of_nonneg hs0] at h
    rw [h]
    exact hslot
  refine ⟨{ w with stack := w.stack.set (cur.basePointer + (k : Int)).toNat (.ObjectPtr c) },
    ?_, ?_, ?_, ?_, h3, h4⟩
  · simp only [opSetLocal, hk, hcur, hy, hslot, hw, hset, bind, Except.bind, pure,
      Except.pure]
  · rw [getIdx_set w.stack _ _ _ hs0 (by rw [h7]; exact hs1) hs0, if_pos rfl]
  · rw [deref_stack_set w _ _ hn, if_neg hne]
    exact h1
  · intro c1 hc1
    rw [deref_stack_set w _ _ hn]
    split
    · rename_i he
      subst he
      simp only [deref, Int.toNat_of_nonneg hs0]
      exact hslot.symm
    · exact (h2 c1 hc1).trans (e0 c1)

theorem captureFree_get (stack : List Object) (base : Int) (p : Loc) :
    ∀ (n : Nat) (i : Int) (free : List Loc), captureFree stack base n i = .ok free →
      ∀ j : Nat, j < n → getIdx stack (base + (i + j)) = .ok (.ObjectPtr p) →
        free[j]? = some p := by
  intro n
  induction n with
  | zero =>
    intro i free _ j hj
    omega
  | succ n ih =>
    intro i free h j hj hget
    unfold captureFree at h
    cases h1 : getIdx stack (base + i) with
    | error e =>
      simp only [h1, bind, Except.bind] at h
      cases h
    | ok fv =>
      cases h2 : captureFree stack base n (i + 1) with
      | error e =>
        simp only [h1, h2, bind, Except.bind] at h
        cases h
      | ok rest =>
        simp only [h1, h2, bind, Except.bind, pure, Except.pure, Except.ok.injEq] at h
        subst h
        cases j with
        | zero =>
          simp only [Nat.cast_zero, add_zero] at hget
          rw [hget] at h1
          cases h1
          simp
        | succ j =>
          have hg : getIdx stack (base + (i + 1 + (j : Int))) = .ok (.ObjectPtr p) := by
            have e : base + (i + 1 + (j : Int)) = base + (i + ((j + 1 : Nat) : Int)) := by
              push_cast
              ring
            rw [e]
            exact hget
          simpa using ih (i + 1) rest h2 j (by omega) hg

/-- The case `OpClosure`: a cell among the captured values becomes the free variable of
the function pushed. -/
theorem closure_captures (env : Env) (v w : VM) (numFree j : Nat) (p : Loc)
    (h : opClosure env v = .ok w)
    (hn : getIdx v.curInsts (v.ip + 3) = .ok numFree) (hj : j < numFree)
    (hget : getIdx v.stack (v.sp - numFree + j) = .ok (.ObjectPtr p)) :
    ∃ cl, getIdx w.stack (w.sp - 1) = .ok (.CompiledFunction cl) ∧ cl.Free[j]? = some p ∧
      w.sp = v.sp - numFree + 1 := by
  unfold opClosure at h
  simp only [hn, bind, Except.bind, pure, Except.pure] at h
  split at h
  · cases h
  · split at h
    · cases h
    · split at h
      · cases h
      · split at h
        · rename_i fn _
          split at h
          · cases h
          · rename_i free hfree
            split at h
            · cases h
            · rename_i v1 hcharge
              have hv1 : v1.sp = v.sp - numFree ∧ v1.stack = v.stack := by
                unfold charge at hcharge
                dsimp only at hcharge
                split at hcharge
                · cases hcharge
                · cases hcharge
                  exact ⟨rfl, rfl⟩
              unfold push at h
              simp only [bind, Except.bind, pure, Except.pure] at h
              split at h
              · cases h
              · rename_i st hst
                cases h
                unfold setIdx at hst
                split at hst
                · rename_i hr
                  simp only [pure, Except.pure, Except.ok.injEq] at hst
                  subst hst
                  refine ⟨CompiledFunction.mk v.nextAddr fn.Instructions fn.NumLocals
                    fn.NumParameters fn.VarArgs free, ?_,
                    captureFree_get v.stack (v.sp - numFree) p numFree 0 free
                      hfree j hj (by simpa using hget), ?_⟩
                  · show getIdx (v1.stack.set v1.sp.toNat _) (v1.sp + 1 - 1) = _
                    rw [add_sub_cancel_right, getIdx_set v1.stack _ v1.sp _ hr.1 hr.2 hr.1,
                      if_pos rfl]
                  · show v1.sp + 1 = _
                    rw [hv1.1]
                · cases hst
        · split at h <;> cases h

/-- The frame that a call installs takes its free variables from the function called. -/
theorem pushFrame_freeVars (v w : VM) (cur : Frame) (callee : CompiledFunction) (n : Int)
    (h : pushFrame v cur callee n = .ok w) :
    ∃ f, w.frames[w.curFrame]? = some f ∧ f.freeVars = callee.Free ∧
      w.curInsts = callee.Instructions := by
  unfold pushFrame at h
  split at h
  · cases h
  · simp only [bind, Except.bind, pure, Except.pure] at h
    split at h
    · cases h
    · rename_i fs1 _
      split at h
      · cases h
      · rename_i new _
        split at h
        · cases h
        · rename_i fs2 hfs2
          cases h
          unfold setIdx at hfs2
          split at hfs2
          · rename_i hr
            simp only [pure, Except.pure, Except.ok.injEq] at hfs2
            subst hfs2
            refine ⟨_, List.getElem?_set_self (by omega), rfl, rfl⟩
          · cases hfs2

set_option maxRecDepth 100000 in
/-- C13 (closure aliasing through cells).  `OpGetLocalPtr k` leaves one cell `c` both in
the slot of local `k` and on top of the stack, reusing a cell the slot already holds and
else moving the value to a fresh heap cell; `OpClosure` makes a cell among the captured
values the free variable of that index, and a call installs these free variables in the
frame of the closure.  For a cell `c` that is the free variable `j` of a frame and sits in
the slot of local `k` of another: `OpSetFree j` with `x` on top writes `x` into `c` and
nowhere else, and `OpGetLocal k`, while the cell is not written again, pushes `x`;
`OpSetLocal k` with `y` on top writes `y` into `c` and nowhere else, the slot keeps `c`
(here `c` is not the address of that very slot, as for every cell `OpGetLocalPtr` makes),
and `OpGetFree j`, while the cell is not written again, pushes `y`.  The program
`a := 1; func() { a = 7 }(); x := a; a = 9; return [x, func() { return a }()]` run by
`Run` delivers `[7, 9]`. -/
theorem closure_aliasing :
    (∀ (v : VM) (k : Nat) (cur : Frame) (val : Object),
      getIdx v.curInsts (v.ip + 1) = .ok k → v.frames[v.curFrame]? = some cur →
      getIdx v.stack (cur.basePointer + k) = .ok val →
      (0 ≤ v.sp ∧ v.sp < v.stack.length) →
      ∃ w c, opGetLocalPtr v = .ok w ∧ w.sp = v.sp + 1 ∧ w.ip = v.ip + 1 ∧
        getIdx w.stack (cur.basePointer + k) = .ok (.ObjectPtr c) ∧
        getIdx w.stack v.sp = .ok (.ObjectPtr c) ∧
        (∀ p, val = .ObjectPtr p → c = p ∧ w.cells = v.cells) ∧
        ((∀ p, val ≠ .ObjectPtr p) →
          c = .heap v.cells.length ∧ w.cells = v.cells ++ [val] ∧ deref w c = .ok val)) ∧
    (∀ (env : Env) (v w : VM) (numFree j : Nat) (c : Loc),
      opClosure env v = .ok w → getIdx v.curInsts (v.ip + 3) = .ok numFree → j < numFree →
      getIdx v.stack (v.sp - numFree + j) = .ok (.ObjectPtr c) →
      ∃ cl, getIdx w.stack (w.sp - 1) = .ok (.CompiledFunction cl) ∧ cl.Free[j]? = some c ∧
        w.sp = v.sp - numFree + 1) ∧
    (∀ (v w : VM) (cur : Frame) (callee : CompiledFunction) (n : Int),
      pushFrame v cur callee n = .ok w →
      ∃ f, w.frames[w.curFrame]? = some f ∧ f.freeVars = callee.Free ∧
        w.curInsts = callee.Instructions) ∧
    (∀ (v : VM) (j : Nat) (cur : Frame) (c : Loc) (x old : Object),
      getIdx v.curInsts (v.ip + 1) = .ok j → v.frames[v.curFrame]? = some cur →
      getIdx cur.freeVars j = .ok c → getIdx v.stack (v.sp - 1) = .ok x →
      deref v c = .ok old →
      ∃ w, opSetFree v = .ok w ∧ deref w c = .ok x ∧
        (∀ c1, c1 ≠ c → deref w c1 = deref v c1) ∧ w.sp = v.sp - 1 ∧ w.ip = v.ip + 1 ∧
        ∀ (u : VM) (k : Nat) (curu : Frame),
          getIdx u.curInsts (u.ip + 1) = .ok k → u.frames[u.curFrame]? = some curu →
          getIdx u.stack (curu.basePointer + k) = .ok (.ObjectPtr c) →
          deref u c = deref w c → (0 ≤ u.sp ∧ u.sp < u.stack.length) →
          ∃ u1, opGetLocal u = .ok u1 ∧ getIdx u1.stack u.sp = .ok x ∧
            u1.sp = u.sp + 1 ∧ u1.cells = u.cells) ∧
    (∀ (v : VM) (k : Nat) (cur : Frame) (c : Loc) (y old : Object),
      getIdx v.curInsts (v.ip + 1) = .ok k → v.frames[v.curFrame]? = some cur →
      getIdx v.stack (v.sp - 1) = .ok y →
      getIdx v.stack (cur.basePointer + k) = .ok (.ObjectPtr c) →
      c ≠ Loc.stack (cur.basePointer + k).toNat → deref v c = .ok old →
      ∃ w, opSetLocal v = .ok w ∧
        getIdx w.stack (cur.basePointer + k) = .ok (.ObjectPtr c) ∧
        deref w c = .ok y ∧ (∀ c1, c1 ≠ c → deref w c1 = deref v c1) ∧
        w.sp = v.sp - 1 ∧ w.ip = v.ip + 1 ∧
        ∀ (u : VM) (j : Nat) (curu : Frame),
          getIdx u.curInsts (u.ip + 1) = .ok j → u.frames[u.curFrame]? = some curu →
          getIdx curu.freeVars j = .ok c →
          deref u c = deref w c → (0 ≤ u.sp ∧ u.sp < u.stack.length) →
          ∃ u1, opGetFree u = .ok u1 ∧ getIdx u1.stack u.sp = .ok y ∧
            u1.sp = u.sp + 1 ∧ u1.cells = u.cells) ∧
    Demo.delivered (Run Demo.env 22 Demo.aliasVM) =
      some (none, 1, [.Array [.Int 7, .Int 9]]) := by
  refine ⟨getLocalPtr_cell, ?_, pushFrame_freeVars, ?_, ?_, rfl⟩
  · intro env v w numFree j c h hn hj hget
    exact closure_captures env v w numFree j c h hn hj hget
  · intro v j cur c x old hj hf hc hx hold
    obtain ⟨w, hw, h1, h2, h3, h4⟩ := setFree_cell v j cur c x old hj hf hc hx hold
    refine ⟨w, hw, h1, h2, h3, h4, ?_⟩
    intro u k curu hk hfu hslot hd hsp
    exact ⟨_, getLocal_cell u k curu c x hk hfu hslot (hd.trans h1) hsp,
      pushed_top u x hsp, rfl, rfl⟩
  · intro v k cur c y old hk hf hy hslot hne hold
    obtain ⟨w, hw, h0, h1, h2, h3, h4⟩ := setLocal_cell v k cur c y old hk hf hy hslot hne hold
    refine ⟨w, hw, h0, h1, h2, h3, h4, ?_⟩
    intro u j curu hj hfu hc hd hsp
    exact ⟨_, getFree_cell u j curu c y hj hfu hc (hd.trans h1) hsp,
      pushed_top u y hsp, rfl, rfl⟩

/-! ### The frames a tail-recursive loop needs -/

theorem pushFrame_overflow (v : VM) (cur : Frame) (callee : CompiledFunction) (n : Int)
    (h : v.MaxFrames ≤ v.framesIndex) :
    pushFrame v cur callee n = .error (.ret { v with err := some GoError.ErrStackOverflow }) := by
  have h1 : v.framesIndex ≥ v.MaxFrames := h
  simp only [pushFrame, if_pos h1, fail, throw, throwThe, MonadExceptOf.throw]

theorem finish_depth_one (env : Env) (w : VM) (e : GoError) (f : Frame)
    (fn : CompiledFunction) (hfi : w.framesIndex = 1) (he : w.err = some e)
    (hf : w.frames[w.curFrame]? = some f) (hfn : f.fn = some fn) :
    ∃ vf e1, finish env w = .returned vf (some e1) ∧ e1.cause = e.cause ∧
      vf.framesIndex = 1 := by
  unfold finish
  dsimp only
  rw [he]
  dsimp only
  rw [hf]
  dsimp only
  rw [hfn]
  dsimp only
  rw [hfi]
  exact ⟨_, _, rfl, rfl, rfl⟩

set_option maxRecDepth 100000 in
/-- On a machine with one frame the main function's call of `loop` is refused. -/
theorem tail_one_frame (k : Int) (fuel : Nat) :
    ∃ vf e, Run Demo.env (fuel + 3) (Demo.tailOneFrameVM k) = some (.returned vf (some e)) ∧
      e.cause = GoError.ErrStackOverflow ∧ vf.framesIndex = 1 := by
  have s1 : step Demo.env (Demo.tailOneFrameVM k) =
      .ok { Demo.tailOneFrameVM k with
        stack := [.CompiledFunction Demo.tailFn, .nil, .nil, .nil, .nil, .nil]
        sp := 1
        ip := 2 } :=
    step_constant Demo.env _ 0 0 0 (.CompiledFunction Demo.tailFn) _ rfl rfl rfl rfl rfl rfl
  have s2 : step Demo.env
      { Demo.tailOneFrameVM k with
        stack := [.CompiledFunction Demo.tailFn, .nil, .nil, .nil, .nil, .nil]
        sp := 1
        ip := 2 } =
      .ok { Demo.tailOneFrameVM k with
        stack := [.CompiledFunction Demo.tailFn, .Int k, .nil, .nil, .nil, .nil]
        sp := 2
        ip := 5 } :=
    step_constant Demo.env _ 0 3 0 (.Int k) _ rfl rfl rfl rfl rfl rfl
  have s3 : step Demo.env
      { Demo.tailOneFrameVM k with
        stack := [.CompiledFunction Demo.tailFn, .Int k, .nil, .nil, .nil, .nil]
        sp := 2
        ip := 5 } =
      .error (.ret { Demo.tailOneFrameVM k with
        stack := [.CompiledFunction Demo.tailFn, .Int k, .nil, .nil, .nil, .nil]
        sp := 2
        ip := 8
        err := some GoError.ErrStackOverflow }) :=
    rfl
  have hrun := (run_ok (fuel + 2) rfl s1).trans ((run_ok (fuel + 1) rfl s2).trans
    (run_ret fuel rfl s3))
  have hreset : reset (Demo.tailOneFrameVM k) = some (Demo.tailOneFrameVM k) := rfl
  obtain ⟨vf, e1, h1, h2, h3⟩ := finish_depth_one Demo.env
    { Demo.tailOneFrameVM k with
        stack := [.CompiledFunction Demo.tailFn, .Int k, .nil, .nil, .nil, .nil]
        sp := 2
        ip := 8
        err := some GoError.ErrStackOverflow } GoError.ErrStackOverflow _
    Demo.tailMain rfl rfl rfl rfl
  refine ⟨vf, e1, ?_, h2, h3⟩
  simp only [Run, hreset, hrun]
  exact congrArg some h1

theorem callCompiled_overflow (env : Env) (v v2 : VM) (callee fn : CompiledFunction)
    (n n2 : Int) (cur : Frame)
    (hg : gatherVarArgs v callee n = .ok (v2, n2)) (hP : n2 = callee.NumParameters)
    (hcur : v.frames[v.curFrame]? = some cur) (hfn : cur.fn = some fn)
    (hne : fn.addr ≠ callee.addr ∨ isTailPosition env v = .ok false)
    (hfull : v.MaxFrames ≤ v.framesIndex) :
    callCompiled env v callee n =
      .error (.ret { v2 with err := some GoError.ErrStackOverflow }) := by
  rw [callCompiled_push env v v2 callee fn n n2 cur hg hP hcur hfn hne]
  obtain ⟨st2, sp2, rfl⟩ := gatherVarArgs_frame v callee n v2 n2 hg
  exact pushFrame_overflow _ cur callee n2 hfull

set_option maxRecDepth 100000 in
/-- C14, counterexample.  On the machine with `MaxFrames = 1` the program `loop(3)`, whose
`loop` ends in `return loop(n - 1)`, stops at the main function's call of `loop` with
`ErrStackOverflow`. -/
theorem one_frame_call_overflows :
    (Demo.tailOneFrameVM 3).MaxFrames = 1 ∧
    ∃ vf e, Run Demo.env 3 (Demo.tailOneFrameVM 3) = some (.returned vf (some e)) ∧
      e.cause = GoError.ErrStackOverflow :=
  ⟨rfl, _, _, rfl, rfl⟩

/-! ### The allocation charge of an array -/

/-- One iteration on `OpArray` when the budget allows the charge. -/
theorem step_array (env : Env) (v : VM) (op lo hi : Nat) (elems st : List Object)
    (h0 : getIdx v.curInsts (v.ip + 1) = .ok op) (ho : env.opcode op = some .OpArray)
    (h1 : getIdx v.curInsts (v.ip + 1 + 2) = .ok lo)
    (h2 : getIdx v.curInsts (v.ip + 1 + 2 - 1) = .ok hi)
    (he : readRange v.stack (v.sp - ((lo ||| (hi <<< 8) : Nat) : Int)) v.sp = .ok elems)
    (ha : wrap64 (v.allocs - 1) ≠ 0)
    (hs : setIdx v.stack (v.sp - ((lo ||| (hi <<< 8) : Nat) : Int)) (.Array elems) = .ok st) :
    step env v = .ok { v with
      ip := v.ip + 1 + 2, allocs := wrap64 (v.allocs - 1), stack := st,
      sp := v.sp - ((lo ||| (hi <<< 8) : Nat) : Int) + 1 } := by
  simp only [step, h0, ho, dispatch, opArray, readU16, h1, h2, he, charge, push, bind,
    Except.bind, pure, Except.pure]
  rw [if_neg ha]
  simp only [hs]

/-- One iteration on `OpArray` when the charge exhausts the budget. -/
theorem step_array_limit (env : Env) (v : VM) (op lo hi : Nat) (elems : List Object)
    (h0 : getIdx v.curInsts (v.ip + 1) = .ok op) (ho : env.opcode op = some .OpArray)
    (h1 : getIdx v.curInsts (v.ip + 1 + 2) = .ok lo)
    (h2 : getIdx v.curInsts (v.ip + 1 + 2 - 1) = .ok hi)
    (he : readRange v.stack (v.sp - ((lo ||| (hi <<< 8) : Nat) : Int)) v.sp = .ok elems)
    (ha : wrap64 (v.allocs - 1) = 0) :
    step env v = .error (.ret { v with
      ip := v.ip + 1 + 2, allocs := wrap64 (v.allocs - 1),
      sp := v.sp - ((lo ||| (hi <<< 8) : Nat) : Int),
      err := some GoError.ErrObjectAllocLimit }) := by
  simp only [step, h0, ho, dispatch, opArray, readU16, h1, h2, he, charge, push, bind,
    Except.bind, pure, Except.pure]
  rw [if_pos ha]
  rfl

set_option maxRecDepth 100000 in
theorem array_push (m a : Int) (j : Nat) (hj : j < 10) :
    step Demo.env (Demo.arrayAt m a j) = .ok (Demo.arrayAt m a (j + 1)) := by
  have h : j = 0 ∨ j = 1 ∨ j = 2 ∨ j = 3 ∨ j = 4 ∨ j = 5 ∨ j = 6 ∨ j = 7 ∨ j = 8 ∨ j = 9 := by
    omega
  rcases h with h | h | h | h | h | h | h | h | h | h <;> subst h
  · exact step_constant Demo.env _ 0 0 0 (.Int 0) _ rfl rfl rfl rfl rfl rfl
  · exact step_constant Demo.env _ 0 1 0 (.Int 1) _ rfl rfl rfl rfl rfl rfl
  · exact step_constant Demo.env _ 0 2 0 (.Int 2) _ rfl rfl rfl rfl rfl rfl
  · exact step_constant Demo.env _ 0 3 0 (.Int 3) _ rfl rfl rfl rfl rfl rfl
  · exact step_constant Demo.env _ 0 4 0 (.Int 4) _ rfl rfl rfl rfl rfl rfl
  · exact step_constant Demo.env _ 0 5 0 (.Int 5) _ rfl rfl rfl rfl rfl rfl
  · exact step_constant Demo.env _ 0 6 0 (.Int 6) _ rfl rfl rfl rfl rfl rfl
  · exact step_constant Demo.env _ 0 7 0 (.Int 7) _ rfl rfl rfl rfl rfl rfl
  · exact step_constant Demo.env _ 0 8 0 (.Int 8) _ rfl rfl rfl rfl rfl rfl
  · exact step_constant Demo.env _ 0 9 0 (.Int 9) _ rfl rfl rfl rfl rfl rfl

theorem array_pushes (m a : Int) (fuel : Nat) :
    run Demo.env (fuel + 10) (Demo.arrayVM m |>.withBudget a m) =
      run Demo.env fuel (Demo.arrayAt m a 10) := by
  have h : ∀ j : Nat, j < 10 → ∀ f : Nat,
      run Demo.env (f + 1) (Demo.arrayAt m a j) = run Demo.env f (Demo.arrayAt m a (j + 1)) :=
    fun j hj f => run_ok f rfl (array_push m a j hj)
  exact (h 0 (by decide) (fuel + 9)).trans ((h 1 (by decide) (fuel + 8)).trans
    ((h 2 (by decide) (fuel + 7)).trans ((h 3 (by decide) (fuel + 6)).trans
    ((h 4 (by decide) (fuel + 5)).trans ((h 5 (by decide) (fuel + 4)).trans
    ((h 6 (by decide) (fuel + 3)).trans ((h 7 (by decide) (fuel + 2)).trans
    ((h 8 (by decide) (fuel + 1)).trans (h 9 (by decide) fuel)))))))))

set_option maxRecDepth 100000 in
theorem array_run_ok (m a : Int) (fuel : Nat) (ha : wrap64 (a - 1) ≠ 0) :
    ∃ w, run Demo.env (fuel + 12) ((Demo.arrayVM m).withBudget a m) = some (.returned w) ∧
      w.err = none ∧ w.sp = 1 ∧ w.stack.take 1 = [.Array Demo.arrayElems] := by
  have s1 := step_array Demo.env (Demo.arrayAt m a 10) 14 10 0 Demo.arrayElems _
    rfl rfl rfl rfl rfl ha rfl
  have s2 : step Demo.env { Demo.arrayAt m a 10 with
      ip := (Demo.arrayAt m a 10).ip + 1 + 2
      allocs := wrap64 ((Demo.arrayAt m a 10).allocs - 1)
      stack := (Demo.arrayAt m a 10).stack.set 0 (.Array Demo.arrayElems)
      sp := (Demo.arrayAt m a 10).sp - ((10 ||| (0 <<< 8) : Nat) : Int) + 1 } =
      .error (.ret { Demo.arrayAt m a 10 with
        ip := 33
        allocs := wrap64 (a - 1)
        stack := (Demo.arrayAt m a 10).stack.set 0 (.Array Demo.arrayElems)
        sp := 1 }) := rfl
  have hrun := (array_pushes m a (fuel + 2)).trans
    ((run_ok (fuel + 1) rfl s1).trans (run_ret fuel rfl s2))
  exact ⟨_, hrun, rfl, rfl, rfl⟩

set_option maxRecDepth 100000 in
theorem array_run_limit (m a : Int) (fuel : Nat) (ha : wrap64 (a - 1) = 0) :
    ∃ w, run Demo.env (fuel + 11) ((Demo.arrayVM m).withBudget a m) = some (.returned w) ∧
      w.err = some GoError.ErrObjectAllocLimit ∧ w.framesIndex = 1 ∧
      w.frames[w.curFrame]? =
        some { fn := some Demo.arrayMain, freeVars := [], ip := -1, basePointer := 0 } := by
  have s1 := step_array_limit Demo.env (Demo.arrayAt m a 10) 14 10 0 Demo.arrayElems
    rfl rfl rfl rfl rfl ha
  have hrun := (array_pushes m a (fuel + 1)).trans (run_ret fuel rfl s1)
  exact ⟨_, hrun, rfl, rfl, rfl⟩

set_option maxRecDepth 100000 in
/-- C15, counterexample.  The program that pushes ten constants and executes `Array 10`,
run with `maxAllocs = 5` on the machine `NewVM` builds for it, returns nil and delivers
the array of the ten elements. -/
theorem array_of_ten_within_budget_five :
    NewVM 12 2 0 100 ⟨Demo.arrayElems, some Demo.arrayMain⟩ (some []) 5 =
      some (Demo.arrayVM 5) ∧
    Demo.delivered (Run Demo.env 12 (Demo.arrayVM 5)) =
      some (none, 1, [.Array Demo.arrayElems]) :=
  ⟨rfl, rfl⟩

/-- C15 (allocation charge of an array), amended to `maxAllocs = 0`.  `OpArray` charges
one allocation whatever the number of elements.  The program that pushes ten constants
and executes `Array 10`, run with the `int64` budget `maxAllocs = m`, ends with
`ErrObjectAllocLimit` when `m = 0`, and for every other `m` (5 among them) returns nil and
delivers the array of the ten elements. -/
theorem array_of_ten_budget (m : Int) (fuel : Nat) (hm : -2 ^ 63 ≤ m ∧ m < 2 ^ 63) :
    (m = 0 → ∃ vf e, Run Demo.env (fuel + 11) (Demo.arrayVM m) =
        some (.returned vf (some e)) ∧ e.cause = GoError.ErrObjectAllocLimit) ∧
    (m ≠ 0 → Demo.delivered (Run Demo.env (fuel + 12) (Demo.arrayVM m)) =
      some (none, 1, [.Array Demo.arrayElems])) := by
  have hreset : reset (Demo.arrayVM m) =
      some ((Demo.arrayVM m).withBudget (wrap64 (m + 1)) m) := rfl
  have hw : wrap64 (wrap64 (m + 1) - 1) = m := by
    unfold wrap64
    omega
  constructor
  · intro h0
    obtain ⟨w, hrun, herr, hfi, hf⟩ := array_run_limit m (wrap64 (m + 1)) fuel
      (by rw [hw]; exact h0)
    obtain ⟨vf, e, h1, h2, _⟩ := finish_depth_one Demo.env w GoError.ErrObjectAllocLimit _
      Demo.arrayMain hfi herr hf rfl
    refine ⟨vf, e, ?_, h2⟩
    simp only [Run, hreset, hrun]
    exact congrArg some h1
  · intro h0
    obtain ⟨w, hrun, herr, hsp, hst⟩ := array_run_ok m (wrap64 (m + 1)) fuel
      (by rw [hw]; exact h0)
    simp only [Run, hreset, hrun, finish_none Demo.env w herr, Demo.delivered, hsp,
      Int.toNat_one, hst]

theorem array_of_ten_budget_witness :
    (-2 ^ 63 ≤ (5 : Int) ∧ (5 : Int) < 2 ^ 63) ∧
    Demo.delivered (Run Demo.env (0 + 12) (Demo.arrayVM 5)) =
      some (none, 1, [.Array Demo.arrayElems]) :=
  ⟨by norm_num, (array_of_ten_budget 5 0 (by norm_num)).2 (by norm_num)⟩

/-! ### The allocation counter along a run -/

/-- What an iteration can do to the counter: leave it, or decrement it once. -/
theorem counter_same {v w : VM} (h : w.allocs = v.allocs) :
    w.allocs = v.allocs ∨ w.allocs = decrement v.allocs := Or.inl h

theorem counter_dec {v w : VM} (h : w.allocs = wrap64 (v.allocs - 1)) :
    w.allocs = v.allocs ∨ w.allocs = decrement v.allocs := Or.inr h

set_option maxHeartbeats 4000000 in
theorem dispatch_counter (env : Env) (v : VM) (o : Opcode) (ho : o ∉ [Opcode.OpCall]) :
    Holds (fun w => w.allocs = v.allocs ∨ w.allocs = decrement v.allocs)
      (dispatch env v o) := by
  cases o <;> first
    | (exfalso; revert ho; decide)
    | skip
  all_goals simp only [dispatch, opConstant, opNull, opPop, opTrue, opFalse, opJump,
    opSetGlobal, opGetGlobal, opDefineLocal, opSetLocal, opGetLocal, opGetFreePtr, opGetFree,
    opSetFree, opGetLocalPtr, opEqual, opNotEqual, opLNot, opJumpFalsy, opAndJump,
    opOrJump, opIndex, opGetBuiltin, opIteratorNext, opIteratorKey, opIteratorValue,
    opSetSelGlobal, opSetSelLocal, opSetSelFree, opBinaryOp, opBComplement, opMinus, opArray,
    opMap, opError, opImmutable, opSliceIndex, opClosure, opIteratorInit, opReturn,
    sliceBounds, charge,
    readU16, push, fail, typeName_eq, receiver_eq, curFrameVal_eq, deref,
    assign, finishSetSel, getIdx_eq, setIdx_eq, readRange_eq, sliceExpr_eq, pure,
    Except.pure, ok_bind, error_bind, throw, throwThe, MonadExceptOf.throw, bind_assoc]
  all_goals repeat' (first
    | exact holds_panic _
    | exact holds_ok (Or.inl rfl)
    | exact holds_ok (Or.inr rfl)
    | exact holds_ret (Or.inl rfl)
    | exact holds_ret (Or.inr rfl)
    | exact holds_ret (Or.inr (Eq.symm ‹wrap64 (v.allocs - 1) = 0›))
    | (refine holds_bind (noRet_orPanic _) ?_; intro _)
    | (refine holds_bind (noRet_buildMap _ _ _ _ _) ?_; intro _)
    | (refine holds_bind (noRet_captureFree _ _ _ _) ?_; intro _)
    | (split <;> try simp only [*, charge,
        readU16, push, fail, typeName_eq, receiver_eq, curFrameVal_eq, deref,
        assign, finishSetSel, getIdx_eq, setIdx_eq, readRange_eq, sliceExpr_eq, pure,
        Except.pure, ok_bind, error_bind, throw, throwThe, MonadExceptOf.throw, bind_assoc]))

theorem callCompiled_counter (env : Env) (v : VM) (callee : CompiledFunction)
    (numArgs : Int) :
    Holds (fun w => w.allocs = v.allocs ∨ w.allocs = decrement v.allocs)
      (callCompiled env v callee numArgs) := by
  simp only [callCompiled, gatherVarArgs, isTailPosition, elideCall, pushFrame, readU16, push,
    fail, charge, typeName_eq, receiver_eq, curFrameVal_eq,
    getIdx_eq, setIdx_eq, readRange_eq, sliceExpr_eq, VM.MaxFrames, pure, Except.pure,
    ok_bind, error_bind, throw, throwThe, MonadExceptOf.throw, bind_assoc]
  repeat' (first
    | exact holds_panic _
    | exact holds_ok (Or.inl rfl)
    | exact holds_ret (Or.inl rfl)
    | (refine holds_bind (noRet_orPanic _) ?_; intro _)
    | (refine holds_bind (noRet_copyArgs _ _ _ _ _) ?_; intro _)
    | (split <;> try simp only [*, readU16, push, fail, charge, typeName_eq, receiver_eq,
        curFrameVal_eq, getIdx_eq, setIdx_eq, readRange_eq, sliceExpr_eq, VM.MaxFrames, pure,
        Except.pure, ok_bind, error_bind, throw, throwThe, MonadExceptOf.throw, bind_assoc]))

theorem callNative_counter (env : Env) (v : VM) (value : Object) (numArgs : Int) :
    Holds (fun w => w.allocs = v.allocs ∨ w.allocs = decrement v.allocs)
      (callNative env v value numArgs) := by
  simp only [callNative, readU16, push, fail, charge, typeName_eq, receiver_eq,
    curFrameVal_eq, getIdx_eq, setIdx_eq, readRange_eq, sliceExpr_eq, VM.MaxFrames, pure,
    Except.pure, ok_bind, error_bind, throw, throwThe, MonadExceptOf.throw, bind_assoc]
  repeat' (first
    | exact holds_panic _
    | exact holds_ok (Or.inl rfl)
    | exact holds_ok (Or.inr rfl)
    | exact holds_ret (Or.inl rfl)
    | exact holds_ret (Or.inr rfl)
    | exact holds_ret (Or.inr (Eq.symm ‹wrap64 (v.allocs - 1) = 0›))
    | (refine holds_bind (noRet_orPanic _) ?_; intro _)
    | (split <;> try simp only [*, readU16, push, fail, charge, typeName_eq, receiver_eq,
        curFrameVal_eq, getIdx_eq, setIdx_eq, readRange_eq, sliceExpr_eq, VM.MaxFrames, pure,
        Except.pure, ok_bind, error_bind, throw, throwThe, MonadExceptOf.throw, bind_assoc]))

theorem callee_counter (env : Env) (v w : VM) (value : Object) (k : Int)
    (ha : w.allocs = v.allocs) :
    Holds (fun u => u.allocs = v.allocs ∨ u.allocs = decrement v.allocs)
      (match value with
        | .CompiledFunction callee => callCompiled env w callee k
        | _ => callNative env w value k) := by
  have hp : ∀ u : VM, (u.allocs = w.allocs ∨ u.allocs = decrement w.allocs) →
      (u.allocs = v.allocs ∨ u.allocs = decrement v.allocs) := by
    intro u h
    rw [ha] at h
    exact h
  cases value
  case CompiledFunction callee => exact holds_mono hp (callCompiled_counter env w callee k)
  all_goals exact holds_mono hp (callNative_counter env w _ k)

theorem opCall_counter (env : Env) (v : VM) :
    Holds (fun w => w.allocs = v.allocs ∨ w.allocs = decrement v.allocs) (opCall env v) := by
  unfold opCall
  simp only [getIdx_eq, receiver_eq]
  refine holds_bind (noRet_orPanic _) ?_
  intro numArgs
  refine holds_bind (noRet_orPanic _) ?_
  intro spread
  refine holds_bind (noRet_orPanic _) ?_
  intro value
  refine holds_bind (noRet_orPanic _) ?_
  intro _
  split
  · exact holds_ret (Or.inl rfl)
  · split
    · rcases spreadArgs_budget env { v with ip := v.ip + 2 } numArgs 0 0 with
        ⟨h1, _⟩ | ⟨w, h1, _, h2, _⟩ | ⟨w, k, h1, _, h2, _⟩
      · rw [h1]
        exact holds_panic _
      · rw [h1]
        exact holds_ret (Or.inl h2)
      · rw [h1]
        exact callee_counter env v w value k h2
    · exact callee_counter env v { v with ip := v.ip + 2 } value numArgs rfl

/-- One iteration leaves the counter or decrements it once. -/
theorem step_counter (env : Env) (v : VM) :
    Holds (fun w => w.allocs = v.allocs ∨ w.allocs = decrement v.allocs) (step env v) := by
  unfold step
  simp only [getIdx_eq]
  refine holds_bind (noRet_orPanic _) ?_
  intro op
  split
  · next o _ =>
    by_cases h : o = .OpCall
    · subst h
      exact opCall_counter env { v with ip := v.ip + 1 }
    · refine dispatch_counter env { v with ip := v.ip + 1 } o ?_
      intro h3
      rcases List.mem_cons.mp h3 with h3 | h3
      · exact h h3
      · cases h3
  · exact holds_ret (Or.inl rfl)

theorem decrement_ne (a : Int) : decrement a ≠ a := wrap64_pred_ne a

theorem iterate_decrement_succ (j : Nat) (a : Int) :
    decrement^[j + 1] a = decrement (decrement^[j] a) :=
  Function.iterate_succ_apply' decrement j a

theorem iterate_decrement_eq (a : Int) (ha : -2 ^ 63 ≤ a ∧ a < 2 ^ 63) :
    ∀ j : Nat, decrement^[j] a = wrap64 (a - j) := by
  intro j
  induction j with
  | zero =>
    simp only [Function.iterate_zero, id_eq, Nat.cast_zero, sub_zero]
    unfold wrap64
    omega
  | succ j ih =>
    rw [iterate_decrement_succ, ih]
    unfold decrement wrap64
    push_cast
    omega

/-- The states of a run carry the counter decremented once for each charging iteration. -/
theorem stateAt_counter (env : Env) : ∀ (n : Nat) (v s : VM), stateAt env n v = some s →
    s.allocs = decrement^[charges env n v] v.allocs := by
  intro n
  induction n with
  | zero =>
    intro v s h
    simp only [stateAt, Option.some.injEq] at h
    subst h
    rfl
  | succ n ih =>
    intro v s h
    by_cases ha : v.aborting = 0
    · simp only [stateAt, if_pos ha] at h
      simp only [charges, if_pos ha]
      have hc := step_counter env v
      cases hstep : step env v with
      | ok v1 =>
        rw [hstep] at h hc
        dsimp only
        have hc : v1.allocs = v.allocs ∨ v1.allocs = decrement v.allocs := hc
        rw [ih v1 s h]
        rcases hc with hc | hc
        · rw [if_pos hc, Nat.zero_add, hc]
        · have hne : ¬ v1.allocs = v.allocs := by
            rw [hc]
            exact decrement_ne _
          rw [if_neg hne, Nat.add_comm, Function.iterate_succ_apply, hc]
      | error e =>
        rw [hstep] at h
        cases h
    · simp only [stateAt, if_neg ha] at h
      cases h

/-- The state a run returns in carries the counter decremented once for each charging
iteration. -/
theorem run_counter (env : Env) : ∀ (fuel : Nat) (v w : VM),
    run env fuel v = some (.returned w) →
    w.allocs = decrement^[charges env fuel v] v.allocs := by
  intro fuel
  induction fuel with
  | zero =>
    intro v w h
    by_cases ha : v.aborting = 0
    · simp only [run, if_pos ha] at h
      cases h
    · simp only [run, if_neg ha, Option.some.injEq, Ended.returned.injEq] at h
      subst h
      rfl
  | succ fuel ih =>
    intro v w h
    by_cases ha : v.aborting = 0
    · simp only [run, if_pos ha] at h
      simp only [charges, if_pos ha]
      have hc := step_counter env v
      cases hstep : step env v with
      | ok v1 =>
        rw [hstep] at h hc
        dsimp only
        have hc : v1.allocs = v.allocs ∨ v1.allocs = decrement v.allocs := hc
        rw [ih v1 w h]
        rcases hc with hc | hc
        · rw [if_pos hc, Nat.zero_add, hc]
        · have hne : ¬ v1.allocs = v.allocs := by
            rw [hc]
            exact decrement_ne _
          rw [if_neg hne, Nat.add_comm, Function.iterate_succ_apply, hc]
      | error e =>
        cases e with
        | panic =>
          rw [hstep] at h
          cases h
        | ret v1 =>
          rw [hstep] at h hc
          simp only [Option.some.injEq, Ended.returned.injEq] at h
          subst h
          dsimp only
          have hc : v1.allocs = v.allocs ∨ v1.allocs = decrement v.allocs := hc
          rcases hc with hc | hc
          · rw [if_pos hc, hc]
            rfl
          · have hne : ¬ v1.allocs = v.allocs := by
              rw [hc]
              exact decrement_ne _
            rw [if_neg hne, hc]
            rfl
    · simp only [run, if_neg ha, Option.some.injEq, Ended.returned.injEq] at h
      subst h
      simp only [charges, if_neg ha]
      rfl

theorem reset_allocs (v v0 : VM) (h : reset v = some v0) :
    v0.allocs = wrap64 (v.maxAllocs + 1) := by
  unfold reset at h
  split at h
  · split at h
    · cases h
      rfl
    · cases h
  · cases h

/-- C16 (unbounded budget).  For an `int64` budget `maxAllocs = m < 0`, `Run` starts the
counter at `m + 1 ≤ 0`; `j` wrapping decrements of it give `m + 1 - j` modulo `2^64`,
which is not 0 for `1 ≤ j < 2^63`; so the charge number `j + 1 < 2^63` succeeds on a
state whose counter was decremented `j` times.  The states of the run, and the state in
which `run` returns, carry the counter decremented once for each charging iteration;
hence a run with at least one and fewer than `2^63` charging iterations returns with the
counter not 0, whereas a charge that fails with `ErrObjectAllocLimit` returns with the
counter 0. -/
theorem unbounded_budget (env : Env) (v v0 : VM) (m : Int)
    (hm : -2 ^ 63 ≤ m ∧ m < 0) (hmax : v.maxAllocs = m) (hreset : reset v = some v0) :
    (v0.allocs = m + 1 ∧ v0.allocs ≤ 0) ∧
    (∀ j : Nat, 1 ≤ j → (j : Int) < 2 ^ 63 →
      decrement^[j] v0.allocs = wrap64 (m + 1 - j) ∧ decrement^[j] v0.allocs ≠ 0) ∧
    (∀ (j : Nat) (s : VM), (j : Int) + 1 < 2 ^ 63 → s.allocs = decrement^[j] v0.allocs →
      charge s = .ok { s with allocs := decrement^[j + 1] v0.allocs }) ∧
    (∀ (s : VM), wrap64 (s.allocs - 1) = 0 →
      charge s = .error (.ret { s with allocs := 0, err := some GoError.ErrObjectAllocLimit })) ∧
    (∀ (n : Nat) (s : VM), stateAt env n v0 = some s →
      s.allocs = decrement^[charges env n v0] v0.allocs) ∧
    (∀ (fuel : Nat) (w : VM), run env fuel v0 = some (.returned w) →
      w.allocs = decrement^[charges env fuel v0] v0.allocs ∧
      (1 ≤ charges env fuel v0 → (charges env fuel v0 : Int) < 2 ^ 63 → w.allocs ≠ 0)) := by
  have h0 : v0.allocs = m + 1 := by
    rw [reset_allocs v v0 hreset, hmax]
    unfold wrap64
    omega
  have hr : -2 ^ 63 ≤ v0.allocs ∧ v0.allocs < 2 ^ 63 := by
    rw [h0]
    omega
  have hj : ∀ j : Nat, 1 ≤ j → (j : Int) < 2 ^ 63 →
      decrement^[j] v0.allocs = wrap64 (m + 1 - j) ∧ decrement^[j] v0.allocs ≠ 0 := by
    intro j h1 h2
    rw [iterate_decrement_eq v0.allocs hr j, h0]
    refine ⟨rfl, ?_⟩
    unfold wrap64
    omega
  refine ⟨⟨h0, by rw [h0]; omega⟩, hj, ?_, ?_, ?_, ?_⟩
  · intro j s h1 hs
    have h2 := (hj (j + 1) (by omega) (by push_cast; omega)).2
    rw [iterate_decrement_succ, ← hs] at h2
    have h3 : ¬ wrap64 (s.allocs - 1) = 0 := h2
    rw [iterate_decrement_succ, ← hs]
    simp only [charge, if_neg h3, pure, Except.pure]
    rfl
  · intro s h1
    simp only [charge, fail, throw, throwThe, MonadExceptOf.throw, h1, if_true]
  · exact fun n s h => stateAt_counter env n v0 s h
  · intro fuel w h
    have h1 := run_counter env fuel v0 w h
    refine ⟨h1, fun h2 h3 => ?_⟩
    rw [h1]
    exact (hj _ h2 h3).2

set_option maxRecDepth 100000 in
theorem unbounded_budget_witness :
    (-2 ^ 63 ≤ (-1 : Int) ∧ (-1 : Int) < 0) ∧ reset Demo.negVM = some Demo.negVM ∧
    ∃ w, run Demo.env 4 Demo.negVM = some (.returned w) ∧
      charges Demo.env 4 Demo.negVM = 2 ∧ w.allocs = -2 ∧ w.allocs ≠ 0 := by
  have h := (unbounded_budget Demo.env Demo.negVM Demo.negVM (-1) (by norm_num) rfl rfl).2.2.2.2.2
    4 _ rfl
  exact ⟨by norm_num, rfl, _, rfl, rfl, rfl, h.2 (by decide) (by decide)⟩

/-! ### Freezing -/

theorem immutable_array (v : VM) (xs : List Object)
    (h : getIdx v.stack (v.sp - 1) = .ok (.Array xs)) (ha : wrap64 (v.allocs - 1) ≠ 0) :
    opImmutable v = .ok { v with
      allocs := wrap64 (v.allocs - 1)
      stack := v.stack.set (v.sp - 1).toNat (.ImmutableArray xs) } := by
  obtain ⟨h0, h1, -⟩ := getIdx_ok h
  have hs := setIdx_of_lt v.stack (v.sp - 1) (Object.ImmutableArray xs) h0 h1
  simp only [opImmutable, h, charge, bind, Except.bind, pure, Except.pure]
  rw [if_neg ha]
  simp only [hs]

theorem immutable_map (v : VM) (kv : List (GoBytes × Object))
    (h : getIdx v.stack (v.sp - 1) = .ok (.Map kv)) (ha : wrap64 (v.allocs - 1) ≠ 0) :
    opImmutable v = .ok { v with
      allocs := wrap64 (v.allocs - 1)
      stack := v.stack.set (v.sp - 1).toNat (.ImmutableMap kv) } := by
  obtain ⟨h0, h1, -⟩ := getIdx_ok h
  have hs := setIdx_of_lt v.stack (v.sp - 1) (Object.ImmutableMap kv) h0 h1
  simp only [opImmutable, h, charge, bind, Except.bind, pure, Except.pure]
  rw [if_neg ha]
  simp only [hs]

theorem immutable_limit (v : VM) (x : Object)
    (h : getIdx v.stack (v.sp - 1) = .ok x)
    (hx : (∃ xs, x = .Array xs) ∨ (∃ kv, x = .Map kv)) (ha : wrap64 (v.allocs - 1) = 0) :
    opImmutable v = .error (.ret { v with
      allocs := wrap64 (v.allocs - 1), err := some GoError.ErrObjectAllocLimit }) := by
  rcases hx with ⟨xs, rfl⟩ | ⟨kv, rfl⟩
  · simp only [opImmutable, h, charge, fail, throw, throwThe, MonadExceptOf.throw, bind,
      Except.bind, pure, Except.pure]
    rw [if_pos ha]
  · simp only [opImmutable, h, charge, fail, throw, throwThe, MonadExceptOf.throw, bind,
      Except.bind, pure, Except.pure]
    rw [if_pos ha]

theorem immutable_other (v : VM) (x : Object) (h : getIdx v.stack (v.sp - 1) = .ok x)
    (h1 : ∀ xs, x ≠ .Array xs) (h2 : ∀ kv, x ≠ .Map kv) : opImmutable v = .ok v := by
  simp only [opImmutable, h, bind, Except.bind, pure, Except.pure]

/-- After a freeze that continued, the top of the stack is neither an `Array` nor a
`Map`. -/
theorem immutable_top (v w : VM) (h : opImmutable v = .ok w) :
    ∃ x, getIdx w.stack (w.sp - 1) = .ok x ∧ (∀ xs, x ≠ .Array xs) ∧ (∀ kv, x ≠ .Map kv) := by
  cases hget : getIdx v.stack (v.sp - 1) with
  | error e =>
    simp only [opImmutable, hget, bind, Except.bind] at h
    cases h
  | ok x =>
    obtain ⟨h0, h1, -⟩ := getIdx_ok hget
    have hn : (v.sp - 1).toNat < v.stack.length := by omega
    have hcls : (∃ xs, x = .Array xs) ∨ (∃ kv, x = .Map kv) ∨
        ((∀ xs, x ≠ .Array xs) ∧ (∀ kv, x ≠ .Map kv)) := by
      cases x
      case Array xs => exact Or.inl ⟨xs, rfl⟩
      case Map kv => exact Or.inr (Or.inl ⟨kv, rfl⟩)
      all_goals exact Or.inr (Or.inr ⟨fun _ e => Object.noConfusion e,
        fun _ e => Object.noConfusion e⟩)
    rcases hcls with ⟨xs, rfl⟩ | ⟨kv, rfl⟩ | ⟨hA, hM⟩
    · by_cases ha : wrap64 (v.allocs - 1) = 0
      · rw [immutable_limit v _ hget (Or.inl ⟨xs, rfl⟩) ha] at h
        cases h
      · rw [immutable_array v xs hget ha] at h
        cases h
        refine ⟨.ImmutableArray xs, ?_, fun _ e => Object.noConfusion e,
          fun _ e => Object.noConfusion e⟩
        simp only [getIdx, h0, if_true, List.getElem?_set_self hn, pure, Except.pure]
    · by_cases ha : wrap64 (v.allocs - 1) = 0
      · rw [immutable_limit v _ hget (Or.inr ⟨kv, rfl⟩) ha] at h
        cases h
      · rw [immutable_map v kv hget ha] at h
        cases h
        refine ⟨.ImmutableMap kv, ?_, fun _ e => Object.noConfusion e,
          fun _ e => Object.noConfusion e⟩
        simp only [getIdx, h0, if_true, List.getElem?_set_self hn, pure, Except.pure]
    · rw [immutable_other v x hget hA hM] at h
      cases h
      exact ⟨x, hget, hA, hM⟩

/-- C17 (`Immutable` is idempotent).  On an `Array` (or `Map`) at the top of the stack,
when the charge of one allocation passes, `OpImmutable` puts the `ImmutableArray` (or
`ImmutableMap`) of the same elements in its place and changes nothing else but the
counter; when the charge brings the counter to 0 it returns `ErrObjectAllocLimit`.  On
any other value, an `ImmutableArray` or `ImmutableMap` among them, it changes nothing and
raises no error.  Hence a second `OpImmutable` after one that continued changes nothing:
as handlers, and as two consecutive iterations of the loop, where only `ip` moves. -/
theorem immutable_idempotent :
    (∀ (v : VM) (xs : List Object), getIdx v.stack (v.sp - 1) = .ok (.Array xs) →
      wrap64 (v.allocs - 1) ≠ 0 →
      opImmutable v = .ok { v with
        allocs := wrap64 (v.allocs - 1)
        stack := v.stack.set (v.sp - 1).toNat (.ImmutableArray xs) }) ∧
    (∀ (v : VM) (kv : List (GoBytes × Object)), getIdx v.stack (v.sp - 1) = .ok (.Map kv) →
      wrap64 (v.allocs - 1) ≠ 0 →
      opImmutable v = .ok { v with
        allocs := wrap64 (v.allocs - 1)
        stack := v.stack.set (v.sp - 1).toNat (.ImmutableMap kv) }) ∧
    (∀ (v : VM) (x : Object), getIdx v.stack (v.sp - 1) = .ok x →
      ((∃ xs, x = .Array xs) ∨ (∃ kv, x = .Map kv)) → wrap64 (v.allocs - 1) = 0 →
      opImmutable v = .error (.ret { v with
        allocs := wrap64 (v.allocs - 1), err := some GoError.ErrObjectAllocLimit })) ∧
    (∀ (v : VM) (x : Object), getIdx v.stack (v.sp - 1) = .ok x →
      (∀ xs, x ≠ .Array xs) → (∀ kv, x ≠ .Map kv) → opImmutable v = .ok v) ∧
    (∀ (v w : VM), opImmutable v = .ok w → opImmutable w = .ok w) ∧
    (∀ (env : Env) (v w : VM), nextOpcode env v = some Opcode.OpImmutable →
      step env v = .ok w → nextOpcode env w = some Opcode.OpImmutable →
      step env w = .ok { w with ip := w.ip + 1 }) := by
  refine ⟨immutable_array, immutable_map, immutable_limit, immutable_other, ?_, ?_⟩
  · intro v w h
    obtain ⟨x, hx, h1, h2⟩ := immutable_top v w h
    exact immutable_other w x hx h1 h2
  · intro env v w hv hstep hw
    have key : ∀ u : VM, nextOpcode env u = some Opcode.OpImmutable →
        step env u = opImmutable { u with ip := u.ip + 1 } := by
      intro u hu
      unfold nextOpcode at hu
      unfold step
      cases hget : getIdx u.curInsts (u.ip + 1) with
      | error e =>
        rw [hget] at hu
        cases hu
      | ok b =>
        rw [hget] at hu
        have hu : env.opcode b = some Opcode.OpImmutable := hu
        simp only [hget, hu, bind, Except.bind, dispatch]
    rw [key v hv] at hstep
    rw [key w hw]
    obtain ⟨x, hx, h1, h2⟩ := immutable_top _ w hstep
    exact immutable_other { w with ip := w.ip + 1 } x hx h1 h2

/-! ### Jumps -/

/-- The operand `lo | hi<<8` of two bytes is the big-endian number `256 * hi + lo`. -/
theorem u16_eq (lo hi : Nat) (h : lo < 256) : lo ||| (hi <<< 8) = 256 * hi + lo := by
  have h1 := @Nat.mul_add_lt_is_or 8 lo (by simpa using h) hi
  rw [Nat.lor_comm, Nat.shiftLeft_eq, Nat.mul_comm hi]
  exact h1.symm

theorem readU16_at (v : VM) (i : Int) (lo hi : Nat) (h1 : getIdx v.curInsts i = .ok lo)
    (h2 : getIdx v.curInsts (i - 1) = .ok hi) (hlo : lo < 256) :
    readU16 v i = .ok ((256 * hi + lo : Nat) : Int) := by
  simp only [readU16, h1, h2, bind, Except.bind, pure, Except.pure, u16_eq lo hi hlo]

theorem receiver_of_ne {x : Object} (h : x ≠ .nil) : receiver x = .ok () := by
  cases x <;> first | exact absurd rfl h | rfl

theorem step_at (env : Env) (v : VM) (op : Nat) (o : Opcode)
    (h0 : getIdx v.curInsts (v.ip + 1) = .ok op) (ho : env.opcode op = some o) :
    step env v = dispatch env { v with ip := v.ip + 1 } o := by
  simp only [step, h0, ho, bind, Except.bind]

theorem opJump_to (v : VM) (hi lo : Nat) (hhi : getIdx v.curInsts (v.ip + 1) = .ok hi)
    (hlo : getIdx v.curInsts (v.ip + 2) = .ok lo) (hb : lo < 256) :
    opJump v = .ok { v with ip := ((256 * hi + lo : Nat) : Int) - 1 } := by
  have e : v.ip + 2 - 1 = v.ip + 1 := by ring
  have h := readU16_at v (v.ip + 2) lo hi hlo (by rw [e]; exact hhi) hb
  simp only [opJump, h, bind, Except.bind, pure, Except.pure]

theorem opJumpFalsy_to (env : Env) (v : VM) (hi lo : Nat) (x : Object)
    (hx : getIdx v.stack (v.sp - 1) = .ok x) (hnil : x ≠ .nil)
    (hhi : getIdx v.curInsts (v.ip + 1) = .ok hi)
    (hlo : getIdx v.curInsts (v.ip + 2) = .ok lo) (hb : lo < 256) :
    opJumpFalsy env v = .ok { v with
      ip := if env.IsFalsy v.world x then ((256 * hi + lo : Nat) : Int) - 1 else v.ip + 2
      sp := v.sp - 1 } := by
  have e : v.ip + 2 - 1 = v.ip + 1 := by ring
  have h := readU16_at { v with ip := v.ip + 2, sp := v.sp - 1 } (v.ip + 2) lo hi hlo
    (by rw [e]; exact hhi) hb
  by_cases hf : env.IsFalsy v.world x = true
  · simp only [opJumpFalsy, hx, receiver_of_ne hnil, hf, h, if_true, bind, Except.bind, pure,
      Except.pure]
  · simp only [opJumpFalsy, hx, receiver_of_ne hnil, hf, if_false, bind, Except.bind, pure,
      Except.pure, Bool.false_eq_true]

theorem opAndJump_to (env : Env) (v : VM) (hi lo : Nat) (x : Object)
    (hx : getIdx v.stack (v.sp - 1) = .ok x) (hnil : x ≠ .nil)
    (hhi : getIdx v.curInsts (v.ip + 1) = .ok hi)
    (hlo : getIdx v.curInsts (v.ip + 2) = .ok lo) (hb : lo < 256) :
    opAndJump env v =
      .ok (if env.IsFalsy v.world x then { v with ip := ((256 * hi + lo : Nat) : Int) - 1 }
        else { v with ip := v.ip + 2, sp := v.sp - 1 }) := by
  have e : v.ip + 2 - 1 = v.ip + 1 := by ring
  have h := readU16_at { v with ip := v.ip + 2 } (v.ip + 2) lo hi hlo
    (by rw [e]; exact hhi) hb
  by_cases hf : env.IsFalsy v.world x = true
  · simp only [opAndJump, hx, receiver_of_ne hnil, hf, h, if_true, bind, Except.bind, pure,
      Except.pure]
  · simp only [opAndJump, hx, receiver_of_ne hnil, hf, if_false, bind, Except.bind, pure,
      Except.pure, Bool.false_eq_true]

theorem opOrJump_to (env : Env) (v : VM) (hi lo : Nat) (x : Object)
    (hx : getIdx v.stack (v.sp - 1) = .ok x) (hnil : x ≠ .nil)
    (hhi : getIdx v.curInsts (v.ip + 1) = .ok hi)
    (hlo : getIdx v.curInsts (v.ip + 2) = .ok lo) (hb : lo < 256) :
    opOrJump env v =
      .ok (if env.IsFalsy v.world x then { v with ip := v.ip + 2, sp := v.sp - 1 }
        else { v with ip := ((256 * hi + lo : Nat) : Int) - 1 }) := by
  have e : v.ip + 2 - 1 = v.ip + 1 := by ring
  have h := readU16_at { v with ip := v.ip + 2 } (v.ip + 2) lo hi hlo
    (by rw [e]; exact hhi) hb
  by_cases hf : env.IsFalsy v.world x = true
  · simp only [opOrJump, hx, receiver_of_ne hnil, hf, if_true, bind, Except.bind, pure,
      Except.pure]
  · simp only [opOrJump, hx, receiver_of_ne hnil, hf, h, if_false, bind, Except.bind, pure,
      Except.pure, Bool.false_eq_true]

/-- C18 (jump targets).  The opcode at offset `p` has the immediate bytes `hi` at `p + 1`
and `lo` at `p + 2`.  If it is `OpJump`, the iteration changes nothing but `ip` and the
next fetch is at offset `256 * hi + lo`.  If it is `OpJumpFalsy` and `x` is the top of the
stack, the iteration changes nothing but `ip` and `sp`, which drops by one, and the next
fetch is at offset `256 * hi + lo` when `x` is falsy and at `p + 3` otherwise. -/
theorem jump_targets (env : Env) (v : VM) (op hi lo : Nat) (p : Int)
    (hp : p = v.ip + 1) (h0 : getIdx v.curInsts p = .ok op)
    (hhi : getIdx v.curInsts (p + 1) = .ok hi) (hlo : getIdx v.curInsts (p + 2) = .ok lo)
    (hb : lo < 256) :
    (env.opcode op = some Opcode.OpJump →
      ∃ w, step env v = .ok w ∧ w = { v with ip := w.ip } ∧
        w.ip + 1 = 256 * (hi : Int) + lo) ∧
    (env.opcode op = some Opcode.OpJumpFalsy →
      ∀ x, getIdx v.stack (v.sp - 1) = .ok x → x ≠ .nil →
      ∃ w, step env v = .ok w ∧ w = { v with ip := w.ip, sp := v.sp - 1 } ∧
        w.ip + 1 = if env.IsFalsy v.world x then 256 * (hi : Int) + lo else p + 3) := by
  subst hp
  constructor
  · intro ho
    rw [step_at env v op _ h0 ho]
    refine ⟨_, opJump_to { v with ip := v.ip + 1 } hi lo hhi hlo hb, rfl, ?_⟩
    show ((256 * hi + lo : Nat) : Int) - 1 + 1 = _
    push_cast
    ring
  · intro ho x hx hnil
    rw [step_at env v op _ h0 ho]
    refine ⟨_, opJumpFalsy_to env { v with ip := v.ip + 1 } hi lo x hx hnil hhi hlo hb,
      rfl, ?_⟩
    show (if env.IsFalsy v.world x = true then ((256 * hi + lo : Nat) : Int) - 1
      else v.ip + 1 + 2) + 1 = _
    split
    · push_cast
      ring
    · ring

theorem jump_targets_witness :
    (∃ w, step Demo.env (Demo.jumpAt 12 .True) = .ok w ∧
      w = { Demo.jumpAt 12 .True with ip := w.ip } ∧ w.ip + 1 = 256 * ((1 : Nat) : Int) + (4 : Nat)) ∧
    (∃ w, step Demo.env (Demo.jumpAt 9 .True) = .ok w ∧
      w = { Demo.jumpAt 9 .True with ip := w.ip, sp := (Demo.jumpAt 9 .True).sp - 1 } ∧
      w.ip + 1 = if Demo.env.IsFalsy (Demo.jumpAt 9 .True).world .True
        then 256 * ((1 : Nat) : Int) + (4 : Nat) else 0 + 3) :=
  ⟨(jump_targets Demo.env (Demo.jumpAt 12 .True) 12 1 4 0 rfl rfl rfl rfl (by decide)).1 rfl,
   (jump_targets Demo.env (Demo.jumpAt 9 .True) 9 1 4 0 rfl rfl rfl rfl (by decide)).2 rfl
     .True rfl (fun h => Object.noConfusion h)⟩

/-- C19 (short-circuit jumps).  The opcode at offset `p` has the immediate bytes `hi` at
`p + 1` and `lo` at `p + 2`, `dst = 256 * hi + lo`, and `x` is the top of the stack.
`OpAndJump` changes nothing but `ip` and continues at `dst` when `x` is falsy, and
otherwise pops `x` and continues at `p + 3`; `OpOrJump` changes nothing but `ip` and
continues at `dst` when `x` is not falsy, and otherwise pops `x` and continues at `p + 3`.
So on one state exactly one of the two handlers jumps, and that one keeps `x` on the
stack while the other pops it. -/
theorem short_circuit_jumps (env : Env) (v : VM) (op hi lo : Nat) (p : Int) (x : Object)
    (hp : p = v.ip + 1) (h0 : getIdx v.curInsts p = .ok op)
    (hhi : getIdx v.curInsts (p + 1) = .ok hi) (hlo : getIdx v.curInsts (p + 2) = .ok lo)
    (hb : lo < 256) (hx : getIdx v.stack (v.sp - 1) = .ok x) (hnil : x ≠ .nil) :
    (env.opcode op = some Opcode.OpAndJump →
      step env v = .ok (if env.IsFalsy v.world x
        then { v with ip := 256 * (hi : Int) + lo - 1 }
        else { v with ip := p + 3 - 1, sp := v.sp - 1 })) ∧
    (env.opcode op = some Opcode.OpOrJump →
      step env v = .ok (if env.IsFalsy v.world x
        then { v with ip := p + 3 - 1, sp := v.sp - 1 }
        else { v with ip := 256 * (hi : Int) + lo - 1 })) ∧
    ((opAndJump env { v with ip := p } = .ok { v with ip := 256 * (hi : Int) + lo - 1 } ∧
        opOrJump env { v with ip := p } = .ok { v with ip := p + 3 - 1, sp := v.sp - 1 }) ∨
      (opAndJump env { v with ip := p } = .ok { v with ip := p + 3 - 1, sp := v.sp - 1 } ∧
        opOrJump env { v with ip := p } = .ok { v with ip := 256 * (hi : Int) + lo - 1 })) := by
  subst hp
  have e1 : ((256 * hi + lo : Nat) : Int) - 1 = 256 * (hi : Int) + lo - 1 := by
    push_cast
    ring
  have e2 : v.ip + 1 + 2 = v.ip + 1 + 3 - 1 := by ring
  have hA := opAndJump_to env { v with ip := v.ip + 1 } hi lo x hx hnil hhi hlo hb
  have hO := opOrJump_to env { v with ip := v.ip + 1 } hi lo x hx hnil hhi hlo hb
  simp only [e1, e2] at hA hO
  refine ⟨fun ho => ?_, fun ho => ?_, ?_⟩
  · rw [step_at env v op _ h0 ho]
    exact hA
  · rw [step_at env v op _ h0 ho]
    exact hO
  · by_cases hf : env.IsFalsy v.world x = true
    · refine Or.inl ⟨?_, ?_⟩
      · rw [hA, if_pos hf]
      · rw [hO, if_pos hf]
    · refine Or.inr ⟨?_, ?_⟩
      · rw [hA, if_neg hf]
      · rw [hO, if_neg hf]

theorem short_circuit_jumps_witness :
    step Demo.env (Demo.jumpAt 10 .True) =
      .ok { Demo.jumpAt 10 .True with ip := 0 + 3 - 1, sp := (Demo.jumpAt 10 .True).sp - 1 } ∧
    step Demo.env (Demo.jumpAt 11 .True) =
      .ok { Demo.jumpAt 11 .True with ip := 256 * ((1 : Nat) : Int) + (4 : Nat) - 1 } :=
  ⟨(short_circuit_jumps Demo.env (Demo.jumpAt 10 .True) 10 1 4 0 .True rfl rfl rfl rfl
      (by decide) rfl (fun h => Object.noConfusion h)).1 rfl,
   (short_circuit_jumps Demo.env (Demo.jumpAt 11 .True) 11 1 4 0 .True rfl rfl rfl rfl
      (by decide) rfl (fun h => Object.noConfusion h)).2.1 rfl⟩

/-! ### Indexed assignment -/

theorem setSelGlobal_pops (env : Env) (v : VM) (n : Nat)
    (hn : getIdx v.curInsts (v.ip + 3) = .ok n) :
    Holds (fun w => w.sp = v.sp - ((n : Int) + 1) ∧ w.stack = v.stack)
      (opSetSelGlobal env v) := by
  simp only [opSetSelGlobal, finishSetSel, fail, getIdx_eq, readRange_eq, pure,
    Except.pure, ok_bind, error_bind, throw, throwThe, MonadExceptOf.throw, bind_assoc]
  simp only [getIdx_eq] at hn
  refine holds_bind (noRet_orPanic _) ?_
  intro lo
  refine holds_bind (noRet_orPanic _) ?_
  intro hi
  rw [hn]
  simp only [ok_bind]
  repeat' (first
    | exact holds_panic _
    | exact holds_ok ⟨rfl, rfl⟩
    | exact holds_ret ⟨rfl, rfl⟩
    | (refine holds_bind (noRet_orPanic _) ?_; intro _)
    | split)

theorem setSelLocal_pops (env : Env) (v : VM) (n : Nat)
    (hn : getIdx v.curInsts (v.ip + 2) = .ok n) :
    Holds (fun w => w.sp = v.sp - ((n : Int) + 1) ∧ w.stack = v.stack)
      (opSetSelLocal env v) := by
  simp only [opSetSelLocal, finishSetSel, fail, getIdx_eq, readRange_eq, curFrameVal_eq,
    deref, pure, Except.pure, ok_bind, error_bind, throw, throwThe, MonadExceptOf.throw,
    bind_assoc]
  simp only [getIdx_eq] at hn
  refine holds_bind (noRet_orPanic _) ?_
  intro k
  rw [hn]
  simp only [ok_bind]
  repeat' (first
    | exact holds_panic _
    | exact holds_ok ⟨rfl, rfl⟩
    | exact holds_ret ⟨rfl, rfl⟩
    | (refine holds_bind (noRet_orPanic _) ?_; intro _)
    | (split <;> try simp only [getIdx_eq, ok_bind, error_bind, bind_assoc, pure,
        Except.pure]))

theorem setSelFree_pops (env : Env) (v : VM) (n : Nat)
    (hn : getIdx v.curInsts (v.ip + 2) = .ok n) :
    Holds (fun w => w.sp = v.sp - ((n : Int) + 1) ∧ w.stack = v.stack)
      (opSetSelFree env v) := by
  simp only [opSetSelFree, finishSetSel, fail, getIdx_eq, readRange_eq, curFrameVal_eq,
    deref, pure, Except.pure, ok_bind, error_bind, throw, throwThe, MonadExceptOf.throw,
    bind_assoc]
  simp only [getIdx_eq] at hn
  refine holds_bind (noRet_orPanic _) ?_
  intro k
  rw [hn]
  simp only [ok_bind]
  repeat' (first
    | exact holds_panic _
    | exact holds_ok ⟨rfl, rfl⟩
    | exact holds_ret ⟨rfl, rfl⟩
    | (refine holds_bind (noRet_orPanic _) ?_; intro _)
    | (split <;> try simp only [getIdx_eq, ok_bind, error_bind, bind_assoc, pure,
        Except.pure]))

theorem descend_error (env : Env) (w : List Event) (e : GoError) (l : List Object) :
    l.foldr (fun s d => d >>= fun di => env.IndexGet w di s)
      (.error e : Except GoError Object) = .error e := by
  induction l with
  | nil => rfl
  | cons s l ih =>
    rw [List.foldr_cons, ih]
    rfl

theorem descend_snoc (env : Env) (w : List Event) (d : Object) (l : List Object)
    (s : Object) :
    (l ++ [s]).foldr (fun s d => d >>= fun di => env.IndexGet w di s)
      (pure d : Except GoError Object) =
    l.foldr (fun s d => d >>= fun di => env.IndexGet w di s) (env.IndexGet w d s) := by
  rw [List.foldr_append]
  rfl

theorem indexAssign_go_zero (env : Env) (w : List Event) (src : Object)
    (selectors : List Object) (dst : Object) :
    indexAssign.go env w src selectors 0 dst =
      match selectors[0]?, dst with
      | none, _ => none
      | some _, .nil => none
      | some s0, dst =>
        match env.IndexSet w dst s0 src with
        | some e =>
          if e = GoError.ErrNotIndexAssignable then
            some (some (GoError.Errorf "geçersiz: %s" [Arg.s (env.TypeName dst)]),
              w ++ [Event.IndexSet dst s0 src])
          else if e = GoError.ErrInvalidIndexValueType then
            match src with
            | .nil => none
            | _ => some (some (GoError.Errorf "geçersiz: %s" [Arg.s (env.TypeName src)]),
              w ++ [Event.IndexSet dst s0 src])
          else some (some e, w ++ [Event.IndexSet dst s0 src])
        | none => some (none, w ++ [Event.IndexSet dst s0 src]) := rfl

theorem indexAssign_go_succ (env : Env) (w : List Event) (src : Object)
    (selectors : List Object) (sidx : Nat) (dst : Object) :
    indexAssign.go env w src selectors (sidx + 1) dst =
      match selectors[sidx + 1]?, dst with
      | none, _ => none
      | some _, .nil => none
      | some s, dst =>
        match env.IndexGet w dst s with
        | .error e =>
          if e = GoError.ErrNotIndexable then
            some (some (GoError.Errorf "index alınamaz: %s" [Arg.s (env.TypeName dst)]), w)
          else if e = GoError.ErrInvalidIndexType then
            match s with
            | .nil => none
            | _ => some (some (GoError.Errorf "geçersiz index tipi: %s"
                [Arg.s (env.TypeName s)]), w)
          else some (some e, w)
        | .ok next => indexAssign.go env w src selectors sidx next := rfl

/-- The loop of `indexAssign` from `sidx = k` on, against the descent through the first
`k` selectors after `s0`. -/
theorem indexAssign_go (env : Env) (w : List Event) (src s0 : Object) (rest : List Object) :
    ∀ (k : Nat), k ≤ rest.length → ∀ (d : Object) (r : Option GoError) (w1 : List Event),
      indexAssign.go env w src (s0 :: rest) k d = some (r, w1) →
      match (rest.take k).foldr (fun s d => d >>= fun di => env.IndexGet w di s)
          (pure d : Except GoError Object) with
      | .ok d0 => w1 = w ++ [Event.IndexSet d0 s0 src] ∧
          (r = none ↔ env.IndexSet w d0 s0 src = none)
      | .error _ => w1 = w ∧ r ≠ none := by
  intro k
  induction k with
  | zero =>
    intro _ d r w1 h
    simp only [List.take_zero, List.foldr_nil, pure, Except.pure]
    rw [indexAssign_go_zero] at h
    simp only [List.getElem?_cons_zero] at h
    split at h
    · cases h
    · cases h
    · rename_i s d1 hs _
      cases hs
      split at h
      · rename_i e he
        split at h
        · cases h
          exact ⟨rfl, by simp [he]⟩
        · split at h
          · split at h
            · cases h
            · cases h
              exact ⟨rfl, by simp [he]⟩
          · cases h
            exact ⟨rfl, by simp [he]⟩
      · rename_i he
        cases h
        exact ⟨rfl, by simp [he]⟩
  | succ k ih =>
    intro hk d r w1 h
    have hlt : k < rest.length := hk
    have htake : rest.take (k + 1) = rest.take k ++ [rest.get ⟨k, hlt⟩] := by
      rw [List.take_succ, List.getElem?_eq_getElem hlt]
      rfl
    rw [htake, descend_snoc]
    rw [indexAssign_go_succ] at h
    have hsel : (s0 :: rest)[k + 1]? = some (rest.get ⟨k, hlt⟩) := by
      simp [List.getElem?_eq_getElem hlt]
    rw [hsel] at h
    split at h
    · cases h
    · cases h
    · rename_i s d1 hs _
      cases hs
      split at h
      · rename_i e he
        rw [he, descend_error]
        split at h
        · cases h
          exact ⟨rfl, Option.some_ne_none _⟩
        · split at h
          · split at h
            · cases h
            · cases h
              exact ⟨rfl, Option.some_ne_none _⟩
          · cases h
            exact ⟨rfl, Option.some_ne_none _⟩
      · rename_i next he
        rw [he]
        exact ih (Nat.le_of_lt hlt) next r w1 h

/-- The loop of `indexAssign` returns when it meets no nil interface value. -/
theorem indexAssign_go_total (env : Env) (w : List Event) (src s0 : Object)
    (rest : List Object) (hsrc : src ≠ .nil) (hrest : ∀ s ∈ rest, s ≠ Object.nil)
    (hget : ∀ d s x, env.IndexGet w d s = .ok x → x ≠ Object.nil) :
    ∀ (k : Nat), k ≤ rest.length → ∀ (d : Object), d ≠ .nil →
      ∃ r w1, indexAssign.go env w src (s0 :: rest) k d = some (r, w1) := by
  intro k
  induction k with
  | zero =>
    intro _ d hd
    rw [indexAssign_go_zero]
    simp only [List.getElem?_cons_zero]
    cases hs : env.IndexSet w d s0 src with
    | none => cases d <;> first | exact absurd rfl hd | exact ⟨_, _, rfl⟩
    | some e =>
      by_cases h1 : e = GoError.ErrNotIndexAssignable
      · cases d <;> first
          | exact absurd rfl hd
          | exact ⟨_, _, by simp only [if_pos h1]; rfl⟩
      · by_cases h2 : e = GoError.ErrInvalidIndexValueType
        · cases d <;> first
            | exact absurd rfl hd
            | (cases src <;> first
                | exact absurd rfl hsrc
                | exact ⟨_, _, by simp only [if_neg h1, if_pos h2]; rfl⟩)
        · cases d <;> first
            | exact absurd rfl hd
            | exact ⟨_, _, by simp only [if_neg h1, if_neg h2]; rfl⟩
  | succ k ih =>
    intro hk d hd
    have hlt : k < rest.length := hk
    have hsel : (s0 :: rest)[k + 1]? = some (rest.get ⟨k, hlt⟩) := by
      simp [List.getElem?_eq_getElem hlt]
    have hs : rest.get ⟨k, hlt⟩ ≠ Object.nil := hrest _ (List.get_mem rest k hlt)
    rw [indexAssign_go_succ, hsel]
    generalize rest.get ⟨k, hlt⟩ = s at hs
    cases hg : env.IndexGet w d s with
    | ok next =>
      have hn := ih (Nat.le_of_lt hlt) next (hget _ _ _ hg)
      cases d <;> first | exact absurd rfl hd | (simp only [hg]; exact hn)
    | error e =>
      by_cases h1 : e = GoError.ErrNotIndexable
      · cases d <;> first
          | exact absurd rfl hd
          | exact ⟨_, _, by simp only [hg, if_pos h1]; rfl⟩
      · by_cases h2 : e = GoError.ErrInvalidIndexType
        · cases d <;> first
            | exact absurd rfl hd
            | (cases s <;> first
                | exact absurd rfl hs
                | exact ⟨_, _, by simp only [hg, if_neg h1, if_pos h2]; rfl⟩)
        · cases d <;> first
            | exact absurd rfl hd
            | exact ⟨_, _, by simp only [hg, if_neg h1, if_neg h2]; rfl⟩

theorem indexAssign_cases (env : Env) (w : List Event) (dst src s0 : Object)
    (rest : List Object) (r : Option GoError) (w1 : List Event)
    (h : indexAssign env w dst src (s0 :: rest) = some (r, w1)) :
    match specDescend env w dst (s0 :: rest) with
    | .ok d0 => w1 = w ++ [Event.IndexSet d0 s0 src] ∧
        (r = none ↔ env.IndexSet w d0 s0 src = none)
    | .error _ => w1 = w ∧ r ≠ none := by
  have h1 := indexAssign_go env w src s0 rest rest.length (le_refl _) dst r w1 h
  rw [List.take_length] at h1
  exact h1

/-- C20 (indexed assignment).  For the selectors `s0 :: rest` (the last of them was on top
of the stack), a call of `indexAssign` that returns agrees with the specification's
wording: the destination `d_0` is reached from `dst` by `IndexGet` through the selectors
`n-1` down to 1; when every `IndexGet` succeeds, exactly one `IndexSet(d_0, s_0, src)` is
made and nil is returned exactly when that `IndexSet` returns nil; when an `IndexGet`
fails, no `IndexSet` is made and an error is returned.  The call returns (it does not
panic) when `dst`, `src`, the selectors and the values that `IndexGet` yields are not the
nil interface.  `OpSetSelGlobal`, `OpSetSelLocal` and `OpSetSelFree` with the operand
`numSelectors = n` leave, whether they continue or return with an error, `sp` reduced by
`n + 1` and the stack as it was. -/
theorem indexAssign_refines (env : Env) (w : List Event) (dst src s0 : Object)
    (rest : List Object) :
    (∀ r w1, indexAssign env w dst src (s0 :: rest) = some (r, w1) →
      (r.isNone, w1) = specIndexAssign env w dst src (s0 :: rest)) ∧
    (∀ r w1 d0, indexAssign env w dst src (s0 :: rest) = some (r, w1) →
      specDescend env w dst (s0 :: rest) = .ok d0 →
      w1 = w ++ [Event.IndexSet d0 s0 src] ∧ (r = none ↔ env.IndexSet w d0 s0 src = none)) ∧
    (∀ r w1 e, indexAssign env w dst src (s0 :: rest) = some (r, w1) →
      specDescend env w dst (s0 :: rest) = .error e → w1 = w ∧ r ≠ none) ∧
    (∀ r w1, indexAssign env w dst src (s0 :: rest) = some (r, w1) →
      (r = none ↔ ∃ d0, specDescend env w dst (s0 :: rest) = .ok d0 ∧
        env.IndexSet w d0 s0 src = none)) ∧
    (dst ≠ .nil → src ≠ .nil → (∀ s ∈ rest, s ≠ Object.nil) →
      (∀ d s x, env.IndexGet w d s = .ok x → x ≠ Object.nil) →
      ∃ r w1, indexAssign env w dst src (s0 :: rest) = some (r, w1)) ∧
    (∀ (v : VM) (n : Nat), getIdx v.curInsts (v.ip + 3) = .ok n →
      Holds (fun u => u.sp = v.sp - ((n : Int) + 1) ∧ u.stack = v.stack)
        (opSetSelGlobal env v)) ∧
    (∀ (v : VM) (n : Nat), getIdx v.curInsts (v.ip + 2) = .ok n →
      Holds (fun u => u.sp = v.sp - ((n : Int) + 1) ∧ u.stack = v.stack)
        (opSetSelLocal env v)) ∧
    (∀ (v : VM) (n : Nat), getIdx v.curInsts (v.ip + 2) = .ok n →
      Holds (fun u => u.sp = v.sp - ((n : Int) + 1) ∧ u.stack = v.stack)
        (opSetSelFree env v)) := by
  refine ⟨?_, ?_, ?_, ?_, ?_, setSelGlobal_pops env, setSelLocal_pops env,
    setSelFree_pops env⟩
  · intro r w1 h
    have hc := indexAssign_cases env w dst src s0 rest r w1 h
    unfold specIndexAssign
    simp only [List.head?_cons]
    cases hd : specDescend env w dst (s0 :: rest) with
    | ok d0 =>
      rw [hd] at hc
      obtain ⟨h1, h2⟩ := hc
      dsimp only
      rw [h1]
      congr 1
      cases r with
      | none => simp [h2.mp rfl]
      | some e =>
        cases hs : env.IndexSet w d0 s0 src with
        | none => exact absurd (h2.mpr hs) (Option.some_ne_none e)
        | some e1 => rfl
    | error e =>
      rw [hd] at hc
      obtain ⟨h1, h2⟩ := hc
      dsimp only
      rw [h1]
      congr 1
      cases r with
      | none => exact absurd rfl h2
      | some e1 => rfl
  · intro r w1 d0 h hd
    have hc := indexAssign_cases env w dst src s0 rest r w1 h
    rw [hd] at hc
    exact hc
  · intro r w1 e h hd
    have hc := indexAssign_cases env w dst src s0 rest r w1 h
    rw [hd] at hc
    exact hc
  · intro r w1 h
    have hc := indexAssign_cases env w dst src s0 rest r w1 h
    cases hd : specDescend env w dst (s0 :: rest) with
    | ok d0 =>
      rw [hd] at hc
      constructor
      · intro hr
        exact ⟨d0, rfl, hc.2.mp hr⟩
      · rintro ⟨d1, h1, h2⟩
        cases h1
        exact hc.2.mpr h2
    | error e =>
      rw [hd] at hc
      constructor
      · intro hr
        exact absurd hr hc.2
      · rintro ⟨d1, h1, _⟩
        cases h1
  · intro hdst hsrc hrest hget
    exact indexAssign_go_total env w src s0 rest hsrc hrest hget rest.length (le_refl _)
      dst hdst

/-! ### The frame depth along a run -/

theorem setIdx_length {α : Type} {xs ys : List α} {i : Int} {x : α}
    (h : setIdx xs i x = .ok ys) : ys.length = xs.length := by
  unfold setIdx at h
  split at h
  · cases h
    simp
  · cases h

theorem pushFrame_length (v : VM) (cur : Frame) (callee : CompiledFunction) (n : Int) :
    Holds (fun w => w.frames.length = v.frames.length) (pushFrame v cur callee n) := by
  unfold pushFrame
  split
  · exact holds_ret rfl
  · cases h1 : setIdx v.frames v.curFrame { cur with ip := v.ip } with
    | error e =>
      cases e with
      | panic => exact holds_panic _
      | ret w => exact absurd h1 (setIdx_ne_ret _ _ _ w)
    | ok fs1 =>
      simp only [bind, Except.bind]
      cases h2 : getIdx fs1 v.framesIndex with
      | error e =>
        cases e with
        | panic => exact holds_panic _
        | ret w => exact absurd h2 (getIdx_ne_ret _ _ w)
      | ok new =>
        dsimp only
        cases h3 : setIdx fs1 v.framesIndex
            { new with fn := some callee, freeVars := callee.Free, basePointer := v.sp - n } with
        | error e =>
          cases e with
          | panic => exact holds_panic _
          | ret w => exact absurd h3 (setIdx_ne_ret _ _ _ w)
        | ok fs2 =>
          exact holds_ok ((setIdx_length h3).trans (setIdx_length h1))

theorem callCompiled_length (env : Env) (v : VM) (callee : CompiledFunction)
    (numArgs : Int) :
    Holds (fun w => w.frames.length = v.frames.length)
      (callCompiled env v callee numArgs) := by
  simp only [callCompiled, gatherVarArgs, isTailPosition, elideCall, readU16, push,
    fail, charge, typeName_eq, receiver_eq, curFrameVal_eq,
    getIdx_eq, setIdx_eq, readRange_eq, sliceExpr_eq, pure, Except.pure,
    ok_bind, error_bind, throw, throwThe, MonadExceptOf.throw, bind_assoc]
  repeat' (first
    | exact holds_panic _
    | exact holds_ok rfl
    | exact holds_ret rfl
    | exact pushFrame_length _ _ _ _
    | (refine holds_bind (noRet_orPanic _) ?_; intro _)
    | (refine holds_bind (noRet_copyArgs _ _ _ _ _) ?_; intro _)
    | (split <;> try simp only [*, readU16, push, fail, charge, typeName_eq, receiver_eq,
        curFrameVal_eq, getIdx_eq, setIdx_eq, readRange_eq, sliceExpr_eq, pure,
        Except.pure, ok_bind, error_bind, throw, throwThe, MonadExceptOf.throw, bind_assoc]))

theorem callee_length (env : Env) (v w : VM) (value : Object) (k : Int)
    (hw : w.frames.length = v.frames.length) :
    Holds (fun u => u.frames.length = v.frames.length)
      (match value with
        | .CompiledFunction callee => callCompiled env w callee k
        | _ => callNative env w value k) := by
  have hp : ∀ u : VM, u.frames.length = w.frames.length →
      u.frames.length = v.frames.length := fun u h => h.trans hw
  have hq : ∀ u : VM, SameFrames w u → u.frames.length = v.frames.length :=
    fun u h => (congrArg List.length h.1).trans hw
  cases value
  case CompiledFunction callee => exact holds_mono hp (callCompiled_length env w callee k)
  all_goals exact holds_mono hq (callNative_keeps env w _ k)

theorem opCall_length (env : Env) (v : VM) :
    Holds (fun w => w.frames.length = v.frames.length) (opCall env v) := by
  unfold opCall
  simp only [getIdx_eq, receiver_eq]
  refine holds_bind (noRet_orPanic _) ?_
  intro numArgs
  refine holds_bind (noRet_orPanic _) ?_
  intro spread
  refine holds_bind (noRet_orPanic _) ?_
  intro value
  refine holds_bind (noRet_orPanic _) ?_
  intro _
  split
  · exact holds_ret rfl
  · split
    · rcases spreadArgs_budget env { v with ip := v.ip + 2 } numArgs 0 0 with
        ⟨h1, _⟩ | ⟨w, h1, _, _, h2⟩ | ⟨w, k, h1, _, _, h2⟩
      · rw [h1]
        exact holds_panic _
      · rw [h1]
        exact holds_ret (congrArg List.length h2.1)
      · rw [h1]
        exact callee_length env v w value k (congrArg List.length h2.1)
    · exact callee_length env v { v with ip := v.ip + 2 } value numArgs rfl

/-- The case `OpReturn`, when it continues, has left the frames and lowered `framesIndex`
by one. -/
theorem opReturn_depth (v w : VM) (h : opReturn v = .ok w) :
    w.frames = v.frames ∧ w.framesIndex = v.framesIndex - 1 := by
  simp only [opReturn, bind, Except.bind, pure, Except.pure] at h
  repeat' (first
    | (cases h; done)
    | (cases h; exact ⟨rfl, rfl⟩)
    | split at h)

/-- The case `OpReturn` never ends the run: it sets no error. -/
theorem opReturn_noRet (v : VM) : NoRet (opReturn v) := by
  intro w h
  simp only [opReturn, bind, Except.bind, pure, Except.pure] at h
  repeat' (first
    | (cases h; done)
    | (cases h; rename_i h1; first
        | exact absurd h1 (getIdx_ne_ret _ _ _)
        | exact absurd h1 (setIdx_ne_ret _ _ _ _)
        | (split at h1 <;> first | exact absurd h1 (getIdx_ne_ret _ _ _) | cases h1))
    | split at h)

/-- One iteration leaves the number of frames, `MaxFrames`, as it is. -/
theorem step_length (env : Env) (v : VM) :
    Holds (fun w => w.MaxFrames = v.MaxFrames) (step env v) := by
  have hcast : ∀ u : VM, u.frames.length = v.frames.length → u.MaxFrames = v.MaxFrames :=
    fun u h => congrArg Int.ofNat h
  unfold step
  simp only [getIdx_eq]
  refine holds_bind (noRet_orPanic _) ?_
  intro op
  split
  · next o _ =>
    by_cases h1 : o = .OpCall
    · subst h1
      exact holds_mono hcast (opCall_length env { v with ip := v.ip + 1 })
    · by_cases h2 : o = .OpReturn
      · subst h2
        show Holds _ (opReturn { v with ip := v.ip + 1 })
        cases h : opReturn { v with ip := v.ip + 1 } with
        | ok w => exact hcast w (congrArg List.length (opReturn_depth _ w h).1)
        | error e =>
          cases e with
          | panic => exact holds_panic _
          | ret w => exact absurd h (opReturn_noRet _ w)
      · refine holds_mono (fun u hF => hcast u (congrArg List.length hF.1))
          (dispatch_keeps env { v with ip := v.ip + 1 } o ?_)
        intro h3
        rcases List.mem_cons.mp h3 with h3 | h3
        · exact h1 h3
        · rcases List.mem_cons.mp h3 with h3 | h3
          · exact h2 h3
          · cases h3
  · exact holds_ret rfl

/-- The states of a run keep the frame invariant and the number of frames. -/
theorem stateAt_inv (env : Env) : ∀ (n : Nat) (v s : VM), Inv v → stateAt env n v = some s →
    Inv s ∧ s.MaxFrames = v.MaxFrames := by
  intro n
  induction n with
  | zero =>
    intro v s hv h
    simp only [stateAt, Option.some.injEq] at h
    subst h
    exact ⟨hv, rfl⟩
  | succ n ih =>
    intro v s hv h
    by_cases ha : v.aborting = 0
    · simp only [stateAt, if_pos ha] at h
      have hi := step_inv env v hv
      have hl := step_length env v
      cases hstep : step env v with
      | ok v1 =>
        rw [hstep] at h hi hl
        obtain ⟨h1, h2⟩ := ih v1 s hi h
        exact ⟨h1, h2.trans hl⟩
      | error e =>
        rw [hstep] at h
        cases h
    · simp only [stateAt, if_neg ha] at h
      cases h

/-- The state in which `run` returns keeps the frame invariant and the number of frames. -/
theorem run_inv (env : Env) : ∀ (fuel : Nat) (v w : VM), Inv v →
    run env fuel v = some (.returned w) → Inv w ∧ w.MaxFrames = v.MaxFrames := by
  intro fuel
  induction fuel with
  | zero =>
    intro v w hv h
    by_cases ha : v.aborting = 0
    · simp only [run, if_pos ha] at h
      cases h
    · simp only [run, if_neg ha, Option.some.injEq, Ended.returned.injEq] at h
      subst h
      exact ⟨hv, rfl⟩
  | succ fuel ih =>
    intro v w hv h
    by_cases ha : v.aborting = 0
    · simp only [run, if_pos ha] at h
      have hi := step_inv env v hv
      have hl := step_length env v
      cases hstep : step env v with
      | ok v1 =>
        rw [hstep] at h hi hl
        obtain ⟨h1, h2⟩ := ih v1 w hi h
        exact ⟨h1, h2.trans hl⟩
      | error e =>
        cases e with
        | panic =>
          rw [hstep] at h
          cases h
        | ret v1 =>
          rw [hstep] at h hi hl
          simp only [Option.some.injEq, Ended.returned.injEq] at h
          subst h
          exact ⟨hi, hl⟩
    · simp only [run, if_neg ha, Option.some.injEq, Ended.returned.injEq] at h
      subst h
      exact ⟨hv, rfl⟩

theorem getIdx_neg {α : Type} (xs : List α) (i : Int) (h : i < 0) :
    getIdx xs i = .error .panic := by
  have h0 : ¬ 0 ≤ i := by omega
  simp only [getIdx, if_neg h0, throw, throwThe, MonadExceptOf.throw]

/-- The case `OpReturn` in the main function, at `framesIndex = 1`, indexes `frames[-1]`:
a runtime panic. -/
theorem opReturn_main (v : VM) (h : v.framesIndex = 1) : opReturn v = .error .panic := by
  have hneg : getIdx v.frames (v.framesIndex - 1 - 1) = .error .panic :=
    getIdx_neg _ _ (by omega)
  cases hr : opReturn v with
  | ok w =>
    exfalso
    simp only [opReturn, bind, Except.bind, pure, Except.pure, hneg] at hr
    repeat' (first | cases hr | split at hr)
  | error e =>
    cases e with
    | panic => rfl
    | ret w => exact absurd hr (opReturn_noRet v w)

/-- A call that is not elided, with all frames in use or with a frame left. -/
theorem callCompiled_depth (env : Env) (v v2 : VM) (callee fn : CompiledFunction)
    (n n2 : Int) (cur : Frame)
    (hg : gatherVarArgs v callee n = .ok (v2, n2)) (hP : n2 = callee.NumParameters)
    (hcur : v.frames[v.curFrame]? = some cur) (hfn : cur.fn = some fn)
    (hne : fn.addr ≠ callee.addr ∨ isTailPosition env v = .ok false)
    (h1 : 1 ≤ v.framesIndex) :
    (v.MaxFrames ≤ v.framesIndex →
      callCompiled env v callee n =
        .error (.ret { v2 with err := some GoError.ErrStackOverflow })) ∧
    (v.framesIndex < v.MaxFrames →
      ∃ w slot, getIdx v.frames v.framesIndex = .ok slot ∧
        callCompiled env v callee n = .ok w ∧
        w.framesIndex = v.framesIndex + 1 ∧ w.MaxFrames = v.MaxFrames) := by
  refine ⟨callCompiled_overflow env v v2 callee fn n n2 cur hg hP hcur hfn hne, ?_⟩
  intro hlt
  have hpush := callCompiled_push env v v2 callee fn n n2 cur hg hP hcur hfn hne
  obtain ⟨st2, sp2, rfl⟩ := gatherVarArgs_frame v callee n v2 n2 hg
  obtain ⟨old, _, hok⟩ := pushFrame_ok { v with stack := st2, sp := sp2 } cur callee n2 hcur
    (by show 0 ≤ v.framesIndex; omega) hlt
  have hlen : v.framesIndex.toNat < v.frames.length := by
    unfold VM.MaxFrames at hlt
    omega
  refine ⟨_, v.frames.get ⟨_, hlen⟩, ?_, hpush.trans hok, rfl, ?_⟩
  · simp only [getIdx, show (0 : Int) ≤ v.framesIndex by omega, if_true,
      List.getElem?_eq_getElem hlen, pure, Except.pure]
    rfl
  · simp [VM.MaxFrames]

/-- The accesses of `OpReturn` to `frames` below the main function are in bounds. -/
theorem opReturn_in_bounds (v : VM) (h : Inv v) (h2 : 2 ≤ v.framesIndex) :
    ∃ caller fn last, getIdx v.frames (v.framesIndex - 1 - 1) = .ok caller ∧
      caller.fn = some fn ∧ getIdx v.frames (v.framesIndex - 1) = .ok last := by
  obtain ⟨_, hle, _, hfr⟩ := h
  obtain ⟨caller, fn, hc, hfn⟩ := hfr (v.framesIndex - 1 - 1).toNat (by omega)
  obtain ⟨last, fn1, hl, _⟩ := hfr (v.framesIndex - 1).toNat (by omega)
  refine ⟨caller, fn, last, ?_, hfn, ?_⟩
  · simp only [getIdx, show (0 : Int) ≤ v.framesIndex - 1 - 1 by omega, if_true, hc, pure,
      Except.pure]
  · simp only [getIdx, show (0 : Int) ≤ v.framesIndex - 1 by omega, if_true, hl, pure,
      Except.pure]

theorem reset_maxFrames (v v0 : VM) (h : reset v = some v0) : v0.MaxFrames = v.MaxFrames := by
  unfold reset at h
  split at h
  · split at h
    · cases h
      rfl
    · cases h
  · cases h

/-- C21 (frame-depth invariant).  Every state that the loop reaches from the start of
`Run`, and the state in which `run` returns, has `1 ≤ framesIndex ≤ MaxFrames`, with
`MaxFrames` the number of frames of the machine, and satisfies the frame invariant `Inv`
(the frames below `framesIndex` hold a function and the current frame is the last of
them).  A call of a compiled function that is not elided returns `ErrStackOverflow` when
`framesIndex ≥ MaxFrames`, and otherwise accesses `frames[framesIndex]` in bounds and
continues with `framesIndex` raised by exactly 1.  `OpReturn` at `framesIndex ≥ 2`
accesses `frames[framesIndex - 2]` and `frames[framesIndex - 1]` in bounds, sets no error,
and when it continues has lowered `framesIndex` by exactly 1 and left the frames as they
were; it does continue when its flag byte and the stack slot below the base pointer of
the returning frame are in range.  `OpReturn` at `framesIndex = 1`, in the main function,
indexes `frames[-1]`: a runtime panic, so no state is reached from it. -/
theorem frame_depth_invariant (env : Env) (v v0 : VM) (hreset : reset v = some v0) :
    (∀ n s, stateAt env n v0 = some s →
      Inv s ∧ 1 ≤ s.framesIndex ∧ s.framesIndex ≤ s.MaxFrames ∧ s.MaxFrames = v.MaxFrames) ∧
    (∀ fuel w, run env fuel v0 = some (.returned w) →
      Inv w ∧ 1 ≤ w.framesIndex ∧ w.framesIndex ≤ w.MaxFrames ∧ w.MaxFrames = v.MaxFrames) ∧
    (∀ (u u2 : VM) (callee fn : CompiledFunction) (k k2 : Int) (cur : Frame),
      gatherVarArgs u callee k = .ok (u2, k2) → k2 = callee.NumParameters →
      u.frames[u.curFrame]? = some cur → cur.fn = some fn →
      (fn.addr ≠ callee.addr ∨ isTailPosition env u = .ok false) → 1 ≤ u.framesIndex →
      (u.MaxFrames ≤ u.framesIndex →
        callCompiled env u callee k =
          .error (.ret { u2 with err := some GoError.ErrStackOverflow })) ∧
      (u.framesIndex < u.MaxFrames →
        ∃ w slot, getIdx u.frames u.framesIndex = .ok slot ∧
          callCompiled env u callee k = .ok w ∧
          w.framesIndex = u.framesIndex + 1 ∧ w.MaxFrames = u.MaxFrames)) ∧
    (∀ (u : VM), Inv u → 2 ≤ u.framesIndex →
      (∃ caller fn last, getIdx u.frames (u.framesIndex - 1 - 1) = .ok caller ∧
        caller.fn = some fn ∧ getIdx u.frames (u.framesIndex - 1) = .ok last ∧
        ∀ (flag : Nat) (r : Object), getIdx u.curInsts (u.ip + 1) = .ok flag →
          (flag = 1 → getIdx u.stack (u.sp - 1) = .ok r) →
          0 ≤ last.basePointer - 1 → last.basePointer - 1 < u.stack.length →
          ∃ w, opReturn u = .ok w) ∧
      (∀ w, opReturn u = .ok w →
        w.framesIndex = u.framesIndex - 1 ∧ w.frames = u.frames ∧
          1 ≤ w.framesIndex ∧ w.framesIndex ≤ w.MaxFrames) ∧
      (∀ w, opReturn u ≠ .error (.ret w))) ∧
    (∀ (u : VM), u.framesIndex = 1 → opReturn u = .error .panic) := by
  have hinv := inv_reset v v0 hreset
  have hmax := reset_maxFrames v v0 hreset
  refine ⟨?_, ?_, ?_, ?_, opReturn_main⟩
  · intro n s hs
    obtain ⟨h1, h2⟩ := stateAt_inv env n v0 s hinv hs
    exact ⟨h1, h1.1, h1.2.1, h2.trans hmax⟩
  · intro fuel w hw
    obtain ⟨h1, h2⟩ := run_inv env fuel v0 w hinv hw
    exact ⟨h1, h1.1, h1.2.1, h2.trans hmax⟩
  · intro u u2 callee fn k k2 cur hg hP hcur hfn hne h1
    exact callCompiled_depth env u u2 callee fn k k2 cur hg hP hcur hfn hne h1
  · intro u hu h2
    obtain ⟨caller, fn, last, hc, hfn, hl⟩ := opReturn_in_bounds u hu h2
    refine ⟨⟨caller, fn, last, hc, hfn, hl, ?_⟩, ?_, opReturn_noRet u⟩
    · intro flag r hflag hr hb0 hb1
      exact ⟨_, opReturn_ok u flag r caller last fn hflag hr hc hfn hl hb0 hb1⟩
    · intro w hw
      obtain ⟨h3, h4⟩ := opReturn_depth u w hw
      refine ⟨h4, h3, by omega, ?_⟩
      have hle : u.framesIndex ≤ u.frames.length := hu.2.1
      show w.framesIndex ≤ (w.frames.length : Int)
      rw [h3, h4]
      omega

set_option maxRecDepth 100000 in
theorem frame_depth_invariant_witness :
    reset (Demo.tailVM 0) = some (Demo.tailVM 0) ∧
    ∃ s, stateAt Demo.env 4 (Demo.tailVM 0) = some s ∧ s.framesIndex = 2 ∧
      1 ≤ s.framesIndex ∧ s.framesIndex ≤ s.MaxFrames ∧ s.MaxFrames = 2 :=
  ⟨rfl, _, rfl, rfl,
    ((frame_depth_invariant Demo.env (Demo.tailVM 0) (Demo.tailVM 0) rfl).1 4 _ rfl).2⟩

/-! ### Two frames for a tail-recursive loop -/

theorem cause_errorf (f : String) (a : List Arg) :
    (GoError.Errorf f a).cause ≠ GoError.ErrStackOverflow := by
  simp [GoError.cause]

theorem notOverflow_some {x : GoError} (h : x.cause ≠ GoError.ErrStackOverflow) :
    NotOverflow (some x) := by
  intro e he
  cases he
  exact h

theorem notOverflow_errorf (f : String) (a : List Arg) :
    NotOverflow (some (GoError.Errorf f a)) := notOverflow_some (cause_errorf f a)

theorem notOverflow_alloc : NotOverflow (some GoError.ErrObjectAllocLimit) :=
  notOverflow_some (by simp [GoError.cause])

theorem ends_bind_eq {α : Type} {P Q : VM → Prop} {o : Option α} {f : α → Exec VM}
    (h : ∀ y, o = some y → Ends P Q (f y)) : Ends P Q (orPanic o >>= f) := by
  cases o with
  | none => exact ends_panic P Q
  | some y => exact h y rfl

theorem ends_of_holds {A Q : VM → Prop} {r : Exec VM} (ha : Holds A r)
    (hq : Ends (fun _ => True) Q r) : Ends (fun w => A w) Q r := by
  match r, ha, hq with
  | .ok w, ha, _ => exact ha
  | .error (.ret w), _, hq => exact hq
  | .error .panic, _, _ => trivial

/-- An error that `indexAssign` returns is built by `fmt.Errorf` or is the one that
`IndexGet` or `IndexSet` returned. -/
theorem indexAssign_go_notOverflow (env : Env) (w : List Event) (src : Object)
    (selectors : List Object)
    (hG : ∀ w o i e, env.IndexGet w o i = .error e → e.cause ≠ GoError.ErrStackOverflow)
    (hS : ∀ w o i x e, env.IndexSet w o i x = some e → e.cause ≠ GoError.ErrStackOverflow) :
    ∀ (k : Nat) (d : Object) (e : GoError) (w1 : List Event),
      indexAssign.go env w src selectors k d = some (some e, w1) →
      e.cause ≠ GoError.ErrStackOverflow := by
  intro k
  induction k with
  | zero =>
    intro d e w1 h
    rw [indexAssign_go_zero] at h
    repeat' (first
      | (cases h; done)
      | (cases h; exact cause_errorf _ _)
      | (cases h; exact hS _ _ _ _ _ (by assumption))
      | split at h)
  | succ k ih =>
    intro d e w1 h
    rw [indexAssign_go_succ] at h
    repeat' (first
      | exact ih _ _ _ h
      | (cases h; done)
      | (cases h; exact cause_errorf _ _)
      | (cases h; exact hG _ _ _ _ (by assumption))
      | split at h)

theorem indexAssign_notOverflow (env : Env) (hhost : HostNoOverflow env) (w : List Event)
    (dst src : Object) (selectors : List Object) (e : GoError) (w1 : List Event)
    (h : indexAssign env w dst src selectors = some (some e, w1)) :
    e.cause ≠ GoError.ErrStackOverflow :=
  indexAssign_go_notOverflow env w src selectors hhost.2.1 hhost.2.2.1 _ dst e w1 h

set_option maxHeartbeats 4000000 in
/-- Every opcode but `OpCall` and `OpSuspend`: the error with which the handler returns
is not `ErrStackOverflow`. -/
theorem dispatch_notOverflow (env : Env) (hhost : HostNoOverflow env) (v : VM) (o : Opcode)
    (ho : o ∉ [Opcode.OpCall, .OpSuspend]) :
    Ends (fun _ => True) (fun w => NotOverflow w.err) (dispatch env v o) := by
  have hB := hhost.1
  have hG := hhost.2.1
  cases o <;> first
    | (exfalso; revert ho; decide)
    | skip
  all_goals simp only [dispatch, opConstant, opNull, opPop, opTrue, opFalse, opJump,
    opSetGlobal, opGetGlobal, opDefineLocal, opSetLocal, opGetLocal, opGetFreePtr, opGetFree,
    opSetFree, opGetLocalPtr, opEqual, opNotEqual, opLNot, opJumpFalsy, opAndJump,
    opOrJump, opIndex, opGetBuiltin, opIteratorNext, opIteratorKey, opIteratorValue,
    opSetSelGlobal, opSetSelLocal, opSetSelFree, opBinaryOp, opBComplement, opMinus, opArray,
    opMap, opError, opImmutable, opSliceIndex, opClosure, opIteratorInit, opReturn,
    sliceBounds, charge,
    readU16, push, fail, typeName_eq, receiver_eq, curFrameVal_eq, deref,
    assign, finishSetSel, getIdx_eq, setIdx_eq, readRange_eq, sliceExpr_eq, pure,
    Except.pure, ok_bind, error_bind, throw, throwThe, MonadExceptOf.throw, bind_assoc]
  all_goals repeat' (first
    | exact ends_panic _ _
    | exact ends_ok trivial
    | exact ends_ret (notOverflow_errorf _ _)
    | exact ends_ret notOverflow_alloc
    | exact ends_ret (notOverflow_some (hB _ _ _ _ _ (by assumption)))
    | exact ends_ret (notOverflow_some (hG _ _ _ _ (by assumption)))
    | exact ends_ret (notOverflow_some
        (indexAssign_notOverflow env hhost _ _ _ _ _ _ (by assumption)))
    | (refine ends_bind (noRet_orPanic _) ?_; intro _)
    | (refine ends_bind (noRet_buildMap _ _ _ _ _) ?_; intro _)
    | (refine ends_bind (noRet_captureFree _ _ _ _) ?_; intro _)
    | (split <;> try simp only [*, charge,
        readU16, push, fail, typeName_eq, receiver_eq, curFrameVal_eq, deref,
        assign, finishSetSel, getIdx_eq, setIdx_eq, readRange_eq, sliceExpr_eq, pure,
        Except.pure, ok_bind, error_bind, throw, throwThe, MonadExceptOf.throw, bind_assoc]))

theorem callNative_notOverflow (env : Env) (hhost : HostNoOverflow env) (v : VM)
    (value : Object) (numArgs : Int) :
    Ends (fun _ => True) (fun w => NotOverflow w.err) (callNative env v value numArgs) := by
  have hC := hhost.2.2.2
  simp only [callNative, readU16, push, fail, charge, typeName_eq, receiver_eq, curFrameVal_eq,
    getIdx_eq, setIdx_eq, readRange_eq, sliceExpr_eq, VM.MaxFrames, pure, Except.pure,
    ok_bind, error_bind, throw, throwThe, MonadExceptOf.throw, bind_assoc]
  repeat' (first
    | exact ends_panic _ _
    | exact ends_ok trivial
    | exact ends_ret (notOverflow_errorf _ _)
    | exact ends_ret notOverflow_alloc
    | exact ends_ret (notOverflow_some (hC _ _ _ _ (by assumption)))
    | (refine ends_bind (noRet_orPanic _) ?_; intro _)
    | (split <;> try simp only [*, readU16, push, fail, charge, typeName_eq, receiver_eq, curFrameVal_eq,
    getIdx_eq, setIdx_eq, readRange_eq, sliceExpr_eq, VM.MaxFrames, pure, Except.pure,
    ok_bind, error_bind, throw, throwThe, MonadExceptOf.throw, bind_assoc]))

theorem spreadArgs_notOverflow (env : Env) (v w : VM) (numArgs : Int)
    (h : spreadArgs env v numArgs = .error (.ret w)) : NotOverflow w.err := by
  simp only [spreadArgs, getIdx_eq, typeName_eq, fail, throw, throwThe,
    MonadExceptOf.throw] at h
  cases hget : (if 0 ≤ v.sp - 1 then v.stack[(v.sp - 1).toNat]? else none) with
  | none =>
    rw [hget] at h
    cases h
  | some arr =>
    rw [hget] at h
    simp only [orPanic, ok_bind] at h
    have key : ∀ (xs : List Object) (k : Int),
        (pushAll { v with sp := v.sp - 1 } xs >>=
          fun u => (pure (u, k) : Exec (VM × Int))) ≠ .error (.ret w) := by
      intro xs k hk
      rcases pushAll_budget 0 0 xs { v with sp := v.sp - 1 } with ⟨h1, _⟩ | ⟨u, h1, _⟩
      · rw [h1] at hk
        cases hk
      · rw [h1] at hk
        cases hk
    cases arr
    case Array xs => exact absurd h (key xs _)
    case ImmutableArray xs => exact absurd h (key xs _)
    case nil => cases h
    all_goals
      cases h
      exact notOverflow_errorf _ _

theorem isTailPosition_congr (env : Env) (a b : VM) (h1 : a.curInsts = b.curInsts)
    (h2 : a.ip = b.ip) : isTailPosition env a = isTailPosition env b := by
  simp only [isTailPosition, h1, h2]

theorem noRet_isTailPosition (env : Env) (v : VM) : NoRet (isTailPosition env v) := by
  unfold isTailPosition
  simp only [getIdx_eq]
  refine noRet_bind _ _ (noRet_orPanic _) (fun nextOp => ?_)
  split
  · exact noRet_ok _
  · split
    · exact noRet_bind _ _ (noRet_orPanic _) (fun a => noRet_ok _)
    · exact noRet_ok _

/-- A call of a compiled function with a frame left, or of the function of the current
frame in tail position: `framesIndex` grows by at most one, not at all in the second
case, and the error of a return is not `ErrStackOverflow`. -/
theorem callCompiled_frames (env : Env) (u : VM) (callee : CompiledFunction) (k : Int)
    (h : u.framesIndex < u.MaxFrames ∨
      ∃ cur, u.frames[u.curFrame]? = some cur ∧
        cur.fn.map (fun f => f.addr) = some callee.addr ∧
        isTailPosition env u = .ok true) :
    Ends (fun w => w.framesIndex ≤ u.framesIndex + 1 ∧
        ((∃ cur, u.frames[u.curFrame]? = some cur ∧
          cur.fn.map (fun f => f.addr) = some callee.addr ∧
          isTailPosition env u = .ok true) → w.framesIndex = u.framesIndex))
      (fun w => NotOverflow w.err) (callCompiled env u callee k) := by
  generalize hT : (∃ cur, u.frames[u.curFrame]? = some cur ∧
    cur.fn.map (fun f => f.addr) = some callee.addr ∧
    isTailPosition env u = .ok true) = T at h ⊢
  unfold callCompiled
  cases hg : gatherVarArgs u callee k with
  | error e =>
    cases e with
    | panic => exact ends_panic _ _
    | ret w =>
      exfalso
      unfold gatherVarArgs at hg
      simp only [readRange_eq, setIdx_eq, pure, Except.pure] at hg
      repeat' (first
        | cases hg
        | split at hg)
  | ok r =>
    obtain ⟨u2, k2⟩ := r
    obtain ⟨st, sp, rfl⟩ := gatherVarArgs_frame u callee k u2 k2 hg
    simp only [ok_bind, curFrameVal_eq]
    have htail : isTailPosition env { u with stack := st, sp := sp } = isTailPosition env u :=
      isTailPosition_congr env _ _ rfl rfl
    split
    · split
      · exact ends_ret (notOverflow_errorf _ _)
      · exact ends_ret (notOverflow_errorf _ _)
    · refine ends_bind_eq ?_
      intro cur hcur
      have hcur : u.frames[u.curFrame]? = some cur := hcur
      have hpush : ¬ T →
          Ends (fun w => w.framesIndex ≤ u.framesIndex + 1 ∧ (T → w.framesIndex = u.framesIndex))
            (fun w => NotOverflow w.err)
            (pushFrame { u with stack := st, sp := sp } cur callee k2) := by
        intro hno
        have hlt : u.framesIndex < u.MaxFrames := by
          rcases h with h | h
          · exact h
          · exact absurd h hno
        have hnot : ¬ (u.framesIndex ≥ u.MaxFrames) := by omega
        unfold pushFrame
        simp only [VM.MaxFrames] at hnot ⊢
        rw [if_neg hnot]
        simp only [getIdx_eq, setIdx_eq, pure, Except.pure, bind_assoc]
        refine ends_bind (noRet_orPanic _) ?_
        intro _
        refine ends_bind (noRet_orPanic _) ?_
        intro _
        refine ends_bind (noRet_orPanic _) ?_
        intro _
        exact ends_ok ⟨le_refl _, fun hyes => absurd hyes hno⟩
      split
      · rename_i hself
        rw [htail]
        cases ht : isTailPosition env u with
        | error e =>
          simp only [error_bind]
          cases e with
          | panic => exact ends_panic _ _
          | ret w => exact absurd ht (noRet_isTailPosition env u w)
        | ok b =>
          simp only [ok_bind]
          cases b with
          | true =>
            simp only [if_true, elideCall]
            refine ends_bind (noRet_copyArgs _ _ _ _ _) ?_
            intro _
            exact ends_ok ⟨by show u.framesIndex ≤ u.framesIndex + 1; omega, fun _ => rfl⟩
          | false =>
            simp only [Bool.false_eq_true, if_false]
            refine hpush ?_
            intro hyes
            rw [← hT] at hyes
            obtain ⟨c, _, _, h3⟩ := hyes
            rw [ht] at h3
            cases h3
      · rename_i hself
        refine hpush ?_
        intro hyes
        rw [← hT] at hyes
        obtain ⟨c, h1, h2, _⟩ := hyes
        rw [hcur] at h1
        cases h1
        exact hself h2

/-- The branch of `OpCall` on the value called, from a state `u` that differs from the
state `s` at the top of the loop in `ip`, `stack` and `sp` only. -/
theorem callee_frames (env : Env) (hhost : HostNoOverflow env) (s u : VM) (value : Object)
    (k : Int) (hf : u.frames = s.frames) (hfi : u.framesIndex = s.framesIndex)
    (hc : u.curFrame = s.curFrame) (hci : u.curInsts = s.curInsts) (hip : u.ip = s.ip + 1 + 2)
    (hval : ∀ callee, value = .CompiledFunction callee →
      s.framesIndex < s.MaxFrames ∨
        ∃ cur, s.frames[s.curFrame]? = some cur ∧
          cur.fn.map (fun f => f.addr) = some callee.addr ∧
          isTailPosition env { s with ip := s.ip + 1 + 2 } = .ok true)
    (hno : ∀ callee, value = .CompiledFunction callee → 2 ≤ s.framesIndex →
      ∃ cur, s.frames[s.curFrame]? = some cur ∧
        cur.fn.map (fun f => f.addr) = some callee.addr ∧
        isTailPosition env { s with ip := s.ip + 1 + 2 } = .ok true) :
    Ends (fun w => w.framesIndex ≤ s.framesIndex + 1 ∧
        (2 ≤ s.framesIndex → w.framesIndex = s.framesIndex))
      (fun w => NotOverflow w.err)
      (match value with
        | .CompiledFunction callee => callCompiled env u callee k
        | _ => callNative env u value k) := by
  have hnat : Ends (fun w => w.framesIndex ≤ s.framesIndex + 1 ∧
        (2 ≤ s.framesIndex → w.framesIndex = s.framesIndex))
      (fun w => NotOverflow w.err) (callNative env u value k) := by
    refine ends_mono (fun w hw => ?_) (fun _ hq => hq)
      (ends_of_holds (callNative_keeps env u value k) (callNative_notOverflow env hhost u value k))
    have hw : w.framesIndex = u.framesIndex := hw.2.1
    rw [hw, hfi]
    exact ⟨by omega, fun _ => rfl⟩
  have htail : isTailPosition env u = isTailPosition env { s with ip := s.ip + 1 + 2 } :=
    isTailPosition_congr env _ _ hci hip
  have hmax : u.MaxFrames = s.MaxFrames := by
    unfold VM.MaxFrames
    rw [hf]
  cases value
  case CompiledFunction callee =>
    dsimp only
    have hpre : u.framesIndex < u.MaxFrames ∨
        ∃ cur, u.frames[u.curFrame]? = some cur ∧
          cur.fn.map (fun f => f.addr) = some callee.addr ∧
          isTailPosition env u = .ok true := by
      rw [hf, hfi, hc, hmax, htail]
      exact hval callee rfl
    refine ends_mono (fun w hw => ?_) (fun _ hq => hq) (callCompiled_frames env u callee k hpre)
    obtain ⟨h1, h2⟩ := hw
    rw [hf, hfi, hc, htail] at h2
    rw [hfi] at h1
    exact ⟨h1, fun h2fi => h2 (hno callee rfl h2fi)⟩
  all_goals exact hnat

/-- The case `OpCall` from the state `s` at the top of the loop, when a frame is left or
the call needs none. -/
theorem opCall_frames (env : Env) (hhost : HostNoOverflow env) (s : VM)
    (h1 : s.framesIndex < s.MaxFrames ∨ needsNoFrame env s = true)
    (h2 : 2 ≤ s.framesIndex → needsNoFrame env s = true) :
    Ends (fun w => w.framesIndex ≤ s.framesIndex + 1 ∧
        (2 ≤ s.framesIndex → w.framesIndex = s.framesIndex))
      (fun w => NotOverflow w.err) (opCall env { s with ip := s.ip + 1 }) := by
  unfold opCall
  simp only [getIdx_eq, receiver_eq]
  refine ends_bind_eq ?_
  intro numArgs hn
  refine ends_bind (noRet_orPanic _) ?_
  intro spread
  refine ends_bind_eq ?_
  intro value hv
  refine ends_bind (noRet_orPanic _) ?_
  intro _
  have key : ∀ callee, value = .CompiledFunction callee → needsNoFrame env s = true →
      ∃ cur, s.frames[s.curFrame]? = some cur ∧
        cur.fn.map (fun f => f.addr) = some callee.addr ∧
        isTailPosition env { s with ip := s.ip + 1 + 2 } = .ok true := by
    intro callee hvalue hneed
    subst hvalue
    have hn1 : getIdx s.curInsts (s.ip + 1 + 1) = .ok numArgs := by
      rw [getIdx_eq, hn]
      rfl
    have hv1 : getIdx s.stack (s.sp - 1 - numArgs) = .ok (.CompiledFunction callee) := by
      rw [getIdx_eq, hv]
      rfl
    unfold needsNoFrame at hneed
    rw [hn1] at hneed
    dsimp only at hneed
    rw [hv1] at hneed
    dsimp only at hneed
    cases hcur : s.frames[s.curFrame]? with
    | none =>
      rw [hcur] at hneed
      cases hneed
    | some cur =>
      rw [hcur] at hneed
      dsimp only at hneed
      rw [Bool.and_eq_true, decide_eq_true_eq] at hneed
      refine ⟨cur, rfl, hneed.1, ?_⟩
      cases ht : isTailPosition env { s with ip := s.ip + 1 + 2 } with
      | error e =>
        rw [ht] at hneed
        cases hneed.2
      | ok b =>
        rw [ht] at hneed
        have hb : b = true := hneed.2
        rw [hb]
  have hval : ∀ callee, value = .CompiledFunction callee →
      s.framesIndex < s.MaxFrames ∨
        ∃ cur, s.frames[s.curFrame]? = some cur ∧
          cur.fn.map (fun f => f.addr) = some callee.addr ∧
          isTailPosition env { s with ip := s.ip + 1 + 2 } = .ok true := by
    intro callee hvalue
    rcases h1 with h1 | h1
    · exact Or.inl h1
    · exact Or.inr (key callee hvalue h1)
  have hno : ∀ callee, value = .CompiledFunction callee → 2 ≤ s.framesIndex →
      ∃ cur, s.frames[s.curFrame]? = some cur ∧
        cur.fn.map (fun f => f.addr) = some callee.addr ∧
        isTailPosition env { s with ip := s.ip + 1 + 2 } = .ok true :=
    fun callee hvalue hfi => key callee hvalue (h2 hfi)
  split
  · exact ends_ret (notOverflow_errorf _ _)
  · split
    · cases hsp : spreadArgs env { s with ip := s.ip + 1 + 2 } numArgs with
      | error e =>
        cases e with
        | panic => exact ends_panic _ _
        | ret w => exact ends_ret (spreadArgs_notOverflow env _ w _ hsp)
      | ok r =>
        obtain ⟨w, k⟩ := r
        obtain ⟨st, sp, rfl⟩ := spreadArgs_frame env _ w _ k hsp
        exact callee_frames env hhost s _ value k rfl rfl rfl rfl rfl hval hno
    · exact callee_frames env hhost s _ value numArgs rfl rfl rfl rfl rfl hval hno

/-- One iteration from a state at frame depth at most 2 in which the call to execute, if
below the main function, needs no frame: the depth stays at most 2 and the error of a
return is not `ErrStackOverflow`. -/
theorem step_frames (env : Env) (hhost : HostNoOverflow env) (s : VM)
    (hmax : 2 ≤ s.MaxFrames) (hfi : s.framesIndex ≤ 2) (herr : NotOverflow s.err)
    (hshape : 2 ≤ s.framesIndex → nextOpcode env s = some Opcode.OpCall →
      needsNoFrame env s = true) :
    Ends (fun w => w.framesIndex ≤ 2) (fun w => NotOverflow w.err) (step env s) := by
  have hnext : ∀ op o, (if 0 ≤ s.ip + 1 then s.curInsts[(s.ip + 1).toNat]? else none) = some op →
      env.opcode op = some o → nextOpcode env s = some o := by
    intro op o hget hop
    unfold nextOpcode
    rw [getIdx_eq, hget]
    exact hop
  unfold step
  simp only [getIdx_eq]
  cases hget : (if 0 ≤ s.ip + 1 then s.curInsts[(s.ip + 1).toNat]? else none) with
  | none => exact ends_panic _ _
  | some op =>
    simp only [orPanic, ok_bind]
    cases hop : env.opcode op with
    | none => exact ends_ret (notOverflow_errorf _ _)
    | some o =>
      dsimp only
      by_cases h1 : o = .OpSuspend
      · subst h1
        exact ends_ret herr
      · by_cases h2 : o = .OpCall
        · subst h2
          have hneed : 2 ≤ s.framesIndex → needsNoFrame env s = true :=
            fun h => hshape h (hnext op _ hget hop)
          have hpre : s.framesIndex < s.MaxFrames ∨ needsNoFrame env s = true := by
            by_cases h2fi : 2 ≤ s.framesIndex
            · exact Or.inr (hneed h2fi)
            · exact Or.inl (by omega)
          refine ends_mono (fun w hw => ?_) (fun _ h => h)
            (opCall_frames env hhost s hpre hneed)
          obtain ⟨hw1, hw2⟩ := hw
          by_cases h2fi : 2 ≤ s.framesIndex
          · rw [hw2 h2fi]
            exact hfi
          · omega
        · by_cases h3 : o = .OpReturn
          · subst h3
            show Ends _ _ (opReturn { s with ip := s.ip + 1 })
            cases h : opReturn { s with ip := s.ip + 1 } with
            | ok w =>
              have hd : w.framesIndex = s.framesIndex - 1 := (opReturn_depth _ w h).2
              show w.framesIndex ≤ 2
              omega
            | error e =>
              cases e with
              | panic => exact ends_panic _ _
              | ret w => exact absurd h (opReturn_noRet _ w)
          · refine ends_mono (fun w hw => ?_) (fun _ h => h)
              (ends_of_holds (dispatch_keeps env { s with ip := s.ip + 1 } o ?_)
                (dispatch_notOverflow env hhost { s with ip := s.ip + 1 } o ?_))
            · have hw : w.framesIndex = s.framesIndex := hw.2.1
              rw [hw]
              exact hfi
            · intro h4
              rcases List.mem_cons.mp h4 with h4 | h4
              · exact h2 h4
              · rcases List.mem_cons.mp h4 with h4 | h4
                · exact h3 h4
                · cases h4
            · intro h4
              rcases List.mem_cons.mp h4 with h4 | h4
              · exact h2 h4
              · rcases List.mem_cons.mp h4 with h4 | h4
                · exact h1 h4
                · cases h4

theorem onlyMainPushes_next {env : Env} {u v1 : VM} (ha : u.aborting = 0)
    (hstep : step env u = .ok v1) (h : OnlyMainPushes env u) : OnlyMainPushes env v1 := by
  intro m t ht
  refine h (m + 1) t ?_
  simp only [stateAt, if_pos ha, hstep]
  exact ht

/-- The states of a run whose calls below the main function need no frame are at frame
depth at most 2. -/
theorem stateAt_frames (env : Env) (hhost : HostNoOverflow env) :
    ∀ (n : Nat) (u s : VM), Inv u → 2 ≤ u.MaxFrames → u.framesIndex ≤ 2 →
      NotOverflow u.err → OnlyMainPushes env u → stateAt env n u = some s →
      s.framesIndex ≤ 2 := by
  intro n
  induction n with
  | zero =>
    intro u s _ _ hfi _ _ h
    simp only [stateAt, Option.some.injEq] at h
    subst h
    exact hfi
  | succ n ih =>
    intro u s hinv hmax hfi herr hshape h
    by_cases ha : u.aborting = 0
    · simp only [stateAt, if_pos ha] at h
      have hi := step_inv env u hinv
      have hl := step_length env u
      have hq := step_quiet env u
      have hf := step_frames env hhost u hmax hfi herr (hshape 0 u rfl)
      cases hstep : step env u with
      | ok v1 =>
        rw [hstep] at h hi hl hq hf
        have hl : v1.MaxFrames = u.MaxFrames := hl
        have hq : v1.err = u.err := hq.1
        refine ih v1 s hi (by rw [hl]; exact hmax) hf (by rw [hq]; exact herr)
          (onlyMainPushes_next ha hstep hshape) h
      | error e =>
        rw [hstep] at h
        cases h
    · simp only [stateAt, if_neg ha] at h
      cases h

/-- The error with which such a run returns is not `ErrStackOverflow`. -/
theorem run_frames (env : Env) (hhost : HostNoOverflow env) :
    ∀ (fuel : Nat) (u w : VM), Inv u → 2 ≤ u.MaxFrames → u.framesIndex ≤ 2 →
      NotOverflow u.err → OnlyMainPushes env u → run env fuel u = some (.returned w) →
      NotOverflow w.err := by
  intro fuel
  induction fuel with
  | zero =>
    intro u w _ _ _ herr _ h
    by_cases ha : u.aborting = 0
    · simp only [run, if_pos ha] at h
      cases h
    · simp only [run, if_neg ha, Option.some.injEq, Ended.returned.injEq] at h
      subst h
      exact herr
  | succ fuel ih =>
    intro u w hinv hmax hfi herr hshape h
    by_cases ha : u.aborting = 0
    · simp only [run, if_pos ha] at h
      have hi := step_inv env u hinv
      have hl := step_length env u
      have hq := step_quiet env u
      have hf := step_frames env hhost u hmax hfi herr (hshape 0 u rfl)
      cases hstep : step env u with
      | ok v1 =>
        rw [hstep] at h hi hl hq hf
        have hl : v1.MaxFrames = u.MaxFrames := hl
        have hq : v1.err = u.err := hq.1
        exact ih v1 w hi (by rw [hl]; exact hmax) hf (by rw [hq]; exact herr)
          (onlyMainPushes_next ha hstep hshape) h
      | error e =>
        cases e with
        | panic =>
          rw [hstep] at h
          cases h
        | ret v1 =>
          rw [hstep] at h hf
          simp only [Option.some.injEq, Ended.returned.injEq] at h
          subst h
          exact hf
    · simp only [run, if_neg ha, Option.some.injEq, Ended.returned.injEq] at h
      subst h
      exact herr

theorem unwindTrace_cause (env : Env) : ∀ (n : Nat) (v w : VM) (err e : GoError),
    unwindTrace env n v err = some (w, e) → e.cause = err.cause := by
  intro n
  induction n with
  | zero =>
    intro v w err e h
    simp only [unwindTrace, Option.some.injEq, Prod.mk.injEq] at h
    rw [h.2]
  | succ n ih =>
    intro v w err e h
    unfold unwindTrace at h
    repeat' (first
      | (cases h; done)
      | (cases h; rfl)
      | exact (ih _ _ _ _ h).trans rfl
      | split at h
      | (dsimp only at h))

/-- The error that `Run` returns wraps the error `v.err` that `run` has set. -/
theorem finish_cause (env : Env) (w vf : VM) (e : GoError)
    (h : finish env w = .returned vf (some e)) :
    ∃ e0, w.err = some e0 ∧ e.cause = e0.cause := by
  unfold finish at h
  dsimp only at h
  cases he : w.err with
  | none =>
    rw [he] at h
    cases h
  | some e0 =>
    refine ⟨e0, rfl, ?_⟩
    rw [he] at h
    dsimp only at h
    split at h
    · split at h
      · split at h
        · rename_i hu
          simp only [RunResult.returned.injEq, Option.some.injEq] at h
          rw [h.2] at hu
          exact (unwindTrace_cause env _ _ _ _ _ hu).trans rfl
        · cases h
      · cases h
    · cases h

theorem reset_err (v v0 : VM) (h : reset v = some v0) :
    v0.err = v.err ∧ v0.framesIndex = 1 := by
  unfold reset at h
  split at h
  · split at h
    · cases h
      exact ⟨rfl, rfl⟩
    · cases h
  · cases h

/-- A machine with at least two frames runs a program whose calls below the main function
need no frame at frame depth at most 2, and `Run` does not return `ErrStackOverflow`. -/
theorem two_frames_suffice (env : Env) (v v0 : VM) (hreset : reset v = some v0)
    (hmax : 2 ≤ v.MaxFrames) (herr : NotOverflow v.err) (hhost : HostNoOverflow env)
    (hshape : OnlyMainPushes env v0) :
    (∀ n s, stateAt env n v0 = some s → 1 ≤ s.framesIndex ∧ s.framesIndex ≤ 2) ∧
    (∀ fuel vf e, Run env fuel v = some (.returned vf (some e)) →
      e.cause ≠ GoError.ErrStackOverflow) := by
  have hinv := inv_reset v v0 hreset
  have hm : 2 ≤ v0.MaxFrames := by
    rw [reset_maxFrames v v0 hreset]
    exact hmax
  obtain ⟨he, hfi⟩ := reset_err v v0 hreset
  have hfi2 : v0.framesIndex ≤ 2 := by omega
  have herr0 : NotOverflow v0.err := by
    rw [he]
    exact herr
  constructor
  · intro n s hs
    exact ⟨(stateAt_inv env n v0 s hinv hs).1.1,
      stateAt_frames env hhost n v0 s hinv hm hfi2 herr0 hshape hs⟩
  · intro fuel vf e h
    unfold Run at h
    rw [hreset] at h
    dsimp only at h
    cases hrun : run env fuel v0 with
    | none =>
      rw [hrun] at h
      cases h
    | some r =>
      rw [hrun] at h
      cases r with
      | panicked => cases h
      | returned w =>
        simp only [Option.some.injEq] at h
        obtain ⟨e0, h1, h2⟩ := finish_cause env w vf e h
        rw [h2]
        exact run_frames env hhost fuel v0 w hinv hm hfi2 herr0 hshape hrun e0 h1

theorem onlyMainPushes_step {env : Env} {u v1 : VM} (ha : u.aborting = 0)
    (hs : step env u = .ok v1)
    (hc : 2 ≤ u.framesIndex → nextOpcode env u = some Opcode.OpCall →
      needsNoFrame env u = true)
    (hrest : OnlyMainPushes env v1) : OnlyMainPushes env u := by
  intro m t ht
  cases m with
  | zero =>
    simp only [stateAt, Option.some.injEq] at ht
    subst ht
    exact hc
  | succ m =>
    simp only [stateAt, if_pos ha, hs] at ht
    exact hrest m t ht

theorem onlyMainPushes_stop {env : Env} {u : VM} {e : Stop} (hs : step env u = .error e)
    (hc : 2 ≤ u.framesIndex → nextOpcode env u = some Opcode.OpCall →
      needsNoFrame env u = true) : OnlyMainPushes env u := by
  intro m t ht
  cases m with
  | zero =>
    simp only [stateAt, Option.some.injEq] at ht
    subst ht
    exact hc
  | succ m =>
    by_cases ha : u.aborting = 0
    · simp only [stateAt, if_pos ha, hs] at ht
      cases ht
    · simp only [stateAt, if_neg ha] at ht
      cases ht

theorem noCall_of_op {env : Env} {s : VM} (o : Opcode) (h : nextOpcode env s = some o)
    (ho : o ≠ Opcode.OpCall) :
    2 ≤ s.framesIndex → nextOpcode env s = some Opcode.OpCall → needsNoFrame env s = true :=
  fun _ hop => absurd (Option.some.inj (h.symm.trans hop)) ho

theorem noCall_of_main {env : Env} {s : VM} (h : s.framesIndex = 1) :
    2 ≤ s.framesIndex → nextOpcode env s = some Opcode.OpCall → needsNoFrame env s = true := by
  intro h2
  omega

/-- The methods of the demonstration objects return none of the VM's errors but
`ErrInvalidOperator`, `ErrInvalidIndexType`, `ErrNotIndexable`, `ErrNotIndexAssignable`
and `ErrWrongNumArguments`. -/
theorem demo_hostNoOverflow : HostNoOverflow Demo.env := by
  refine ⟨?_, ?_, ?_, ?_⟩
  · intro w l t r e h
    have h : Demo.binaryOp w l t r = .error e := h
    unfold Demo.binaryOp at h
    repeat' (first
      | (cases h; done)
      | (cases h; simp [GoError.cause])
      | split at h)
  · intro w o i e h
    have h : Demo.indexGet w o i = .error e := h
    unfold Demo.indexGet at h
    repeat' (first
      | (cases h; done)
      | (cases h; simp [GoError.cause])
      | split at h)
  · intro w o i x e h
    have h : Demo.indexSet w o i x = some e := h
    unfold Demo.indexSet at h
    repeat' (first
      | (cases h; done)
      | (cases h; simp [GoError.cause])
      | split at h)
  · intro w f a e h
    have h : Demo.call w f a = .error e := h
    unfold Demo.call at h
    repeat' (first
      | (cases h; done)
      | (cases h; simp [GoError.cause])
      | split at h)

set_option maxRecDepth 100000 in
/-- One turn of `loop` with a nonzero argument: the call it executes is the self-call in
tail position. -/
theorem tail_turn_shape (n0 n a : Int) (j2 j3 j4 j5 : Object) (hn : n ≠ 0)
    (ha : wrap64 (a - 1) ≠ 0)
    (hrest : OnlyMainPushes Demo.env
      (Demo.tailAt n0 [.CompiledFunction Demo.tailFn, .Int (wrap64 (n - 1)),
        .CompiledFunction Demo.tailFn, .Int (wrap64 (n - 1)), .Int 1, j5] 2 (-1)
        (wrap64 (a - 1)))) :
    OnlyMainPushes Demo.env
      (Demo.tailAt n0 [.CompiledFunction Demo.tailFn, .Int n, j2, j3, j4, j5] 2 (-1) a) := by
  have s1 : step Demo.env
      (Demo.tailAt n0 [.CompiledFunction Demo.tailFn, .Int n, j2, j3, j4, j5] 2 (-1) a) =
      .ok (Demo.tailAt n0 [.CompiledFunction Demo.tailFn, .Int n, .Int n, j3, j4, j5] 3 1 a) :=
    rfl
  have s2 : step Demo.env
      (Demo.tailAt n0 [.CompiledFunction Demo.tailFn, .Int n, .Int n, j3, j4, j5] 3 1 a) =
      .ok (Demo.tailAt n0 [.CompiledFunction Demo.tailFn, .Int n, .Int n, .Int 0, j4, j5]
        4 4 a) :=
    step_constant Demo.env _ 0 1 0 (.Int 0) _ rfl rfl rfl rfl rfl rfl
  have s3 : step Demo.env
      (Demo.tailAt n0 [.CompiledFunction Demo.tailFn, .Int n, .Int n, .Int 0, j4, j5] 4 4 a) =
      .ok (Demo.tailAt n0 [.CompiledFunction Demo.tailFn, .Int n, .False, .Int 0, j4, j5]
        3 5 a) :=
    step_equal Demo.env _ 5 (.Int n) (.Int 0) false _ rfl rfl rfl rfl
      (fun h => Object.noConfusion h) (decide_eq_false hn) rfl
  have s4 : step Demo.env
      (Demo.tailAt n0 [.CompiledFunction Demo.tailFn, .Int n, .False, .Int 0, j4, j5] 3 5 a) =
      .ok (Demo.tailAt n0 [.CompiledFunction Demo.tailFn, .Int n, .False, .Int 0, j4, j5]
        2 13 a) :=
    step_jumpFalsy Demo.env _ 9 14 0 .False rfl rfl rfl (fun h => Object.noConfusion h) rfl
      rfl rfl
  have s5 : step Demo.env
      (Demo.tailAt n0 [.CompiledFunction Demo.tailFn, .Int n, .False, .Int 0, j4, j5] 2 13 a) =
      .ok (Demo.tailAt n0 [.CompiledFunction Demo.tailFn, .Int n,
        .CompiledFunction Demo.tailFn, .Int 0, j4, j5] 3 16 a) :=
    step_constant Demo.env _ 0 0 0 (.CompiledFunction Demo.tailFn) _ rfl rfl rfl rfl rfl rfl
  have s6 : step Demo.env
      (Demo.tailAt n0 [.CompiledFunction Demo.tailFn, .Int n,
        .CompiledFunction Demo.tailFn, .Int 0, j4, j5] 3 16 a) =
      .ok (Demo.tailAt n0 [.CompiledFunction Demo.tailFn, .Int n,
        .CompiledFunction Demo.tailFn, .Int n, j4, j5] 4 18 a) :=
    rfl
  have s7 : step Demo.env
      (Demo.tailAt n0 [.CompiledFunction Demo.tailFn, .Int n,
        .CompiledFunction Demo.tailFn, .Int n, j4, j5] 4 18 a) =
      .ok (Demo.tailAt n0 [.CompiledFunction Demo.tailFn, .Int n,
        .CompiledFunction Demo.tailFn, .Int n, .Int 1, j5] 5 21 a) :=
    step_constant Demo.env _ 0 2 0 (.Int 1) _ rfl rfl rfl rfl rfl rfl
  have s8 : step Demo.env
      (Demo.tailAt n0 [.CompiledFunction Demo.tailFn, .Int n,
        .CompiledFunction Demo.tailFn, .Int n, .Int 1, j5] 5 21 a) =
      .ok (Demo.tailAt n0 [.CompiledFunction Demo.tailFn, .Int n,
        .CompiledFunction Demo.tailFn, .Int (wrap64 (n - 1)), .Int 1, j5] 4 23
        (wrap64 (a - 1))) :=
    step_binaryOp Demo.env _ 40 12 (.Int n) (.Int 1) (.Int (wrap64 (n - 1))) _ rfl rfl rfl rfl
      rfl (fun h => Object.noConfusion h) rfl ha rfl
  have s9 : step Demo.env
      (Demo.tailAt n0 [.CompiledFunction Demo.tailFn, .Int n,
        .CompiledFunction Demo.tailFn, .Int (wrap64 (n - 1)), .Int 1, j5] 4 23
        (wrap64 (a - 1))) =
      .ok (Demo.tailAt n0 [.CompiledFunction Demo.tailFn, .Int (wrap64 (n - 1)),
        .CompiledFunction Demo.tailFn, .Int (wrap64 (n - 1)), .Int 1, j5] 2 (-1)
        (wrap64 (a - 1))) :=
    rfl
  exact onlyMainPushes_step rfl s1 (noCall_of_op .OpGetLocal rfl (by decide))
    (onlyMainPushes_step rfl s2 (noCall_of_op .OpConstant rfl (by decide))
    (onlyMainPushes_step rfl s3 (noCall_of_op .OpEqual rfl (by decide))
    (onlyMainPushes_step rfl s4 (noCall_of_op .OpJumpFalsy rfl (by decide))
    (onlyMainPushes_step rfl s5 (noCall_of_op .OpConstant rfl (by decide))
    (onlyMainPushes_step rfl s6 (noCall_of_op .OpGetLocal rfl (by decide))
    (onlyMainPushes_step rfl s7 (noCall_of_op .OpConstant rfl (by decide))
    (onlyMainPushes_step rfl s8 (noCall_of_op .OpBinaryOp rfl (by decide))
    (onlyMainPushes_step rfl s9 (fun _ _ => rfl) hrest))))))))

set_option maxRecDepth 100000 in
/-- The last turn of `loop`, with the argument 0, and the end of the main function: no
call is executed. -/
theorem tail_exit_shape (n0 a : Int) (j2 j3 j4 j5 : Object) :
    OnlyMainPushes Demo.env
      (Demo.tailAt n0 [.CompiledFunction Demo.tailFn, .Int 0, j2, j3, j4, j5] 2 (-1) a) := by
  have s1 : step Demo.env
      (Demo.tailAt n0 [.CompiledFunction Demo.tailFn, .Int 0, j2, j3, j4, j5] 2 (-1) a) =
      .ok (Demo.tailAt n0 [.CompiledFunction Demo.tailFn, .Int 0, .Int 0, j3, j4, j5] 3 1 a) :=
    rfl
  have s2 : step Demo.env
      (Demo.tailAt n0 [.CompiledFunction Demo.tailFn, .Int 0, .Int 0, j3, j4, j5] 3 1 a) =
      .ok (Demo.tailAt n0 [.CompiledFunction Demo.tailFn, .Int 0, .Int 0, .Int 0, j4, j5]
        4 4 a) :=
    step_constant Demo.env _ 0 1 0 (.Int 0) _ rfl rfl rfl rfl rfl rfl
  have s3 : step Demo.env
      (Demo.tailAt n0 [.CompiledFunction Demo.tailFn, .Int 0, .Int 0, .Int 0, j4, j5] 4 4 a) =
      .ok (Demo.tailAt n0 [.CompiledFunction Demo.tailFn, .Int 0, .True, .Int 0, j4, j5]
        3 5 a) :=
    step_equal Demo.env _ 5 (.Int 0) (.Int 0) true _ rfl rfl rfl rfl
      (fun h => Object.noConfusion h) rfl rfl
  have s4 : step Demo.env
      (Demo.tailAt n0 [.CompiledFunction Demo.tailFn, .Int 0, .True, .Int 0, j4, j5] 3 5 a) =
      .ok (Demo.tailAt n0 [.CompiledFunction Demo.tailFn, .Int 0, .True, .Int 0, j4, j5]
        2 8 a) :=
    rfl
  have s5 : step Demo.env
      (Demo.tailAt n0 [.CompiledFunction Demo.tailFn, .Int 0, .True, .Int 0, j4, j5] 2 8 a) =
      .ok (Demo.tailAt n0 [.CompiledFunction Demo.tailFn, .Int 0, .Int 0, .Int 0, j4, j5]
        3 11 a) :=
    step_constant Demo.env _ 0 1 0 (.Int 0) _ rfl rfl rfl rfl rfl rfl
  have s6 : step Demo.env
      (Demo.tailAt n0 [.CompiledFunction Demo.tailFn, .Int 0, .Int 0, .Int 0, j4, j5] 3 11 a) =
      .ok { Demo.tailAt n0 [.Int 0, .Int 0, .Int 0, .Int 0, j4, j5] 1 8 a with
        framesIndex := 1
        curFrame := 0
        curInsts := Demo.tailMain.Instructions } :=
    rfl
  have s7 : step Demo.env
      { Demo.tailAt n0 [.Int 0, .Int 0, .Int 0, .Int 0, j4, j5] 1 8 a with
        framesIndex := 1
        curFrame := 0
        curInsts := Demo.tailMain.Instructions } =
      .error (.ret { Demo.tailAt n0 [.Int 0, .Int 0, .Int 0, .Int 0, j4, j5] 1 9 a with
        framesIndex := 1
        curFrame := 0
        curInsts := Demo.tailMain.Instructions }) :=
    rfl
  exact onlyMainPushes_step rfl s1 (noCall_of_op .OpGetLocal rfl (by decide))
    (onlyMainPushes_step rfl s2 (noCall_of_op .OpConstant rfl (by decide))
    (onlyMainPushes_step rfl s3 (noCall_of_op .OpEqual rfl (by decide))
    (onlyMainPushes_step rfl s4 (noCall_of_op .OpJumpFalsy rfl (by decide))
    (onlyMainPushes_step rfl s5 (noCall_of_op .OpConstant rfl (by decide))
    (onlyMainPushes_step rfl s6 (noCall_of_op .OpReturn rfl (by decide))
    (onlyMainPushes_stop s7 (noCall_of_main rfl)))))))

/-- From the entry of `loop` with the argument `k`, whatever the depth `k`, every call
executed is the self-call in tail position. -/
theorem tail_loop_shape (n0 : Int) : ∀ (k : Nat) (a : Int) (j2 j3 j4 j5 : Object),
    a ≤ 0 → (k : Int) - a < 2 ^ 62 →
    OnlyMainPushes Demo.env
      (Demo.tailAt n0 [.CompiledFunction Demo.tailFn, .Int k, j2, j3, j4, j5] 2 (-1) a) := by
  intro k
  induction k with
  | zero =>
    intro a j2 j3 j4 j5 _ _
    exact tail_exit_shape n0 a j2 j3 j4 j5
  | succ k ih =>
    intro a j2 j3 j4 j5 ha hk
    push_cast at hk
    have hn : ((k + 1 : Nat) : Int) ≠ 0 := by
      push_cast
      omega
    have ha1 : wrap64 (a - 1) = a - 1 := by
      unfold wrap64
      omega
    have hn1 : wrap64 (((k + 1 : Nat) : Int) - 1) = k := by
      unfold wrap64
      push_cast
      omega
    have hne : wrap64 (a - 1) ≠ 0 := by
      rw [ha1]
      omega
    refine tail_turn_shape n0 ((k + 1 : Nat) : Int) a j2 j3 j4 j5 hn hne ?_
    rw [hn1, ha1]
    exact ih (a - 1) (.CompiledFunction Demo.tailFn) (.Int k) (.Int 1) j5 (by omega) (by omega)

set_option maxRecDepth 100000 in
/-- In the program `loop(k)` only the main function's call of `loop` needs a frame. -/
theorem tailVM_onlyMainPushes (k : Nat) (hk : (k : Int) < 2 ^ 62) :
    OnlyMainPushes Demo.env (Demo.tailVM k) := by
  have s1 : step Demo.env (Demo.tailVM k) =
      .ok { Demo.tailVM k with
        stack := [.CompiledFunction Demo.tailFn, .nil, .nil, .nil, .nil, .nil]
        sp := 1
        ip := 2 } :=
    step_constant Demo.env _ 0 0 0 (.CompiledFunction Demo.tailFn) _ rfl rfl rfl rfl rfl rfl
  have s2 : step Demo.env
      { Demo.tailVM k with
        stack := [.CompiledFunction Demo.tailFn, .nil, .nil, .nil, .nil, .nil]
        sp := 1
        ip := 2 } =
      .ok { Demo.tailVM k with
        stack := [.CompiledFunction Demo.tailFn, .Int k, .nil, .nil, .nil, .nil]
        sp := 2
        ip := 5 } :=
    step_constant Demo.env _ 0 3 0 (.Int k) _ rfl rfl rfl rfl rfl rfl
  have s3 : step Demo.env
      { Demo.tailVM k with
        stack := [.CompiledFunction Demo.tailFn, .Int k, .nil, .nil, .nil, .nil]
        sp := 2
        ip := 5 } =
      .ok (Demo.tailAt k [.CompiledFunction Demo.tailFn, .Int k, .nil, .nil, .nil, .nil] 2
        (-1) 0) :=
    rfl
  exact onlyMainPushes_step rfl s1 (noCall_of_main rfl)
    (onlyMainPushes_step rfl s2 (noCall_of_main rfl)
    (onlyMainPushes_step rfl s3 (noCall_of_main rfl)
    (tail_loop_shape k k 0 .nil .nil .nil .nil (le_refl 0) (by omega))))

set_option maxRecDepth 100000 in
/-- The program `loop(1)` with `loop := func(n) { if n == 0 { return 0 }; return
loop(dec(n)) }` on a machine with `MaxFrames = 2`: the call of `dec` inside `loop` is not
elided and finds both frames in use. -/
theorem loopDec_overflows :
    ∃ vf e, Run Demo.env 11 (Demo.loopDecVM 1) = some (.returned vf (some e)) ∧
      e.cause = GoError.ErrStackOverflow :=
  ⟨_, _, rfl, rfl⟩

/-- C14 (frames of a tail-recursive loop), amended to `MaxFrames = 2` and to programs in
which only the main function's calls need a frame.
(1) A call that is not elided (the callee is not the function of the current frame, or
the call is not in tail position) returns `ErrStackOverflow` when all frames are in use,
as they always are with `MaxFrames = 1`, frame 0 being the main function.
(2) So `loop(k)` on a machine with one frame fails at the main function's call of `loop`,
for every `k`.
(3) On a machine with `MaxFrames ≥ 2`, for a program in which every `OpCall` executed
below the main function either calls a value that is not a compiled function or is a
call of the function of the current frame in tail position (`OnlyMainPushes`: the main
function calls a recursive `f` whose only calls of compiled functions are `return
f(args)`), when `v.err` holds no `ErrStackOverflow` left by an earlier run and no method of
`Object` returns that error: every state of the run is at frame depth 1 or 2, and an error
that `Run` returns is not `ErrStackOverflow`.
(4) The program `loop(k)`, where `loop := func(n) { if n == 0 { return 0 }; return
loop(n - 1) }`, is such a program on such a machine, and with `MaxFrames = 2` it returns
nil and delivers 0 for every depth `k`.
(5) A function that ends in `return f(args)` but makes another call of a compiled
function is not covered: `loop(1)` with `return loop(dec(n))` fails with
`ErrStackOverflow` on the machine with `MaxFrames = 2`. -/
theorem tail_loop_frames :
    (∀ (env : Env) (v v2 : VM) (callee fn : CompiledFunction) (n n2 : Int) (cur : Frame),
      gatherVarArgs v callee n = .ok (v2, n2) → n2 = callee.NumParameters →
      v.frames[v.curFrame]? = some cur → cur.fn = some fn →
      (fn.addr ≠ callee.addr ∨ isTailPosition env v = .ok false) →
      v.MaxFrames ≤ v.framesIndex →
      callCompiled env v callee n =
        .error (.ret { v2 with err := some GoError.ErrStackOverflow })) ∧
    (∀ (k : Int) (fuel : Nat),
      (Demo.tailOneFrameVM k).MaxFrames = 1 ∧
      ∃ vf e, Run Demo.env (fuel + 3) (Demo.tailOneFrameVM k) =
          some (.returned vf (some e)) ∧
        e.cause = GoError.ErrStackOverflow ∧ vf.framesIndex = 1) ∧
    (∀ (env : Env) (v v0 : VM), reset v = some v0 → 2 ≤ v.MaxFrames →
      NotOverflow v.err → HostNoOverflow env → OnlyMainPushes env v0 →
      (∀ n s, stateAt env n v0 = some s → 1 ≤ s.framesIndex ∧ s.framesIndex ≤ 2) ∧
      (∀ fuel vf e, Run env fuel v = some (.returned vf (some e)) →
        e.cause ≠ GoError.ErrStackOverflow)) ∧
    (HostNoOverflow Demo.env ∧
      ∀ k : Nat, (k : Int) < 2 ^ 62 →
        (Demo.tailVM k).MaxFrames = 2 ∧
        reset (Demo.tailVM k) = some (Demo.tailVM k) ∧
        NotOverflow (Demo.tailVM k).err ∧
        OnlyMainPushes Demo.env (Demo.tailVM k) ∧
        Demo.delivered (Run Demo.env (9 * k + 10) (Demo.tailVM k)) =
          some (none, 1, [.Int 0])) ∧
    ((Demo.loopDecVM 1).MaxFrames = 2 ∧
      ∃ vf e, Run Demo.env 11 (Demo.loopDecVM 1) = some (.returned vf (some e)) ∧
        e.cause = GoError.ErrStackOverflow) :=
  ⟨callCompiled_overflow, fun k fuel => ⟨rfl, tail_one_frame k fuel⟩,
   fun env v v0 hreset hmax herr hhost hshape =>
     two_frames_suffice env v v0 hreset hmax herr hhost hshape,
   ⟨demo_hostNoOverflow, fun k hk =>
     ⟨rfl, rfl, fun _ h => Option.noConfusion h, tailVM_onlyMainPushes k hk,
      (tail_loop_any_depth k hk).2⟩⟩,
   ⟨rfl, loopDec_overflows⟩⟩

set_option maxRecDepth 100000 in
theorem tail_loop_frames_witness :
    reset (Demo.tailVM 1) = some (Demo.tailVM 1) ∧ (Demo.tailVM 1).MaxFrames = 2 ∧
    (∃ s, stateAt Demo.env 12 (Demo.tailVM 1) = some s ∧ s.framesIndex = 2 ∧
      nextOpcode Demo.env s = some Opcode.OpGetLocal ∧ s.ip = -1) ∧
    (∃ s, stateAt Demo.env 11 (Demo.tailVM 1) = some s ∧
      nextOpcode Demo.env s = some Opcode.OpCall ∧ needsNoFrame Demo.env s = true ∧
      1 ≤ s.framesIndex ∧ s.framesIndex ≤ 2) :=
  ⟨rfl, rfl, ⟨_, rfl, rfl, rfl, rfl⟩,
   ⟨_, rfl, rfl, rfl,
    (tail_loop_frames.2.2.1 Demo.env (Demo.tailVM 1) (Demo.tailVM 1) rfl (by decide)
      (fun _ h => Option.noConfusion h) demo_hostNoOverflow
      (tailVM_onlyMainPushes 1 (by norm_num))).1 11 _ rfl⟩⟩

end Lokum
